import Mathlib

/-! ops-utils: a verification development

A shallow embedding of the OpenSwitch `ops-utils` helper library
(`l3-utils.c`, `vrf-utils.c`) and theorems about it.

Conventions of the embedding:

* a C string is the list of its bytes before the terminating NUL;
* machine integers are natural numbers reduced modulo `2 ^ w` where the C
  type wraps;
* an operation whose result the C language leaves undefined or
  indeterminate (a shift by at least the width of the type, a read of an
  unterminated or uninitialised buffer) yields `none`.
-/

namespace OpsUtils

/-! ## C strings and the C library -/

/-- A C string: its bytes, without the terminating NUL. -/
abbrev CStr := List Nat

/-- The bytes of a string literal. -/
def cstr (s : String) : CStr := s.toList.map Char.toNat

/-- `strlen`. -/
def strlen (s : CStr) : Nat := s.length

/-- `strchr`: the suffix of the string that starts at the first occurrence
of `c`, or `none` for a NULL result. -/
def strchr : CStr → Nat → Option CStr
  | [], _ => none
  | a :: as, c => if a = c then some (a :: as) else strchr as c

/-- `strncmp`: compares at most `n` bytes, the end of a string counting as
the byte 0; the result is the difference of the first differing bytes. -/
def strncmp : CStr → CStr → Nat → Int
  | _, _, 0 => 0
  | [], [], _ + 1 => 0
  | [], b :: _, _ + 1 => -(b : Int)
  | a :: _, [], _ + 1 => (a : Int)
  | a :: as, b :: bs, n + 1 =>
    if a = b then strncmp as bs n else (a : Int) - (b : Int)

/-- `strncpy` into a buffer of exactly `n` bytes followed by the reads the
callers make of it (`strchr` for '/', then cutting there): the bytes before
the first '/' among the first `n` bytes.  When the source has `n` or more
bytes and no '/' among the first `n`, the buffer holds no terminator and
reading it as a string is undefined: `none`. -/
def strncpy_cut (src : CStr) (n : Nat) : Option CStr :=
  let buf := src.take n
  match strchr buf 47 with
  | some _ => some (buf.takeWhile (fun c => c ≠ 47))
  | none => if src.length < n then some buf else none

/-- `isspace` in the C locale. -/
def isspace (c : Nat) : Bool :=
  c = 32 || (9 ≤ c && c ≤ 13)

/-- `isdigit`. -/
def isdigit (c : Nat) : Bool := 48 ≤ c && c ≤ 57

/-- The value of a run of decimal digits, most significant first. -/
def decimal_value (ds : List Nat) : Nat :=
  ds.foldl (fun acc c => 10 * acc + (c - 48)) 0

/-- Conversion of a signed value to `unsigned int`. -/
def to_uint (i : Int) : Nat := (i % 4294967296).toNat

/-- Conversion of a `long` to `int` (truncation to 32 bits, two's
complement). -/
def long_to_int (l : Int) : Int := (l + 2147483648) % 4294967296 - 2147483648

/-- `atoi` as the GNU C library defines it, `(int) strtol (s, NULL, 10)`:
leading white space is skipped, an optional sign is read, then the longest
run of decimal digits; `strtol` saturates at the bounds of a 64-bit `long`.
(ISO C leaves the result undefined when the value does not fit an `int`.) -/
def atoi (s : CStr) : Int :=
  let s1 := s.dropWhile isspace
  let neg := s1.head? = some 45
  let s2 := if s1.head? = some 45 ∨ s1.head? = some 43 then s1.tail else s1
  let v : Int := (decimal_value (s2.takeWhile isdigit) : Nat)
  let l : Int := if neg then max (-v) (-9223372036854775808)
                 else min v 9223372036854775807
  long_to_int l

/-- Address families of the socket API on Linux. -/
def AF_INET : Nat := 2

/-- Address family of IPv6 on Linux. -/
def AF_INET6 : Nat := 10

/-- `INET6_ADDRSTRLEN` of the socket API. -/
def INET6_ADDRSTRLEN : Nat := 46

/-- The loop of the GNU C library's `inet_pton4`: `done` holds the octets
already closed by a '.', `cur` is the octet being read (`*tp`). -/
def inet_pton4_loop : CStr → List Nat → Nat → Bool → Nat → Option (List Nat)
  | [], done, cur, _, octets =>
    if octets < 4 then none else some (done ++ [cur])
  | ch :: rest, done, cur, saw_digit, octets =>
    if 48 ≤ ch ∧ ch ≤ 57 then
      if saw_digit = true ∧ cur = 0 then none
      else if cur * 10 + (ch - 48) > 255 then none
      else if saw_digit = false then
        if octets + 1 > 4 then none
        else inet_pton4_loop rest done (cur * 10 + (ch - 48)) true (octets + 1)
      else inet_pton4_loop rest done (cur * 10 + (ch - 48)) true octets
    else if ch = 46 ∧ saw_digit = true then
      if octets = 4 then none
      else inet_pton4_loop rest (done ++ [cur]) 0 false octets
    else none

/-- `inet_pton (AF_INET, ...)`: the four octets of a dotted-quad string, in
network order, or `none` when the string is not one. -/
def inet_pton4 (src : CStr) : Option (List Nat) :=
  inet_pton4_loop src [] 0 false 0

/-- The value of bytes read as a little-endian integer (how an x86 host
reads an integer from memory). -/
def le_value : List Nat → Nat
  | [] => 0
  | b :: bs => b + 256 * le_value bs

/-- The `n` bytes of a value in little-endian order. -/
def le_bytes : Nat → Nat → List Nat
  | 0, _ => []
  | n + 1, v => v % 256 :: le_bytes n (v / 256)

/-- `bswap_32` / `htonl` on a little-endian host. -/
def bswap_32 (v : Nat) : Nat := le_value (le_bytes 4 v).reverse

/-- `bswap_64`. -/
def bswap_64 (v : Nat) : Nat := le_value (le_bytes 8 v).reverse

/-- `htonl` on a little-endian host. -/
def htonl (v : Nat) : Nat := bswap_32 v

/-- Subtraction of `unsigned int` values. -/
def sub_uint (a b : Nat) : Nat := (a + 4294967296 - b % 4294967296) % 4294967296

/-- Left shift of a 32-bit unsigned value; undefined for a count of 32 or
more. -/
def shl32 (x k : Nat) : Option Nat :=
  if k < 32 then some ((x <<< k) % 4294967296) else none

/-- Left shift of a 64-bit unsigned value; undefined for a count of 64 or
more. -/
def shl64 (x k : Nat) : Option Nat :=
  if k < 64 then some ((x <<< k) % 18446744073709551616) else none

/-- The value of a hexadecimal digit character, `none` for any other
character (`hex_digit_value` of the GNU C library). -/
def hex_digit_value (ch : Nat) : Option Nat :=
  if 48 ≤ ch ∧ ch ≤ 57 then some (ch - 48)
  else if 97 ≤ ch ∧ ch ≤ 102 then some (ch - 87)
  else if 65 ≤ ch ∧ ch ≤ 70 then some (ch - 55)
  else none

/-- The code after the loop of `inet_pton6`: the pending group is stored,
a "::" is expanded to zero bytes, and the address must fill 16 bytes. -/
def inet_pton6_finish (tp : List Nat) (colonp : Option Nat)
    (xdigits_seen val : Nat) : Option (List Nat) :=
  let stored : Option (List Nat) :=
    if xdigits_seen > 0 then
      if tp.length + 2 > 16 then none
      else some (tp ++ [(val >>> 8) &&& 255, val &&& 255])
    else some tp
  match stored with
  | none => none
  | some tp1 =>
    match colonp with
    | some c =>
      if tp1.length = 16 then none
      else some (tp1.take c ++ List.replicate (16 - tp1.length) 0 ++ tp1.drop c)
    | none => if tp1.length ≠ 16 then none else some tp1

/-- The loop of the GNU C library's `inet_pton6`: `src` is the unread
input, `curtok` the start of the current group, `tp` the bytes stored so
far, `colonp` the offset at which "::" was seen. -/
def inet_pton6_loop : CStr → CStr → List Nat → Option Nat → Nat → Nat →
    Option (List Nat)
  | [], _, tp, colonp, xdigits_seen, val =>
    inet_pton6_finish tp colonp xdigits_seen val
  | ch :: src, curtok, tp, colonp, xdigits_seen, val =>
    match hex_digit_value ch with
    | some digit =>
      if xdigits_seen = 4 then none
      else if ((val <<< 4) ||| digit) > 65535 then none
      else inet_pton6_loop src curtok tp colonp (xdigits_seen + 1)
             ((val <<< 4) ||| digit)
    | none =>
      if ch = 58 then
        if xdigits_seen = 0 then
          match colonp with
          | some _ => none
          | none => inet_pton6_loop src src tp (some tp.length) 0 val
        else if src = [] then none
        else if tp.length + 2 > 16 then none
        else inet_pton6_loop src src
               (tp ++ [(val >>> 8) &&& 255, val &&& 255]) colonp 0 0
      else if ch = 46 ∧ tp.length + 4 ≤ 16 then
        match inet_pton4 curtok with
        | some quad => inet_pton6_finish (tp ++ quad) colonp 0 val
        | none => none
      else none

/-- `inet_pton (AF_INET6, ...)`: the 16 bytes of an IPv6 address string in
network order, or `none` when the string is not one. -/
def inet_pton6 (src : CStr) : Option (List Nat) :=
  match src with
  | [] => none
  | 58 :: rest =>
    match rest with
    | 58 :: _ => inet_pton6_loop rest rest [] none 0 0
    | _ => none
  | _ => inet_pton6_loop src src [] none 0 0

/-- The digits of `n` in base `b`, most significant first, at least one
digit; `fuel` bounds the number of digits. -/
def to_digits (b : Nat) : Nat → Nat → List Nat
  | 0, _ => []
  | fuel + 1, n =>
    if n < b then [n] else to_digits b fuel (n / b) ++ [n % b]

/-- The character of a digit: '0'..'9', then 'a'..'f'. -/
def digit_char (d : Nat) : Nat := if d < 10 then 48 + d else 87 + d

/-- `sprintf ("%x", n)`. -/
def printf_x (n : Nat) : CStr := (to_digits 16 (n + 1) n).map digit_char

/-- `sprintf ("%u", n)`. -/
def printf_u (n : Nat) : CStr := (to_digits 10 (n + 1) n).map digit_char

/-- `inet_ntop4`, `sprintf ("%u.%u.%u.%u", ...)` of the first four bytes. -/
def inet_ntop4 (src : List Nat) : CStr :=
  printf_u (src.getD 0 0) ++ [46] ++ printf_u (src.getD 1 0) ++ [46] ++
  printf_u (src.getD 2 0) ++ [46] ++ printf_u (src.getD 3 0)

/-- The eight 16-bit groups of a 16-byte address,
`words[i / 2] = (src[i] << 8) | src[i + 1]`. -/
def inet_ntop6_words : List Nat → List Nat
  | a :: b :: rest => ((a <<< 8) ||| b) :: inet_ntop6_words rest
  | _ => []

/-- The replacement `best = cur` of `inet_ntop6`, made when there is no best
run yet or the current run is longer; a run is (base, len). -/
def inet_ntop6_better (best : Option (Nat × Nat)) (cur : Nat × Nat) :
    Option (Nat × Nat) :=
  match best with
  | none => some cur
  | some b => if cur.2 > b.2 then some cur else some b

/-- The first loop of `inet_ntop6`, which finds the longest run of zero
groups (the first one among equals); `none` stands for a base of -1. -/
def inet_ntop6_scan : List Nat → Nat → Option (Nat × Nat) →
    Option (Nat × Nat) → Option (Nat × Nat)
  | [], _, best, cur =>
    match cur with
    | some c => inet_ntop6_better best c
    | none => best
  | w :: ws, i, best, cur =>
    if w = 0 then
      match cur with
      | none => inet_ntop6_scan ws (i + 1) best (some (i, 1))
      | some c => inet_ntop6_scan ws (i + 1) best (some (c.1, c.2 + 1))
    else
      match cur with
      | some c => inet_ntop6_scan ws (i + 1) (inet_ntop6_better best c) none
      | none => inet_ntop6_scan ws (i + 1) best none

/-- The best run of `inet_ntop6`: runs of fewer than two groups are
dropped. -/
def inet_ntop6_best (words : List Nat) : Option (Nat × Nat) :=
  match inet_ntop6_scan words 0 none none with
  | some b => if b.2 < 2 then none else some b
  | none => none

/-- The formatting loop of `inet_ntop6`, from group `i` on; `ws` are the
groups `i`, `i + 1`, ... -/
def inet_ntop6_format (src words : List Nat) (best : Option (Nat × Nat)) :
    List Nat → Nat → CStr
  | [], _ => []
  | w :: ws, i =>
    match best with
    | some (base, len) =>
      if base ≤ i ∧ i < base + len then
        (if i = base then [58] else []) ++
          inet_ntop6_format src words best ws (i + 1)
      else
        (if i ≠ 0 then [58] else []) ++
          (if i = 6 ∧ base = 0 ∧
              (len = 6 ∨ (len = 5 ∧ words.getD 5 0 = 65535)) then
            inet_ntop4 (src.drop 12)
          else printf_x w ++ inet_ntop6_format src words best ws (i + 1))
    | none =>
      (if i ≠ 0 then [58] else []) ++
        printf_x w ++ inet_ntop6_format src words best ws (i + 1)

/-- The text `inet_ntop6` builds in its local buffer. -/
def inet_ntop6_text (src : List Nat) : CStr :=
  let words := inet_ntop6_words src
  let best := inet_ntop6_best words
  inet_ntop6_format src words best words 0 ++
    (match best with
     | some (base, len) => if base + len = 8 then [58] else []
     | none => [])

/-- `inet_ntop (AF_INET6, src, dst, size)`: the text written to `dst`, or
`none` when it does not fit `size` bytes and nothing is written. -/
def inet_ntop6 (src : List Nat) (size : Nat) : Option CStr :=
  if (inet_ntop6_text src).length + 1 > size then none
  else some (inet_ntop6_text src)

/-! ## Database records (the columns the library reads) -/

/-- A UUID of the database: four 32-bit parts (`struct uuid`). -/
structure uuid where
  parts0 : Nat
  parts1 : Nat
  parts2 : Nat
  parts3 : Nat
deriving DecidableEq, Repr

/-- A Port record.  A NULL primary address is `none`; a secondary-address
column with no element is the empty list. -/
structure ovsrec_port where
  name : CStr
  ip4_address : Option CStr := none
  ip4_address_secondary : List CStr := []
  ip6_address : Option CStr := none
  ip6_address_secondary : List CStr := []
deriving DecidableEq, Repr

/-- A VRF record.  `table_id` is an optional column (a NULL pointer is
`none`); `uuid` is `header_.uuid`. -/
structure ovsrec_vrf where
  uuid : uuid
  name : CStr
  table_id : Option Int := none
  ports : List ovsrec_port := []
  status : List (CStr × CStr) := []
  source_ip : List (CStr × CStr) := []
  source_interface : List (CStr × ovsrec_port) := []
deriving DecidableEq, Repr

/-! ## l3-utils.h, l3-utils.c -/

/-- Maximum length of an IPv4 address string "xxx.xxx.xxx.xxx/MM". -/
def IP_ADDRESS_LENGTH : Nat := 18

/-- Maximum length of an IPv6 address string with prefix length. -/
def IPV6_ADDRESS_LENGTH : Nat := 49

/-- Number of bits of an IPv4 address. -/
def IPV4_ADDR_BIT_LENGTH : Nat := 32

/-- The all-ones 32-bit value, 0xFFFFFFFF. -/
def IPV4_SUBNET_MASK_FULL : Nat := 4294967295

/-- Prefix length of an IPv4 host address. -/
def IPV4_BITLENGTH_MAX : Nat := 32

/-- Prefix length of an IPv6 host address. -/
def IPV6_BITLENGTH_MAX : Nat := 128

/-- `l3_utils_mask_bits`: the prefix length written after the first '/',
read by `atoi` and stored in an `unsigned int`; without a '/', the full
length of the family. -/
def l3_utils_mask_bits (ip_addr : CStr) (family : Nat) : Nat :=
  match strchr ip_addr 47 with
  | some p => to_uint (atoi p.tail)
  | none =>
    if family = AF_INET then IPV4_BITLENGTH_MAX
    else if family = AF_INET6 then IPV6_BITLENGTH_MAX
    else 0

/-- `l3_utils_ipv4_address`: the address part of the string as a 32-bit
number in host order; 0 when `inet_pton` rejects the string (`addr` keeps
its initial value). -/
def l3_utils_ipv4_address (ip_addr : CStr) : Option Nat :=
  match strncpy_cut ip_addr (IP_ADDRESS_LENGTH + 1) with
  | none => none
  | some ipAddressString =>
    let addr : Nat :=
      match inet_pton4 ipAddressString with
      | some bytes => le_value bytes
      | none => 0
    some (htonl addr)

/-- `l3_utils_mask_ipv6_addr`: the 16 bytes written to `masked_addr`.  The
address is read as two 64-bit integers, `parts.start` and `parts.end`. -/
def l3_utils_mask_ipv6_addr (ipv6_addr : List Nat) (mask_bits : Nat) :
    Option (List Nat) :=
  let parts_start := le_value (ipv6_addr.take 8)
  let parts_end := le_value ((ipv6_addr.drop 8).take 8)
  if mask_bits ≤ 64 then
    match shl64 18446744073709551615 (sub_uint 64 mask_bits) with
    | none => none
    | some m =>
      some (le_bytes 8 (bswap_64 (bswap_64 parts_start &&& m)) ++
            List.replicate 8 0)
  else
    match shl64 18446744073709551615 (sub_uint 64 (sub_uint mask_bits 64)) with
    | none => none
    | some m =>
      some (le_bytes 8 parts_start ++
            le_bytes 8 (bswap_64 (bswap_64 parts_end &&& m)))

/-- `l3_utils_ipv6_subnet`: the text written to `subnet_addr`.  When
`inet_pton` rejects the string the local `ipv6_addr` stays uninitialised and
the output is indeterminate: `none`. -/
def l3_utils_ipv6_subnet (ip_addr : CStr) (mask_bits : Nat) : Option CStr :=
  match strncpy_cut ip_addr (IPV6_ADDRESS_LENGTH + 1) with
  | none => none
  | some ipAddressString =>
    match inet_pton6 ipAddressString with
    | none => none
    | some ipv6_addr =>
      match l3_utils_mask_ipv6_addr ipv6_addr mask_bits with
      | none => none
      | some masked_addr => inet_ntop6 masked_addr INET6_ADDRSTRLEN

/-- The IPv4 comparison of `l3_utils_is_ipaddr_overlapping` (lines 232-241
and 260-270): the candidate and an existing address are masked with the
shorter of the two prefix lengths and compared. -/
def ipv4_masked_equal (input_ipv4_addr input_mask_bits : Nat)
    (port_address : CStr) : Option Bool :=
  match l3_utils_ipv4_address port_address with
  | none => none
  | some port_ipv4_addr =>
    let port_mask_bits := l3_utils_mask_bits port_address AF_INET
    let mask_bits :=
      if input_mask_bits < port_mask_bits then input_mask_bits
      else port_mask_bits
    match shl32 IPV4_SUBNET_MASK_FULL
            (sub_uint IPV4_ADDR_BIT_LENGTH mask_bits) with
    | none => none
    | some mask =>
      some (decide (input_ipv4_addr &&& mask = port_ipv4_addr &&& mask))

/-- The IPv6 comparison of `l3_utils_is_ipaddr_overlapping` (lines 182-191
and 209-221): both addresses are masked with the shorter of the two prefix
lengths, and the texts of the two subnets are compared. -/
def ipv6_subnet_equal (ip_address : CStr) (input_mask_bits : Nat)
    (port_address : CStr) : Option Bool :=
  let port_mask_bits := l3_utils_mask_bits port_address AF_INET6
  let mask_bits :=
    if input_mask_bits < port_mask_bits then input_mask_bits
    else port_mask_bits
  match l3_utils_ipv6_subnet ip_address mask_bits with
  | none => none
  | some input_ipv6_subnet =>
    match l3_utils_ipv6_subnet port_address mask_bits with
    | none => none
    | some port_ipv6_subnet =>
      some (decide (strncmp input_ipv6_subnet port_ipv6_subnet
                      INET6_ADDRSTRLEN = 0))

/-- What one step of the scan does: it returns a verdict, goes on to the
next address, or has no defined behaviour. -/
inductive scan_step where
  | undefined : scan_step
  | verdict : Bool → scan_step
  | next : scan_step
deriving DecidableEq, Repr

/-- The verdict on a collision with a primary address (lines 192-203 and
244-254): on the candidate's own interface, by a comparison of the port
name over the length of `if_name`, the verdict is `secondary`; on another
interface it is true. -/
def primary_verdict (port_name if_name : CStr) (secondary : Bool) : Bool :=
  if strncmp port_name if_name (strlen if_name) = 0 then
    (if secondary then true else false)
  else true

/-- The check of a port's primary address. -/
def primary_step (equal : Option Bool) (port_name if_name : CStr)
    (secondary : Bool) : scan_step :=
  match equal with
  | none => scan_step.undefined
  | some true => scan_step.verdict (primary_verdict port_name if_name secondary)
  | some false => scan_step.next

/-- The loop over a port's secondary addresses: the first equal one gives
the verdict true. -/
def secondary_loop (equal : CStr → Option Bool) : List CStr → scan_step
  | [] => scan_step.next
  | a :: rest =>
    match equal a with
    | none => scan_step.undefined
    | some true => scan_step.verdict true
    | some false => secondary_loop equal rest

/-- The body of the loop over the ports for `AF_INET6`. -/
def port_step6 (ip_address if_name : CStr) (secondary : Bool)
    (input_mask_bits : Nat) (port_row : ovsrec_port) : scan_step :=
  let primary : scan_step :=
    match port_row.ip6_address with
    | none => scan_step.next
    | some a =>
      primary_step (ipv6_subnet_equal ip_address input_mask_bits a)
        port_row.name if_name secondary
  match primary with
  | scan_step.next =>
    secondary_loop (ipv6_subnet_equal ip_address input_mask_bits)
      port_row.ip6_address_secondary
  | r => r

/-- The body of the loop over the ports for `AF_INET`. -/
def port_step4 (ip_address if_name : CStr) (secondary : Bool)
    (input_mask_bits : Nat) (port_row : ovsrec_port) : scan_step :=
  match l3_utils_ipv4_address ip_address with
  | none => scan_step.undefined
  | some input_ipv4_addr =>
    let primary : scan_step :=
      match port_row.ip4_address with
      | none => scan_step.next
      | some a =>
        primary_step (ipv4_masked_equal input_ipv4_addr input_mask_bits a)
          port_row.name if_name secondary
    match primary with
    | scan_step.next =>
      secondary_loop (ipv4_masked_equal input_ipv4_addr input_mask_bits)
        port_row.ip4_address_secondary
    | r => r

/-- The body of the loop over the ports; for a family other than the two
nothing is compared. -/
def port_step (ip_address if_name : CStr) (addr_family : Nat)
    (secondary : Bool) (input_mask_bits : Nat) (port_row : ovsrec_port) :
    scan_step :=
  if addr_family = AF_INET6 then
    port_step6 ip_address if_name secondary input_mask_bits port_row
  else if addr_family = AF_INET then
    port_step4 ip_address if_name secondary input_mask_bits port_row
  else scan_step.next

/-- The loop over the ports of the VRF; false when no port gives a
verdict. -/
def ports_loop (step : ovsrec_port → scan_step) : List ovsrec_port → Option Bool
  | [] => some false
  | port_row :: rest =>
    match step port_row with
    | scan_step.undefined => none
    | scan_step.verdict b => some b
    | scan_step.next => ports_loop step rest

/-- `l3_utils_is_ipaddr_overlapping`: `some b` when the function returns
`b`, `none` when its behaviour is undefined. -/
def l3_utils_is_ipaddr_overlapping (ip_address if_name : CStr)
    (addr_family : Nat) (secondary : Bool) (vrf_row : ovsrec_vrf) :
    Option Bool :=
  let input_mask_bits := l3_utils_mask_bits ip_address addr_family
  ports_loop (port_step ip_address if_name addr_family secondary input_mask_bits)
    vrf_row.ports

/-! ## nl-utils.h, vrf-utils.c

`DEFAULT_VRF_NAME` and `OVSDB_VRF_NAME_MAXLEN` are declared in
`openswitch-idl.h`, outside this repository: the functions that use them
take them as parameters.  The VRF table of the IDL is the list of its
records in the order `OVSREC_VRF_FOR_EACH` visits them. -/

/-- The name of the default namespace, "swns". -/
def SWITCH_NAMESPACE : CStr := cstr "swns"

/-- Modelled from the spec: `UUID_LEN`, declared in Open vSwitch's `uuid.h`
(not part of this repository), the length of the string form of a UUID,
which the spec calls a UUID-formatted string: 36 characters. -/
def UUID_LEN : Nat := 36

/-- `sprintf ("%0<width>x", n)`: hexadecimal, padded with '0' on the left to
at least `width` characters. -/
def printf_0x (width n : Nat) : CStr :=
  List.replicate (width - (printf_x n).length) 48 ++ printf_x n

/-- Modelled from the spec: the expansion of `UUID_FMT` with `UUID_ARGS`,
declared in Open vSwitch's `uuid.h` (not part of this repository): the
format "%08x-%04x-%04x-%04x-%04x%08x" applied to `parts[0]`,
`parts[1] >> 16`, `parts[1] & 0xffff`, `parts[2] >> 16`,
`parts[2] & 0xffff`, `parts[3]`, each converted to `unsigned int`. -/
def uuid_printf (u : uuid) : CStr :=
  printf_0x 8 (u.parts0 % 4294967296) ++ [45] ++
  printf_0x 4 ((u.parts1 >>> 16) % 4294967296) ++ [45] ++
  printf_0x 4 ((u.parts1 &&& 65535) % 4294967296) ++ [45] ++
  printf_0x 4 ((u.parts2 >>> 16) % 4294967296) ++ [45] ++
  printf_0x 4 ((u.parts2 &&& 65535) % 4294967296) ++
  printf_0x 8 (u.parts3 % 4294967296)

/-- `snprintf (buf, size, ...)` with `size > 0`: the string left in `buf`
is the text cut to `size - 1` characters. -/
def snprintf (size : Nat) (text : CStr) : CStr := text.take (size - 1)

/-- `vrf_lookup`: the first record whose name equals `vrf_name` over
`OVSDB_VRF_NAME_MAXLEN` characters, `none` for NULL. -/
def vrf_lookup (OVSDB_VRF_NAME_MAXLEN : Nat) (idl : List ovsrec_vrf)
    (vrf_name : CStr) : Option ovsrec_vrf :=
  idl.find? (fun vrf_row =>
    decide (strncmp vrf_row.name vrf_name OVSDB_VRF_NAME_MAXLEN = 0))

/-- `vrf_lookup_on_table_id`: the first record whose `table_id` is set and
equal to `table_id`. -/
def vrf_lookup_on_table_id (idl : List ovsrec_vrf) (table_id : Int) :
    Option ovsrec_vrf :=
  idl.find? (fun vrf_row =>
    match vrf_row.table_id with
    | some t => decide (t = table_id)
    | none => false)

/-- `is_nondefault_vrf`: false for a NULL name and for a name that begins
with `SWITCH_NAMESPACE` or with `DEFAULT_VRF_NAME`. -/
def is_nondefault_vrf (DEFAULT_VRF_NAME : CStr) (vrf_name : Option CStr) :
    Bool :=
  match vrf_name with
  | none => false
  | some name =>
    if strncmp name SWITCH_NAMESPACE (strlen SWITCH_NAMESPACE) = 0
        ∨ strncmp name DEFAULT_VRF_NAME (strlen DEFAULT_VRF_NAME) = 0 then
      false
    else true

/-- `get_vrf_ns_from_name`: the returned value and the string in
`vrf_ns_name` on return (`buf` is the string it holds on entry). -/
def get_vrf_ns_from_name (DEFAULT_VRF_NAME : CStr)
    (OVSDB_VRF_NAME_MAXLEN : Nat) (idl : List ovsrec_vrf)
    (vrf_name : Option CStr) (buf : CStr) : Int × CStr :=
  if is_nondefault_vrf DEFAULT_VRF_NAME vrf_name = false then
    (0, snprintf (strlen SWITCH_NAMESPACE + 1) SWITCH_NAMESPACE)
  else
    match vrf_lookup OVSDB_VRF_NAME_MAXLEN idl (vrf_name.getD []) with
    | some vrf_row => (0, snprintf (UUID_LEN + 1) (uuid_printf vrf_row.uuid))
    | none => (-1, buf)

/-- `get_vrf_ns_from_table_id`: the returned value and the string in
`vrf_ns_name` on return (`buf` is the string it holds on entry). -/
def get_vrf_ns_from_table_id (idl : List ovsrec_vrf) (table_id : Int)
    (buf : CStr) : Int × CStr :=
  if table_id = 0 then
    (0, snprintf (strlen SWITCH_NAMESPACE + 1) SWITCH_NAMESPACE)
  else
    match vrf_lookup_on_table_id idl table_id with
    | some vrf_row => (0, snprintf (UUID_LEN + 1) (uuid_printf vrf_row.uuid))
    | none => (-1, buf)

/-! ## Reference notions used to state the properties -/

/-- The `width` low hexadecimal digits of `n` as lowercase characters, most
significant first. -/
def hex_fixed : Nat → Nat → CStr
  | 0, _ => []
  | width + 1, n => hex_fixed width (n / 16) ++ [digit_char (n % 16)]

/-- The canonical text of a UUID: the 32 hexadecimal digits of its four
32-bit parts in groups of 8, 4, 4, 4 and 12 separated by '-'. -/
def uuid_canonical (u : uuid) : CStr :=
  hex_fixed 8 u.parts0 ++ [45] ++
  hex_fixed 4 (u.parts1 / 65536) ++ [45] ++
  hex_fixed 4 (u.parts1 % 65536) ++ [45] ++
  hex_fixed 4 (u.parts2 / 65536) ++ [45] ++
  hex_fixed 4 (u.parts2 % 65536) ++ hex_fixed 8 u.parts3

/-- The parts of a UUID are 32-bit values. -/
def uuid_wf (u : uuid) : Prop :=
  u.parts0 < 4294967296 ∧ u.parts1 < 4294967296 ∧
  u.parts2 < 4294967296 ∧ u.parts3 < 4294967296

/-- The value of bytes read as a big-endian (network order) integer. -/
def be_value (bs : List Nat) : Nat := le_value bs.reverse

/-- The primary address of a port for a family (IPv6 for `AF_INET6`,
IPv4 otherwise). -/
def primary_address (addr_family : Nat) (p : ovsrec_port) : Option CStr :=
  if addr_family = AF_INET6 then p.ip6_address else p.ip4_address

/-- The secondary addresses of a port for a family. -/
def secondary_addresses (addr_family : Nat) (p : ovsrec_port) : List CStr :=
  if addr_family = AF_INET6 then p.ip6_address_secondary
  else p.ip4_address_secondary

/-- The collision test of the detector between the candidate and an existing
address, as one function of the two strings: for IPv4 the masked 32-bit
values are equal, for IPv6 the texts of the two masked subnets are equal;
`none` when the comparison has no defined result. -/
def collides (addr_family : Nat) (ip_address port_address : CStr) :
    Option Bool :=
  if addr_family = AF_INET6 then
    ipv6_subnet_equal ip_address (l3_utils_mask_bits ip_address addr_family)
      port_address
  else
    match l3_utils_ipv4_address ip_address with
    | none => none
    | some input_ipv4_addr =>
      ipv4_masked_equal input_ipv4_addr
        (l3_utils_mask_bits ip_address addr_family) port_address

/-- No address of the port collides with the candidate. -/
def port_clear (addr_family : Nat) (ip_address : CStr) (p : ovsrec_port) :
    Prop :=
  (∀ a, primary_address addr_family p = some a →
      collides addr_family ip_address a = some false) ∧
  (∀ a ∈ secondary_addresses addr_family p,
      collides addr_family ip_address a = some false)

/-- The body of the loop over the ports written with `collides`: the check
of the primary address, then the loop over the secondary addresses. -/
def port_scan (addr_family : Nat) (ip_address if_name : CStr)
    (secondary : Bool) (p : ovsrec_port) : scan_step :=
  let primary : scan_step :=
    match primary_address addr_family p with
    | none => scan_step.next
    | some a =>
      primary_step (collides addr_family ip_address a) p.name if_name secondary
  match primary with
  | scan_step.next =>
    secondary_loop (collides addr_family ip_address)
      (secondary_addresses addr_family p)
  | r => r

/-- Every element of the list is the value of a byte. -/
def bytes_wf (l : List Nat) : Prop := ∀ b ∈ l, b < 256

/-- The 16 bytes of the address an IPv6 address string denotes, the way
`l3_utils_ipv6_subnet` reads it: the text before the '/' given to
`inet_pton`. -/
def ipv6_address_bytes (ip_addr : CStr) : Option (List Nat) :=
  match strncpy_cut ip_addr (IPV6_ADDRESS_LENGTH + 1) with
  | none => none
  | some ipAddressString => inet_pton6 ipAddressString

/-- The groups from `r.1` on, `r.2` of them, are all zero. -/
def zero_run (words : List Nat) (r : Nat × Nat) : Prop :=
  ∃ x y, words = x ++ List.replicate r.2 0 ++ y ∧ x.length = r.1

/-- The fields of the text `inet_ntop6` builds, which are separated by ':'
in it: the groups before the best run, an empty field for the run (two at
an end of the address), the groups after it; an address with an embedded
IPv4 address ends with the dotted quad. -/
def inet_ntop6_fields (src words : List Nat) (best : Option (Nat × Nat)) :
    List CStr :=
  match best with
  | none => words.map printf_x
  | some (base, len) =>
    if base = 0 ∧ (len = 6 ∨ (len = 5 ∧ words.getD 5 0 = 65535)) then
      [[], []] ++ (if len = 5 then [printf_x (words.getD 5 0)] else []) ++
        [inet_ntop4 (src.drop 12)]
    else
      (if base = 0 then [[]] else (words.take base).map printf_x) ++ [[]] ++
        (if base + len = 8 then [[]]
         else (words.drop (base + len)).map printf_x)

/-- The first `m` bits of a 16-byte address, as a number: its 128-bit value
in network order without the last `128 - m` bits. -/
def first_bits (bytes : List Nat) (m : Nat) : Nat :=
  be_value bytes / 2 ^ (128 - m)

/-! ## Records used as concrete instances -/

/-- A VRF record with the given ports. -/
def vrf_with_ports (ports : List ovsrec_port) : ovsrec_vrf :=
  { uuid := ⟨0x550e8400, 0xe29b41d4, 0xa7164466, 0x55440000⟩,
    name := cstr "vrf_red", ports := ports }

/-- Port eth0 with the primary IPv4 address 10.0.0.1/24. -/
def port_eth0 : ovsrec_port :=
  { name := cstr "eth0", ip4_address := some (cstr "10.0.0.1/24") }

/-- Port eth0 with the primary IPv4 address 10.0.0.9/24. -/
def port_eth0_9 : ovsrec_port :=
  { name := cstr "eth0", ip4_address := some (cstr "10.0.0.9/24") }

/-- Port eth0 with the primary address 10.0.1.1/24 and the secondary
addresses 10.0.2.1/24 and 10.0.0.7/24. -/
def port_eth0_secondaries : ovsrec_port :=
  { name := cstr "eth0", ip4_address := some (cstr "10.0.1.1/24"),
    ip4_address_secondary := [cstr "10.0.2.1/24", cstr "10.0.0.7/24"] }

/-- Port eth2 with the primary IPv6 address 2001:db8::1:0/72. -/
def port_eth2_v6 : ovsrec_port :=
  { name := cstr "eth2", ip6_address := some (cstr "2001:db8::1:0/72") }

/-- A VRF record named "swns". -/
def vrf_named_swns : ovsrec_vrf :=
  { uuid := ⟨0x550e8400, 0xe29b41d4, 0xa7164466, 0x55440000⟩,
    name := cstr "swns", table_id := some 7 }

/-- A VRF record named "vrf_red" with table_id 5. -/
def vrf_red : ovsrec_vrf :=
  { uuid := ⟨0x550e8400, 0xe29b41d4, 0xa7164466, 0x55440000⟩,
    name := cstr "vrf_red", table_id := some 5 }

/-- A VRF record named "vrf_blue" without a table_id. -/
def vrf_blue : ovsrec_vrf :=
  { uuid := ⟨0x123e4567, 0xe89b12d3, 0xa4564266, 0x14174000⟩,
    name := cstr "vrf_blue" }

/-! ## vrf-utils.c: readiness of a VRF -/

/-- The key of the status map that tells the namespace of a VRF is ready. -/
def VRF_STATUS_KEY : CStr := cstr "namespace_ready"

/-- The value of that key when the namespace is ready. -/
def VRF_STATUS_VALUE : CStr := cstr "true"

/-- `smap_get` of Open vSwitch: the value stored under `key` in a string
map, `none` for NULL.  A map is the list of its (key, value) pairs; keys are
compared whole. -/
def smap_get (m : List (CStr × CStr)) (key : CStr) : Option CStr :=
  match m.find? (fun kv => decide (kv.1 = key)) with
  | some kv => some kv.2
  | none => none

/-- `vrf_is_ready`. -/
def vrf_is_ready (DEFAULT_VRF_NAME : CStr) (OVSDB_VRF_NAME_MAXLEN : Nat)
    (idl : List ovsrec_vrf) (vrf_name : Option CStr) : Bool :=
  if is_nondefault_vrf DEFAULT_VRF_NAME vrf_name = false then true
  else
    match vrf_lookup OVSDB_VRF_NAME_MAXLEN idl (vrf_name.getD []) with
    | none => false
    | some vrf =>
      match smap_get vrf.status VRF_STATUS_KEY with
      | none => false
      | some value =>
        decide (strncmp value VRF_STATUS_VALUE (strlen VRF_STATUS_VALUE + 1) = 0)

/-! ## source-interface-utils.h, source-interface-utils.c

`VRF_SOURCE_INTERFACE_MAP_TFTP` and `VRF_SOURCE_INTERFACE_MAP_ALL` are
declared in `openswitch-idl.h`, outside this repository: the functions take
them as parameters. -/

/-- The key of TACACS in the source-IP and source-interface maps. -/
def VRF_SOURCE_INTERFACE_MAP_TACACS : CStr := cstr "tacacs"

/-- The key of RADIUS in the source-IP and source-interface maps. -/
def VRF_SOURCE_INTERFACE_MAP_RADIUS : CStr := cstr "radius"

/-- `configuration_type`. -/
inductive configuration_type where
  | SOURCE_IP : configuration_type
  | SOURCE_INTERFACE : configuration_type
  | SOURCE_MAX : configuration_type
deriving DecidableEq, Repr

/-- `protocol_source`: `source` is `none` for a NULL pointer. -/
structure protocol_source where
  source : Option CStr
  config_type : configuration_type
deriving DecidableEq, Repr

/-- `TFTP_PROTOCOL` of `source_interface_protocol`. -/
def TFTP_PROTOCOL : Nat := 0

/-- `TACACS_PROTOCOL` of `source_interface_protocol`. -/
def TACACS_PROTOCOL : Nat := 1

/-- `RADIUS_PROTOCOL` of `source_interface_protocol`. -/
def RADIUS_PROTOCOL : Nat := 2

/-- `ALL_PROTOCOL` of `source_interface_protocol`. -/
def ALL_PROTOCOL : Nat := 3

/-- `PROTOCOL_MAX` of `source_interface_protocol`. -/
def PROTOCOL_MAX : Nat := 4

/-- The array `protocol_keys`, read at an index below `PROTOCOL_MAX`. -/
def protocol_keys (VRF_SOURCE_INTERFACE_MAP_TFTP VRF_SOURCE_INTERFACE_MAP_ALL : CStr)
    (type : Nat) : CStr :=
  [VRF_SOURCE_INTERFACE_MAP_TFTP, VRF_SOURCE_INTERFACE_MAP_TACACS,
    VRF_SOURCE_INTERFACE_MAP_RADIUS, VRF_SOURCE_INTERFACE_MAP_ALL].getD type []

/-- The loop of `get_configured_protocol_source` over the source-interface
map (lines 85-94): the port of the first entry whose key equals the
protocol's key over the length of the protocol's key. -/
def source_interface_loop (key : CStr) : List (CStr × ovsrec_port) →
    Option ovsrec_port
  | [] => none
  | (key_i, value_i) :: rest =>
    if strncmp key key_i (strlen key) = 0 then some value_i
    else source_interface_loop key rest

/-- `get_configured_protocol_source`: the returned value and the structure
`proto_source` points to on return; `idl`, `vrf_name` and `proto_source`
are `none` for NULL pointers. -/
def get_configured_protocol_source (OVSDB_VRF_NAME_MAXLEN : Nat)
    (VRF_SOURCE_INTERFACE_MAP_TFTP VRF_SOURCE_INTERFACE_MAP_ALL : CStr)
    (idl : Option (List ovsrec_vrf)) (type : Nat) (vrf_name : Option CStr)
    (proto_source : Option protocol_source) :
    Bool × Option protocol_source :=
  match proto_source with
  | none => (false, none)
  | some _ =>
    let unset : protocol_source :=
      { source := none, config_type := configuration_type.SOURCE_MAX }
    match idl, vrf_name with
    | some table, some name =>
      if type ≥ PROTOCOL_MAX then (false, some unset)
      else
        match vrf_lookup OVSDB_VRF_NAME_MAXLEN table name with
        | none => (false, some unset)
        | some vrf_row =>
          let key := protocol_keys VRF_SOURCE_INTERFACE_MAP_TFTP
            VRF_SOURCE_INTERFACE_MAP_ALL type
          match smap_get vrf_row.source_ip key with
          | some ip =>
            (true, some { source := some ip,
                          config_type := configuration_type.SOURCE_IP })
          | none =>
            match source_interface_loop key vrf_row.source_interface with
            | some port =>
              (true, some { source := some port.name,
                            config_type := configuration_type.SOURCE_INTERFACE })
            | none => (false, some unset)
    | _, _ => (false, some unset)

/-- `get_protocol_source`: the configuration of the protocol, and failing
that, for a protocol other than `ALL_PROTOCOL`, the configuration of
`ALL_PROTOCOL`. -/
def get_protocol_source (OVSDB_VRF_NAME_MAXLEN : Nat)
    (VRF_SOURCE_INTERFACE_MAP_TFTP VRF_SOURCE_INTERFACE_MAP_ALL : CStr)
    (idl : Option (List ovsrec_vrf)) (type : Nat) (vrf_name : Option CStr)
    (proto_source : Option protocol_source) :
    Bool × Option protocol_source :=
  let first := get_configured_protocol_source OVSDB_VRF_NAME_MAXLEN
    VRF_SOURCE_INTERFACE_MAP_TFTP VRF_SOURCE_INTERFACE_MAP_ALL idl type
    vrf_name proto_source
  if first.1 = true then (true, first.2)
  else if type ≠ ALL_PROTOCOL then
    let second := get_configured_protocol_source OVSDB_VRF_NAME_MAXLEN
      VRF_SOURCE_INTERFACE_MAP_TFTP VRF_SOURCE_INTERFACE_MAP_ALL idl
      ALL_PROTOCOL vrf_name first.2
    if second.1 = true then (true, second.2) else (false, second.2)
  else (false, first.2)

/-! ## Reference notions for the VRF resolver and the source resolver -/

/-- A name the library takes for the default VRF: a NULL name, or a name
that begins with "swns" or with the reserved default VRF name. -/
def default_vrf_name (DEFAULT_VRF_NAME : CStr) (vrf_name : Option CStr) : Prop :=
  match vrf_name with
  | none => True
  | some name => SWITCH_NAMESPACE <+: name ∨ DEFAULT_VRF_NAME <+: name

/-- The table holds C strings: names and status values have no NUL byte, and
names have at most `OVSDB_VRF_NAME_MAXLEN` characters. -/
def vrf_table_wf (OVSDB_VRF_NAME_MAXLEN : Nat) (idl : List ovsrec_vrf) : Prop :=
  ∀ q ∈ idl, 0 ∉ q.name ∧ q.name.length ≤ OVSDB_VRF_NAME_MAXLEN ∧
    ∀ kv ∈ q.status, 0 ∉ kv.2

/-- No two records of the table have the same name. -/
def vrf_names_unique (idl : List ovsrec_vrf) : Prop :=
  ∀ q ∈ idl, ∀ r ∈ idl, q.name = r.name → q = r

/-- The port the source-interface map holds under exactly the key `key`. -/
def interface_entry (m : List (CStr × ovsrec_port)) (key : CStr) :
    Option ovsrec_port :=
  match m.find? (fun e => decide (e.1 = key)) with
  | some e => some e.2
  | none => none

/-- The source configured under one key: the source IP if the source-IP map
has the key, else the name of the port the source-interface map holds under
the key. -/
def configured_source (r : ovsrec_vrf) (key : CStr) : Option protocol_source :=
  match smap_get r.source_ip key with
  | some ip =>
    some { source := some ip, config_type := configuration_type.SOURCE_IP }
  | none =>
    match interface_entry r.source_interface key with
    | some port =>
      some { source := some port.name,
             config_type := configuration_type.SOURCE_INTERFACE }
    | none => none

/-- The priority order of the source resolver: the source configured for
the protocol's key, else the source configured for the key of all
protocols. -/
def resolved_source (r : ovsrec_vrf) (key all_key : CStr) :
    Option protocol_source :=
  match configured_source r key with
  | some s => some s
  | none => configured_source r all_key

/-- The unset result. -/
def unset_source : protocol_source :=
  { source := none, config_type := configuration_type.SOURCE_MAX }

/-- A VRF record "vrf_red" whose only source configuration is the source IP
1.1.1.1 for all protocols (key "all"). -/
def vrf_red_all_ip : ovsrec_vrf :=
  { uuid := ⟨0x550e8400, 0xe29b41d4, 0xa7164466, 0x55440000⟩,
    name := cstr "vrf_red", table_id := some 5,
    source_ip := [(cstr "all", cstr "1.1.1.1")] }

/-- A VRF record "vrf_red" with a source IP and a source interface for
TACACS, and whose namespace is ready. -/
def vrf_red_tacacs : ovsrec_vrf :=
  { uuid := ⟨0x550e8400, 0xe29b41d4, 0xa7164466, 0x55440000⟩,
    name := cstr "vrf_red", table_id := some 5,
    status := [(cstr "namespace_ready", cstr "true")],
    source_ip := [(cstr "tacacs", cstr "10.1.1.1")],
    source_interface := [(cstr "tacacs", port_eth0)] }

/-- The results of the source resolver that are consistently tagged for the
table `idl`: the unset result with false, or true with a source IP some
record holds in its source-IP map, or true with the name of a port some
record holds in its source-interface map. -/
def tagged_result (idl : Option (List ovsrec_vrf))
    (res : Bool × Option protocol_source) : Prop :=
  res = (false, some unset_source) ∨
  (∃ table r key ip, idl = some table ∧ r ∈ table ∧
    smap_get r.source_ip key = some ip ∧
    res = (true, some { source := some ip,
                        config_type := configuration_type.SOURCE_IP })) ∨
  (∃ table r e, idl = some table ∧ r ∈ table ∧ e ∈ r.source_interface ∧
    res = (true, some { source := some e.2.name,
                        config_type := configuration_type.SOURCE_INTERFACE }))

/-! ## The operating system as explicit state

The network namespace of each thread, the table of open file descriptors and
the system calls made so far are explicit state.  A namespace is identified
by the path of its file.  Whether a system call succeeds is an input of each
function; the answers of `if_nametoindex` and `if_indextoname` come from the
tables of the kernel. -/

/-- `MAX_BUFFER_SIZE`. -/
def MAX_BUFFER_SIZE : Nat := 128

/-- `IFNAMSIZ` of `net/if.h`. -/
def IFNAMSIZ : Nat := 16

/-- `EADDRINUSE` of `errno.h`. -/
def EADDRINUSE : Nat := 98

/-- `EXIT_SUCCESS` of `stdlib.h`. -/
def EXIT_SUCCESS : Nat := 0

/-- `AF_NETLINK` of `sys/socket.h`. -/
def AF_NETLINK : Int := 16

/-- `SOCK_RAW` of `sys/socket.h`. -/
def SOCK_RAW : Int := 3

/-- `NETLINK_ROUTE` of `linux/netlink.h`. -/
def NETLINK_ROUTE : Int := 0

/-- `NLUTILS_SOCKET_CREATE` of `nlutils_op`. -/
def NLUTILS_SOCKET_CREATE : Nat := 0

/-- `NLUTILS_IFINDEX_TO_NAME` of `nlutils_op`. -/
def NLUTILS_IFINDEX_TO_NAME : Nat := 1

/-- `NLUTILS_IFNAME_TO_INDEX` of `nlutils_op`. -/
def NLUTILS_IFNAME_TO_INDEX : Nat := 2

/-- `struct nl_sock_params`. -/
structure nl_sock_params where
  family : Int
  type : Int
  protocol : Int
deriving DecidableEq, Repr

/-- `struct vrf_sock_params`. -/
structure vrf_sock_params where
  nl_params : nl_sock_params
deriving DecidableEq, Repr

/-- `struct setns_info`. -/
structure setns_info where
  from_ns : CStr
  to_ns : CStr
  intf_name : CStr
deriving DecidableEq, Repr

/-- `struct nlutils_op_data`.  The members `s`, `in` and `ni` of the union
`params` are separate fields (each function uses one member only); `s` holds
the structure the pointer refers to. -/
structure nlutils_op_data where
  ns_name : CStr
  operation : Nat
  s : nl_sock_params
  in_ifindex : Int
  in_ifname : CStr
  ni_ifname : CStr
  ni_ifindex : Int
  result : Int
deriving DecidableEq, Repr

/-- The threads of one call: the calling thread and the one-shot worker. -/
inductive thread_id where
  | caller : thread_id
  | worker : thread_id
deriving DecidableEq, Repr

/-- What an open descriptor refers to: a file opened by its path, or a
socket created in a namespace. -/
inductive file where
  | path : CStr → file
  | socket : CStr → nl_sock_params → file
deriving DecidableEq, Repr

/-- The system calls that change the state, and the netlink message. -/
inductive sys_event where
  | opened : Nat → file → sys_event
  | closed : Nat → sys_event
  | close_failed : Int → sys_event
  | entered : thread_id → CStr → sys_event
  | thread_created : sys_event
  | thread_joined : sys_event
  | sent : Int → Nat → Int → sys_event
deriving DecidableEq, Repr

/-- The state of the process: the namespace of the calling thread and of the
worker thread, the open descriptors with what they refer to, and the events
so far in order. -/
structure machine where
  caller_ns : CStr
  worker_ns : CStr
  files : List (Nat × file)
  trace : List sys_event
deriving DecidableEq, Repr

/-- The tables of the kernel: the index of an interface name in a namespace
(0 when there is none), and the name of an interface index in a namespace. -/
structure kernel where
  ifindex_of : CStr → CStr → Nat
  ifname_of : CStr → Int → Option CStr

/-- How a call ends: it returns a value to its caller, or the process
exits with a status. -/
inductive outcome (α : Type) where
  | returned : α → machine → outcome α
  | exited : Nat → machine → outcome α

/-- The state in which a call ends. -/
def outcome.final {α : Type} : outcome α → machine
  | outcome.returned _ m => m
  | outcome.exited _ m => m

/-- The open descriptors. -/
def machine.fds (m : machine) : List Nat := m.files.map Prod.fst

/-- The namespace of a thread. -/
def thread_ns (t : thread_id) (m : machine) : CStr :=
  match t with
  | thread_id.caller => m.caller_ns
  | thread_id.worker => m.worker_ns

/-- The lowest descriptor that is not open, the one POSIX allocates. -/
def lowest_free (open_fds : List Nat) : Nat :=
  ((List.range (open_fds.length + 1)).find?
    (fun n => decide (n ∉ open_fds))).getD open_fds.length

/-- A new descriptor for `f`: the returned descriptor and the state. -/
def sys_alloc (f : file) (m : machine) : Int × machine :=
  let fd := lowest_free m.fds
  ((fd : Int), { m with files := (fd, f) :: m.files,
                        trace := m.trace ++ [sys_event.opened fd f] })

/-- `open (path, O_RDONLY)`: a new descriptor, or -1. -/
def sys_open (ok : Bool) (path : CStr) (m : machine) : Int × machine :=
  if ok then sys_alloc (file.path path) m else (-1, m)

/-- `socket (family, type, protocol)` called by thread `t`: a new
descriptor, or -1. -/
def sys_socket (ok : Bool) (t : thread_id) (params : nl_sock_params)
    (m : machine) : Int × machine :=
  if ok then sys_alloc (file.socket (thread_ns t m) params) m else (-1, m)

/-- `close (fd)`: 0 when `fd` is open, which releases it, else -1. -/
def sys_close (fd : Int) (m : machine) : Int × machine :=
  if 0 ≤ fd ∧ fd.toNat ∈ m.fds then
    (0, { m with files := m.files.filter (fun e => decide (e.1 ≠ fd.toNat)),
                 trace := m.trace ++ [sys_event.closed fd.toNat] })
  else (-1, { m with trace := m.trace ++ [sys_event.close_failed fd] })

/-- `setns (fd, CLONE_NEWNET)` called by thread `t`: when `fd` refers to the
file of a namespace and the kernel accepts, the thread enters it. -/
def sys_setns (ok : Bool) (t : thread_id) (fd : Int) (m : machine) :
    Int × machine :=
  match m.files.find? (fun e => decide ((e.1 : Int) = fd)) with
  | some (_, file.path p) =>
    if ok then
      match t with
      | thread_id.caller =>
        (0, { m with caller_ns := p,
                     trace := m.trace ++ [sys_event.entered t p] })
      | thread_id.worker =>
        (0, { m with worker_ns := p,
                     trace := m.trace ++ [sys_event.entered t p] })
    else (-1, m)
  | _ => (-1, m)

/-- `send` of the netlink request that moves the interface `ifindex` to the
namespace of the descriptor `ns_fd`, on the socket `sock`; `result` is what
the call returns, -1 when nothing is sent. -/
def sys_send (result : Int) (sock : Int) (ifindex : Nat) (ns_fd : Int)
    (m : machine) : Int × machine :=
  if result = -1 then (-1, m)
  else
    (result,
      { m with trace := m.trace ++ [sys_event.sent sock ifindex ns_fd] })

/-- Whether the two system calls of `nl_setns_with_name` succeed. -/
structure setns_outcome where
  open_ok : Bool
  setns_ok : Bool
deriving DecidableEq, Repr

/-! ## nl-utils.c: operations in a namespace -/

/-- `nl_perform_socket_operation` run by thread `t`: the request on return
and the state. -/
def nl_perform_socket_operation (k : kernel) (socket_ok : Bool)
    (t : thread_id) (tdata : nlutils_op_data) (m : machine) :
    nlutils_op_data × machine :=
  if tdata.operation = NLUTILS_SOCKET_CREATE then
    let r := sys_socket socket_ok t tdata.s m
    ({ tdata with result := r.1 }, r.2)
  else if tdata.operation = NLUTILS_IFINDEX_TO_NAME then
    match k.ifname_of (thread_ns t m) tdata.in_ifindex with
    | some name => ({ tdata with in_ifname := name, result := 0 }, m)
    | none => ({ tdata with result := 0 }, m)
  else if tdata.operation = NLUTILS_IFNAME_TO_INDEX then
    ({ tdata with
        ni_ifindex := (k.ifindex_of (thread_ns t m) tdata.ni_ifname : Int),
        result := 0 }, m)
  else (tdata, m)

/-- `nl_is_nondefault_ns`: false for a NULL name and for a name that begins
with `SWITCH_NAMESPACE`. -/
def nl_is_nondefault_ns (ns_name : Option CStr) : Bool :=
  match ns_name with
  | none => false
  | some name =>
    if strncmp name SWITCH_NAMESPACE (strlen SWITCH_NAMESPACE) = 0 then false
    else true

/-- The path `nl_setns_with_name` opens for a namespace name. -/
def nl_setns_path (ns_name : CStr) : CStr :=
  cstr "/var/run/netns/" ++
    snprintf (MAX_BUFFER_SIZE - strlen (cstr "/var/run/netns/") - 1) ns_name

/-- `nl_setns_with_name` called by thread `t`: the returned value and the
state. -/
def nl_setns_with_name (o : setns_outcome) (t : thread_id) (ns_name : CStr)
    (m : machine) : Int × machine :=
  let opened := sys_open o.open_ok (nl_setns_path ns_name) m
  if opened.1 = -1 then (-1, opened.2)
  else
    let joined := sys_setns o.setns_ok t opened.1 opened.2
    if joined.1 = -1 then (-1, (sys_close opened.1 joined.2).2)
    else (0, (sys_close opened.1 joined.2).2)

/-- `nl_if_nametoindex`, with `tdata0` the content of the memory of the
local `tdata` on entry: the returned value and the state. -/
def nl_if_nametoindex (k : kernel) (enter leave : setns_outcome)
    (tdata0 : nlutils_op_data) (ns_name if_name : CStr) (m : machine) :
    Nat × machine :=
  let non_default_ns := nl_is_nondefault_ns (some ns_name)
  let tdata := { tdata0 with
    ns_name := snprintf (MAX_BUFFER_SIZE - 1) ns_name,
    ni_ifname := snprintf (IFNAMSIZ - 1) if_name,
    operation := NLUTILS_IFNAME_TO_INDEX }
  let m1 := if non_default_ns then
    (nl_setns_with_name enter thread_id.caller ns_name m).2 else m
  let done := nl_perform_socket_operation k false thread_id.caller tdata m1
  let m2 := if non_default_ns then
    (nl_setns_with_name leave thread_id.caller SWITCH_NAMESPACE done.2).2
    else done.2
  (to_uint done.1.ni_ifindex, m2)

/-- `nl_if_indextoname`, with `tdata0` the content of the memory of the
local `tdata` on entry: the returned value, the string in `if_name` on
return, and the state. -/
def nl_if_indextoname (k : kernel) (enter leave : setns_outcome)
    (tdata0 : nlutils_op_data) (ifindex : Int) (ns_name : CStr)
    (m : machine) : Nat × CStr × machine :=
  let non_default_ns := nl_is_nondefault_ns (some ns_name)
  let tdata := { tdata0 with
    ns_name := snprintf (MAX_BUFFER_SIZE - 1) ns_name,
    in_ifindex := ifindex,
    operation := NLUTILS_IFINDEX_TO_NAME }
  let m1 := if non_default_ns then
    (nl_setns_with_name enter thread_id.caller ns_name m).2 else m
  let done := nl_perform_socket_operation k false thread_id.caller tdata m1
  let if_name := snprintf (IFNAMSIZ - 1) done.1.in_ifname
  let m2 := if non_default_ns then
    (nl_setns_with_name leave thread_id.caller SWITCH_NAMESPACE done.2).2
    else done.2
  (0, if_name, m2)

/-! ## vrf-utils.c: operations in the namespace of a VRF -/

/-- Whether the calls of one operation in a VRF succeed: the error number of
`pthread_create` (0 for success), the two system calls of the worker's
`nl_setns_with_name`, and `socket`. -/
structure op_outcome where
  pthread_create : Nat
  enter : setns_outcome
  socket_ok : Bool
deriving DecidableEq, Repr

/-- `vrfThread`, the routine of the worker thread: it ends with
`pthread_exit`, which ends the thread and leaves the request as it is, or
with `_exit`, which ends the process. -/
def vrfThread (k : kernel) (o : op_outcome) (tdata : nlutils_op_data)
    (m : machine) : outcome nlutils_op_data :=
  let entered := nl_setns_with_name o.enter thread_id.worker tdata.ns_name m
  if entered.1 ≠ 0 then outcome.exited EXIT_SUCCESS entered.2
  else
    let done := nl_perform_socket_operation k o.socket_ok thread_id.worker
      tdata entered.2
    outcome.returned done.1 done.2

/-- `vrf_perform_socket_operation`: the returned value with the request on
return.  A thread that is created starts in the namespace of its creator
and is joined. -/
def vrf_perform_socket_operation (k : kernel) (o : op_outcome)
    (tdata : nlutils_op_data) (m : machine) :
    outcome (Bool × nlutils_op_data) :=
  if o.pthread_create = 0 then
    match vrfThread k o tdata
        { m with worker_ns := m.caller_ns,
                 trace := m.trace ++ [sys_event.thread_created] } with
    | outcome.exited status m1 => outcome.exited status m1
    | outcome.returned tdata1 m1 =>
      outcome.returned (true, tdata1)
        { m1 with trace := m1.trace ++ [sys_event.thread_joined] }
  else outcome.returned (false, tdata) m

/-- `vrf_create_socket`, with `tdata0` the content of the memory of the
local `tdata` on entry. -/
def vrf_create_socket (DEFAULT_VRF_NAME : CStr) (k : kernel) (o : op_outcome)
    (tdata0 : nlutils_op_data) (vrf_ns_name : CStr)
    (params : vrf_sock_params) (m : machine) : outcome Int :=
  let tdata := { tdata0 with
    ns_name := snprintf (MAX_BUFFER_SIZE - 1) vrf_ns_name,
    operation := NLUTILS_SOCKET_CREATE,
    s := params.nl_params }
  if is_nondefault_vrf DEFAULT_VRF_NAME (some vrf_ns_name) = true then
    match vrf_perform_socket_operation k o tdata m with
    | outcome.exited status m1 => outcome.exited status m1
    | outcome.returned r m1 => outcome.returned r.2.result m1
  else
    let done := nl_perform_socket_operation k o.socket_ok thread_id.caller
      tdata m
    outcome.returned done.1.result done.2

/-- `vrf_if_nametoindex`, with `tdata0` the content of the memory of the
local `tdata` on entry. -/
def vrf_if_nametoindex (DEFAULT_VRF_NAME : CStr) (OVSDB_VRF_NAME_MAXLEN : Nat)
    (k : kernel) (o : op_outcome) (tdata0 : nlutils_op_data)
    (idl : List ovsrec_vrf) (vrf_name : Option CStr) (if_name : CStr)
    (m : machine) : outcome Nat :=
  let ns := get_vrf_ns_from_name DEFAULT_VRF_NAME OVSDB_VRF_NAME_MAXLEN idl
    vrf_name []
  if ns.1 ≠ 0 then outcome.returned (to_uint (-1)) m
  else
    let tdata := { tdata0 with
      ns_name := snprintf (MAX_BUFFER_SIZE - 1) ns.2,
      ni_ifname := snprintf (IFNAMSIZ - 1) if_name,
      operation := NLUTILS_IFNAME_TO_INDEX }
    if is_nondefault_vrf DEFAULT_VRF_NAME (some ns.2) = true then
      match vrf_perform_socket_operation k o tdata m with
      | outcome.exited status m1 => outcome.exited status m1
      | outcome.returned r m1 => outcome.returned (to_uint r.2.ni_ifindex) m1
    else
      let done := nl_perform_socket_operation k o.socket_ok thread_id.caller
        tdata m
      outcome.returned (to_uint done.1.ni_ifindex) done.2

/-- `vrf_if_indextoname`, with `tdata0` the content of the memory of the
local `tdata` on entry and `buf` the string in `if_name` on entry: the
returned value with the string in `if_name` on return. -/
def vrf_if_indextoname (DEFAULT_VRF_NAME : CStr) (OVSDB_VRF_NAME_MAXLEN : Nat)
    (k : kernel) (o : op_outcome) (tdata0 : nlutils_op_data)
    (idl : List ovsrec_vrf) (ifindex : Int) (buf : CStr)
    (vrf_name : Option CStr) (m : machine) : outcome (Nat × CStr) :=
  let ns := get_vrf_ns_from_name DEFAULT_VRF_NAME OVSDB_VRF_NAME_MAXLEN idl
    vrf_name []
  if ns.1 ≠ 0 then outcome.returned (to_uint (-1), buf) m
  else
    let tdata := { tdata0 with
      ns_name := snprintf (MAX_BUFFER_SIZE - 1) ns.2,
      in_ifindex := ifindex,
      operation := NLUTILS_IFINDEX_TO_NAME }
    if is_nondefault_vrf DEFAULT_VRF_NAME (some ns.2) = true then
      match vrf_perform_socket_operation k o tdata m with
      | outcome.exited status m1 => outcome.exited status m1
      | outcome.returned r m1 =>
        outcome.returned (0, snprintf (IFNAMSIZ - 1) r.2.in_ifname) m1
    else
      let done := nl_perform_socket_operation k o.socket_ok thread_id.caller
        tdata m
      outcome.returned (0, snprintf (IFNAMSIZ - 1) done.1.in_ifname) done.2

/-! ## nl-utils.c: moving an interface to a namespace -/

/-- What the system calls of one `nl_move_intf_to_vrf` return: whether the
two `open` succeed, the system calls of the two `nl_setns_with_name`,
whether `socket` succeeds, the value and the error number of `bind`, and the
value of `send`. -/
structure move_outcome where
  open_to : Bool
  open_from : Bool
  enter : setns_outcome
  socket_ok : Bool
  leave : setns_outcome
  bind_result : Int
  bind_errno : Nat
  send_result : Int
deriving DecidableEq, Repr

/-- The locals of `nl_move_intf_to_vrf` that the statements after the label
`cleanup` read. -/
structure move_locals where
  fd : Int
  fd_from_ns : Int
  ns_sock : Int
  rc : Bool
deriving DecidableEq, Repr

/-- The statements of `nl_move_intf_to_vrf` up to the label `cleanup`: the
locals and the state when control reaches the label. -/
def nl_move_intf_to_vrf_steps (k : kernel) (o : move_outcome)
    (setns_local_info : setns_info) (m : machine) : move_locals × machine :=
  let to_fd := sys_open o.open_to
    (snprintf MAX_BUFFER_SIZE
      (cstr "/var/run/netns/" ++ setns_local_info.to_ns)) m
  if to_fd.1 = -1 then
    ({ fd := to_fd.1, fd_from_ns := -1, ns_sock := -1, rc := false }, to_fd.2)
  else
    let from_fd := sys_open o.open_from
      (snprintf MAX_BUFFER_SIZE
        (cstr "/var/run/netns/" ++ setns_local_info.from_ns)) to_fd.2
    if from_fd.1 = -1 then
      ({ fd := to_fd.1, fd_from_ns := from_fd.1, ns_sock := -1, rc := false },
        from_fd.2)
    else
      let non_default := nl_is_nondefault_ns (some setns_local_info.from_ns)
      let entered :=
        if non_default = true then
          nl_setns_with_name o.enter thread_id.caller
            setns_local_info.from_ns from_fd.2
        else (0, from_fd.2)
      if entered.1 ≠ 0 then
        ({ fd := to_fd.1, fd_from_ns := from_fd.1, ns_sock := -1,
           rc := false }, entered.2)
      else
        let sock := sys_socket o.socket_ok thread_id.caller
          { family := AF_NETLINK, type := SOCK_RAW, protocol := NETLINK_ROUTE }
          entered.2
        let ifindex := k.ifindex_of (thread_ns thread_id.caller sock.2)
          setns_local_info.intf_name
        let left :=
          if non_default = true then
            nl_setns_with_name o.leave thread_id.caller SWITCH_NAMESPACE sock.2
          else (0, sock.2)
        let locals : move_locals :=
          { fd := to_fd.1, fd_from_ns := from_fd.1, ns_sock := sock.1,
            rc := false }
        if left.1 ≠ 0 then (locals, left.2)
        else if sock.1 < 0 then (locals, left.2)
        else if o.bind_result < 0 ∧ o.bind_errno ≠ EADDRINUSE then
          (locals, left.2)
        else if ifindex = 0 then (locals, left.2)
        else
          let sending := sys_send o.send_result sock.1 ifindex to_fd.1 left.2
          ({ locals with rc := decide (sending.1 ≠ -1) }, sending.2)

/-- `nl_move_intf_to_vrf`: the returned value and the state. -/
def nl_move_intf_to_vrf (k : kernel) (o : move_outcome)
    (setns_local_info : setns_info) (m : machine) : Bool × machine :=
  let reached := nl_move_intf_to_vrf_steps k o setns_local_info m
  let m1 := if reached.1.fd ≠ -1 then (sys_close reached.1.fd reached.2).2
    else reached.2
  let m2 := if reached.1.ns_sock ≠ -1 then (sys_close reached.1.ns_sock m1).2
    else m1
  let m3 :=
    if reached.1.fd_from_ns ≠ -1 then (sys_close reached.1.fd_from_ns m2).2
    else m2
  (reached.1.rc, m3)

/-! ## Reference notions for the operations in a namespace -/

/-- The events of a call: the events of `after` that follow those of
`before`. -/
def new_events (before after : machine) : List sys_event :=
  after.trace.drop before.trace.length

/-- A call returned. -/
def outcome.has_returned {α : Type} : outcome α → Bool
  | outcome.returned _ _ => true
  | outcome.exited _ _ => false

/-- The value a call returned. -/
def outcome.value {α : Type} : outcome α → Option α
  | outcome.returned v _ => some v
  | outcome.exited _ _ => none

/-- A kernel with the interface "eth0" of index 2 in the namespace
"/var/run/netns/swns" and no other interface. -/
def kernel_eth0 : kernel :=
  { ifindex_of := fun ns name =>
      if ns = cstr "/var/run/netns/swns" ∧ name = cstr "eth0" then 2 else 0,
    ifname_of := fun ns ifindex =>
      if ns = cstr "/var/run/netns/swns" ∧ ifindex = 2 then some (cstr "eth0")
      else none }

/-- A process whose calling thread is in the namespace "/var/run/netns/swns"
and whose descriptors 0, 1 and 2 are open. -/
def machine_swns : machine :=
  { caller_ns := cstr "/var/run/netns/swns",
    worker_ns := cstr "/var/run/netns/swns",
    files := [(0, file.path (cstr "/dev/null")),
              (1, file.path (cstr "/dev/null")),
              (2, file.path (cstr "/dev/null"))],
    trace := [] }

/-- A request as `memset` to zero would leave it. -/
def tdata_zero : nlutils_op_data :=
  { ns_name := [], operation := 0,
    s := { family := 0, type := 0, protocol := 0 },
    in_ifindex := 0, in_ifname := [], ni_ifname := [], ni_ifindex := 0,
    result := 0 }

/-- The memory of a request that holds what an earlier call left there: the
interface name "eth0" and the values 7. -/
def tdata_stale : nlutils_op_data :=
  { ns_name := cstr "swns", operation := 1,
    s := { family := 0, type := 0, protocol := 0 },
    in_ifindex := 7, in_ifname := cstr "eth0", ni_ifname := cstr "eth0",
    ni_ifindex := 7, result := 7 }

/-- An event that opens a descriptor. -/
def is_opened : sys_event → Bool
  | sys_event.opened _ _ => true
  | _ => false

/-- An event that closes a descriptor. -/
def is_closed : sys_event → Bool
  | sys_event.closed _ => true
  | _ => false

/-- A `close` of a descriptor that is not open. -/
def is_close_failed : sys_event → Bool
  | sys_event.close_failed _ => true
  | _ => false

/-- The open descriptors as values of type `int`. -/
def machine.int_fds (m : machine) : List Int :=
  m.files.map (fun e => (e.1 : Int))

/-- The locals of `nl_move_intf_to_vrf` that hold a descriptor, that is a
value other than -1, in the order socket, source namespace, destination
namespace. -/
def held (l : move_locals) : List Int :=
  [l.ns_sock, l.fd_from_ns, l.fd].filter (fun x => decide (x ≠ -1))

/-- The state `m` of a call that started in `m0` holds exactly the
descriptors `owned` beyond the files of `m0`: they are distinct, none was
open in `m0`, no `close` failed since `m0`, and since `m0` there were as many
opens as closes and descriptors in `owned`. -/
def holds (m0 m : machine) (owned : List Int) : Prop :=
  ∃ added evs, m.files = added ++ m0.files ∧
    added.map (fun e => (e.1 : Int)) = owned ∧ owned.Nodup ∧
    (∀ e ∈ added, e.1 ∉ m0.fds) ∧
    m.trace = m0.trace ++ evs ∧ (∀ e ∈ evs, is_close_failed e = false) ∧
    evs.countP is_opened = evs.countP is_closed + owned.length

/-- The outcome with a function applied to the returned value. -/
def outcome.map {α β : Type} (f : α → β) : outcome α → outcome β
  | outcome.returned v m => outcome.returned (f v) m
  | outcome.exited status m => outcome.exited status m

/-- A call that started in `m` and ended as `x` kept the namespace of the
calling thread: at its end the calling thread is in the namespace it was in,
no event of the call is a switch of the calling thread, a switch of the
worker thread happens only after the worker was created, and when a worker
was created and the call returned, the last event of the call is the join of
the worker. -/
def keeps_caller_namespace {α : Type} (m : machine) (x : outcome α) : Prop :=
  x.final.caller_ns = m.caller_ns ∧
  ∃ evs, x.final.trace = m.trace ++ evs ∧
    (∀ ns, sys_event.entered thread_id.caller ns ∉ evs) ∧
    ((∃ ns, sys_event.entered thread_id.worker ns ∈ evs) →
      sys_event.thread_created ∈ evs) ∧
    (sys_event.thread_created ∈ evs → x.has_returned = true →
      evs.getLast? = some sys_event.thread_joined)

/-- A call that started in `m` and ended as `x` returned without any switch
of namespace and without a worker thread. -/
def no_switch {α : Type} (m : machine) (x : outcome α) : Prop :=
  x.has_returned = true ∧ x.final.caller_ns = m.caller_ns ∧
  ∃ evs, x.final.trace = m.trace ++ evs ∧
    (∀ t ns, sys_event.entered t ns ∉ evs) ∧
    sys_event.thread_created ∉ evs

/-- The namespace in which `nl_if_nametoindex` and `nl_if_indextoname` look
up: the namespace of the name when the calling thread enters it, else the
namespace the calling thread is in. -/
def nl_lookup_namespace (enter : setns_outcome) (ns_name : CStr)
    (m : machine) : CStr :=
  if nl_is_nondefault_ns (some ns_name) = true ∧ enter.open_ok = true ∧
      enter.setns_ok = true then nl_setns_path ns_name
  else m.caller_ns

/-- The namespace in which `vrf_if_nametoindex` and `vrf_if_indextoname`
look up once the worker has entered the namespace: the namespace of the
name for a name `is_nondefault_vrf` accepts, else the namespace the calling
thread is in. -/
def vrf_lookup_namespace (DEFAULT_VRF_NAME : CStr) (vrf_ns_name : CStr)
    (m : machine) : CStr :=
  if is_nondefault_vrf DEFAULT_VRF_NAME (some vrf_ns_name) = true then
    nl_setns_path (snprintf (MAX_BUFFER_SIZE - 1) vrf_ns_name)
  else m.caller_ns

/-- The worker of the operation runs: for a name `is_nondefault_vrf`
accepts, the thread is created and enters the namespace. -/
def worker_runs (DEFAULT_VRF_NAME : CStr) (vrf_ns_name : CStr)
    (o : op_outcome) : Prop :=
  is_nondefault_vrf DEFAULT_VRF_NAME (some vrf_ns_name) = true →
    o.pthread_create = 0 ∧ o.enter.open_ok = true ∧ o.enter.setns_ok = true

/-! ## Reference notions for `nl_move_intf_to_vrf` -/

/-- An event that is a netlink message sent. -/
def is_sent : sys_event → Bool
  | sys_event.sent _ _ _ => true
  | _ => false

/-- The namespace in which `nl_move_intf_to_vrf` resolves the interface
index: the source namespace it has entered for a name `nl_is_nondefault_ns`
accepts, else the namespace the calling thread is in. -/
def move_source_namespace (setns_local_info : setns_info) (m : machine) :
    CStr :=
  if nl_is_nondefault_ns (some setns_local_info.from_ns) = true then
    nl_setns_path setns_local_info.from_ns
  else m.caller_ns

/-- Every step of `nl_move_intf_to_vrf` succeeds: both paths open, the
switch into a non-default source namespace and the switch back succeed, the
socket is created, `bind` succeeds or fails with `EADDRINUSE`, the interface
index is not 0, and `send` succeeds. -/
def move_all_succeed (k : kernel) (o : move_outcome)
    (setns_local_info : setns_info) (m : machine) : Prop :=
  o.open_to = true ∧ o.open_from = true ∧
  (nl_is_nondefault_ns (some setns_local_info.from_ns) = true →
    o.enter.open_ok = true ∧ o.enter.setns_ok = true) ∧
  o.socket_ok = true ∧
  (nl_is_nondefault_ns (some setns_local_info.from_ns) = true →
    o.leave.open_ok = true ∧ o.leave.setns_ok = true) ∧
  (0 ≤ o.bind_result ∨ o.bind_errno = EADDRINUSE) ∧
  k.ifindex_of (move_source_namespace setns_local_info m)
    setns_local_info.intf_name ≠ 0 ∧
  o.send_result ≠ -1

/-- Two outcomes of the system calls agree on every step up to and
including the first step that fails under the first of them, the steps
being taken in the order of execution: the open of the destination, the
open of the source, the switch into the source namespace, the socket and
the switch back, `bind`, `send` (which follows the test of the interface
index). -/
def same_until_failure (k : kernel) (o o' : move_outcome)
    (setns_local_info : setns_info) (m : machine) : Prop :=
  o'.open_to = o.open_to ∧
  (o.open_to = true →
    o'.open_from = o.open_from ∧
    (o.open_from = true →
      (nl_is_nondefault_ns (some setns_local_info.from_ns) = true →
        o'.enter = o.enter) ∧
      ((nl_is_nondefault_ns (some setns_local_info.from_ns) = true →
          o.enter.open_ok = true ∧ o.enter.setns_ok = true) →
        o'.socket_ok = o.socket_ok ∧
        (nl_is_nondefault_ns (some setns_local_info.from_ns) = true →
          o'.leave = o.leave) ∧
        (o.socket_ok = true →
          (nl_is_nondefault_ns (some setns_local_info.from_ns) = true →
            o.leave.open_ok = true ∧ o.leave.setns_ok = true) →
          o'.bind_result = o.bind_result ∧ o'.bind_errno = o.bind_errno ∧
          ((0 ≤ o.bind_result ∨ o.bind_errno = EADDRINUSE) →
            k.ifindex_of (move_source_namespace setns_local_info m)
              setns_local_info.intf_name ≠ 0 →
            o'.send_result = o.send_result)))))

/-! ## ops-utils.h, ops-utils.c -/

/-- Number of bytes in a MAC address string. -/
def OPS_MAC_STR_SIZE : Nat := 18

/-- Number of bytes in a WWN string. -/
def OPS_WWN_STR_SIZE : Nat := 24

/-- `ETH_ALEN` of `linux/if_ether.h`. -/
def ETH_ALEN : Nat := 6

/-- The loop of `ops_char_array_to_ulong_long` with `n` iterations left at
index `i`: `value = (value << 8) + char_array[i]` in `unsigned long long`.
A read past the end of the array has no defined result: `none`. -/
def ops_char_array_to_ulong_long_loop (char_array : List Nat) :
    Nat → Nat → Nat → Option Nat
  | 0, _, value => some value
  | n + 1, i, value =>
    match char_array[i]? with
    | none => none
    | some c =>
      ops_char_array_to_ulong_long_loop char_array n (i + 1)
        (((value <<< 8) % 18446744073709551616 + c) % 18446744073709551616)

/-- `ops_char_array_to_ulong_long`. -/
def ops_char_array_to_ulong_long (char_array : List Nat) (length : Nat) :
    Option Nat :=
  ops_char_array_to_ulong_long_loop char_array length 0 0

/-- The loop of `ops_ulong_long_to_char_array` when `i + 1` is `count`:
`char_array[i] = temp & 0xff; temp >>= 8`, down to index 0.  A write past the
end of the list is dropped (the callers give an array of `length` bytes). -/
def ops_ulong_long_to_char_array_loop : Nat → Nat → List Nat → List Nat
  | 0, _, char_array => char_array
  | i + 1, temp, char_array =>
    ops_ulong_long_to_char_array_loop i (temp >>> 8)
      (char_array.set i (temp &&& 255))

/-- `ops_ulong_long_to_char_array`: the array on return.  The index is an
`int` that starts at `length - 1`, computed in `unsigned int`. -/
def ops_ulong_long_to_char_array (value length : Nat)
    (char_array : List Nat) : List Nat :=
  let i : Int := long_to_int ((length : Int) - 1)
  if 0 ≤ i then ops_ulong_long_to_char_array_loop (i.toNat + 1) value char_array
  else char_array

/-- `struct ether_addr` of `net/ethernet.h`: six octets of type `uint8_t`. -/
structure ether_addr where
  ether_addr_octet : List Nat
deriving DecidableEq, Repr

/-- The text of a format "%02x:%02x:...:%02x" with one conversion for each
argument, the arguments being `unsigned int` values. -/
def sprintf_02x_colon (args : List Nat) : CStr :=
  [58].intercalate (args.map (printf_0x 2))

/-- The value of a byte read through a `char`, which is a signed type on
the x86-64 ABI. -/
def char_value (byte : Nat) : Int :=
  if byte < 128 then (byte : Int) else (byte : Int) - 256

/-- `ops_ether_ntoa`: the string in `mac_a` on return; the function returns
`mac_a`. -/
def ops_ether_ntoa (addr : ether_addr) : CStr :=
  snprintf OPS_MAC_STR_SIZE
    (sprintf_02x_colon
      [addr.ether_addr_octet.getD 0 0, addr.ether_addr_octet.getD 1 0,
       addr.ether_addr_octet.getD 2 0, addr.ether_addr_octet.getD 3 0,
       addr.ether_addr_octet.getD 4 0, addr.ether_addr_octet.getD 5 0])

/-- `ops_wwn_ntoa`: the string in `wwn_a` on return; the function returns
`wwn_a`.  Each `wwn[i]` is a `char`, promoted to `int` and printed by "%x"
as an `unsigned int`. -/
def ops_wwn_ntoa (wwn : List Nat) : CStr :=
  snprintf OPS_WWN_STR_SIZE
    (sprintf_02x_colon
      [to_uint (char_value (wwn.getD 0 0)), to_uint (char_value (wwn.getD 1 0)),
       to_uint (char_value (wwn.getD 2 0)), to_uint (char_value (wwn.getD 3 0)),
       to_uint (char_value (wwn.getD 4 0)), to_uint (char_value (wwn.getD 5 0)),
       to_uint (char_value (wwn.getD 6 0)),
       to_uint (char_value (wwn.getD 7 0))])

/-- `ops_ether_array_to_string`: the string in `mac_a` on return; the
function returns `mac_a`. -/
def ops_ether_array_to_string (addr : List Nat) : CStr :=
  snprintf OPS_MAC_STR_SIZE
    (sprintf_02x_colon
      [addr.getD 0 0, addr.getD 1 0, addr.getD 2 0, addr.getD 3 0,
       addr.getD 4 0, addr.getD 5 0])

/-- `ops_ether_ulong_long_to_string`: whether the returned pointer is `mac_a`
(false for NULL), and the string in `mac_a` on return (`mac_a` is the string
it holds on entry).  All six bytes of the local array `addr` are written
before they are read. -/
def ops_ether_ulong_long_to_string (mac_a : CStr) (mac : Nat) : Bool × CStr :=
  let max_mac : Nat := 0xffffffffffff
  if mac > max_mac then (false, mac_a)
  else
    let addr := ops_ulong_long_to_char_array mac ETH_ALEN
      (List.replicate ETH_ALEN 0)
    (true,
      snprintf OPS_MAC_STR_SIZE
        (sprintf_02x_colon
          [addr.getD 0 0, addr.getD 1 0, addr.getD 2 0, addr.getD 3 0,
           addr.getD 4 0, addr.getD 5 0]))

/-- A row of the VLAN table: the columns the library reads. -/
structure ovsrec_vlan where
  id : Int
  name : CStr
deriving DecidableEq, Repr

/-- A write of a column of a port row, made by `ovsrec_port_set_vlan_tag`
or `ovsrec_port_set_vlan_trunks` of the generated IDL (`vswitch-idl.h`, not
part of this repository): the tag is a VLAN row or empty (`none`, for a NULL
row), the trunks are a list of VLAN rows. -/
inductive port_write where
  | vlan_tag : Option ovsrec_vlan → port_write
  | vlan_trunks : List ovsrec_vlan → port_write
deriving DecidableEq, Repr

/-- `ops_get_vlan_by_id`: the first row of the VLAN table whose id is
`vlan_id`, `none` for NULL; `idl` is the VLAN table, `none` for a NULL
pointer. -/
def ops_get_vlan_by_id (vlan_id : Int) (idl : Option (List ovsrec_vlan)) :
    Option ovsrec_vlan :=
  match idl with
  | none => none
  | some vlans => vlans.find? (fun vlan_row => decide (vlan_id = vlan_row.id))

/-- `ops_port_set_tag`: the returned value and the writes made to the port
row; `port_row` and `idl` are `none` for NULL pointers. -/
def ops_port_set_tag (vlan_id : Int) (port_row : Option ovsrec_port)
    (idl : Option (List ovsrec_vlan)) : Bool × List port_write :=
  match port_row, idl with
  | some _, some _ =>
    let vlan_row : Option ovsrec_vlan :=
      if vlan_id ≠ 0 then ops_get_vlan_by_id vlan_id idl else none
    let ret_val : Bool :=
      if vlan_id ≠ 0 then vlan_row.isSome else true
    if ret_val = true then (true, [port_write.vlan_tag vlan_row])
    else (false, [])
  | _, _ => (false, [])

/-- The loop of `ops_port_set_trunks` over the ids that are left: `ret_val`
and the rows stored in `vlan_trunks` so far.  Each id is an `int64_t` given
to the `int` parameter of `ops_get_vlan_by_id`. -/
def ops_port_set_trunks_loop (idl : Option (List ovsrec_vlan)) :
    List Int → List ovsrec_vlan → Bool → Bool × List ovsrec_vlan
  | [], vlan_trunks, ret_val => (ret_val, vlan_trunks)
  | vlan_id :: rest, vlan_trunks, _ =>
    match ops_get_vlan_by_id (long_to_int vlan_id) idl with
    | some vlan_row =>
      ops_port_set_trunks_loop idl rest (vlan_trunks ++ [vlan_row]) true
    | none => (false, vlan_trunks)

/-- `ops_port_set_trunks`: the returned value and the writes made to the
port row.  The array `trunk_vlan_ids` with its `trunk_vlan_count` entries is
a list; `xmalloc` returns memory or ends the process, and is taken to
return. -/
def ops_port_set_trunks (trunk_vlan_ids : List Int)
    (port_row : Option ovsrec_port) (idl : Option (List ovsrec_vlan)) :
    Bool × List port_write :=
  match port_row, idl with
  | some _, some _ =>
    let looped := ops_port_set_trunks_loop idl trunk_vlan_ids [] false
    let ret_val : Bool :=
      if trunk_vlan_ids.length = 0 then true else looped.1
    if ret_val = true then (true, [port_write.vlan_trunks looped.2])
    else (false, [])
  | _, _ => (false, [])

/-! ## Reference notions for ops-utils -/

/-- The `n` bytes of a value in big-endian order, most significant first. -/
def be_bytes (n v : Nat) : List Nat := (le_bytes n v).reverse

/-- The value of the first `n` bytes, the sum of `byte[i] * 256^(n-1-i)`. -/
def be_sum (bytes : List Nat) (n : Nat) : Nat :=
  (Finset.range n).sum (fun i => bytes.getD i 0 * 256 ^ (n - 1 - i))

/-- The text of an address: one group of two lowercase hexadecimal digits
for each byte, the groups separated by ':'. -/
def colon_hex_text (bytes : List Nat) : CStr :=
  [58].intercalate (bytes.map (hex_fixed 2))

/-- The rows of the VLAN table with the ids of the list, in the order of
the list, when every id has a row. -/
def vlan_rows (vlans : List ovsrec_vlan) : List Int → Option (List ovsrec_vlan)
  | [] => some []
  | vlan_id :: rest =>
    match vlans.find? (fun r => decide (r.id = vlan_id)), vlan_rows vlans rest with
    | some r, some rs => some (r :: rs)
    | _, _ => none

/-- The VLAN table with the VLANs 1, 10 and 20. -/
def vlans_1_10_20 : List ovsrec_vlan :=
  [{ id := 1, name := cstr "DEFAULT_VLAN_1" }, { id := 10, name := cstr "VLAN10" },
   { id := 20, name := cstr "VLAN20" }]

/-- The group `sprintf` writes with "%02x" for a byte passed as plain `char`
where `char` is signed: two digits below 0x80, and the eight digits of the
sign-extended value from 0x80 on. -/
def wwn_group (b : Nat) : CStr :=
  if b < 128 then hex_fixed 2 b else cstr "ffffff" ++ hex_fixed 2 b

/-- The IPv4 collision test of `l3_utils_is_ipaddr_overlapping` on the two
parsed addresses and their prefix lengths (lines 235-241 and 264-270): the
shorter prefix length is chosen, the mask is the all-ones value shifted left
by 32 minus that length, and the two masked addresses are compared; `none`
when the shift is undefined. -/
def ipv4_collision_test (input_ipv4_addr input_mask_bits port_ipv4_addr
    port_mask_bits : Nat) : Option Bool :=
  let mask_bits :=
    if input_mask_bits < port_mask_bits then input_mask_bits
    else port_mask_bits
  match shl32 IPV4_SUBNET_MASK_FULL
          (sub_uint IPV4_ADDR_BIT_LENGTH mask_bits) with
  | none => none
  | some mask =>
    some (decide (input_ipv4_addr &&& mask = port_ipv4_addr &&& mask))

/-- The address `x` lies in the range `a/p`: it is a 32-bit address with the
same first `p` bits as `a`. -/
def ipv4_in_range (a p x : Nat) : Prop :=
  x < 2 ^ 32 ∧ x / 2 ^ (32 - p) = a / 2 ^ (32 - p)

instance ipv4_in_range_decidable (a p x : Nat) : Decidable (ipv4_in_range a p x) :=
  inferInstanceAs (Decidable (_ ∧ _))

/-- The masking of an IPv6 address as one operation on its 128-bit value in
network order (the reference `l3_utils_mask_ipv6_addr` is compared with):
the last `128 - mask_bits` bits are cleared. -/
def mask_ipv6_addr_128 (ipv6_addr : List Nat) (mask_bits : Nat) : List Nat :=
  be_bytes 16
    (be_value ipv6_addr / 2 ^ (128 - mask_bits) * 2 ^ (128 - mask_bits))

/-- Port eth1 with the primary IPv4 address 192.168.1.1/24. -/
def port_eth1 : ovsrec_port :=
  { name := cstr "eth1", ip4_address := some (cstr "192.168.1.1/24") }

/-- Port eth0 with the primary address 10.0.0.1/24 and the secondary address
10.0.0.7/24. -/
def port_eth0_both : ovsrec_port :=
  { name := cstr "eth0", ip4_address := some (cstr "10.0.0.1/24"),
    ip4_address_secondary := [cstr "10.0.0.7/24"] }

/-- Port eth1 with the primary IPv4 address 10.0.0.9/24. -/
def port_eth1_9 : ovsrec_port :=
  { name := cstr "eth1", ip4_address := some (cstr "10.0.0.9/24") }

/-- Port eth10 with the primary IPv4 address 10.0.0.1/24. -/
def port_eth10 : ovsrec_port :=
  { name := cstr "eth10", ip4_address := some (cstr "10.0.0.1/24") }

/-- A VRF record "vrf_red" whose only source configuration is the port eth0
under the key "tftp2" of the source-interface map. -/
def vrf_red_tftp2 : ovsrec_vrf :=
  { uuid := ⟨0x550e8400, 0xe29b41d4, 0xa7164466, 0x55440000⟩,
    name := cstr "vrf_red", table_id := some 5,
    source_interface := [(cstr "tftp2", port_eth0)] }

/-- The path `vrf_setns_with_table_id` opens for a namespace name (lines
441-442): "/var/run/netns/" followed by what `snprintf` writes of the name
with the size `strlen (vrf_ns_name)`. -/
def vrf_setns_path (vrf_ns_name : CStr) : CStr :=
  cstr "/var/run/netns/" ++ snprintf (strlen vrf_ns_name) vrf_ns_name

/-- `vrf_setns_with_name`: the returned value and the state. -/
def vrf_setns_with_name (DEFAULT_VRF_NAME : CStr) (OVSDB_VRF_NAME_MAXLEN : Nat)
    (o : setns_outcome) (idl : List ovsrec_vrf) (vrf_name : Option CStr)
    (m : machine) : Int × machine :=
  let ns := get_vrf_ns_from_name DEFAULT_VRF_NAME OVSDB_VRF_NAME_MAXLEN idl
    vrf_name []
  if ns.1 = 0 then nl_setns_with_name o thread_id.caller ns.2 m
  else (-1, m)

/-- `vrf_setns_with_table_id`: the returned value and the state. -/
def vrf_setns_with_table_id (o : setns_outcome) (idl : List ovsrec_vrf)
    (table_id : Int) (m : machine) : Int × machine :=
  if table_id = 0 then (0, m)
  else
    let ns := get_vrf_ns_from_table_id idl table_id []
    if ns.1 ≠ 0 then (-1, m)
    else
      let opened := sys_open o.open_ok (vrf_setns_path ns.2) m
      if opened.1 = -1 then (-1, opened.2)
      else
        let joined := sys_setns o.setns_ok thread_id.caller opened.1 opened.2
        if joined.1 = -1 then (-1, (sys_close opened.1 joined.2).2)
        else (0, (sys_close opened.1 joined.2).2)

/-! ## ping-send.c -/

/-- The loop of `checksum` over the 16-bit words of the buffer, which the
little-endian host reads low byte first, followed by the addition of the
last byte when `len` is odd: the value of `sum` (an `unsigned int`) after
both; `none` for a read beyond the buffer. -/
def checksum_loop : List Nat → Int → Nat → Option Nat
  | lo :: hi :: rest, len, sum =>
    if len > 1 then
      checksum_loop rest (len - 2) ((sum + (lo + 256 * hi)) % 4294967296)
    else if len = 1 then some ((sum + lo) % 4294967296)
    else some sum
  | [c], len, sum =>
    if len > 1 then none
    else if len = 1 then some ((sum + c) % 4294967296)
    else some sum
  | [], len, sum =>
    if len > 1 then none
    else if len = 1 then none
    else some sum

/-- `checksum`: the two folding steps on the 32-bit sum, and the complement
cut to an `unsigned short`. -/
def checksum (b : List Nat) (len : Int) : Option Nat :=
  match checksum_loop b len 0 with
  | none => none
  | some sum0 =>
    let sum1 := ((sum0 >>> 16) + (sum0 &&& 0xFFFF)) % 4294967296
    let sum2 := (sum1 + (sum1 >>> 16)) % 4294967296
    some ((4294967295 - sum2) % 65536)

/-- The packet `ping4` builds before the checksum is stored: `ICMP_ECHO`
(8), code 0, checksum 0, id 1234 and sequence 1 as the host stores them, and
56 bytes of zero. -/
def ping4_packet : List Nat :=
  [8, 0, 0, 0, 0xd2, 0x04, 1, 0] ++ List.replicate 56 0

/-! ## Reference notions for the checksum -/

/-- The sum of the 16-bit words of a buffer as the host reads them, an odd
last byte counting as itself. -/
def word_sum : List Nat → Nat
  | lo :: hi :: rest => (lo + 256 * hi) + word_sum rest
  | [c] => c
  | [] => 0

/-- The one's-complement sum as a 16-bit value: the sum with the carries out
of the low 16 bits added back in, which is 0 for 0 and otherwise the value
from 1 to 65535 that the sum is congruent to modulo 65535. -/
def ones_complement_fold (s : Nat) : Nat :=
  if s = 0 then 0 else (s - 1) % 65535 + 1

/-- The bytes an `unsigned short` is stored as on the little-endian host. -/
def u16_bytes (v : Nat) : List Nat := [v % 256, v / 256 % 256]

/-- A kernel with two interfaces in the namespace "/var/run/netns/swns":
"verylongname015" (15 characters) of index 7 and "verylongname01" of
index 3. -/
def kernel_long_names : kernel :=
  { ifindex_of := fun ns name =>
      if ns = cstr "/var/run/netns/swns" ∧ name = cstr "verylongname015" then 7
      else if ns = cstr "/var/run/netns/swns" ∧ name = cstr "verylongname01"
        then 3
      else 0,
    ifname_of := fun ns ifindex =>
      if ns = cstr "/var/run/netns/swns" ∧ ifindex = 7 then
        some (cstr "verylongname015")
      else if ns = cstr "/var/run/netns/swns" ∧ ifindex = 3 then
        some (cstr "verylongname01")
      else none }

/-- `nl_close_ns_socket`: the descriptor is closed, the result of `close` is
not looked at, and true is returned. -/
def nl_close_ns_socket (_ns_name : CStr) (socket_fd : Int) (m : machine) :
    Bool × machine :=
  (true, (sys_close socket_fd m).2)

/-- `vrf_create_socket_using_table_id`, with `tdata0` the content of the
memory of the local `tdata` of `vrf_create_socket` on entry. -/
def vrf_create_socket_using_table_id (DEFAULT_VRF_NAME : CStr) (k : kernel)
    (o : op_outcome) (tdata0 : nlutils_op_data) (idl : List ovsrec_vrf)
    (table_id : Int) (params : vrf_sock_params) (m : machine) : outcome Int :=
  let ns := get_vrf_ns_from_table_id idl table_id []
  if ns.1 = 0 then
    vrf_create_socket DEFAULT_VRF_NAME k o tdata0 ns.2 params m
  else outcome.returned (-1) m

/-- `vrf_close_socket_using_table_id`: the returned value and the state. -/
def vrf_close_socket_using_table_id (idl : List ovsrec_vrf) (table_id : Int)
    (socket_fd : Int) (m : machine) : Int × machine :=
  match vrf_lookup_on_table_id idl table_id with
  | some vrf_row =>
    let closed := nl_close_ns_socket vrf_row.name socket_fd m
    if closed.1 = true then (0, closed.2) else (-1, closed.2)
  | none => (-1, m)

/-! ## Lemmas on the scan -/

theorem af_inet_ne_af_inet6 : AF_INET ≠ AF_INET6 := by decide

theorem secondary_loop_clear (equal : CStr → Option Bool) (l : List CStr)
    (h : ∀ a ∈ l, equal a = some false) :
    secondary_loop equal l = scan_step.next := by
  induction l with
  | nil => rfl
  | cons a rest ih =>
    have ha : equal a = some false := h a (List.mem_cons_self a rest)
    have hr : ∀ b ∈ rest, equal b = some false :=
      fun b hb => h b (List.mem_cons_of_mem a hb)
    simp [secondary_loop, ha, ih hr]

theorem secondary_loop_hit (equal : CStr → Option Bool)
    (before after : List CStr) (s : CStr)
    (hbefore : ∀ a ∈ before, equal a = some false)
    (hs : equal s = some true) :
    secondary_loop equal (before ++ s :: after) = scan_step.verdict true := by
  induction before with
  | nil => simp [secondary_loop, hs]
  | cons a rest ih =>
    have ha : equal a = some false := hbefore a (List.mem_cons_self a rest)
    have hr : ∀ b ∈ rest, equal b = some false :=
      fun b hb => hbefore b (List.mem_cons_of_mem a hb)
    simp [secondary_loop, ha, ih hr]

theorem ports_loop_clear (step : ovsrec_port → scan_step)
    (ports : List ovsrec_port)
    (h : ∀ p ∈ ports, step p = scan_step.next) :
    ports_loop step ports = some false := by
  induction ports with
  | nil => rfl
  | cons p rest ih =>
    have hp : step p = scan_step.next := h p (List.mem_cons_self p rest)
    have hr : ∀ q ∈ rest, step q = scan_step.next :=
      fun q hq => h q (List.mem_cons_of_mem p hq)
    simp [ports_loop, hp, ih hr]

theorem ports_loop_hit (step : ovsrec_port → scan_step)
    (before after : List ovsrec_port) (p : ovsrec_port) (b : Bool)
    (hbefore : ∀ q ∈ before, step q = scan_step.next)
    (hp : step p = scan_step.verdict b) :
    ports_loop step (before ++ p :: after) = some b := by
  induction before with
  | nil => simp [ports_loop, hp]
  | cons q rest ih =>
    have hq : step q = scan_step.next := hbefore q (List.mem_cons_self q rest)
    have hr : ∀ r ∈ rest, step r = scan_step.next :=
      fun r hr => hbefore r (List.mem_cons_of_mem q hr)
    simp [ports_loop, hq, ih hr]

/-- For IPv6 the loop body is `port_scan`. -/
theorem port_step_inet6 (ip_address if_name : CStr) (secondary : Bool)
    (p : ovsrec_port) :
    port_step ip_address if_name AF_INET6 secondary
        (l3_utils_mask_bits ip_address AF_INET6) p
      = port_scan AF_INET6 ip_address if_name secondary p := by
  have hc : collides AF_INET6 ip_address
      = ipv6_subnet_equal ip_address (l3_utils_mask_bits ip_address AF_INET6) := by
    funext a
    simp [collides]
  simp only [port_step, port_step6, port_scan, primary_address,
    secondary_addresses, if_true, hc]

/-- For IPv4 the loop body is `port_scan` when reading the candidate is
defined. -/
theorem port_step_inet (ip_address if_name : CStr) (secondary : Bool)
    (p : ovsrec_port) (input_ipv4_addr : Nat)
    (hin : l3_utils_ipv4_address ip_address = some input_ipv4_addr) :
    port_step ip_address if_name AF_INET secondary
        (l3_utils_mask_bits ip_address AF_INET) p
      = port_scan AF_INET ip_address if_name secondary p := by
  have hc : collides AF_INET ip_address
      = ipv4_masked_equal input_ipv4_addr
          (l3_utils_mask_bits ip_address AF_INET) := by
    funext a
    simp [collides, hin, af_inet_ne_af_inet6]
  simp only [port_step, port_step4, port_scan, primary_address,
    secondary_addresses, af_inet_ne_af_inet6, if_false, if_true, hin, hc]

/-- A collision with an IPv4 address is only defined when reading the
candidate is. -/
theorem collides_inet_defined (ip_address a : CStr) (b : Bool)
    (h : collides AF_INET ip_address a = some b) :
    ∃ v, l3_utils_ipv4_address ip_address = some v := by
  cases hv : l3_utils_ipv4_address ip_address with
  | none => simp [collides, hv, af_inet_ne_af_inet6] at h
  | some v => exact ⟨v, rfl⟩

/-- A port none of whose addresses collides lets the scan go on. -/
theorem port_scan_clear (addr_family : Nat) (ip_address if_name : CStr)
    (secondary : Bool) (p : ovsrec_port)
    (h : port_clear addr_family ip_address p) :
    port_scan addr_family ip_address if_name secondary p = scan_step.next := by
  obtain ⟨hp, hs⟩ := h
  unfold port_scan
  cases ha : primary_address addr_family p with
  | none => simpa using secondary_loop_clear _ _ hs
  | some a =>
    simpa [primary_step, hp a ha] using secondary_loop_clear _ _ hs

/-- A port whose primary address collides gives the verdict of
`primary_verdict`. -/
theorem port_scan_primary (addr_family : Nat) (ip_address if_name : CStr)
    (secondary : Bool) (p : ovsrec_port) (a : CStr)
    (ha : primary_address addr_family p = some a)
    (hc : collides addr_family ip_address a = some true) :
    port_scan addr_family ip_address if_name secondary p
      = scan_step.verdict (primary_verdict p.name if_name secondary) := by
  simp [port_scan, ha, primary_step, hc]

/-- A port whose first colliding address is a secondary one gives the
verdict true. -/
theorem port_scan_secondary (addr_family : Nat) (ip_address if_name : CStr)
    (secondary : Bool) (p : ovsrec_port) (before after : List CStr) (s : CStr)
    (hp : ∀ a, primary_address addr_family p = some a →
      collides addr_family ip_address a = some false)
    (hl : secondary_addresses addr_family p = before ++ s :: after)
    (hbefore : ∀ a ∈ before, collides addr_family ip_address a = some false)
    (hs : collides addr_family ip_address s = some true) :
    port_scan addr_family ip_address if_name secondary p
      = scan_step.verdict true := by
  unfold port_scan
  rw [hl]
  cases ha : primary_address addr_family p with
  | none => simpa using secondary_loop_hit _ before after s hbefore hs
  | some a =>
    simpa [primary_step, hp a ha] using
      secondary_loop_hit _ before after s hbefore hs

/-! ## Lemmas on `strncmp` -/

theorem strncmp_append_self (b t : CStr) :
    strncmp (b ++ t) b (strlen b) = 0 := by
  induction b with
  | nil => simp [strlen, strncmp]
  | cons x xs ih => simpa [strlen, strncmp] using ih

theorem strncmp_self (b : CStr) : strncmp b b (strlen b) = 0 := by
  simpa using strncmp_append_self b []

theorem strncmp_begins (a b : CStr) (hb : 0 ∉ b)
    (h : strncmp a b (strlen b) = 0) : b <+: a := by
  induction b generalizing a with
  | nil => exact List.nil_prefix
  | cons x xs ih =>
    have hx : x ≠ 0 := fun hx => hb (by simp [hx])
    have hxs : 0 ∉ xs := fun hm => hb (List.mem_cons_of_mem x hm)
    cases a with
    | nil =>
      simp only [strlen, List.length_cons, strncmp] at h
      omega
    | cons y ys =>
      simp only [strlen, List.length_cons, strncmp] at h
      by_cases hyx : y = x
      · subst hyx
        simp only [if_true] at h
        have := ih ys hxs h
        exact (List.prefix_cons_inj y).mpr this
      · simp only [hyx, if_false] at h
        omega

theorem strncmp_eq_zero_iff (a b : CStr) (n : Nat) (ha : 0 ∉ a) (hb : 0 ∉ b)
    (hla : a.length ≤ n) (hlb : b.length ≤ n) :
    strncmp a b n = 0 ↔ a = b := by
  induction n generalizing a b with
  | zero =>
    have h1 : a = [] := List.length_eq_zero.mp (Nat.le_zero.mp hla)
    have h2 : b = [] := List.length_eq_zero.mp (Nat.le_zero.mp hlb)
    simp [h1, h2, strncmp]
  | succ n ih =>
    cases a with
    | nil =>
      cases b with
      | nil => simp [strncmp]
      | cons y ys =>
        have hy : y ≠ 0 := fun hy => hb (by simp [hy])
        simp only [strncmp]
        constructor
        · intro h; omega
        · intro h; cases h
    | cons x xs =>
      have hx : x ≠ 0 := fun hx => ha (by simp [hx])
      have hxs : 0 ∉ xs := fun hm => ha (List.mem_cons_of_mem x hm)
      cases b with
      | nil =>
        simp only [strncmp]
        constructor
        · intro h; omega
        · intro h; cases h
      | cons y ys =>
        have hys : 0 ∉ ys := fun hm => hb (List.mem_cons_of_mem y hm)
        simp only [List.length_cons] at hla hlb
        simp only [strncmp]
        by_cases hxy : x = y
        · subst hxy
          simp only [if_true, List.cons.injEq, true_and]
          exact ih xs ys hxs hys (by omega) (by omega)
        · simp only [hxy, if_false, List.cons.injEq, false_and, iff_false]
          omega

theorem primary_verdict_own (if_name : CStr) :
    primary_verdict if_name if_name false = false := by
  simp [primary_verdict, strncmp_self]

theorem primary_verdict_secondary (port_name if_name : CStr) :
    primary_verdict port_name if_name true = true := by
  simp [primary_verdict]

theorem primary_verdict_other (port_name if_name : CStr) (secondary : Bool)
    (h0 : 0 ∉ if_name) (h : ¬ if_name <+: port_name) :
    primary_verdict port_name if_name secondary = true := by
  have : strncmp port_name if_name (strlen if_name) ≠ 0 :=
    fun hz => h (strncmp_begins port_name if_name h0 hz)
  simp [primary_verdict, this]

theorem ports_loop_false (step : ovsrec_port → scan_step)
    (ports : List ovsrec_port)
    (h : ∀ p ∈ ports, step p = scan_step.next ∨
      step p = scan_step.verdict false) :
    ports_loop step ports = some false := by
  induction ports with
  | nil => rfl
  | cons p rest ih =>
    have hr : ∀ q ∈ rest, step q = scan_step.next ∨
        step q = scan_step.verdict false :=
      fun q hq => h q (List.mem_cons_of_mem p hq)
    rcases h p (List.mem_cons_self p rest) with hp | hp
    · simp [ports_loop, hp, ih hr]
    · simp [ports_loop, hp]

/-! ## The overlap detector, IPv4 verdicts -/

/-- The detector is the loop over the ports with `port_scan` as its body,
for IPv6 always and for IPv4 when reading the candidate is defined. -/
theorem overlapping_eq_scan (ip_address if_name : CStr) (addr_family : Nat)
    (secondary : Bool) (vrf_row : ovsrec_vrf)
    (h : addr_family = AF_INET6 ∨
      (addr_family = AF_INET ∧ l3_utils_ipv4_address ip_address ≠ none)) :
    l3_utils_is_ipaddr_overlapping ip_address if_name addr_family secondary
        vrf_row
      = ports_loop (port_scan addr_family ip_address if_name secondary)
          vrf_row.ports := by
  have hstep : port_step ip_address if_name addr_family secondary
      (l3_utils_mask_bits ip_address addr_family)
      = port_scan addr_family ip_address if_name secondary := by
    funext p
    rcases h with h | ⟨h, hd⟩
    · subst h
      exact port_step_inet6 ip_address if_name secondary p
    · subst h
      cases hv : l3_utils_ipv4_address ip_address with
      | none => exact absurd hv hd
      | some v => exact port_step_inet ip_address if_name secondary p v hv
  simp only [l3_utils_is_ipaddr_overlapping, hstep]

/-- C1: a primary IPv4 candidate on interface I is accepted (the detector
returns false) when the only existing address of the VRF that collides with
it is the primary address of the port named I. -/
theorem primary_reconfiguration_is_no_conflict (ip_address if_name : CStr)
    (vrf_row : ovsrec_vrf) (p : ovsrec_port) (a : CStr)
    (hp : p ∈ vrf_row.ports) (hname : p.name = if_name)
    (ha : p.ip4_address = some a)
    (hc : collides AF_INET ip_address a = some true)
    (hsec : ∀ s ∈ p.ip4_address_secondary,
      collides AF_INET ip_address s = some false)
    (hothers : ∀ q ∈ vrf_row.ports, q ≠ p → port_clear AF_INET ip_address q) :
    l3_utils_is_ipaddr_overlapping ip_address if_name AF_INET false vrf_row
      = some false := by
  obtain ⟨v, hv⟩ := collides_inet_defined ip_address a true hc
  rw [overlapping_eq_scan _ _ _ _ _ (Or.inr ⟨rfl, by simp [hv]⟩)]
  apply ports_loop_false
  intro q hq
  by_cases hqp : q = p
  · right
    subst hqp
    have ha2 : primary_address AF_INET q = some a := by
      simp [primary_address, af_inet_ne_af_inet6, ha]
    rw [port_scan_primary AF_INET ip_address if_name false q a ha2 hc, hname,
      primary_verdict_own]
  · left
    exact port_scan_clear AF_INET ip_address if_name false q (hothers q hq hqp)

/-- C2: an IPv4 candidate on interface I, primary or secondary, is refused
(the detector returns true) when the first existing address in scan order
that collides with it is the primary address of a port whose name does not
begin with I. -/
theorem primary_of_other_interface_is_conflict (ip_address if_name : CStr)
    (secondary : Bool) (vrf_row : ovsrec_vrf)
    (before after : List ovsrec_port) (p : ovsrec_port) (a : CStr)
    (hports : vrf_row.ports = before ++ p :: after)
    (hbefore : ∀ q ∈ before, port_clear AF_INET ip_address q)
    (ha : p.ip4_address = some a)
    (hc : collides AF_INET ip_address a = some true)
    (hnul : 0 ∉ if_name) (hname : ¬ if_name <+: p.name) :
    l3_utils_is_ipaddr_overlapping ip_address if_name AF_INET secondary vrf_row
      = some true := by
  obtain ⟨v, hv⟩ := collides_inet_defined ip_address a true hc
  rw [overlapping_eq_scan _ _ _ _ _ (Or.inr ⟨rfl, by simp [hv]⟩), hports]
  apply ports_loop_hit
  · intro q hq
    exact port_scan_clear AF_INET ip_address if_name secondary q (hbefore q hq)
  · have ha2 : primary_address AF_INET p = some a := by
      simp [primary_address, af_inet_ne_af_inet6, ha]
    rw [port_scan_primary AF_INET ip_address if_name secondary p a ha2 hc,
      primary_verdict_other p.name if_name secondary hnul hname]

/-- C3: a secondary IPv4 candidate on interface I is refused (the detector
returns true) when the first existing address in scan order that collides
with it is the primary address of the port named I itself. -/
theorem secondary_on_own_primary_is_conflict (ip_address if_name : CStr)
    (vrf_row : ovsrec_vrf)
    (before after : List ovsrec_port) (p : ovsrec_port) (a : CStr)
    (hports : vrf_row.ports = before ++ p :: after)
    (hbefore : ∀ q ∈ before, port_clear AF_INET ip_address q)
    (hname : p.name = if_name)
    (ha : p.ip4_address = some a)
    (hc : collides AF_INET ip_address a = some true) :
    l3_utils_is_ipaddr_overlapping ip_address if_name AF_INET true vrf_row
      = some true := by
  obtain ⟨v, hv⟩ := collides_inet_defined ip_address a true hc
  rw [overlapping_eq_scan _ _ _ _ _ (Or.inr ⟨rfl, by simp [hv]⟩), hports]
  apply ports_loop_hit
  · intro q hq
    exact port_scan_clear AF_INET ip_address if_name true q (hbefore q hq)
  · have ha2 : primary_address AF_INET p = some a := by
      simp [primary_address, af_inet_ne_af_inet6, ha]
    rw [port_scan_primary AF_INET ip_address if_name true p a ha2 hc, hname,
      primary_verdict_secondary]

/-- C4: an IPv4 candidate, primary or secondary and on any interface name,
is refused (the detector returns true) when the first existing address in
scan order that collides with it is a secondary address of some port,
whatever the name of that port: the name of the port is not a hypothesis, so
the candidate's own interface is included. -/
theorem secondary_collision_is_conflict (ip_address if_name : CStr)
    (secondary : Bool) (vrf_row : ovsrec_vrf)
    (before after : List ovsrec_port) (p : ovsrec_port)
    (sbefore safter : List CStr) (s : CStr)
    (hports : vrf_row.ports = before ++ p :: after)
    (hbefore : ∀ q ∈ before, port_clear AF_INET ip_address q)
    (hprimary : ∀ a, p.ip4_address = some a →
      collides AF_INET ip_address a = some false)
    (hsecs : p.ip4_address_secondary = sbefore ++ s :: safter)
    (hsbefore : ∀ a ∈ sbefore, collides AF_INET ip_address a = some false)
    (hc : collides AF_INET ip_address s = some true) :
    l3_utils_is_ipaddr_overlapping ip_address if_name AF_INET secondary vrf_row
      = some true := by
  obtain ⟨v, hv⟩ := collides_inet_defined ip_address s true hc
  rw [overlapping_eq_scan _ _ _ _ _ (Or.inr ⟨rfl, by simp [hv]⟩), hports]
  apply ports_loop_hit
  · intro q hq
    exact port_scan_clear AF_INET ip_address if_name secondary q (hbefore q hq)
  · apply port_scan_secondary AF_INET ip_address if_name secondary p
      sbefore safter s
    · intro a h
      apply hprimary a
      simpa [primary_address, af_inet_ne_af_inet6] using h
    · simpa [secondary_addresses, af_inet_ne_af_inet6] using hsecs
    · exact hsbefore
    · exact hc

/-- C1 at the candidate 10.0.0.1/24 on eth0, against a VRF whose single port
eth0 has the primary address 10.0.0.1/24. -/
theorem primary_reconfiguration_is_no_conflict_witness :
    l3_utils_is_ipaddr_overlapping (cstr "10.0.0.1/24") (cstr "eth0") AF_INET
      false (vrf_with_ports [port_eth0]) = some false :=
  primary_reconfiguration_is_no_conflict (cstr "10.0.0.1/24") (cstr "eth0")
    (vrf_with_ports [port_eth0]) port_eth0 (cstr "10.0.0.1/24")
    (by simp [vrf_with_ports]) rfl rfl (by decide)
    (by simp [port_eth0]) (by simp [vrf_with_ports])

/-- C2 at the candidate 10.0.0.5/24 on eth1, against port eth0 with the
primary address 10.0.0.9/24. -/
theorem primary_of_other_interface_is_conflict_witness :
    l3_utils_is_ipaddr_overlapping (cstr "10.0.0.5/24") (cstr "eth1") AF_INET
      false (vrf_with_ports [port_eth0_9]) = some true :=
  primary_of_other_interface_is_conflict (cstr "10.0.0.5/24") (cstr "eth1")
    false (vrf_with_ports [port_eth0_9]) [] [] port_eth0_9 (cstr "10.0.0.9/24")
    rfl (by simp) rfl (by decide) (by decide) (by decide)

/-- C3 at the secondary candidate 10.0.0.1/24 on eth0, against port eth0
with the primary address 10.0.0.1/24. -/
theorem secondary_on_own_primary_is_conflict_witness :
    l3_utils_is_ipaddr_overlapping (cstr "10.0.0.1/24") (cstr "eth0") AF_INET
      true (vrf_with_ports [port_eth0]) = some true :=
  secondary_on_own_primary_is_conflict (cstr "10.0.0.1/24") (cstr "eth0")
    (vrf_with_ports [port_eth0]) [] [] port_eth0 (cstr "10.0.0.1/24")
    rfl (by simp) rfl rfl (by decide)

/-- C4 at the candidate 10.0.0.1/24 on eth0, against port eth0 itself, whose
primary address 10.0.1.1/24 and first secondary address 10.0.2.1/24 do not
collide and whose second secondary address 10.0.0.7/24 does. -/
theorem secondary_collision_is_conflict_witness :
    l3_utils_is_ipaddr_overlapping (cstr "10.0.0.1/24") (cstr "eth0") AF_INET
      false (vrf_with_ports [port_eth0_secondaries]) = some true :=
  secondary_collision_is_conflict (cstr "10.0.0.1/24") (cstr "eth0") false
    (vrf_with_ports [port_eth0_secondaries]) [] [] port_eth0_secondaries
    [cstr "10.0.2.1/24"] [] (cstr "10.0.0.7/24")
    rfl (by simp)
    (by intro a h; cases h; decide)
    rfl
    (by intro a h; simp at h; subst h; decide)
    (by decide)

/-- Reading an IPv4 candidate of at most `IP_ADDRESS_LENGTH` bytes is
defined. -/
theorem ipv4_address_defined (ip_addr : CStr)
    (h : ip_addr.length ≤ IP_ADDRESS_LENGTH) :
    l3_utils_ipv4_address ip_addr ≠ none := by
  have hl : ip_addr.length < IP_ADDRESS_LENGTH + 1 := by omega
  have hcut : ∃ t, strncpy_cut ip_addr (IP_ADDRESS_LENGTH + 1) = some t := by
    simp only [strncpy_cut]
    split
    · exact ⟨_, rfl⟩
    · rw [if_pos hl]
      exact ⟨_, rfl⟩
  obtain ⟨t, ht⟩ := hcut
  simp [l3_utils_ipv4_address, ht]

/-- C5: when no primary and no secondary address of the requested family on
any port of the VRF collides with the candidate, the detector returns false,
for every family, interface name and secondary flag (for IPv4 the candidate
string must be one the function can read into its 19-byte buffer); in
particular it returns false for a VRF with no ports, and for a VRF whose
ports carry no address of the family. -/
theorem no_collision_is_no_conflict :
    (∀ (ip_address if_name : CStr) (addr_family : Nat) (secondary : Bool)
        (vrf_row : ovsrec_vrf),
      (∀ p ∈ vrf_row.ports, port_clear addr_family ip_address p) →
      (addr_family = AF_INET → l3_utils_ipv4_address ip_address ≠ none) →
      l3_utils_is_ipaddr_overlapping ip_address if_name addr_family secondary
        vrf_row = some false) ∧
    (∀ (ip_address if_name : CStr) (addr_family : Nat) (secondary : Bool)
        (vrf_row : ovsrec_vrf),
      vrf_row.ports = [] →
      l3_utils_is_ipaddr_overlapping ip_address if_name addr_family secondary
        vrf_row = some false) ∧
    (∀ (ip_address if_name : CStr) (addr_family : Nat) (secondary : Bool)
        (vrf_row : ovsrec_vrf),
      (∀ p ∈ vrf_row.ports, primary_address addr_family p = none ∧
        secondary_addresses addr_family p = []) →
      (addr_family = AF_INET → l3_utils_ipv4_address ip_address ≠ none) →
      l3_utils_is_ipaddr_overlapping ip_address if_name addr_family secondary
        vrf_row = some false) := by
  have main : ∀ (ip_address if_name : CStr) (addr_family : Nat)
      (secondary : Bool) (vrf_row : ovsrec_vrf),
      (∀ p ∈ vrf_row.ports, port_clear addr_family ip_address p) →
      (addr_family = AF_INET → l3_utils_ipv4_address ip_address ≠ none) →
      l3_utils_is_ipaddr_overlapping ip_address if_name addr_family secondary
        vrf_row = some false := by
    intro ip_address if_name addr_family secondary vrf_row hclear hdef
    by_cases h6 : addr_family = AF_INET6
    · rw [overlapping_eq_scan _ _ _ _ _ (Or.inl h6)]
      exact ports_loop_clear _ _
        (fun p hp => port_scan_clear _ _ _ _ p (hclear p hp))
    · by_cases h4 : addr_family = AF_INET
      · rw [overlapping_eq_scan _ _ _ _ _ (Or.inr ⟨h4, hdef h4⟩)]
        exact ports_loop_clear _ _
          (fun p hp => port_scan_clear _ _ _ _ p (hclear p hp))
      · unfold l3_utils_is_ipaddr_overlapping
        apply ports_loop_clear
        intro p _
        simp [port_step, h6, h4]
  refine ⟨main, ?_, ?_⟩
  · intro ip_address if_name addr_family secondary vrf_row hports
    simp [l3_utils_is_ipaddr_overlapping, hports, ports_loop]
  · intro ip_address if_name addr_family secondary vrf_row hnone hdef
    apply main _ _ _ _ _ _ hdef
    intro p hp
    obtain ⟨h1, h2⟩ := hnone p hp
    refine ⟨?_, ?_⟩
    · intro a ha
      rw [h1] at ha
      cases ha
    · intro a ha
      rw [h2] at ha
      cases ha

/-- C5 at the candidate 10.0.1.5/24 on eth1, against a VRF with the ports
eth0 (primary 10.0.0.9/24) and eth2 (an IPv6 address only). -/
theorem no_collision_is_no_conflict_witness :
    l3_utils_is_ipaddr_overlapping (cstr "10.0.1.5/24") (cstr "eth1") AF_INET
      false (vrf_with_ports [port_eth0_9, port_eth2_v6]) = some false :=
  no_collision_is_no_conflict.1 (cstr "10.0.1.5/24") (cstr "eth1") AF_INET
    false (vrf_with_ports [port_eth0_9, port_eth2_v6])
    (by
      intro p hp
      simp [vrf_with_ports] at hp
      rcases hp with hp | hp
      · subst hp
        refine ⟨?_, ?_⟩
        · intro a h; cases h; decide
        · intro a h; cases h
      · subst hp
        refine ⟨?_, ?_⟩
        · intro a h; cases h
        · intro a h; cases h)
    (by intro _; decide)

/-! ## `l3_utils_mask_bits` -/

theorem strchr_none (s : CStr) (c : Nat) (h : c ∉ s) : strchr s c = none := by
  induction s with
  | nil => rfl
  | cons a rest ih =>
    have ha : a ≠ c := fun e => h (by simp [e])
    have hr : c ∉ rest := fun hm => h (List.mem_cons_of_mem a hm)
    simp [strchr, ha, ih hr]

theorem strchr_first (s t : CStr) (c : Nat) (h : c ∉ s) :
    strchr (s ++ c :: t) c = some (c :: t) := by
  induction s with
  | nil => simp [strchr]
  | cons a rest ih =>
    have ha : a ≠ c := fun e => h (by simp [e])
    have hr : c ∉ rest := fun hm => h (List.mem_cons_of_mem a hm)
    simp [strchr, ha, ih hr]

/-- `atoi` of a string of decimal digits whose value fits 32 bits, stored
in an `unsigned int`, is the value of the digits. -/
theorem to_uint_atoi_digits (digits : CStr)
    (hd : ∀ d ∈ digits, isdigit d = true)
    (hv : decimal_value digits < 4294967296) :
    to_uint (atoi digits) = decimal_value digits := by
  have hdrop : digits.dropWhile isspace = digits := by
    cases digits with
    | nil => rfl
    | cons d ds =>
      have h1 := hd d (List.mem_cons_self d ds)
      have h2 : isspace d = false := by
        simp only [isdigit, Bool.and_eq_true, decide_eq_true_eq] at h1
        simp only [isspace, Bool.or_eq_false_iff, decide_eq_false_iff_not,
          Bool.and_eq_false_iff]
        omega
      simp [List.dropWhile, h2]
  have hhead : ¬ (digits.head? = some 45 ∨ digits.head? = some 43) := by
    cases digits with
    | nil => simp
    | cons d ds =>
      have h1 := hd d (List.mem_cons_self d ds)
      simp only [isdigit, Bool.and_eq_true, decide_eq_true_eq] at h1
      simp only [List.head?_cons, Option.some.injEq]
      omega
  have hneg : ¬ (digits.head? = some 45) := fun h => hhead (Or.inl h)
  have htake : digits.takeWhile isdigit = digits :=
    List.takeWhile_eq_self_iff.mpr hd
  have h43 : ¬ (digits.head? = some 43) := fun h => hhead (Or.inr h)
  simp only [atoi, hdrop, hneg, h43, or_self, if_false, htake, decide_False,
    Bool.false_eq_true, to_uint, long_to_int]
  have hmin : min (decimal_value digits : Int) 9223372036854775807
      = (decimal_value digits : Int) := by
    apply min_eq_left
    omega
  rw [hmin]
  omega


/-- C7 (amended): `l3_utils_mask_bits` returns 32 for every IPv4 address
string without a '/' and 128 for every IPv6 address string without a '/';
for a string ADDR/N, with no '/' in ADDR and N a run of decimal digits whose
value is below 2 ^ 32, it returns that value, whatever the family. -/
theorem mask_bits_value :
    (∀ s : CStr, 47 ∉ s →
      l3_utils_mask_bits s AF_INET = 32 ∧
      l3_utils_mask_bits s AF_INET6 = 128) ∧
    (∀ (addr digits : CStr) (family : Nat), 47 ∉ addr →
      (∀ d ∈ digits, isdigit d = true) →
      decimal_value digits < 4294967296 →
      l3_utils_mask_bits (addr ++ 47 :: digits) family
        = decimal_value digits) := by
  refine ⟨?_, ?_⟩
  · intro s hs
    simp [l3_utils_mask_bits, strchr_none s 47 hs, af_inet_ne_af_inet6.symm,
      IPV4_BITLENGTH_MAX, IPV6_BITLENGTH_MAX]
  · intro addr digits family haddr hd hv
    simp [l3_utils_mask_bits, strchr_first addr digits 47 haddr,
      to_uint_atoi_digits digits hd hv]

/-- C7 (amended) at the string 10.0.0.1/24. -/
theorem mask_bits_value_witness :
    l3_utils_mask_bits (cstr "10.0.0.1/24") AF_INET = 24 :=
  mask_bits_value.2 (cstr "10.0.0.1") (cstr "24") AF_INET (by decide)
    (by decide) (by decide)

/-- C7 as stated fails for a number that does not fit an `unsigned int`:
for "10.0.0.1/4294967296", whose suffix is the decimal number 4294967296,
the function returns 0. -/
theorem mask_bits_counterexample :
    decimal_value (cstr "4294967296") = 4294967296 ∧
    l3_utils_mask_bits (cstr "10.0.0.1/4294967296") AF_INET = 0 ∧
    l3_utils_mask_bits (cstr "10.0.0.1/4294967296") AF_INET ≠ 4294967296 := by
  decide

/-! ## Hexadecimal text and the string form of a UUID -/

theorem hex_fixed_length (w n : Nat) : (hex_fixed w n).length = w := by
  induction w generalizing n with
  | zero => rfl
  | succ w ih => simp [hex_fixed, ih]

theorem hex_fixed_zero (w : Nat) : hex_fixed w 0 = List.replicate w 48 := by
  induction w with
  | zero => rfl
  | succ w ih =>
    simp only [hex_fixed, Nat.zero_div, ih, Nat.zero_mod]
    rw [List.replicate_succ']
    rfl

/-- The digits `sprintf` writes for "%x", padded with '0' to a width the
value fits, are the fixed-width digits. -/
theorem to_digits_padded (w : Nat) :
    ∀ (n fuel : Nat), n < 16 ^ (w + 1) → n < fuel →
      (to_digits 16 fuel n).length ≤ w + 1 ∧
      List.replicate (w + 1 - (to_digits 16 fuel n).length) 48 ++
          (to_digits 16 fuel n).map digit_char
        = hex_fixed (w + 1) n := by
  induction w with
  | zero =>
    intro n fuel hn hf
    cases fuel with
    | zero => omega
    | succ f =>
      have hn16 : n < 16 := by simpa using hn
      simp [to_digits, hn16, hex_fixed, Nat.mod_eq_of_lt hn16]
  | succ w ih =>
    intro n fuel hn hf
    cases fuel with
    | zero => omega
    | succ f =>
      by_cases hn16 : n < 16
      · have hdiv : n / 16 = 0 := Nat.div_eq_of_lt hn16
        simp only [to_digits, hn16, if_true, List.length_singleton,
          List.map_cons, List.map_nil]
        refine ⟨by omega, ?_⟩
        rw [hex_fixed, hdiv, hex_fixed_zero, Nat.mod_eq_of_lt hn16]
        simp
      · have hdiv : n / 16 < 16 ^ (w + 1) := by
          rw [Nat.div_lt_iff_lt_mul (by norm_num)]
          rw [pow_succ] at hn
          exact hn
        have hf2 : n / 16 < f := by omega
        obtain ⟨hlen, heq⟩ := ih (n / 16) f hdiv hf2
        simp only [to_digits, hn16, if_false, List.length_append,
          List.length_singleton, List.map_append, List.map_cons, List.map_nil]
        refine ⟨by omega, ?_⟩
        rw [hex_fixed, ← heq]
        have : w + 1 + 1 - ((to_digits 16 f (n / 16)).length + 1)
            = w + 1 - (to_digits 16 f (n / 16)).length := by omega
        rw [this, List.append_assoc]

theorem printf_0x_eq_hex_fixed (w n : Nat) (hw : 0 < w) (hn : n < 16 ^ w) :
    printf_0x w n = hex_fixed w n := by
  obtain ⟨k, rfl⟩ : ∃ k, w = k + 1 := ⟨w - 1, by omega⟩
  have h := (to_digits_padded k n (n + 1) hn (by omega)).2
  simpa [printf_0x, printf_x] using h

theorem uuid_printf_eq_canonical (u : uuid) (h : uuid_wf u) :
    uuid_printf u = uuid_canonical u := by
  obtain ⟨h0, h1, h2, h3⟩ := h
  have e1 : u.parts1 >>> 16 = u.parts1 / 65536 := by
    rw [Nat.shiftRight_eq_div_pow]
  have e2 : u.parts2 >>> 16 = u.parts2 / 65536 := by
    rw [Nat.shiftRight_eq_div_pow]
  have a1 : u.parts1 &&& 65535 = u.parts1 % 65536 :=
    Nat.and_pow_two_sub_one_eq_mod u.parts1 16
  have a2 : u.parts2 &&& 65535 = u.parts2 % 65536 :=
    Nat.and_pow_two_sub_one_eq_mod u.parts2 16
  have m0 : u.parts0 % 4294967296 = u.parts0 := Nat.mod_eq_of_lt h0
  have m3 : u.parts3 % 4294967296 = u.parts3 := Nat.mod_eq_of_lt h3
  have m1 : u.parts1 / 65536 % 4294967296 = u.parts1 / 65536 :=
    Nat.mod_eq_of_lt (by omega)
  have m2 : u.parts2 / 65536 % 4294967296 = u.parts2 / 65536 :=
    Nat.mod_eq_of_lt (by omega)
  have m1b : u.parts1 % 65536 % 4294967296 = u.parts1 % 65536 :=
    Nat.mod_eq_of_lt (by omega)
  have m2b : u.parts2 % 65536 % 4294967296 = u.parts2 % 65536 :=
    Nat.mod_eq_of_lt (by omega)
  simp only [uuid_printf, uuid_canonical, e1, e2, a1, a2, m0, m3, m1, m2,
    m1b, m2b]
  rw [printf_0x_eq_hex_fixed 8 u.parts0 (by norm_num) (by norm_num; exact h0),
    printf_0x_eq_hex_fixed 8 u.parts3 (by norm_num) (by norm_num; exact h3),
    printf_0x_eq_hex_fixed 4 (u.parts1 / 65536) (by norm_num)
      (by norm_num; omega),
    printf_0x_eq_hex_fixed 4 (u.parts2 / 65536) (by norm_num)
      (by norm_num; omega),
    printf_0x_eq_hex_fixed 4 (u.parts1 % 65536) (by norm_num)
      (by norm_num; omega),
    printf_0x_eq_hex_fixed 4 (u.parts2 % 65536) (by norm_num)
      (by norm_num; omega)]

theorem uuid_canonical_length (u : uuid) : (uuid_canonical u).length = 36 := by
  simp [uuid_canonical, hex_fixed_length]

theorem snprintf_uuid (u : uuid) (h : uuid_wf u) :
    snprintf (UUID_LEN + 1) (uuid_printf u) = uuid_canonical u := by
  rw [uuid_printf_eq_canonical u h, snprintf]
  apply List.take_of_length_le
  rw [uuid_canonical_length]
  decide

theorem snprintf_switch_namespace :
    snprintf (strlen SWITCH_NAMESPACE + 1) SWITCH_NAMESPACE = cstr "swns" := by
  decide

/-! ## The VRF resolver -/

theorem find_first (l before after : List ovsrec_vrf) (r : ovsrec_vrf)
    (p : ovsrec_vrf → Bool) (hl : l = before ++ r :: after)
    (hbefore : ∀ q ∈ before, p q = false) (hr : p r = true) :
    l.find? p = some r := by
  subst hl
  induction before with
  | nil => simp [List.find?, hr]
  | cons q rest ih =>
    have hq : p q = false := hbefore q (List.mem_cons_self q rest)
    have hrest : ∀ x ∈ rest, p x = false :=
      fun x hx => hbefore x (List.mem_cons_of_mem q hx)
    simp [List.find?, hq, ih hrest]

theorem find_unique (l : List ovsrec_vrf) (r : ovsrec_vrf)
    (p : ovsrec_vrf → Bool) (hmem : r ∈ l)
    (huniq : ∀ q ∈ l, p q = true → q = r) (hr : p r = true) :
    l.find? p = some r := by
  induction l with
  | nil => cases hmem
  | cons q rest ih =>
    by_cases hq : p q = true
    · have : q = r := huniq q (List.mem_cons_self q rest) hq
      subst this
      simp [List.find?, hr]
    · have hq2 : p q = false := by simpa using hq
      have hne : q ≠ r := fun e => hq (e ▸ hr)
      have hmem2 : r ∈ rest := by
        rcases List.mem_cons.mp hmem with h | h
        · exact absurd h.symm hne
        · exact h
      have huniq2 : ∀ x ∈ rest, p x = true → x = r :=
        fun x hx => huniq x (List.mem_cons_of_mem q hx)
      simp [List.find?, hq2, ih hmem2 huniq2]

theorem is_nondefault_vrf_default (DEFAULT_VRF_NAME : CStr) :
    is_nondefault_vrf DEFAULT_VRF_NAME (some DEFAULT_VRF_NAME) = false := by
  simp [is_nondefault_vrf, strncmp_self]

theorem is_nondefault_vrf_switch_namespace (DEFAULT_VRF_NAME : CStr) :
    is_nondefault_vrf DEFAULT_VRF_NAME (some SWITCH_NAMESPACE) = false := by
  simp [is_nondefault_vrf, strncmp_self]

theorem is_nondefault_vrf_other (DEFAULT_VRF_NAME name : CStr)
    (hD : 0 ∉ DEFAULT_VRF_NAME)
    (hswns : ¬ SWITCH_NAMESPACE <+: name)
    (hdef : ¬ DEFAULT_VRF_NAME <+: name) :
    is_nondefault_vrf DEFAULT_VRF_NAME (some name) = true := by
  have h1 : strncmp name SWITCH_NAMESPACE (strlen SWITCH_NAMESPACE) ≠ 0 :=
    fun hz => hswns (strncmp_begins name SWITCH_NAMESPACE (by decide) hz)
  have h2 : strncmp name DEFAULT_VRF_NAME (strlen DEFAULT_VRF_NAME) ≠ 0 :=
    fun hz => hdef (strncmp_begins name DEFAULT_VRF_NAME hD hz)
  simp [is_nondefault_vrf, h1, h2]

/-- C8: whatever the VRF table holds, empty or not, `get_vrf_ns_from_table_id`
with table_id 0 and `get_vrf_ns_from_name` with the reserved default VRF
name both return 0 and both leave the default namespace name "swns" in the
output buffer: the result does not depend on the table. -/
theorem default_vrf_resolves_to_switch_namespace (DEFAULT_VRF_NAME : CStr)
    (OVSDB_VRF_NAME_MAXLEN : Nat) (idl : List ovsrec_vrf) (buf1 buf2 : CStr) :
    get_vrf_ns_from_table_id idl 0 buf1 = (0, cstr "swns") ∧
    get_vrf_ns_from_name DEFAULT_VRF_NAME OVSDB_VRF_NAME_MAXLEN idl
      (some DEFAULT_VRF_NAME) buf2 = (0, cstr "swns") := by
  refine ⟨?_, ?_⟩
  · simp [get_vrf_ns_from_table_id, snprintf_switch_namespace]
  · simp [get_vrf_ns_from_name, is_nondefault_vrf_default,
      snprintf_switch_namespace]

/-- C9: for a non-zero table_id t, when the first record of the VRF table
whose table_id is set and equal to t has UUID U, `get_vrf_ns_from_table_id`
returns 0 and leaves in the output buffer the canonical text of U, which has
36 characters; the result does not depend on what the buffer held, so
repeated calls against the same table give the same name. -/
theorem table_id_resolves_to_uuid (idl before after : List ovsrec_vrf)
    (r : ovsrec_vrf) (t : Int) (buf : CStr)
    (ht : t ≠ 0) (hidl : idl = before ++ r :: after)
    (hbefore : ∀ q ∈ before, q.table_id ≠ some t)
    (hr : r.table_id = some t) (hwf : uuid_wf r.uuid) :
    get_vrf_ns_from_table_id idl t buf = (0, uuid_canonical r.uuid) ∧
    (uuid_canonical r.uuid).length = 36 ∧
    ∀ buf2 : CStr, get_vrf_ns_from_table_id idl t buf2
      = get_vrf_ns_from_table_id idl t buf := by
  have hfind : vrf_lookup_on_table_id idl t = some r := by
    apply find_first idl before after r _ hidl
    · intro q hq
      have := hbefore q hq
      cases hqt : q.table_id with
      | none => rfl
      | some x =>
        have hx : x ≠ t := fun e => this (by rw [hqt, e])
        simp [hx]
    · simp [hr]
  have hval : ∀ b : CStr,
      get_vrf_ns_from_table_id idl t b = (0, uuid_canonical r.uuid) := by
    intro b
    simp [get_vrf_ns_from_table_id, ht, hfind, snprintf_uuid r.uuid hwf]
  exact ⟨hval buf, uuid_canonical_length r.uuid,
    fun b => by rw [hval b, hval buf]⟩

/-- C9 at table_id 5 in a table whose second record carries it. -/
theorem table_id_resolves_to_uuid_witness :
    get_vrf_ns_from_table_id [vrf_blue, vrf_red, vrf_named_swns] 5 []
      = (0, cstr "550e8400-e29b-41d4-a716-446655440000") :=
  (table_id_resolves_to_uuid [vrf_blue, vrf_red, vrf_named_swns] [vrf_blue]
    [vrf_named_swns] vrf_red 5 [] (by decide) rfl
    (by intro q hq; simp at hq; subst hq; decide) rfl
    (by unfold uuid_wf; decide)).1

/-- C10 (amended): for every record of the VRF table whose name begins
neither with the reserved default VRF name nor with the default namespace
name "swns" (names in the table being unique, and no longer than
`OVSDB_VRF_NAME_MAXLEN`), `get_vrf_ns_from_name` called with that name
returns 0 and leaves the canonical text of that record's UUID in the output
buffer, which is not the default namespace name; the reserved name and the
name "swns" both resolve to the default namespace "swns". -/
theorem vrf_name_resolves_to_uuid (DEFAULT_VRF_NAME : CStr)
    (OVSDB_VRF_NAME_MAXLEN : Nat) (idl : List ovsrec_vrf) (r : ovsrec_vrf)
    (buf : CStr)
    (hD : 0 ∉ DEFAULT_VRF_NAME) (hr : r ∈ idl)
    (hnames : ∀ q ∈ idl, 0 ∉ q.name ∧ q.name.length ≤ OVSDB_VRF_NAME_MAXLEN)
    (huniq : ∀ q ∈ idl, q.name = r.name → q = r)
    (hswns : ¬ SWITCH_NAMESPACE <+: r.name)
    (hdef : ¬ DEFAULT_VRF_NAME <+: r.name)
    (hwf : uuid_wf r.uuid) :
    get_vrf_ns_from_name DEFAULT_VRF_NAME OVSDB_VRF_NAME_MAXLEN idl
        (some r.name) buf = (0, uuid_canonical r.uuid) ∧
    uuid_canonical r.uuid ≠ cstr "swns" ∧
    get_vrf_ns_from_name DEFAULT_VRF_NAME OVSDB_VRF_NAME_MAXLEN idl
        (some DEFAULT_VRF_NAME) buf = (0, cstr "swns") ∧
    get_vrf_ns_from_name DEFAULT_VRF_NAME OVSDB_VRF_NAME_MAXLEN idl
        (some SWITCH_NAMESPACE) buf = (0, cstr "swns") := by
  have hfind : vrf_lookup OVSDB_VRF_NAME_MAXLEN idl r.name = some r := by
    apply find_unique idl r _ hr
    · intro q hq hp
      have hz : strncmp q.name r.name OVSDB_VRF_NAME_MAXLEN = 0 := by
        simpa using hp
      exact huniq q hq
        ((strncmp_eq_zero_iff q.name r.name OVSDB_VRF_NAME_MAXLEN
          (hnames q hq).1 (hnames r hr).1 (hnames q hq).2 (hnames r hr).2).mp hz)
    · have : strncmp r.name r.name OVSDB_VRF_NAME_MAXLEN = 0 :=
        (strncmp_eq_zero_iff r.name r.name OVSDB_VRF_NAME_MAXLEN
          (hnames r hr).1 (hnames r hr).1 (hnames r hr).2 (hnames r hr).2).mpr rfl
      simpa using this
  refine ⟨?_, ?_, ?_, ?_⟩
  · simp [get_vrf_ns_from_name,
      is_nondefault_vrf_other DEFAULT_VRF_NAME r.name hD hswns hdef, hfind,
      snprintf_uuid r.uuid hwf]
  · intro h
    have := uuid_canonical_length r.uuid
    rw [h] at this
    revert this
    decide
  · simp [get_vrf_ns_from_name, is_nondefault_vrf_default,
      snprintf_switch_namespace]
  · simp [get_vrf_ns_from_name, is_nondefault_vrf_switch_namespace,
      snprintf_switch_namespace]

/-- C10 (amended) at the record named "vrf_red", with the reserved name
"vrf_default" and names of at most 32 characters. -/
theorem vrf_name_resolves_to_uuid_witness :
    get_vrf_ns_from_name (cstr "vrf_default") 32 [vrf_blue, vrf_red]
        (some (cstr "vrf_red")) []
      = (0, cstr "550e8400-e29b-41d4-a716-446655440000") :=
  (vrf_name_resolves_to_uuid (cstr "vrf_default") 32 [vrf_blue, vrf_red]
    vrf_red [] (by decide) (by simp)
    (by intro q hq; simp at hq; rcases hq with h | h <;> subst h <;> decide)
    (by intro q hq; simp at hq; rcases hq with h | h <;> subst h <;> decide)
    (by decide) (by decide) (by unfold uuid_wf; decide)).1

/-- C10 as stated fails: with the reserved name "vrf_default", a record
named "swns", a name different from the reserved one, is in the table, and
`get_vrf_ns_from_name` called with that name leaves the default namespace
name "swns" in the buffer, not the text of the record's UUID. -/
theorem vrf_name_counterexample :
    vrf_named_swns.name ≠ cstr "vrf_default" ∧
    get_vrf_ns_from_name (cstr "vrf_default") 32 [vrf_named_swns]
        (some vrf_named_swns.name) [] = (0, cstr "swns") ∧
    get_vrf_ns_from_name (cstr "vrf_default") 32 [vrf_named_swns]
        (some vrf_named_swns.name) []
      ≠ (0, uuid_printf vrf_named_swns.uuid) := by
  decide

/-! ## Bytes and integers -/

theorem le_bytes_length (n v : Nat) : (le_bytes n v).length = n := by
  induction n generalizing v with
  | zero => rfl
  | succ n ih => simp [le_bytes, ih]

theorem le_bytes_wf (n v : Nat) : bytes_wf (le_bytes n v) := by
  induction n generalizing v with
  | zero => intro b hb; cases hb
  | succ n ih =>
    intro b hb
    simp only [le_bytes, List.mem_cons] at hb
    rcases hb with hb | hb
    · subst hb
      exact Nat.mod_lt _ (by norm_num)
    · exact ih (v / 256) b hb

theorem le_value_le_bytes (n v : Nat) (h : v < 256 ^ n) :
    le_value (le_bytes n v) = v := by
  induction n generalizing v with
  | zero =>
    simp only [pow_zero, Nat.lt_one_iff] at h
    simp [le_bytes, le_value, h]
  | succ n ih =>
    have h2 : v / 256 < 256 ^ n := by
      rw [Nat.div_lt_iff_lt_mul (by norm_num)]
      rw [pow_succ] at h
      exact h
    simp only [le_bytes, le_value, ih (v / 256) h2]
    omega

theorem le_bytes_le_value (l : List Nat) (h : bytes_wf l) :
    le_bytes l.length (le_value l) = l := by
  induction l with
  | nil => rfl
  | cons b bs ih =>
    have hb : b < 256 := h b (List.mem_cons_self b bs)
    have hbs : bytes_wf bs := fun x hx => h x (List.mem_cons_of_mem b hx)
    have e1 : (b + 256 * le_value bs) % 256 = b := by omega
    have e2 : (b + 256 * le_value bs) / 256 = le_value bs := by omega
    simp only [List.length_cons, le_bytes, le_value, e1, e2, ih hbs]

theorem le_value_lt (l : List Nat) (h : bytes_wf l) :
    le_value l < 256 ^ l.length := by
  induction l with
  | nil => simp [le_value]
  | cons b bs ih =>
    have hb : b < 256 := h b (List.mem_cons_self b bs)
    have hbs : bytes_wf bs := fun x hx => h x (List.mem_cons_of_mem b hx)
    have := ih hbs
    simp only [le_value, List.length_cons, pow_succ]
    omega

theorem le_value_append (l r : List Nat) :
    le_value (l ++ r) = le_value l + 256 ^ l.length * le_value r := by
  induction l with
  | nil => simp [le_value]
  | cons b bs ih =>
    rw [List.cons_append, le_value, le_value, ih, List.length_cons, pow_succ]
    ring

theorem bytes_wf_reverse (l : List Nat) (h : bytes_wf l) : bytes_wf l.reverse :=
  fun b hb => h b (List.mem_reverse.mp hb)

theorem bytes_wf_take (l : List Nat) (n : Nat) (h : bytes_wf l) :
    bytes_wf (l.take n) :=
  fun b hb => h b (List.mem_of_mem_take hb)

theorem bytes_wf_drop (l : List Nat) (n : Nat) (h : bytes_wf l) :
    bytes_wf (l.drop n) :=
  fun b hb => h b (List.mem_of_mem_drop hb)

theorem be_value_lt (l : List Nat) (h : bytes_wf l) :
    be_value l < 256 ^ l.length := by
  have := le_value_lt l.reverse (bytes_wf_reverse l h)
  simpa [be_value] using this

/-- The big-endian value of a 16-byte address in terms of its two halves. -/
theorem be_value_halves (l : List Nat) :
    be_value l = be_value (l.take 8) * 256 ^ (l.drop 8).length
      + be_value (l.drop 8) := by
  conv_lhs => rw [← List.take_append_drop 8 l]
  simp only [be_value, List.reverse_append, le_value_append,
    List.length_reverse]
  ring

/-- `bswap_64` of eight bytes read from memory is their big-endian value. -/
theorem bswap_64_le_value (l : List Nat) (h : bytes_wf l) (hl : l.length = 8) :
    bswap_64 (le_value l) = be_value l := by
  have := le_bytes_le_value l h
  rw [hl] at this
  simp [bswap_64, be_value, this]

/-- The eight bytes `bswap_64 v` has in memory are the big-endian bytes of
`v`. -/
theorem le_bytes_bswap_64 (v : Nat) :
    le_bytes 8 (bswap_64 v) = (le_bytes 8 v).reverse := by
  have h := le_bytes_le_value (le_bytes 8 v).reverse
    (bytes_wf_reverse _ (le_bytes_wf 8 v))
  simpa [bswap_64, le_bytes_length] using h

theorem le_bytes_injective (n v w : Nat) (hv : v < 256 ^ n) (hw : w < 256 ^ n)
    (h : le_bytes n v = le_bytes n w) : v = w := by
  rw [← le_value_le_bytes n v hv, ← le_value_le_bytes n w hw, h]

/-- Masking with the all-ones value shifted left by `k` clears the low `k`
bits. -/
theorem and_shifted_ones (x k : Nat) (hx : x < 2 ^ 64) (hk : k < 64) :
    x &&& ((18446744073709551615 <<< k) % 18446744073709551616)
      = x / 2 ^ k * 2 ^ k := by
  have e1 : (18446744073709551615 : Nat) = 2 ^ 64 - 1 := by norm_num
  have e2 : (18446744073709551616 : Nat) = 2 ^ 64 := by norm_num
  rw [e1, e2]
  apply Nat.eq_of_testBit_eq
  intro i
  rw [← Nat.shiftRight_eq_div_pow, ← Nat.shiftLeft_eq]
  simp only [Nat.testBit_and, Nat.testBit_mod_two_pow, Nat.testBit_shiftLeft,
    Nat.testBit_two_pow_sub_one, Nat.testBit_shiftRight]
  by_cases hik : k ≤ i
  · by_cases hi : i < 64
    · have h1 : i - k < 64 := by omega
      have h2 : k + (i - k) = i := by omega
      simp [hik, hi, h1, h2]
    · have hxi : x.testBit i = false := by
        apply Nat.testBit_lt_two_pow
        calc x < 2 ^ 64 := hx
          _ ≤ 2 ^ i := Nat.pow_le_pow_right (by norm_num) (by omega)
      have h2 : k + (i - k) = i := by omega
      simp [hik, hi, hxi, h2]
  · simp [hik]

/-! ## `l3_utils_mask_ipv6_addr` -/

/-- For a prefix length from 1 to 64 the routine keeps the high half cut to
its first `mask_bits` bits and zeroes the low half. -/
theorem mask_ipv6_addr_high (a : List Nat) (m : Nat) (ha : bytes_wf a)
    (hl : a.length = 16) (h1 : 1 ≤ m) (h64 : m ≤ 64) :
    l3_utils_mask_ipv6_addr a m
      = some ((le_bytes 8 (be_value (a.take 8) / 2 ^ (64 - m) * 2 ^ (64 - m))).reverse
              ++ List.replicate 8 0) := by
  have hsub : sub_uint 64 m = 64 - m := by
    simp only [sub_uint]
    omega
  have hk : 64 - m < 64 := by omega
  have hwf : bytes_wf (a.take 8) := bytes_wf_take a 8 ha
  have hlen : (a.take 8).length = 8 := by simp [hl]
  have hH : be_value (a.take 8) < 2 ^ 64 := by
    have := be_value_lt (a.take 8) hwf
    rw [hlen] at this
    calc be_value (a.take 8) < 256 ^ 8 := this
      _ = 2 ^ 64 := by norm_num
  have hshl : shl64 18446744073709551615 (sub_uint 64 m)
      = some ((18446744073709551615 <<< (64 - m)) % 18446744073709551616) := by
    rw [hsub]
    unfold shl64
    rw [if_pos hk]
  unfold l3_utils_mask_ipv6_addr
  rw [if_pos h64]
  simp only [hshl]
  rw [bswap_64_le_value (a.take 8) hwf hlen,
    and_shifted_ones (be_value (a.take 8)) (64 - m) hH hk, le_bytes_bswap_64]

/-- For a prefix length from 65 to 128 the routine copies the high half and
keeps the low half cut to its first `mask_bits - 64` bits. -/
theorem mask_ipv6_addr_low (a : List Nat) (m : Nat) (ha : bytes_wf a)
    (hl : a.length = 16) (h64 : 64 < m) (h128 : m ≤ 128) :
    l3_utils_mask_ipv6_addr a m
      = some (a.take 8 ++
          (le_bytes 8 (be_value (a.drop 8) / 2 ^ (128 - m) * 2 ^ (128 - m))).reverse) := by
  have hsub : sub_uint 64 (sub_uint m 64) = 128 - m := by
    simp only [sub_uint]
    omega
  have hk : 128 - m < 64 := by omega
  have hnot : ¬ m ≤ 64 := by omega
  have hwf : bytes_wf (a.take 8) := bytes_wf_take a 8 ha
  have hlen : (a.take 8).length = 8 := by simp [hl]
  have hwf2 : bytes_wf (a.drop 8) := bytes_wf_drop a 8 ha
  have hlen2 : (a.drop 8).length = 8 := by simp [hl]
  have htake : (a.drop 8).take 8 = a.drop 8 := by
    apply List.take_of_length_le
    omega
  have hL : be_value (a.drop 8) < 2 ^ 64 := by
    have := be_value_lt (a.drop 8) hwf2
    rw [hlen2] at this
    calc be_value (a.drop 8) < 256 ^ 8 := this
      _ = 2 ^ 64 := by norm_num
  have hcopy : le_bytes 8 (le_value (a.take 8)) = a.take 8 := by
    have := le_bytes_le_value (a.take 8) hwf
    rwa [hlen] at this
  have hshl : shl64 18446744073709551615 (sub_uint 64 (sub_uint m 64))
      = some ((18446744073709551615 <<< (128 - m)) % 18446744073709551616) := by
    rw [hsub]
    unfold shl64
    rw [if_pos hk]
  unfold l3_utils_mask_ipv6_addr
  rw [if_neg hnot]
  simp only [hshl]
  rw [htake, bswap_64_le_value (a.drop 8) hwf2 hlen2,
    and_shifted_ones (be_value (a.drop 8)) (128 - m) hL hk, le_bytes_bswap_64,
    hcopy]

theorem cut_lt (x k : Nat) (hx : x < 2 ^ 64) : x / 2 ^ k * 2 ^ k < 256 ^ 8 := by
  calc x / 2 ^ k * 2 ^ k ≤ x := Nat.div_mul_le_self x (2 ^ k)
    _ < 2 ^ 64 := hx
    _ = 256 ^ 8 := by norm_num

theorem cut_eq_iff (x y k : Nat) :
    x / 2 ^ k * 2 ^ k = y / 2 ^ k * 2 ^ k ↔ x / 2 ^ k = y / 2 ^ k := by
  have hpos : 0 < 2 ^ k := Nat.two_pow_pos _
  constructor
  · intro h
    exact Nat.eq_of_mul_eq_mul_right hpos h
  · intro h
    rw [h]

/-- The masked address is defined for a prefix length from 1 to 128, is a
16-byte address, and two addresses have the same masked address exactly
when their 128-bit values agree on the first `m` bits. -/
theorem mask_ipv6_addr_spec (a b : List Nat) (m : Nat)
    (ha : bytes_wf a) (hla : a.length = 16)
    (hb : bytes_wf b) (hlb : b.length = 16) (h1 : 1 ≤ m) (h128 : m ≤ 128) :
    ∃ ma mb, l3_utils_mask_ipv6_addr a m = some ma ∧
      l3_utils_mask_ipv6_addr b m = some mb ∧
      bytes_wf ma ∧ ma.length = 16 ∧ bytes_wf mb ∧ mb.length = 16 ∧
      (ma = mb ↔
        be_value a / 2 ^ (128 - m) = be_value b / 2 ^ (128 - m)) := by
  have hA := be_value_halves a
  have hB := be_value_halves b
  have hda : (a.drop 8).length = 8 := by simp [hla]
  have hdb : (b.drop 8).length = 8 := by simp [hlb]
  have hta : (a.take 8).length = 8 := by simp [hla]
  have htb : (b.take 8).length = 8 := by simp [hlb]
  rw [hda] at hA
  rw [hdb] at hB
  have e256 : (256 : Nat) ^ 8 = 2 ^ 64 := by norm_num
  have hHa : be_value (a.take 8) < 2 ^ 64 := by
    have := be_value_lt (a.take 8) (bytes_wf_take a 8 ha)
    rwa [hta, e256] at this
  have hHb : be_value (b.take 8) < 2 ^ 64 := by
    have := be_value_lt (b.take 8) (bytes_wf_take b 8 hb)
    rwa [htb, e256] at this
  have hLa : be_value (a.drop 8) < 2 ^ 64 := by
    have := be_value_lt (a.drop 8) (bytes_wf_drop a 8 ha)
    rwa [hda, e256] at this
  have hLb : be_value (b.drop 8) < 2 ^ 64 := by
    have := be_value_lt (b.drop 8) (bytes_wf_drop b 8 hb)
    rwa [hdb, e256] at this
  rw [e256] at hA hB
  by_cases h64 : m ≤ 64
  · refine ⟨_, _, mask_ipv6_addr_high a m ha hla h1 h64,
      mask_ipv6_addr_high b m hb hlb h1 h64, ?_, ?_, ?_, ?_, ?_⟩
    · intro x hx
      rcases List.mem_append.mp hx with h | h
      · exact le_bytes_wf 8 _ x (List.mem_reverse.mp h)
      · rw [List.mem_replicate] at h
        omega
    · simp [le_bytes_length]
    · intro x hx
      rcases List.mem_append.mp hx with h | h
      · exact le_bytes_wf 8 _ x (List.mem_reverse.mp h)
      · rw [List.mem_replicate] at h
        omega
    · simp [le_bytes_length]
    · have hsplit : (128 - m) = 64 + (64 - m) := by omega
      have hdiv : ∀ H L : Nat, L < 2 ^ 64 →
          (H * 2 ^ 64 + L) / 2 ^ (128 - m) = H / 2 ^ (64 - m) := by
        intro H L hL
        rw [hsplit, pow_add, ← Nat.div_div_eq_div_mul]
        congr 1
        rw [Nat.add_comm, Nat.add_mul_div_right _ _ (Nat.two_pow_pos _),
          Nat.div_eq_of_lt hL, Nat.zero_add]
      rw [hA, hB, hdiv _ _ hLa, hdiv _ _ hLb]
      rw [List.append_left_inj, List.reverse_inj]
      rw [← cut_eq_iff]
      constructor
      · intro h
        exact le_bytes_injective 8 _ _ (cut_lt _ _ hHa) (cut_lt _ _ hHb) h
      · intro h
        rw [h]
  · have h64b : 64 < m := by omega
    refine ⟨_, _, mask_ipv6_addr_low a m ha hla h64b h128,
      mask_ipv6_addr_low b m hb hlb h64b h128, ?_, ?_, ?_, ?_, ?_⟩
    · intro x hx
      rcases List.mem_append.mp hx with h | h
      · exact bytes_wf_take a 8 ha x h
      · exact le_bytes_wf 8 _ x (List.mem_reverse.mp h)
    · simp [le_bytes_length, hla]
    · intro x hx
      rcases List.mem_append.mp hx with h | h
      · exact bytes_wf_take b 8 hb x h
      · exact le_bytes_wf 8 _ x (List.mem_reverse.mp h)
    · simp [le_bytes_length, hlb]
    · have hk : 128 - m ≤ 64 := by omega
      have hdiv : ∀ H L : Nat,
          (H * 2 ^ 64 + L) / 2 ^ (128 - m)
            = H * 2 ^ (64 - (128 - m)) + L / 2 ^ (128 - m) := by
        intro H L
        have e : (2 : Nat) ^ 64 = 2 ^ (64 - (128 - m)) * 2 ^ (128 - m) := by
          rw [← pow_add]
          congr 1
          omega
        rw [e, ← Nat.mul_assoc, Nat.add_comm,
          Nat.add_mul_div_right _ _ (Nat.two_pow_pos _), Nat.add_comm]
      have hlt : ∀ L : Nat, L < 2 ^ 64 →
          L / 2 ^ (128 - m) < 2 ^ (64 - (128 - m)) := by
        intro L hL
        rw [Nat.div_lt_iff_lt_mul (Nat.two_pow_pos _), ← pow_add]
        have : 64 - (128 - m) + (128 - m) = 64 := by omega
        rwa [this]
      rw [hA, hB, hdiv, hdiv]
      have hlen_eq : (a.take 8).length = (b.take 8).length := by rw [hta, htb]
      constructor
      · intro h
        obtain ⟨h1, h2⟩ := List.append_inj h hlen_eq
        have h3 := le_bytes_injective 8 _ _ (cut_lt _ _ hLa) (cut_lt _ _ hLb)
          (List.reverse_injective h2)
        rw [h1, (cut_eq_iff _ _ _).mp h3]
      · intro h
        have hq := hlt _ hLa
        have hq2 := hlt _ hLb
        have hpos : 0 < 2 ^ (64 - (128 - m)) := Nat.two_pow_pos _
        have hH : be_value (a.take 8) = be_value (b.take 8) := by
          have e1 := congrArg (fun t => t / 2 ^ (64 - (128 - m))) h
          simp only at e1
          rw [Nat.add_comm, Nat.add_mul_div_right _ _ hpos,
            Nat.div_eq_of_lt hq, Nat.add_comm (be_value (b.take 8) * _),
            Nat.add_mul_div_right _ _ hpos, Nat.div_eq_of_lt hq2] at e1
          simpa using e1
        have hL : be_value (a.drop 8) / 2 ^ (128 - m)
            = be_value (b.drop 8) / 2 ^ (128 - m) := by
          rw [hH] at h
          exact Nat.add_left_cancel h
        have hbytes : a.take 8 = b.take 8 := by
          have e1 : (a.take 8).reverse = (b.take 8).reverse := by
            have w1 := le_bytes_le_value (a.take 8).reverse
              (bytes_wf_reverse _ (bytes_wf_take a 8 ha))
            have w2 := le_bytes_le_value (b.take 8).reverse
              (bytes_wf_reverse _ (bytes_wf_take b 8 hb))
            rw [← w1, ← w2]
            simp only [List.length_reverse, hta, htb]
            have : le_value (a.take 8).reverse = le_value (b.take 8).reverse := hH
            rw [this]
          exact List.reverse_injective e1
        rw [hbytes, (cut_eq_iff _ _ _).mpr hL]

/-! ## The digits `sprintf` writes -/

theorem to_digits_lt (b fuel n : Nat) (hb : 0 < b) :
    ∀ d ∈ to_digits b fuel n, d < b := by
  induction fuel generalizing n with
  | zero => intro d hd; cases hd
  | succ f ih =>
    intro d hd
    by_cases hn : n < b
    · simp only [to_digits, hn, if_true, List.mem_singleton] at hd
      omega
    · simp only [to_digits, hn, if_false, List.mem_append,
        List.mem_singleton] at hd
      rcases hd with hd | hd
      · exact ih (n / b) d hd
      · rw [hd]
        exact Nat.mod_lt n hb

theorem to_digits_ne_nil (b fuel n : Nat) : to_digits b (fuel + 1) n ≠ [] := by
  by_cases hn : n < b <;> simp [to_digits, hn]

theorem to_digits_value (b fuel n : Nat) (hb : 2 ≤ b) (hf : n < fuel) :
    Nat.ofDigits b (to_digits b fuel n).reverse = n := by
  induction fuel generalizing n with
  | zero => omega
  | succ f ih =>
    by_cases hn : n < b
    · simp [to_digits, hn, Nat.ofDigits_singleton]
    · have hdiv : n / b < f := by
        have : n / b < n := Nat.div_lt_self (by omega) (by omega)
        omega
      simp only [to_digits, hn, if_false, List.reverse_append,
        List.reverse_singleton, List.singleton_append, Nat.ofDigits_cons,
        ih (n / b) hdiv]
      exact Nat.mod_add_div n b

theorem to_digits_length_le (b w : Nat) (hb : 2 ≤ b) :
    ∀ (n fuel : Nat), n < b ^ (w + 1) →
      (to_digits b fuel n).length ≤ w + 1 := by
  induction w with
  | zero =>
    intro n fuel hn
    have hnb : n < b := by simpa using hn
    cases fuel with
    | zero => simp [to_digits]
    | succ f => simp [to_digits, hnb]
  | succ w ih =>
    intro n fuel hn
    cases fuel with
    | zero => simp [to_digits]
    | succ f =>
      by_cases hnb : n < b
      · simp [to_digits, hnb]
      · have hdiv : n / b < b ^ (w + 1) := by
          rw [Nat.div_lt_iff_lt_mul (by omega)]
          rw [pow_succ] at hn
          exact hn
        have := ih (n / b) f hdiv
        simp only [to_digits, hnb, if_false, List.length_append,
          List.length_singleton]
        omega

theorem digit_char_range (d : Nat) (hd : d < 16) :
    (48 ≤ digit_char d ∧ digit_char d ≤ 57) ∨
    (97 ≤ digit_char d ∧ digit_char d ≤ 102) := by
  unfold digit_char
  split <;> omega

theorem digit_char_decimal (d : Nat) (hd : d < 10) :
    48 ≤ digit_char d ∧ digit_char d ≤ 57 := by
  unfold digit_char
  split <;> omega

theorem digit_char_injective (d e : Nat) (hd : d < 16) (he : e < 16)
    (h : digit_char d = digit_char e) : d = e := by
  unfold digit_char at h
  split at h <;> split at h <;> omega

theorem map_digit_char_injective (l1 l2 : List Nat)
    (h1 : ∀ d ∈ l1, d < 16) (h2 : ∀ d ∈ l2, d < 16)
    (h : l1.map digit_char = l2.map digit_char) : l1 = l2 := by
  induction l1 generalizing l2 with
  | nil =>
    cases l2 with
    | nil => rfl
    | cons e es => simp at h
  | cons d ds ih =>
    cases l2 with
    | nil => simp at h
    | cons e es =>
      simp only [List.map_cons, List.cons.injEq] at h
      have hde := digit_char_injective d e (h1 d (List.mem_cons_self d ds))
        (h2 e (List.mem_cons_self e es)) h.1
      have hrest := ih es (fun x hx => h1 x (List.mem_cons_of_mem d hx))
        (fun x hx => h2 x (List.mem_cons_of_mem e hx)) h.2
      rw [hde, hrest]

/-- The text of a number is the same for no two numbers, in base 10 and in
base 16. -/
theorem digits_text_injective (b n m : Nat) (hb : 2 ≤ b) (hb16 : b ≤ 16)
    (h : (to_digits b (n + 1) n).map digit_char
          = (to_digits b (m + 1) m).map digit_char) : n = m := by
  have hl := map_digit_char_injective _ _
    (fun d hd => Nat.lt_of_lt_of_le (to_digits_lt b (n + 1) n (by omega) d hd) hb16)
    (fun d hd => Nat.lt_of_lt_of_le (to_digits_lt b (m + 1) m (by omega) d hd) hb16)
    h
  rw [← to_digits_value b (n + 1) n hb (by omega),
    ← to_digits_value b (m + 1) m hb (by omega), hl]

theorem printf_x_injective (n m : Nat) (h : printf_x n = printf_x m) : n = m :=
  digits_text_injective 16 n m (by norm_num) (by norm_num) h

theorem printf_u_injective (n m : Nat) (h : printf_u n = printf_u m) : n = m :=
  digits_text_injective 10 n m (by norm_num) (by norm_num) h

theorem printf_x_ne_nil (n : Nat) : printf_x n ≠ [] := by
  simp [printf_x, to_digits_ne_nil]

theorem printf_u_ne_nil (n : Nat) : printf_u n ≠ [] := by
  simp [printf_u, to_digits_ne_nil]

theorem printf_x_chars (n c : Nat) (hc : c ∈ printf_x n) :
    (48 ≤ c ∧ c ≤ 57) ∨ (97 ≤ c ∧ c ≤ 102) := by
  simp only [printf_x, List.mem_map] at hc
  obtain ⟨d, hd, rfl⟩ := hc
  exact digit_char_range d (to_digits_lt 16 (n + 1) n (by norm_num) d hd)

theorem printf_u_chars (n c : Nat) (hc : c ∈ printf_u n) : 48 ≤ c ∧ c ≤ 57 := by
  simp only [printf_u, List.mem_map] at hc
  obtain ⟨d, hd, rfl⟩ := hc
  exact digit_char_decimal d (to_digits_lt 10 (n + 1) n (by norm_num) d hd)

theorem printf_x_length (n : Nat) (hn : n < 65536) : (printf_x n).length ≤ 4 := by
  have := to_digits_length_le 16 3 (by norm_num) n (n + 1) (by norm_num; exact hn)
  simpa [printf_x] using this

theorem printf_u_length (n : Nat) (hn : n < 256) : (printf_u n).length ≤ 3 := by
  have := to_digits_length_le 10 2 (by norm_num) n (n + 1) (by norm_num; omega)
  simpa [printf_u] using this

/-! ## The text `inet_ntop6` builds -/

theorem inet_ntop6_better_cases (best : Option (Nat × Nat)) (cur : Nat × Nat) :
    inet_ntop6_better best cur = some cur ∨
    inet_ntop6_better best cur = best := by
  unfold inet_ntop6_better
  cases best with
  | none => left; rfl
  | some b =>
    by_cases h : cur.2 > b.2
    · left; simp [h]
    · right; simp [h]

/-- The run the first loop of `inet_ntop6` keeps is a run of zero groups. -/
theorem inet_ntop6_scan_zero_run (ws : List Nat) :
    ∀ (done : List Nat) (best cur : Option (Nat × Nat)),
      (∀ b, best = some b → zero_run done b) →
      (∀ c, cur = some c →
        ∃ x, done = x ++ List.replicate c.2 0 ∧ x.length = c.1) →
      ∀ r, inet_ntop6_scan ws done.length best cur = some r →
        zero_run (done ++ ws) r := by
  induction ws with
  | nil =>
    intro done best cur hbest hcur r hr
    rw [List.append_nil]
    cases cur with
    | none =>
      simp only [inet_ntop6_scan] at hr
      exact hbest r hr
    | some c =>
      simp only [inet_ntop6_scan] at hr
      rcases inet_ntop6_better_cases best c with h | h
      · rw [h] at hr
        cases hr
        obtain ⟨x, hx, hxl⟩ := hcur _ rfl
        exact ⟨x, [], by simpa using hx, hxl⟩
      · rw [h] at hr
        exact hbest r hr
  | cons w ws ih =>
    intro done best cur hbest hcur r hr
    have hlen : (done ++ [w]).length = done.length + 1 := by simp
    have happ : done ++ w :: ws = (done ++ [w]) ++ ws := by simp
    have hbest2 : ∀ b, best = some b → zero_run (done ++ [w]) b := by
      intro b hb
      obtain ⟨x, y, hxy, hxl⟩ := hbest b hb
      exact ⟨x, y ++ [w], by rw [hxy]; simp, hxl⟩
    rw [happ]
    by_cases hw : w = 0
    · subst hw
      cases cur with
      | none =>
        simp only [inet_ntop6_scan, if_true] at hr
        rw [← hlen] at hr
        apply ih (done ++ [0]) best (some (done.length, 1)) hbest2 _ r hr
        intro c hc
        cases hc
        exact ⟨done, by simp, rfl⟩
      | some c0 =>
        simp only [inet_ntop6_scan, if_true] at hr
        rw [← hlen] at hr
        apply ih (done ++ [0]) best (some (c0.1, c0.2 + 1)) hbest2 _ r hr
        intro c hc
        cases hc
        obtain ⟨x, hx, hxl⟩ := hcur _ rfl
        refine ⟨x, ?_, hxl⟩
        rw [hx, List.replicate_succ', List.append_assoc]
    · cases cur with
      | none =>
        simp only [inet_ntop6_scan, hw, if_false] at hr
        rw [← hlen] at hr
        apply ih (done ++ [w]) best none hbest2 _ r hr
        intro c hc
        cases hc
      | some c0 =>
        simp only [inet_ntop6_scan, hw, if_false] at hr
        rw [← hlen] at hr
        apply ih (done ++ [w]) (inet_ntop6_better best c0) none _ _ r hr
        · intro b hb
          rcases inet_ntop6_better_cases best c0 with h | h
          · rw [h] at hb
            cases hb
            obtain ⟨x, hx, hxl⟩ := hcur _ rfl
            exact ⟨x, [w], by rw [hx], hxl⟩
          · rw [h] at hb
            exact hbest2 b hb
        · intro c hc
          cases hc

/-- The best run of `inet_ntop6` has at least two groups, all zero. -/
theorem inet_ntop6_best_zero_run (words : List Nat) (base len : Nat)
    (h : inet_ntop6_best words = some (base, len)) :
    2 ≤ len ∧ zero_run words (base, len) := by
  unfold inet_ntop6_best at h
  cases hs : inet_ntop6_scan words 0 none none with
  | none => simp [hs] at h
  | some b =>
    simp only [hs] at h
    by_cases hb : b.2 < 2
    · simp [hb] at h
    · simp only [hb, if_false, Option.some.injEq] at h
      have hz := inet_ntop6_scan_zero_run words [] none none
        (by intro b hb; cases hb) (by intro c hc; cases hc) b (by simpa using hs)
      rw [h] at hz
      have : len = b.2 := by rw [h]
      exact ⟨by omega, by simpa using hz⟩

set_option maxRecDepth 4000 in
/-- The text built by the second loop of `inet_ntop6` is its fields joined
by ':'. -/
theorem inet_ntop6_format_fields (src : List Nat)
    (w0 w1 w2 w3 w4 w5 w6 w7 base len : Nat)
    (h2 : 2 ≤ len) (h8 : base + len ≤ 8) :
    inet_ntop6_format src [w0, w1, w2, w3, w4, w5, w6, w7] (some (base, len))
        [w0, w1, w2, w3, w4, w5, w6, w7] 0
      ++ (if base + len = 8 then [58] else [])
    = [58].intercalate
        (inet_ntop6_fields src [w0, w1, w2, w3, w4, w5, w6, w7]
          (some (base, len))) := by
  have hb : base ≤ 6 := by omega
  have hl : len ≤ 8 := by omega
  by_cases h5 : w5 = 65535
  · interval_cases base <;> interval_cases len <;>
      first
      | omega
      | simp [inet_ntop6_format, inet_ntop6_fields, List.intercalate, h5]
  · interval_cases base <;> interval_cases len <;>
      first
      | omega
      | simp [inet_ntop6_format, inet_ntop6_fields, List.intercalate, h5]

theorem inet_ntop6_format_fields_none (src : List Nat)
    (w0 w1 w2 w3 w4 w5 w6 w7 : Nat) :
    inet_ntop6_format src [w0, w1, w2, w3, w4, w5, w6, w7] none
        [w0, w1, w2, w3, w4, w5, w6, w7] 0
    = [58].intercalate
        (inet_ntop6_fields src [w0, w1, w2, w3, w4, w5, w6, w7] none) := by
  simp [inet_ntop6_format, inet_ntop6_fields, List.intercalate]

theorem length_succ_cons (l : List Nat) (n : Nat) (h : l.length = n + 1) :
    ∃ a t, l = a :: t ∧ t.length = n := by
  cases l with
  | nil => simp at h
  | cons a t => exact ⟨a, t, rfl, by simpa using h⟩

/-- A list of 16 elements, written out. -/
theorem length_sixteen (l : List Nat) (h : l.length = 16) :
    ∃ b0 b1 b2 b3 b4 b5 b6 b7 b8 b9 b10 b11 b12 b13 b14 b15,
      l = [b0, b1, b2, b3, b4, b5, b6, b7, b8, b9, b10, b11, b12, b13, b14,
        b15] := by
  obtain ⟨b0, l0, rfl, h15⟩ := length_succ_cons l 15 h
  obtain ⟨b1, l1, rfl, h14⟩ := length_succ_cons l0 14 h15
  obtain ⟨b2, l2, rfl, h13⟩ := length_succ_cons l1 13 h14
  obtain ⟨b3, l3, rfl, h12⟩ := length_succ_cons l2 12 h13
  obtain ⟨b4, l4, rfl, h11⟩ := length_succ_cons l3 11 h12
  obtain ⟨b5, l5, rfl, h10⟩ := length_succ_cons l4 10 h11
  obtain ⟨b6, l6, rfl, h9⟩ := length_succ_cons l5 9 h10
  obtain ⟨b7, l7, rfl, h8⟩ := length_succ_cons l6 8 h9
  obtain ⟨b8, l8, rfl, h7⟩ := length_succ_cons l7 7 h8
  obtain ⟨b9, l9, rfl, h6⟩ := length_succ_cons l8 6 h7
  obtain ⟨b10, l10, rfl, h5⟩ := length_succ_cons l9 5 h6
  obtain ⟨b11, l11, rfl, h4⟩ := length_succ_cons l10 4 h5
  obtain ⟨b12, l12, rfl, h3⟩ := length_succ_cons l11 3 h4
  obtain ⟨b13, l13, rfl, h2⟩ := length_succ_cons l12 2 h3
  obtain ⟨b14, l14, rfl, h1⟩ := length_succ_cons l13 1 h2
  obtain ⟨b15, l15, rfl, h0⟩ := length_succ_cons l14 0 h1
  have : l15 = [] := List.length_eq_zero.mp h0
  subst this
  exact ⟨b0, b1, b2, b3, b4, b5, b6, b7, b8, b9, b10, b11, b12, b13, b14, b15,
    rfl⟩

theorem inet_ntop6_words_length (l : List Nat) (h : l.length = 16) :
    (inet_ntop6_words l).length = 8 := by
  obtain ⟨b0, b1, b2, b3, b4, b5, b6, b7, b8, b9, b10, b11, b12, b13, b14, b15,
    rfl⟩ := length_sixteen l h
  rfl

theorem zero_run_bound (words : List Nat) (base len : Nat)
    (h : zero_run words (base, len)) : base + len ≤ words.length := by
  obtain ⟨x, y, hxy, hx⟩ := h
  rw [hxy]
  simp only [List.length_append, List.length_replicate]
  simp only at hx
  omega

/-- The text `inet_ntop6` builds for a 16-byte address is its fields joined
by ':'. -/
theorem inet_ntop6_text_eq (src : List Nat) (h : src.length = 16) :
    inet_ntop6_text src
      = [58].intercalate (inet_ntop6_fields src (inet_ntop6_words src)
          (inet_ntop6_best (inet_ntop6_words src))) := by
  obtain ⟨b0, b1, b2, b3, b4, b5, b6, b7, b8, b9, b10, b11, b12, b13, b14, b15,
    rfl⟩ := length_sixteen src h
  have hw : inet_ntop6_words
      [b0, b1, b2, b3, b4, b5, b6, b7, b8, b9, b10, b11, b12, b13, b14, b15]
      = [b0 <<< 8 ||| b1, b2 <<< 8 ||| b3, b4 <<< 8 ||| b5, b6 <<< 8 ||| b7,
         b8 <<< 8 ||| b9, b10 <<< 8 ||| b11, b12 <<< 8 ||| b13,
         b14 <<< 8 ||| b15] := rfl
  simp only [inet_ntop6_text, hw]
  cases hbest : inet_ntop6_best
      [b0 <<< 8 ||| b1, b2 <<< 8 ||| b3, b4 <<< 8 ||| b5, b6 <<< 8 ||| b7,
       b8 <<< 8 ||| b9, b10 <<< 8 ||| b11, b12 <<< 8 ||| b13,
       b14 <<< 8 ||| b15] with
  | none =>
    simp only [List.append_nil]
    exact inet_ntop6_format_fields_none _ _ _ _ _ _ _ _ _
  | some r =>
    obtain ⟨base, len⟩ := r
    obtain ⟨h2, hz⟩ := inet_ntop6_best_zero_run _ base len hbest
    have h8 := zero_run_bound _ base len hz
    simp only [List.length_cons, List.length_nil] at h8
    exact inet_ntop6_format_fields _ _ _ _ _ _ _ _ _ base len h2 h8

theorem intercalate_cons_cons (sep f g : List Nat) (rest : List (List Nat)) :
    sep.intercalate (f :: g :: rest)
      = f ++ sep ++ sep.intercalate (g :: rest) := by
  simp [List.intercalate]

theorem mem_intercalate (sep : List Nat) (ls : List (List Nat)) (c : Nat)
    (h : c ∈ sep.intercalate ls) : c ∈ sep ∨ ∃ f ∈ ls, c ∈ f := by
  induction ls with
  | nil => simp [List.intercalate] at h
  | cons f rest ih =>
    cases rest with
    | nil =>
      have h2 : c ∈ f := by simpa [List.intercalate] using h
      exact Or.inr ⟨f, List.mem_cons_self f [], h2⟩
    | cons g rest2 =>
      rw [intercalate_cons_cons] at h
      simp only [List.mem_append] at h
      rcases h with (h | h) | h
      · exact Or.inr ⟨f, List.mem_cons_self f _, h⟩
      · exact Or.inl h
      · rcases ih h with h3 | ⟨f2, hf2, hc⟩
        · exact Or.inl h3
        · exact Or.inr ⟨f2, List.mem_cons_of_mem f hf2, hc⟩

theorem inet_ntop4_chars (l : List Nat) (c : Nat) (hc : c ∈ inet_ntop4 l) :
    c = 46 ∨ (48 ≤ c ∧ c ≤ 57) := by
  simp only [inet_ntop4, List.mem_append, List.mem_singleton] at hc
  rcases hc with ((((((h | h) | h) | h) | h) | h) | h)
  all_goals first
    | exact Or.inl h
    | exact Or.inr (printf_u_chars _ c h)

/-- Every field is empty, the text of a group, or the dotted quad. -/
theorem inet_ntop6_fields_mem (src words : List Nat)
    (best : Option (Nat × Nat)) (f : CStr)
    (hf : f ∈ inet_ntop6_fields src words best) :
    f = [] ∨ (∃ w, f = printf_x w) ∨ f = inet_ntop4 (src.drop 12) := by
  unfold inet_ntop6_fields at hf
  cases best with
  | none =>
    simp only [List.mem_map] at hf
    obtain ⟨w, _, rfl⟩ := hf
    exact Or.inr (Or.inl ⟨w, rfl⟩)
  | some r =>
    obtain ⟨base, len⟩ := r
    simp only at hf
    split at hf
    · simp only [List.mem_append, List.mem_cons, List.mem_singleton,
        List.not_mem_nil, or_false] at hf
      rcases hf with (h | h) | h
      · rcases h with h | h
        · exact Or.inl h
        · exact Or.inl h
      · split at h
        · simp only [List.mem_singleton] at h
          exact Or.inr (Or.inl ⟨_, h⟩)
        · cases h
      · exact Or.inr (Or.inr h)
    · simp only [List.mem_append, List.mem_singleton] at hf
      rcases hf with (h | h) | h
      · split at h
        · simp only [List.mem_singleton] at h
          exact Or.inl h
        · simp only [List.mem_map] at h
          obtain ⟨w, _, rfl⟩ := h
          exact Or.inr (Or.inl ⟨w, rfl⟩)
      · exact Or.inl h
      · split at h
        · simp only [List.mem_singleton] at h
          exact Or.inl h
        · simp only [List.mem_map] at h
          obtain ⟨w, _, rfl⟩ := h
          exact Or.inr (Or.inl ⟨w, rfl⟩)

theorem inet_ntop6_fields_chars (src words : List Nat)
    (best : Option (Nat × Nat)) (f : CStr)
    (hf : f ∈ inet_ntop6_fields src words best) (c : Nat) (hc : c ∈ f) :
    c = 46 ∨ (48 ≤ c ∧ c ≤ 57) ∨ (97 ≤ c ∧ c ≤ 102) := by
  rcases inet_ntop6_fields_mem src words best f hf with h | ⟨w, h⟩ | h
  · rw [h] at hc
    cases hc
  · rw [h] at hc
    exact Or.inr (printf_x_chars w c hc)
  · rw [h] at hc
    rcases inet_ntop4_chars _ c hc with h1 | h1
    · exact Or.inl h1
    · exact Or.inr (Or.inl h1)

theorem inet_ntop6_fields_ne_nil (src words : List Nat)
    (best : Option (Nat × Nat)) (h : words.length = 8) :
    inet_ntop6_fields src words best ≠ [] := by
  unfold inet_ntop6_fields
  cases best with
  | none =>
    intro hn
    have := congrArg List.length hn
    simp [h] at this
  | some r =>
    obtain ⟨base, len⟩ := r
    simp only
    split
    · simp
    · simp

/-- Splitting the text at ':' gives the fields back. -/
theorem inet_ntop6_text_split (src : List Nat) (h : src.length = 16) :
    (inet_ntop6_text src).splitOn 58
      = inet_ntop6_fields src (inet_ntop6_words src)
          (inet_ntop6_best (inet_ntop6_words src)) := by
  rw [inet_ntop6_text_eq src h]
  apply List.splitOn_intercalate
  · intro f hf hc
    rcases inet_ntop6_fields_chars _ _ _ f hf 58 hc with h1 | h1 | h1 <;> omega
  · exact inet_ntop6_fields_ne_nil _ _ _ (inet_ntop6_words_length src h)

/-- The text holds no NUL byte. -/
theorem inet_ntop6_text_no_nul (src : List Nat) (h : src.length = 16) :
    0 ∉ inet_ntop6_text src := by
  rw [inet_ntop6_text_eq src h]
  intro hc
  rcases mem_intercalate _ _ 0 hc with h1 | ⟨f, hf, h1⟩
  · simp at h1
  · rcases inet_ntop6_fields_chars _ _ _ f hf 0 h1 with h2 | h2 | h2 <;> omega

theorem word_eq (hi lo : Nat) (hlo : lo < 256) : hi <<< 8 ||| lo = 256 * hi + lo := by
  have hlt : lo < 2 ^ 8 := by norm_num; exact hlo
  have h := Nat.mul_add_lt_is_or hlt hi
  rw [Nat.shiftLeft_eq, Nat.mul_comm hi (2 ^ 8), ← h]

theorem word_lt (hi lo : Nat) (hhi : hi < 256) (hlo : lo < 256) :
    hi <<< 8 ||| lo < 65536 := by
  rw [word_eq hi lo hlo]
  omega

theorem word_injective (hi lo hi2 lo2 : Nat) (hlo : lo < 256) (hlo2 : lo2 < 256)
    (h : hi <<< 8 ||| lo = hi2 <<< 8 ||| lo2) : hi = hi2 ∧ lo = lo2 := by
  rw [word_eq hi lo hlo, word_eq hi2 lo2 hlo2] at h
  omega

theorem inet_ntop4_length (a b c d : Nat) (ha : a < 256) (hb : b < 256)
    (hc : c < 256) (hd : d < 256) : (inet_ntop4 [a, b, c, d]).length ≤ 15 := by
  have h1 := printf_u_length a ha
  have h2 := printf_u_length b hb
  have h3 := printf_u_length c hc
  have h4 := printf_u_length d hd
  simp only [inet_ntop4, List.getD_cons_zero, List.getD_cons_succ,
    List.length_append, List.length_singleton]
  omega

set_option maxRecDepth 4000 in
theorem inet_ntop6_format_length (src : List Nat)
    (w0 w1 w2 w3 w4 w5 w6 w7 base len : Nat)
    (h2 : 2 ≤ len) (h8 : base + len ≤ 8)
    (l0 : (printf_x w0).length ≤ 4) (l1 : (printf_x w1).length ≤ 4)
    (l2 : (printf_x w2).length ≤ 4) (l3 : (printf_x w3).length ≤ 4)
    (l4 : (printf_x w4).length ≤ 4) (l5 : (printf_x w5).length ≤ 4)
    (l6 : (printf_x w6).length ≤ 4) (l7 : (printf_x w7).length ≤ 4)
    (lq : (inet_ntop4 (src.drop 12)).length ≤ 15) :
    (inet_ntop6_format src [w0, w1, w2, w3, w4, w5, w6, w7] (some (base, len))
        [w0, w1, w2, w3, w4, w5, w6, w7] 0
      ++ (if base + len = 8 then [58] else [])).length ≤ 45 := by
  have hb : base ≤ 6 := by omega
  have hl : len ≤ 8 := by omega
  have lf : (printf_x 65535).length ≤ 4 := printf_x_length 65535 (by norm_num)
  by_cases h5 : w5 = 65535
  · interval_cases base <;> interval_cases len <;>
      first
      | omega
      | (simp [inet_ntop6_format, h5] <;> omega)
  · interval_cases base <;> interval_cases len <;>
      first
      | omega
      | (simp [inet_ntop6_format, h5] <;> omega)

theorem inet_ntop6_format_length_none (src : List Nat)
    (w0 w1 w2 w3 w4 w5 w6 w7 : Nat)
    (l0 : (printf_x w0).length ≤ 4) (l1 : (printf_x w1).length ≤ 4)
    (l2 : (printf_x w2).length ≤ 4) (l3 : (printf_x w3).length ≤ 4)
    (l4 : (printf_x w4).length ≤ 4) (l5 : (printf_x w5).length ≤ 4)
    (l6 : (printf_x w6).length ≤ 4) (l7 : (printf_x w7).length ≤ 4) :
    (inet_ntop6_format src [w0, w1, w2, w3, w4, w5, w6, w7] none
        [w0, w1, w2, w3, w4, w5, w6, w7] 0).length ≤ 45 := by
  simp [inet_ntop6_format]
  omega

/-- The text `inet_ntop6` builds for a 16-byte address has at most 45
characters, so it fits a buffer of `INET6_ADDRSTRLEN` bytes. -/
theorem inet_ntop6_text_length (src : List Nat) (hwf : bytes_wf src)
    (h : src.length = 16) : (inet_ntop6_text src).length ≤ 45 := by
  obtain ⟨b0, b1, b2, b3, b4, b5, b6, b7, b8, b9, b10, b11, b12, b13, b14, b15,
    rfl⟩ := length_sixteen src h
  have hw : inet_ntop6_words
      [b0, b1, b2, b3, b4, b5, b6, b7, b8, b9, b10, b11, b12, b13, b14, b15]
      = [b0 <<< 8 ||| b1, b2 <<< 8 ||| b3, b4 <<< 8 ||| b5, b6 <<< 8 ||| b7,
         b8 <<< 8 ||| b9, b10 <<< 8 ||| b11, b12 <<< 8 ||| b13,
         b14 <<< 8 ||| b15] := rfl
  have hb : ∀ x ∈ [b0, b1, b2, b3, b4, b5, b6, b7, b8, b9, b10, b11, b12, b13,
      b14, b15], x < 256 := hwf
  simp only [List.mem_cons, List.mem_singleton, List.not_mem_nil, or_false,
    forall_eq_or_imp, forall_eq] at hb
  obtain ⟨c0, c1, c2, c3, c4, c5, c6, c7, c8, c9, c10, c11, c12, c13, c14,
    c15⟩ := hb
  have l0 := printf_x_length _ (word_lt b0 b1 c0 c1)
  have l1 := printf_x_length _ (word_lt b2 b3 c2 c3)
  have l2 := printf_x_length _ (word_lt b4 b5 c4 c5)
  have l3 := printf_x_length _ (word_lt b6 b7 c6 c7)
  have l4 := printf_x_length _ (word_lt b8 b9 c8 c9)
  have l5 := printf_x_length _ (word_lt b10 b11 c10 c11)
  have l6 := printf_x_length _ (word_lt b12 b13 c12 c13)
  have l7 := printf_x_length _ (word_lt b14 b15 c14 c15)
  have lq : (inet_ntop4 (List.drop 12
      [b0, b1, b2, b3, b4, b5, b6, b7, b8, b9, b10, b11, b12, b13, b14,
        b15])).length ≤ 15 := inet_ntop4_length b12 b13 b14 b15 c12 c13 c14 c15
  simp only [inet_ntop6_text, hw]
  cases hbest : inet_ntop6_best
      [b0 <<< 8 ||| b1, b2 <<< 8 ||| b3, b4 <<< 8 ||| b5, b6 <<< 8 ||| b7,
       b8 <<< 8 ||| b9, b10 <<< 8 ||| b11, b12 <<< 8 ||| b13,
       b14 <<< 8 ||| b15] with
  | none =>
    simp only [List.append_nil]
    exact inet_ntop6_format_length_none _ _ _ _ _ _ _ _ _ l0 l1 l2 l3 l4 l5 l6 l7
  | some r =>
    obtain ⟨base, len⟩ := r
    obtain ⟨h2, hz⟩ := inet_ntop6_best_zero_run _ base len hbest
    have h8 := zero_run_bound _ base len hz
    simp only [List.length_cons, List.length_nil] at h8
    exact inet_ntop6_format_length _ _ _ _ _ _ _ _ _ base len h2 h8
      l0 l1 l2 l3 l4 l5 l6 l7 lq

/-! ## The text of `inet_ntop6` determines the address -/

theorem map_printf_x_injective (x y : List Nat)
    (h : x.map printf_x = y.map printf_x) : x = y :=
  List.map_injective_iff.mpr (fun a b hab => printf_x_injective a b hab) h

/-- The leading non-empty fields of a text with a run are the groups before
the run. -/
theorem takeWhile_run_fields (x : List Nat) (rest : List CStr) :
    List.takeWhile (fun f => decide (f ≠ []))
        ((if x = [] then [[]] else x.map printf_x) ++ [[]] ++ rest)
      = x.map printf_x := by
  by_cases hx : x = []
  · subst hx
    simp
  · have hall : ∀ f ∈ x.map printf_x, (fun f => decide (f ≠ [])) f = true := by
      intro f hf
      obtain ⟨w, _, rfl⟩ := List.mem_map.mp hf
      simpa using printf_x_ne_nil w
    rw [if_neg hx, List.append_assoc, List.takeWhile_append_of_pos hall]
    simp

theorem reverse_run_fields (x y : List Nat) :
    ((if x = [] then [[]] else x.map printf_x) ++ [[]] ++
        (if y = [] then [[]] else y.map printf_x)).reverse
      = (if y.reverse = [] then [[]] else y.reverse.map printf_x) ++ [[]] ++
        (if x = [] then [[]] else x.map printf_x).reverse := by
  by_cases hy : y = []
  · subst hy
    simp
  · have hy2 : y.reverse ≠ [] := by simpa using hy
    simp [hy, hy2, List.map_reverse]

/-- The three forms of the fields: no run; a run at the start followed by
an embedded IPv4 address; a run with the groups around it. -/
theorem inet_ntop6_fields_form (src words : List Nat) (hw : words.length = 8) :
    (inet_ntop6_fields src words (inet_ntop6_best words) = words.map printf_x) ∨
    (∃ len y, (len = 6 ∨ (len = 5 ∧ words.getD 5 0 = 65535)) ∧
      words = List.replicate len 0 ++ y ∧
      inet_ntop6_fields src words (inet_ntop6_best words)
        = [[], []] ++ (if len = 5 then [printf_x 65535] else []) ++
          [inet_ntop4 (src.drop 12)]) ∨
    (∃ x y len, words = x ++ List.replicate len 0 ++ y ∧
      inet_ntop6_fields src words (inet_ntop6_best words)
        = (if x = [] then [[]] else x.map printf_x) ++ [[]] ++
          (if y = [] then [[]] else y.map printf_x)) := by
  cases hbest : inet_ntop6_best words with
  | none => exact Or.inl rfl
  | some r =>
    obtain ⟨base, len⟩ := r
    obtain ⟨h2, x, y, hxy, hx⟩ := inet_ntop6_best_zero_run words base len hbest
    simp only at hxy hx
    by_cases hc : base = 0 ∧ (len = 6 ∨ (len = 5 ∧ words.getD 5 0 = 65535))
    · right; left
      have hx0 : x = [] := List.length_eq_zero.mp (by rw [hx, hc.1])
      refine ⟨len, y, hc.2, by simpa [hx0] using hxy, ?_⟩
      unfold inet_ntop6_fields
      simp only []
      rw [if_pos hc]
      rcases hc.2 with h6 | ⟨h5, hv⟩
      · simp [h6]
      · rw [hv]
    · right; right
      refine ⟨x, y, len, hxy, ?_⟩
      have hlen : x.length + len + y.length = 8 := by
        rw [← hw, hxy]
        simp only [List.length_append, List.length_replicate]
      have htake : words.take base = x := by
        rw [hxy, List.append_assoc]
        exact List.take_left' hx
      have hdrop : words.drop (base + len) = y := by
        rw [hxy]
        exact List.drop_left' (by simp [hx])
      have e1 : (base = 0) = (x = []) := by
        apply propext
        rw [← hx]
        exact List.length_eq_zero
      have e2 : (base + len = 8) = (y = []) := by
        apply propext
        rw [← List.length_eq_zero]
        omega
      unfold inet_ntop6_fields
      simp only []
      rw [if_neg hc]
      simp only [htake, hdrop, e1, e2]

theorem inet_ntop4_has_dot (l : List Nat) : 46 ∈ inet_ntop4 l := by
  simp [inet_ntop4]

theorem mem_run_fields (x y : List Nat) (f : CStr)
    (hf : f ∈ (if x = [] then [[]] else x.map printf_x) ++ [[]] ++
        (if y = [] then [[]] else y.map printf_x)) :
    f = [] ∨ ∃ w, f = printf_x w := by
  simp only [List.mem_append, List.mem_singleton] at hf
  rcases hf with (h | h) | h
  · split at h
    · exact Or.inl (List.mem_singleton.mp h)
    · obtain ⟨w, _, rfl⟩ := List.mem_map.mp h
      exact Or.inr ⟨w, rfl⟩
  · exact Or.inl h
  · split at h
    · exact Or.inl (List.mem_singleton.mp h)
    · obtain ⟨w, _, rfl⟩ := List.mem_map.mp h
      exact Or.inr ⟨w, rfl⟩

theorem nil_not_mem_map_printf_x (x : List Nat) : [] ∉ x.map printf_x := by
  intro h
  obtain ⟨w, _, hw⟩ := List.mem_map.mp h
  exact printf_x_ne_nil w hw

theorem quad_not_run_field (l x y : List Nat) :
    inet_ntop4 l ∉ (if x = [] then [[]] else x.map printf_x) ++ [[]] ++
        (if y = [] then [[]] else y.map printf_x) := by
  intro h
  have hdot := inet_ntop4_has_dot l
  rcases mem_run_fields x y _ h with h1 | ⟨w, h1⟩
  · rw [h1] at hdot
    cases hdot
  · rw [h1] at hdot
    rcases printf_x_chars w 46 hdot with h2 | h2 <;> omega

/-- The dotted quad determines its four bytes. -/
theorem inet_ntop4_injective (a b c d a2 b2 c2 d2 : Nat)
    (h : inet_ntop4 [a, b, c, d] = inet_ntop4 [a2, b2, c2, d2]) :
    a = a2 ∧ b = b2 ∧ c = c2 ∧ d = d2 := by
  have e : ∀ p q r s : Nat, inet_ntop4 [p, q, r, s]
      = [46].intercalate [printf_u p, printf_u q, printf_u r, printf_u s] := by
    intro p q r s
    simp [inet_ntop4, List.intercalate]
  have hs : ∀ p q r s : Nat, (inet_ntop4 [p, q, r, s]).splitOn 46
      = [printf_u p, printf_u q, printf_u r, printf_u s] := by
    intro p q r s
    rw [e]
    apply List.splitOn_intercalate
    · intro f hf hc
      simp only [List.mem_cons, List.mem_singleton, List.not_mem_nil,
        or_false] at hf
      rcases hf with rfl | rfl | rfl | rfl <;>
        exact absurd (printf_u_chars _ 46 hc) (by omega)
    · simp
  have h2 := congrArg (fun t => List.splitOn 46 t) h
  simp only [hs] at h2
  simp only [List.cons.injEq, and_true] at h2
  exact ⟨printf_u_injective _ _ h2.1, printf_u_injective _ _ h2.2.1,
    printf_u_injective _ _ h2.2.2.1, printf_u_injective _ _ h2.2.2.2⟩

/-- Equal fields give equal groups. -/
theorem words_eq_of_fields_eq (src1 src2 w v : List Nat)
    (hw : w.length = 8) (hv : v.length = 8)
    (hF : inet_ntop6_fields src1 w (inet_ntop6_best w)
        = inet_ntop6_fields src2 v (inet_ntop6_best v))
    (hq : inet_ntop4 (src1.drop 12) = inet_ntop4 (src2.drop 12) →
      w.drop 6 = v.drop 6) :
    w = v := by
  rcases inet_ntop6_fields_form src1 w hw with
    h1 | ⟨len1, y1, hc1, hw1, h1⟩ | ⟨x1, y1, len1, hw1, h1⟩ <;>
  rcases inet_ntop6_fields_form src2 v hv with
    h2 | ⟨len2, y2, hc2, hw2, h2⟩ | ⟨x2, y2, len2, hw2, h2⟩
  · -- no run, no run
    rw [h1, h2] at hF
    exact map_printf_x_injective w v hF
  · -- no run, embedded IPv4
    exfalso
    rw [h1, h2] at hF
    apply nil_not_mem_map_printf_x w
    rw [hF]
    simp
  · -- no run, run
    exfalso
    rw [h1, h2] at hF
    apply nil_not_mem_map_printf_x w
    rw [hF]
    simp
  · -- embedded IPv4, no run
    exfalso
    rw [h1, h2] at hF
    apply nil_not_mem_map_printf_x v
    rw [← hF]
    simp
  · -- embedded IPv4 twice
    rw [h1, h2] at hF
    have hlen := congrArg List.length hF
    have hquad : inet_ntop4 (src1.drop 12) = inet_ntop4 (src2.drop 12) := by
      have := congrArg List.getLast? hF
      rw [List.getLast?_concat, List.getLast?_concat] at this
      exact Option.some.inj this
    have hdrop := hq hquad
    have hlen12 : len1 = len2 := by
      rcases hc1 with h6 | ⟨h5, _⟩ <;> rcases hc2 with h6' | ⟨h5', _⟩
      · rw [h6, h6']
      · rw [h6, h5'] at hlen
        simp at hlen
      · rw [h5, h6'] at hlen
        simp at hlen
      · rw [h5, h5']
    subst hlen12
    have htake : w.take 6 = v.take 6 := by
      rcases hc1 with h6 | ⟨h5, g1⟩
      · subst h6
        rw [hw1, hw2, List.take_left' (by simp), List.take_left' (by simp)]
      · rcases hc2 with h6' | ⟨_, g2⟩
        · omega
        · subst h5
          have t1 : w.take 5 = v.take 5 := by
            rw [hw1, hw2, List.take_left' (by simp), List.take_left' (by simp)]
          have e1 : w.take 6 = w.take 5 ++ [65535] := by
            rw [List.take_succ]
            simp only [List.getD_eq_getElem?_getD] at g1
            cases hg : w[5]? with
            | none =>
              have := List.getElem?_eq_none_iff.mp hg
              omega
            | some val =>
              rw [hg] at g1
              simp at g1
              simp [g1]
          have e2 : v.take 6 = v.take 5 ++ [65535] := by
            rw [List.take_succ]
            simp only [List.getD_eq_getElem?_getD] at g2
            cases hg : v[5]? with
            | none =>
              have := List.getElem?_eq_none_iff.mp hg
              omega
            | some val =>
              rw [hg] at g2
              simp at g2
              simp [g2]
          rw [e1, e2, t1]
    rw [← List.take_append_drop 6 w, ← List.take_append_drop 6 v, htake, hdrop]
  · -- embedded IPv4, run
    exfalso
    rw [h1, h2] at hF
    apply quad_not_run_field (src1.drop 12) x2 y2
    rw [← hF]
    simp
  · -- run, no run
    exfalso
    rw [h1, h2] at hF
    apply nil_not_mem_map_printf_x v
    rw [← hF]
    simp
  · -- run, embedded IPv4
    exfalso
    rw [h1, h2] at hF
    apply quad_not_run_field (src2.drop 12) x1 y1
    rw [hF]
    simp
  · -- run, run
    rw [h1, h2] at hF
    have hx : x1 = x2 := by
      have := congrArg (List.takeWhile (fun f => decide (f ≠ []))) hF
      rw [takeWhile_run_fields, takeWhile_run_fields] at this
      exact map_printf_x_injective x1 x2 this
    have hy : y1 = y2 := by
      have := congrArg List.reverse hF
      rw [reverse_run_fields, reverse_run_fields] at this
      have := congrArg (List.takeWhile (fun f => decide (f ≠ []))) this
      rw [takeWhile_run_fields, takeWhile_run_fields] at this
      exact List.reverse_injective (map_printf_x_injective _ _ this)
    have hl1 : x1.length + len1 + y1.length = 8 := by
      rw [← hw, hw1]
      simp only [List.length_append, List.length_replicate]
    have hl2 : x2.length + len2 + y2.length = 8 := by
      rw [← hv, hw2]
      simp only [List.length_append, List.length_replicate]
    have hlen : len1 = len2 := by
      rw [hx, hy] at hl1
      omega
    rw [hw1, hw2, hx, hy, hlen]

/-- Two 16-byte addresses with the same text are the same address. -/
theorem inet_ntop6_text_injective (a b : List Nat)
    (ha : bytes_wf a) (hla : a.length = 16)
    (hb : bytes_wf b) (hlb : b.length = 16)
    (h : inet_ntop6_text a = inet_ntop6_text b) : a = b := by
  have hF : inet_ntop6_fields a (inet_ntop6_words a)
        (inet_ntop6_best (inet_ntop6_words a))
      = inet_ntop6_fields b (inet_ntop6_words b)
        (inet_ntop6_best (inet_ntop6_words b)) := by
    rw [← inet_ntop6_text_split a hla, ← inet_ntop6_text_split b hlb, h]
  have hwa := inet_ntop6_words_length a hla
  have hwb := inet_ntop6_words_length b hlb
  obtain ⟨a0, a1, a2, a3, a4, a5, a6, a7, a8, a9, a10, a11, a12, a13, a14, a15,
    rfl⟩ := length_sixteen a hla
  obtain ⟨b0, b1, b2, b3, b4, b5, b6, b7, b8, b9, b10, b11, b12, b13, b14, b15,
    rfl⟩ := length_sixteen b hlb
  have ca : ∀ x ∈ [a0, a1, a2, a3, a4, a5, a6, a7, a8, a9, a10, a11, a12, a13,
      a14, a15], x < 256 := ha
  have cb : ∀ x ∈ [b0, b1, b2, b3, b4, b5, b6, b7, b8, b9, b10, b11, b12, b13,
      b14, b15], x < 256 := hb
  simp only [List.mem_cons, List.mem_singleton, List.not_mem_nil, or_false,
    forall_eq_or_imp, forall_eq] at ca cb
  obtain ⟨p0, p1, p2, p3, p4, p5, p6, p7, p8, p9, p10, p11, p12, p13, p14,
    p15⟩ := ca
  obtain ⟨q0, q1, q2, q3, q4, q5, q6, q7, q8, q9, q10, q11, q12, q13, q14,
    q15⟩ := cb
  have hW := words_eq_of_fields_eq _ _ _ _ hwa hwb hF (by
    intro hquad
    have hq : inet_ntop4 [a12, a13, a14, a15] = inet_ntop4 [b12, b13, b14, b15] :=
      hquad
    obtain ⟨e12, e13, e14, e15⟩ := inet_ntop4_injective _ _ _ _ _ _ _ _ hq
    show [a12 <<< 8 ||| a13, a14 <<< 8 ||| a15]
      = [b12 <<< 8 ||| b13, b14 <<< 8 ||| b15]
    rw [e12, e13, e14, e15])
  have hW2 : [a0 <<< 8 ||| a1, a2 <<< 8 ||| a3, a4 <<< 8 ||| a5, a6 <<< 8 ||| a7,
         a8 <<< 8 ||| a9, a10 <<< 8 ||| a11, a12 <<< 8 ||| a13,
         a14 <<< 8 ||| a15]
      = [b0 <<< 8 ||| b1, b2 <<< 8 ||| b3, b4 <<< 8 ||| b5, b6 <<< 8 ||| b7,
         b8 <<< 8 ||| b9, b10 <<< 8 ||| b11, b12 <<< 8 ||| b13,
         b14 <<< 8 ||| b15] := hW
  simp only [List.cons.injEq, and_true] at hW2
  obtain ⟨e0, e1, e2, e3, e4, e5, e6, e7⟩ := hW2
  obtain ⟨f0, f1⟩ := word_injective _ _ _ _ p1 q1 e0
  obtain ⟨f2, f3⟩ := word_injective _ _ _ _ p3 q3 e1
  obtain ⟨f4, f5⟩ := word_injective _ _ _ _ p5 q5 e2
  obtain ⟨f6, f7⟩ := word_injective _ _ _ _ p7 q7 e3
  obtain ⟨f8, f9⟩ := word_injective _ _ _ _ p9 q9 e4
  obtain ⟨f10, f11⟩ := word_injective _ _ _ _ p11 q11 e5
  obtain ⟨f12, f13⟩ := word_injective _ _ _ _ p13 q13 e6
  obtain ⟨f14, f15⟩ := word_injective _ _ _ _ p15 q15 e7
  rw [f0, f1, f2, f3, f4, f5, f6, f7, f8, f9, f10, f11, f12, f13, f14, f15]

/-- `inet_ntop` always succeeds on a 16-byte address with a buffer of
`INET6_ADDRSTRLEN` bytes. -/
theorem inet_ntop6_some (a : List Nat) (ha : bytes_wf a) (hla : a.length = 16) :
    inet_ntop6 a INET6_ADDRSTRLEN = some (inet_ntop6_text a) := by
  have := inet_ntop6_text_length a ha hla
  unfold inet_ntop6 INET6_ADDRSTRLEN
  rw [if_neg (by omega)]

/-- The comparison of the two subnet texts is the comparison of the two
masked addresses. -/
theorem strncmp_text_eq_zero_iff (a b : List Nat)
    (ha : bytes_wf a) (hla : a.length = 16)
    (hb : bytes_wf b) (hlb : b.length = 16) :
    strncmp (inet_ntop6_text a) (inet_ntop6_text b) INET6_ADDRSTRLEN = 0
      ↔ a = b := by
  have la := inet_ntop6_text_length a ha hla
  have lb := inet_ntop6_text_length b hb hlb
  rw [strncmp_eq_zero_iff _ _ INET6_ADDRSTRLEN (inet_ntop6_text_no_nul a hla)
    (inet_ntop6_text_no_nul b hlb) (by unfold INET6_ADDRSTRLEN; omega)
    (by unfold INET6_ADDRSTRLEN; omega)]
  constructor
  · exact inet_ntop6_text_injective a b ha hla hb hlb
  · intro h
    rw [h]

/-! ## `inet_pton` yields well-formed addresses -/

theorem bytes_wf_append (l r : List Nat) (hl : bytes_wf l) (hr : bytes_wf r) :
    bytes_wf (l ++ r) := by
  intro b hb
  rcases List.mem_append.mp hb with h | h
  · exact hl b h
  · exact hr b h

theorem inet_pton4_loop_wf (s : CStr) :
    ∀ (done : List Nat) (cur : Nat) (saw_digit : Bool) (octets : Nat)
      (r : List Nat),
      inet_pton4_loop s done cur saw_digit octets = some r →
      bytes_wf done → cur < 256 → octets ≤ 4 →
      (saw_digit = true → octets = done.length + 1) →
      (saw_digit = false → octets = done.length ∧ octets < 4) →
      bytes_wf r ∧ r.length = 4 := by
  induction s with
  | nil =>
    intro done cur saw_digit octets r h hwf hcur ho hs hn
    simp only [inet_pton4_loop] at h
    split at h
    · cases h
    · cases h
      cases saw_digit with
      | false =>
        have := hn rfl
        omega
      | true =>
        have := hs rfl
        refine ⟨bytes_wf_append _ _ hwf ?_, by simp; omega⟩
        intro b hb
        rw [List.mem_singleton.mp hb]
        exact hcur
  | cons ch rest ih =>
    intro done cur saw_digit octets r h hwf hcur ho hs hn
    simp only [inet_pton4_loop] at h
    split at h
    · split at h
      · cases h
      · split at h
        · cases h
        · split at h
          · split at h
            · cases h
            · rename_i hsaw _
              have hn2 := hn hsaw
              exact ih done _ true (octets + 1) r h hwf (by omega) (by omega)
                (fun _ => by omega) (fun hc => by cases hc)
          · rename_i hsaw
            have hsaw2 : saw_digit = true := by
              cases saw_digit with
              | false => exact absurd rfl hsaw
              | true => rfl
            exact ih done _ true octets r h hwf (by omega) ho
              (fun _ => hs hsaw2) (fun hc => by cases hc)
    · split at h
      · split at h
        · cases h
        · rename_i hdot h4
          have hs2 := hs hdot.2
          refine ih (done ++ [cur]) 0 false octets r h ?_ (by norm_num) ho
            (fun hc => by cases hc) (fun _ => ⟨by simp; omega, by omega⟩)
          apply bytes_wf_append _ _ hwf
          intro b hb
          rw [List.mem_singleton.mp hb]
          exact hcur
      · cases h

theorem inet_pton4_wf (s : CStr) (r : List Nat) (h : inet_pton4 s = some r) :
    bytes_wf r ∧ r.length = 4 :=
  inet_pton4_loop_wf s [] 0 false 0 r h (by intro b hb; cases hb) (by norm_num)
    (by norm_num) (fun hc => by cases hc) (fun _ => ⟨rfl, by norm_num⟩)

theorem group_bytes_wf (val : Nat) :
    bytes_wf [(val >>> 8) &&& 255, val &&& 255] := by
  intro b hb
  simp only [List.mem_cons, List.mem_singleton, List.not_mem_nil,
    or_false] at hb
  rcases hb with rfl | rfl
  · exact Nat.lt_of_le_of_lt Nat.and_le_right (by norm_num)
  · exact Nat.lt_of_le_of_lt Nat.and_le_right (by norm_num)

theorem inet_pton6_expand_wf (tp1 : List Nat) (colonp : Option Nat)
    (r : List Nat)
    (h1 : (match colonp with
        | some c =>
          if tp1.length = 16 then none
          else some (tp1.take c ++ List.replicate (16 - tp1.length) 0 ++ tp1.drop c)
        | none => if tp1.length ≠ 16 then none else some tp1) = some r)
    (hwf1 : bytes_wf tp1) (hlen1 : tp1.length ≤ 16)
    (hcolon1 : ∀ c, colonp = some c → c ≤ tp1.length) :
    bytes_wf r ∧ r.length = 16 := by
  cases colonp with
  | some c =>
    simp only at h1
    split at h1
    · cases h1
    · cases h1
      have hc := hcolon1 c rfl
      refine ⟨?_, ?_⟩
      · apply bytes_wf_append
        · apply bytes_wf_append
          · exact bytes_wf_take tp1 c hwf1
          · intro b hb
            rw [List.mem_replicate] at hb
            omega
        · exact bytes_wf_drop tp1 c hwf1
      · simp only [List.length_append, List.length_take, List.length_replicate,
          List.length_drop]
        omega
  | none =>
    simp only at h1
    split at h1
    · cases h1
    · rename_i hl
      cases h1
      exact ⟨hwf1, by simpa using hl⟩

theorem inet_pton6_finish_wf (tp : List Nat) (colonp : Option Nat)
    (xdigits_seen val : Nat) (r : List Nat)
    (h : inet_pton6_finish tp colonp xdigits_seen val = some r)
    (hwf : bytes_wf tp) (hlen : tp.length ≤ 16)
    (hcolon : ∀ c, colonp = some c → c ≤ tp.length) :
    bytes_wf r ∧ r.length = 16 := by
  unfold inet_pton6_finish at h
  simp only at h
  by_cases hx : xdigits_seen > 0
  · rw [if_pos hx] at h
    by_cases hl : tp.length + 2 > 16
    · rw [if_pos hl] at h
      cases h
    · rw [if_neg hl] at h
      exact inet_pton6_expand_wf (tp ++ [(val >>> 8) &&& 255, val &&& 255])
        colonp r h (bytes_wf_append _ _ hwf (group_bytes_wf val))
        (by simp; omega)
        (fun c hc => by have := hcolon c hc; simp; omega)
  · rw [if_neg hx] at h
    exact inet_pton6_expand_wf tp colonp r h hwf hlen hcolon

theorem inet_pton6_loop_wf (src : CStr) :
    ∀ (curtok : CStr) (tp : List Nat) (colonp : Option Nat)
      (xdigits_seen val : Nat) (r : List Nat),
      inet_pton6_loop src curtok tp colonp xdigits_seen val = some r →
      bytes_wf tp → tp.length ≤ 16 →
      (∀ c, colonp = some c → c ≤ tp.length) →
      bytes_wf r ∧ r.length = 16 := by
  induction src with
  | nil =>
    intro curtok tp colonp xdigits_seen val r h hwf hlen hcolon
    simp only [inet_pton6_loop] at h
    exact inet_pton6_finish_wf tp colonp xdigits_seen val r h hwf hlen hcolon
  | cons ch rest ih =>
    intro curtok tp colonp xdigits_seen val r h hwf hlen hcolon
    simp only [inet_pton6_loop] at h
    split at h
    · split at h
      · cases h
      · split at h
        · cases h
        · exact ih curtok tp colonp _ _ r h hwf hlen hcolon
    · split at h
      · split at h
        · split at h
          · cases h
          · exact ih rest tp (some tp.length) 0 val r h hwf hlen
              (fun c hc => by cases hc; exact Nat.le_refl _)
        · split at h
          · cases h
          · split at h
            · cases h
            · exact ih rest (tp ++ [(val >>> 8) &&& 255, val &&& 255]) colonp 0 0 r
                h (bytes_wf_append _ _ hwf (group_bytes_wf val))
                (by simp; omega)
                (fun c hc => by have := hcolon c hc; simp; omega)
      · split at h
        · split at h
          · rename_i hdot quad hq
            obtain ⟨hqwf, hql⟩ := inet_pton4_wf curtok quad hq
            exact inet_pton6_finish_wf (tp ++ quad) colonp 0 val r h
              (bytes_wf_append _ _ hwf hqwf) (by simp; omega)
              (fun c hc => by have := hcolon c hc; simp; omega)
          · cases h
        · cases h

/-- The address `inet_pton (AF_INET6, ...)` stores has 16 bytes. -/
theorem inet_pton6_wf (src : CStr) (r : List Nat) (h : inet_pton6 src = some r) :
    bytes_wf r ∧ r.length = 16 := by
  have hnil : bytes_wf ([] : List Nat) := by intro b hb; cases hb
  unfold inet_pton6 at h
  split at h
  · cases h
  · split at h
    · exact inet_pton6_loop_wf _ _ [] none 0 0 r h hnil (by simp)
        (fun c hc => by cases hc)
    · cases h
  · exact inet_pton6_loop_wf _ _ [] none 0 0 r h hnil (by simp)
      (fun c hc => by cases hc)

theorem ipv6_address_bytes_wf (s : CStr) (r : List Nat)
    (h : ipv6_address_bytes s = some r) : bytes_wf r ∧ r.length = 16 := by
  unfold ipv6_address_bytes at h
  split at h
  · cases h
  · exact inet_pton6_wf _ r h

/-! ## The overlap detector, IPv6 -/

theorem ipv6_subnet_eq (s : CStr) (m : Nat) (a : List Nat)
    (ha : ipv6_address_bytes s = some a) :
    l3_utils_ipv6_subnet s m
      = match l3_utils_mask_ipv6_addr a m with
        | none => none
        | some masked => inet_ntop6 masked INET6_ADDRSTRLEN := by
  unfold ipv6_address_bytes at ha
  unfold l3_utils_ipv6_subnet
  cases hc : strncpy_cut s (IPV6_ADDRESS_LENGTH + 1) with
  | none => simp [hc] at ha
  | some t =>
    simp only [hc] at ha
    simp only [ha]

/-- For two IPv6 address strings and an effective prefix length from 1 to
128, the collision test holds exactly when the two addresses agree on their
first bits. -/
theorem collides_inet6_iff (ip_address port_address : CStr) (a b : List Nat)
    (ha : ipv6_address_bytes ip_address = some a)
    (hb : ipv6_address_bytes port_address = some b)
    (h1 : 1 ≤ min (l3_utils_mask_bits ip_address AF_INET6)
      (l3_utils_mask_bits port_address AF_INET6))
    (h128 : min (l3_utils_mask_bits ip_address AF_INET6)
      (l3_utils_mask_bits port_address AF_INET6) ≤ 128) :
    collides AF_INET6 ip_address port_address
      = some (decide
          (first_bits a (min (l3_utils_mask_bits ip_address AF_INET6)
              (l3_utils_mask_bits port_address AF_INET6))
            = first_bits b (min (l3_utils_mask_bits ip_address AF_INET6)
              (l3_utils_mask_bits port_address AF_INET6)))) := by
  obtain ⟨hwa, hla⟩ := ipv6_address_bytes_wf ip_address a ha
  obtain ⟨hwb, hlb⟩ := ipv6_address_bytes_wf port_address b hb
  have hmin : (if l3_utils_mask_bits ip_address AF_INET6
        < l3_utils_mask_bits port_address AF_INET6
      then l3_utils_mask_bits ip_address AF_INET6
      else l3_utils_mask_bits port_address AF_INET6)
      = min (l3_utils_mask_bits ip_address AF_INET6)
          (l3_utils_mask_bits port_address AF_INET6) := by
    split <;> omega
  obtain ⟨ma, mb, hma, hmb, wma, lma, wmb, lmb, hiff⟩ :=
    mask_ipv6_addr_spec a b _ hwa hla hwb hlb h1 h128
  simp only [collides, if_true, ipv6_subnet_equal, hmin,
    ipv6_subnet_eq ip_address _ a ha, ipv6_subnet_eq port_address _ b hb,
    hma, hmb, inet_ntop6_some ma wma lma, inet_ntop6_some mb wmb lmb,
    first_bits]
  congr 1
  rw [decide_eq_decide, strncmp_text_eq_zero_iff ma mb wma lma wmb lmb]
  exact hiff

/-- C6: for IPv6 the candidate and an existing address collide exactly when
their 128-bit values agree on the first min(candidate prefix, existing
prefix) bits, for an effective prefix length from 1 to 128; and when the
first existing address in scan order that collides with the candidate is the
primary address of a port whose name does not begin with the candidate's
interface name, the detector returns true. -/
theorem ipv6_collision_is_prefix_agreement :
    (∀ (ip_address port_address : CStr) (a b : List Nat),
      ipv6_address_bytes ip_address = some a →
      ipv6_address_bytes port_address = some b →
      1 ≤ min (l3_utils_mask_bits ip_address AF_INET6)
        (l3_utils_mask_bits port_address AF_INET6) →
      min (l3_utils_mask_bits ip_address AF_INET6)
        (l3_utils_mask_bits port_address AF_INET6) ≤ 128 →
      collides AF_INET6 ip_address port_address
        = some (decide
            (first_bits a (min (l3_utils_mask_bits ip_address AF_INET6)
                (l3_utils_mask_bits port_address AF_INET6))
              = first_bits b (min (l3_utils_mask_bits ip_address AF_INET6)
                (l3_utils_mask_bits port_address AF_INET6))))) ∧
    (∀ (ip_address if_name : CStr) (secondary : Bool) (vrf_row : ovsrec_vrf)
        (before after : List ovsrec_port) (p : ovsrec_port) (a : CStr),
      vrf_row.ports = before ++ p :: after →
      (∀ q ∈ before, port_clear AF_INET6 ip_address q) →
      p.ip6_address = some a →
      collides AF_INET6 ip_address a = some true →
      0 ∉ if_name → ¬ if_name <+: p.name →
      l3_utils_is_ipaddr_overlapping ip_address if_name AF_INET6 secondary
        vrf_row = some true) := by
  refine ⟨collides_inet6_iff, ?_⟩
  intro ip_address if_name secondary vrf_row before after p a hports hbefore
    ha hc hnul hname
  rw [overlapping_eq_scan _ _ _ _ _ (Or.inl rfl), hports]
  apply ports_loop_hit
  · intro q hq
    exact port_scan_clear AF_INET6 ip_address if_name secondary q (hbefore q hq)
  · have ha2 : primary_address AF_INET6 p = some a := by
      simp [primary_address, ha]
    rw [port_scan_primary AF_INET6 ip_address if_name secondary p a ha2 hc,
      primary_verdict_other p.name if_name secondary hnul hname]

/-- C6 at the candidate 2001:db8::1/72 on eth1, against port eth2 with the
primary address 2001:db8::1:0/72: the effective prefix length is 72, both
addresses are masked to 2001:db8::, and the detector returns true. -/
theorem ipv6_collision_is_prefix_agreement_witness :
    l3_utils_mask_bits (cstr "2001:db8::1/72") AF_INET6 = 72 ∧
    l3_utils_mask_bits (cstr "2001:db8::1:0/72") AF_INET6 = 72 ∧
    l3_utils_ipv6_subnet (cstr "2001:db8::1/72") 72 = some (cstr "2001:db8::") ∧
    l3_utils_ipv6_subnet (cstr "2001:db8::1:0/72") 72
      = some (cstr "2001:db8::") ∧
    collides AF_INET6 (cstr "2001:db8::1/72") (cstr "2001:db8::1:0/72")
      = some true ∧
    l3_utils_is_ipaddr_overlapping (cstr "2001:db8::1/72") (cstr "eth1")
      AF_INET6 false (vrf_with_ports [port_eth0, port_eth2_v6]) = some true :=
  ⟨by decide, by decide, by decide, by decide,
    (ipv6_collision_is_prefix_agreement.1 (cstr "2001:db8::1/72")
      (cstr "2001:db8::1:0/72")
      [32, 1, 13, 184, 0, 0, 0, 0, 0, 0, 0, 0, 0, 0, 0, 1]
      [32, 1, 13, 184, 0, 0, 0, 0, 0, 0, 0, 0, 0, 1, 0, 0]
      (by decide) (by decide) (by decide) (by decide)).trans (by decide),
    ipv6_collision_is_prefix_agreement.2 (cstr "2001:db8::1/72") (cstr "eth1")
      false (vrf_with_ports [port_eth0, port_eth2_v6]) [port_eth0] []
      port_eth2_v6 (cstr "2001:db8::1:0/72") rfl
      (by
        intro q hq
        simp at hq
        subst hq
        refine ⟨?_, ?_⟩
        · intro a h; cases h
        · intro a h; cases h)
      rfl (by decide) (by decide) (by decide)⟩

/-! ## The VRF resolver: failure and readiness -/

theorem strncmp_begins_iff (a b : CStr) (hb : 0 ∉ b) :
    strncmp a b (strlen b) = 0 ↔ b <+: a := by
  constructor
  · exact strncmp_begins a b hb
  · rintro ⟨t, rfl⟩
    exact strncmp_append_self b t

theorem strncmp_short_eq_zero_iff (a b : CStr) (n : Nat) (ha : 0 ∉ a)
    (hb : 0 ∉ b) (hlb : b.length < n) :
    strncmp a b n = 0 ↔ a = b := by
  induction n generalizing a b with
  | zero => omega
  | succ n ih =>
    cases a with
    | nil =>
      cases b with
      | nil => simp [strncmp]
      | cons y ys =>
        have hy : y ≠ 0 := fun hy => hb (by simp [hy])
        simp only [strncmp]
        constructor
        · intro h; omega
        · intro h; cases h
    | cons x xs =>
      have hx : x ≠ 0 := fun hx => ha (by simp [hx])
      have hxs : 0 ∉ xs := fun hm => ha (List.mem_cons_of_mem x hm)
      cases b with
      | nil =>
        simp only [strncmp]
        constructor
        · intro h; omega
        · intro h; cases h
      | cons y ys =>
        have hys : 0 ∉ ys := fun hm => hb (List.mem_cons_of_mem y hm)
        simp only [List.length_cons] at hlb
        simp only [strncmp]
        by_cases hxy : x = y
        · subst hxy
          simp only [if_true, List.cons.injEq, true_and]
          exact ih xs ys hxs hys (by omega)
        · simp only [hxy, if_false, List.cons.injEq, false_and, iff_false]
          omega

theorem is_nondefault_vrf_eq_false_iff (DEFAULT_VRF_NAME : CStr)
    (hD : 0 ∉ DEFAULT_VRF_NAME) (vrf_name : Option CStr) :
    is_nondefault_vrf DEFAULT_VRF_NAME vrf_name = false
      ↔ default_vrf_name DEFAULT_VRF_NAME vrf_name := by
  cases vrf_name with
  | none => simp [is_nondefault_vrf, default_vrf_name]
  | some name =>
    simp only [is_nondefault_vrf, default_vrf_name,
      strncmp_begins_iff name DEFAULT_VRF_NAME hD,
      strncmp_begins_iff name SWITCH_NAMESPACE (by decide)]
    by_cases h : SWITCH_NAMESPACE <+: name ∨ DEFAULT_VRF_NAME <+: name
    · simp [h]
    · simp [h]

theorem vrf_lookup_eq_none_iff (OVSDB_VRF_NAME_MAXLEN : Nat)
    (idl : List ovsrec_vrf) (name : CStr)
    (hwf : vrf_table_wf OVSDB_VRF_NAME_MAXLEN idl) (hn : 0 ∉ name)
    (hl : name.length ≤ OVSDB_VRF_NAME_MAXLEN) :
    vrf_lookup OVSDB_VRF_NAME_MAXLEN idl name = none
      ↔ ∀ q ∈ idl, q.name ≠ name := by
  unfold vrf_lookup
  rw [List.find?_eq_none]
  constructor
  · intro h q hq he
    have := h q hq
    rw [decide_eq_true_eq] at this
    exact this ((strncmp_eq_zero_iff q.name name _ (hwf q hq).1 hn
      (hwf q hq).2.1 hl).mpr he)
  · intro h q hq
    rw [decide_eq_true_eq]
    intro hz
    exact h q hq ((strncmp_eq_zero_iff q.name name _ (hwf q hq).1 hn
      (hwf q hq).2.1 hl).mp hz)

theorem vrf_lookup_some (OVSDB_VRF_NAME_MAXLEN : Nat)
    (idl : List ovsrec_vrf) (name : CStr) (r : ovsrec_vrf)
    (hwf : vrf_table_wf OVSDB_VRF_NAME_MAXLEN idl) (hn : 0 ∉ name)
    (hl : name.length ≤ OVSDB_VRF_NAME_MAXLEN)
    (h : vrf_lookup OVSDB_VRF_NAME_MAXLEN idl name = some r) :
    r ∈ idl ∧ r.name = name := by
  unfold vrf_lookup at h
  have hm : r ∈ idl := List.mem_of_find?_eq_some h
  have hp := List.find?_some h
  rw [decide_eq_true_eq] at hp
  exact ⟨hm, (strncmp_eq_zero_iff r.name name _ (hwf r hm).1 hn
    (hwf r hm).2.1 hl).mp hp⟩

theorem vrf_lookup_unique (OVSDB_VRF_NAME_MAXLEN : Nat)
    (idl : List ovsrec_vrf) (r : ovsrec_vrf)
    (hwf : vrf_table_wf OVSDB_VRF_NAME_MAXLEN idl)
    (huniq : vrf_names_unique idl) (hr : r ∈ idl) :
    vrf_lookup OVSDB_VRF_NAME_MAXLEN idl r.name = some r := by
  unfold vrf_lookup
  apply find_unique idl r _ hr
  · intro q hq hp
    rw [decide_eq_true_eq] at hp
    exact huniq q hq r hr ((strncmp_eq_zero_iff q.name r.name _ (hwf q hq).1
      (hwf r hr).1 (hwf q hq).2.1 (hwf r hr).2.1).mp hp)
  · rw [decide_eq_true_eq]
    exact (strncmp_eq_zero_iff r.name r.name _ (hwf r hr).1 (hwf r hr).1
      (hwf r hr).2.1 (hwf r hr).2.1).mpr rfl

theorem vrf_lookup_on_table_id_eq_none_iff (idl : List ovsrec_vrf)
    (table_id : Int) :
    vrf_lookup_on_table_id idl table_id = none
      ↔ ∀ q ∈ idl, q.table_id ≠ some table_id := by
  unfold vrf_lookup_on_table_id
  rw [List.find?_eq_none]
  constructor
  · intro h q hq he
    have := h q hq
    simp [he] at this
  · intro h q hq
    have := h q hq
    cases ht : q.table_id with
    | none => simp
    | some t =>
      rw [ht] at this
      have hne : t ≠ table_id := fun e => this (by rw [e])
      simp [hne]

theorem smap_get_mem (m : List (CStr × CStr)) (key value : CStr)
    (h : smap_get m key = some value) : ∃ kv ∈ m, kv.2 = value := by
  unfold smap_get at h
  cases hf : m.find? (fun kv => decide (kv.1 = key)) with
  | none => rw [hf] at h; cases h
  | some kv =>
    rw [hf] at h
    exact ⟨kv, List.mem_of_find?_eq_some hf, Option.some.inj h⟩

/-- A missing record, a missing key and the values "false" and "true1" give
false. -/
theorem vrf_is_ready_not_ready :
    vrf_is_ready (cstr "vrf_default") 32 [vrf_blue] (some (cstr "vrf_red"))
      = false ∧
    vrf_is_ready (cstr "vrf_default") 32 [vrf_red] (some (cstr "vrf_red"))
      = false ∧
    vrf_is_ready (cstr "vrf_default") 32
      [{ vrf_red with status := [(cstr "namespace_ready", cstr "false")] }]
      (some (cstr "vrf_red")) = false ∧
    vrf_is_ready (cstr "vrf_default") 32
      [{ vrf_red with status := [(cstr "namespace_ready", cstr "true1")] }]
      (some (cstr "vrf_red")) = false := by
  decide

/-! ## The source resolver -/

theorem strncmp_begins_left (a b : CStr) (ha : 0 ∉ a) :
    strncmp a b (strlen a) = 0 ↔ a <+: b := by
  induction a generalizing b with
  | nil => simp [strlen, strncmp]
  | cons x xs ih =>
    have hx : x ≠ 0 := fun hx => ha (by simp [hx])
    have hxs : 0 ∉ xs := fun hm => ha (List.mem_cons_of_mem x hm)
    cases b with
    | nil =>
      simp only [strlen, List.length_cons, strncmp]
      constructor
      · intro h; omega
      · intro h; simp at h
    | cons y ys =>
      simp only [strlen, List.length_cons, strncmp]
      by_cases hxy : x = y
      · subst hxy
        simp only [if_true]
        rw [List.prefix_cons_inj]
        exact ih ys hxs
      · simp only [hxy, if_false]
        constructor
        · intro h; omega
        · intro h
          have := List.cons_prefix_cons.mp h
          exact absurd this.1 hxy

theorem interface_entry_cons (e : CStr × ovsrec_port)
    (m : List (CStr × ovsrec_port)) (key : CStr) :
    interface_entry (e :: m) key
      = if e.1 = key then some e.2 else interface_entry m key := by
  unfold interface_entry
  by_cases h : e.1 = key
  · simp [List.find?, h]
  · simp [List.find?, h]

theorem source_interface_loop_eq_entry (key : CStr)
    (m : List (CStr × ovsrec_port)) (hk : 0 ∉ key)
    (hkeys : ∀ e ∈ m, key <+: e.1 → e.1 = key) :
    source_interface_loop key m = interface_entry m key := by
  induction m with
  | nil => rfl
  | cons e rest ih =>
    obtain ⟨key_i, value_i⟩ := e
    have hrest : ∀ x ∈ rest, key <+: x.1 → x.1 = key :=
      fun x hx => hkeys x (List.mem_cons_of_mem _ hx)
    rw [interface_entry_cons]
    simp only [source_interface_loop]
    by_cases h : key_i = key
    · subst h
      simp [strncmp_self]
    · have hne : strncmp key key_i (strlen key) ≠ 0 := fun hz =>
        h (hkeys (key_i, value_i) (List.mem_cons_self _ _)
          ((strncmp_begins_left key key_i hk).mp hz))
      simp [h, hne, ih hrest]

theorem protocol_keys_no_nul (TFTP ALL : CStr) (hT : 0 ∉ TFTP) (hA : 0 ∉ ALL)
    (type : Nat) : 0 ∉ protocol_keys TFTP ALL type := by
  unfold protocol_keys
  match type with
  | 0 => simpa using hT
  | 1 =>
    have h : 0 ∉ VRF_SOURCE_INTERFACE_MAP_TACACS := by decide
    simpa using h
  | 2 =>
    have h : 0 ∉ VRF_SOURCE_INTERFACE_MAP_RADIUS := by decide
    simpa using h
  | 3 => simpa using hA
  | n + 4 => simp

theorem get_configured_eq (OVSDB_VRF_NAME_MAXLEN : Nat) (TFTP ALL : CStr)
    (idl : List ovsrec_vrf) (type : Nat) (name : CStr) (ps : protocol_source)
    (r : ovsrec_vrf) (ht : type < PROTOCOL_MAX)
    (hfind : vrf_lookup OVSDB_VRF_NAME_MAXLEN idl name = some r)
    (hT : 0 ∉ TFTP) (hA : 0 ∉ ALL)
    (hkeys : ∀ e ∈ r.source_interface,
      protocol_keys TFTP ALL type <+: e.1 → e.1 = protocol_keys TFTP ALL type) :
    get_configured_protocol_source OVSDB_VRF_NAME_MAXLEN TFTP ALL (some idl)
        type (some name) (some ps)
      = match configured_source r (protocol_keys TFTP ALL type) with
        | some s => (true, some s)
        | none => (false, some unset_source) := by
  have hlt : ¬ type ≥ PROTOCOL_MAX := by omega
  have hloop := source_interface_loop_eq_entry (protocol_keys TFTP ALL type)
    r.source_interface (protocol_keys_no_nul TFTP ALL hT hA type) hkeys
  simp only [get_configured_protocol_source, hlt, if_false, hfind,
    configured_source, hloop]
  cases smap_get r.source_ip (protocol_keys TFTP ALL type) with
  | some ip => rfl
  | none =>
    cases interface_entry r.source_interface (protocol_keys TFTP ALL type) with
    | some port => rfl
    | none => rfl

/-- On a record whose source-interface map has no key that begins with a
protocol's key without being that key, `get_protocol_source` for a valid
protocol P returns true with the first configured entry in the order source
IP of P, source interface of P, source IP of all protocols, source interface
of all protocols, each tagged with its kind; it returns false with the unset
result exactly when none of the four is configured. -/
theorem get_protocol_source_exact_keys (OVSDB_VRF_NAME_MAXLEN : Nat)
    (TFTP ALL : CStr) (idl : List ovsrec_vrf) (type : Nat) (name : CStr)
    (ps : protocol_source) (r : ovsrec_vrf) (ht : type < PROTOCOL_MAX)
    (hfind : vrf_lookup OVSDB_VRF_NAME_MAXLEN idl name = some r)
    (hT : 0 ∉ TFTP) (hA : 0 ∉ ALL)
    (hkeys : ∀ e ∈ r.source_interface, ∀ t, t < PROTOCOL_MAX →
      protocol_keys TFTP ALL t <+: e.1 → e.1 = protocol_keys TFTP ALL t) :
    get_protocol_source OVSDB_VRF_NAME_MAXLEN TFTP ALL (some idl) type
        (some name) (some ps)
      = (match resolved_source r (protocol_keys TFTP ALL type) ALL with
        | some s => (true, some s)
        | none => (false, some unset_source)) ∧
    ((get_protocol_source OVSDB_VRF_NAME_MAXLEN TFTP ALL (some idl) type
        (some name) (some ps)).1 = false ↔
      smap_get r.source_ip (protocol_keys TFTP ALL type) = none ∧
      interface_entry r.source_interface (protocol_keys TFTP ALL type) = none ∧
      smap_get r.source_ip ALL = none ∧
      interface_entry r.source_interface ALL = none) := by
  have hall : protocol_keys TFTP ALL ALL_PROTOCOL = ALL := rfl
  have h1 := get_configured_eq OVSDB_VRF_NAME_MAXLEN TFTP ALL idl type name ps
    r ht hfind hT hA (fun e he => hkeys e he type ht)
  have h2 : ∀ ps2, get_configured_protocol_source OVSDB_VRF_NAME_MAXLEN TFTP
      ALL (some idl) ALL_PROTOCOL (some name) (some ps2)
      = match configured_source r ALL with
        | some s => (true, some s)
        | none => (false, some unset_source) := fun ps2 =>
    get_configured_eq OVSDB_VRF_NAME_MAXLEN TFTP ALL idl ALL_PROTOCOL name ps2
      r (by decide) hfind hT hA
      (fun e he => hkeys e he ALL_PROTOCOL (by decide))
  have hmain : get_protocol_source OVSDB_VRF_NAME_MAXLEN TFTP ALL (some idl)
      type (some name) (some ps)
      = match resolved_source r (protocol_keys TFTP ALL type) ALL with
        | some s => (true, some s)
        | none => (false, some unset_source) := by
    unfold get_protocol_source resolved_source
    simp only [h1]
    cases hc : configured_source r (protocol_keys TFTP ALL type) with
    | some s => simp
    | none =>
      by_cases hty : type = ALL_PROTOCOL
      · subst hty
        rw [hall] at hc
        simp [hc]
      · simp only [Bool.false_eq_true, if_false, hty, ne_eq, not_false_eq_true,
          if_true, h2]
        cases configured_source r ALL with
        | some s => simp
        | none => simp
  refine ⟨hmain, ?_⟩
  rw [hmain]
  unfold resolved_source configured_source
  cases smap_get r.source_ip (protocol_keys TFTP ALL type) with
  | some ip => simp
  | none =>
    cases interface_entry r.source_interface (protocol_keys TFTP ALL type) with
    | some port => simp
    | none =>
      cases smap_get r.source_ip ALL with
      | some ip => simp
      | none =>
        cases interface_entry r.source_interface ALL with
        | some port => simp
        | none => simp

/-- A record with no source for TACACS and the source IP 1.1.1.1 for all
protocols (the keys of TFTP and of all protocols being "tftp" and "all"):
`get_protocol_source` for TACACS returns true with the source "1.1.1.1"
tagged `SOURCE_IP`. -/
theorem get_protocol_source_all_ip :
    get_protocol_source 32 (cstr "tftp") (cstr "all")
        (some [vrf_blue, vrf_red_all_ip]) TACACS_PROTOCOL
        (some (cstr "vrf_red")) (some unset_source)
      = (true, some { source := some (cstr "1.1.1.1"),
                      config_type := configuration_type.SOURCE_IP }) :=
  (get_protocol_source_exact_keys 32 (cstr "tftp") (cstr "all")
    [vrf_blue, vrf_red_all_ip] TACACS_PROTOCOL (cstr "vrf_red") unset_source
    vrf_red_all_ip (by decide) (by decide) (by decide) (by decide)
    (by intro e he; cases he)).1.trans (by decide)

/-- C14: for a valid protocol P and the record the VRF name selects, when
the source-IP map of the record has an entry under the key of P,
`get_configured_protocol_source` returns true with that IP string tagged
`SOURCE_IP`, whatever the source-interface map of the record holds. -/
theorem source_ip_outranks_source_interface (OVSDB_VRF_NAME_MAXLEN : Nat)
    (TFTP ALL : CStr) (idl : List ovsrec_vrf) (type : Nat) (name ip : CStr)
    (ps : protocol_source) (r : ovsrec_vrf) (ht : type < PROTOCOL_MAX)
    (hfind : vrf_lookup OVSDB_VRF_NAME_MAXLEN idl name = some r)
    (hip : smap_get r.source_ip (protocol_keys TFTP ALL type) = some ip) :
    get_configured_protocol_source OVSDB_VRF_NAME_MAXLEN TFTP ALL (some idl)
        type (some name) (some ps)
      = (true, some { source := some ip,
                      config_type := configuration_type.SOURCE_IP }) := by
  have hlt : ¬ type ≥ PROTOCOL_MAX := by omega
  simp only [get_configured_protocol_source, hlt, if_false, hfind, hip]

/-- C14 at a record that has both a source IP (10.1.1.1) and a source
interface (eth0) for TACACS: the source IP is returned. -/
theorem source_ip_outranks_source_interface_witness :
    get_configured_protocol_source 32 (cstr "tftp") (cstr "all")
        (some [vrf_blue, vrf_red_tacacs]) TACACS_PROTOCOL
        (some (cstr "vrf_red")) (some unset_source)
      = (true, some { source := some (cstr "10.1.1.1"),
                      config_type := configuration_type.SOURCE_IP }) :=
  source_ip_outranks_source_interface 32 (cstr "tftp") (cstr "all")
    [vrf_blue, vrf_red_tacacs] TACACS_PROTOCOL (cstr "vrf_red")
    (cstr "10.1.1.1") unset_source vrf_red_tacacs (by decide) (by decide)
    (by decide)

theorem source_interface_loop_mem (key : CStr)
    (m : List (CStr × ovsrec_port)) (port : ovsrec_port)
    (h : source_interface_loop key m = some port) :
    ∃ e ∈ m, e.2 = port := by
  induction m with
  | nil => cases h
  | cons e rest ih =>
    obtain ⟨key_i, value_i⟩ := e
    simp only [source_interface_loop] at h
    by_cases hz : strncmp key key_i (strlen key) = 0
    · rw [if_pos hz] at h
      exact ⟨(key_i, value_i), List.mem_cons_self _ _, Option.some.inj h⟩
    · rw [if_neg hz] at h
      obtain ⟨e, he, hp⟩ := ih h
      exact ⟨e, List.mem_cons_of_mem _ he, hp⟩

theorem get_configured_unset (OVSDB_VRF_NAME_MAXLEN : Nat) (TFTP ALL : CStr)
    (idl : Option (List ovsrec_vrf)) (type : Nat) (vrf_name : Option CStr)
    (ps : protocol_source)
    (h : idl = none ∨ vrf_name = none ∨
      ∃ table name, idl = some table ∧ vrf_name = some name ∧
        vrf_lookup OVSDB_VRF_NAME_MAXLEN table name = none) :
    get_configured_protocol_source OVSDB_VRF_NAME_MAXLEN TFTP ALL idl type
      vrf_name (some ps) = (false, some unset_source) := by
  rcases h with h | h | ⟨table, name, h1, h2, h3⟩
  · subst h
    simp [get_configured_protocol_source, unset_source]
  · subst h
    cases idl <;> simp [get_configured_protocol_source, unset_source]
  · subst h1 h2
    by_cases ht : type ≥ PROTOCOL_MAX
    · simp [get_configured_protocol_source, unset_source, ht]
    · simp [get_configured_protocol_source, unset_source, ht, h3]

theorem get_configured_tagged (OVSDB_VRF_NAME_MAXLEN : Nat) (TFTP ALL : CStr)
    (idl : Option (List ovsrec_vrf)) (type : Nat) (vrf_name : Option CStr)
    (ps : protocol_source) :
    tagged_result idl (get_configured_protocol_source OVSDB_VRF_NAME_MAXLEN
      TFTP ALL idl type vrf_name (some ps)) := by
  cases idl with
  | none => exact Or.inl (get_configured_unset _ _ _ _ _ _ _ (Or.inl rfl))
  | some table =>
    cases vrf_name with
    | none =>
      exact Or.inl (get_configured_unset _ _ _ _ _ _ _ (Or.inr (Or.inl rfl)))
    | some name =>
      by_cases ht : type ≥ PROTOCOL_MAX
      · left
        simp [get_configured_protocol_source, unset_source, ht]
      · cases h3 : vrf_lookup OVSDB_VRF_NAME_MAXLEN table name with
        | none =>
          exact Or.inl (get_configured_unset _ _ _ _ _ _ _
            (Or.inr (Or.inr ⟨table, name, rfl, rfl, h3⟩)))
        | some r =>
          have hr : r ∈ table := by
            unfold vrf_lookup at h3
            exact List.mem_of_find?_eq_some h3
          cases h4 : smap_get r.source_ip (protocol_keys TFTP ALL type) with
          | some ip =>
            right; left
            refine ⟨table, r, protocol_keys TFTP ALL type, ip, rfl, hr, h4, ?_⟩
            simp only [get_configured_protocol_source, ht, if_false, h3, h4]
          | none =>
            cases h5 : source_interface_loop (protocol_keys TFTP ALL type)
                r.source_interface with
            | some port =>
              right; right
              obtain ⟨e, he, hp⟩ := source_interface_loop_mem _ _ _ h5
              refine ⟨table, r, e, rfl, hr, he, ?_⟩
              simp only [get_configured_protocol_source, ht, if_false, h3, h4,
                h5, hp]
            | none =>
              left
              simp only [get_configured_protocol_source, ht, if_false, h3, h4,
                h5, unset_source]

theorem get_protocol_source_tagged (OVSDB_VRF_NAME_MAXLEN : Nat)
    (TFTP ALL : CStr) (idl : Option (List ovsrec_vrf)) (type : Nat)
    (vrf_name : Option CStr) (ps : protocol_source) :
    tagged_result idl (get_protocol_source OVSDB_VRF_NAME_MAXLEN TFTP ALL idl
      type vrf_name (some ps)) := by
  have h1 := get_configured_tagged OVSDB_VRF_NAME_MAXLEN TFTP ALL idl type
    vrf_name ps
  have h2 := get_configured_tagged OVSDB_VRF_NAME_MAXLEN TFTP ALL idl
    ALL_PROTOCOL vrf_name unset_source
  unfold get_protocol_source
  rcases h1 with h1 | ⟨table, r, key, ip, hi, hr, hs, h1⟩ |
      ⟨table, r, e, hi, hr, he, h1⟩
  · simp only [h1, Bool.false_eq_true, if_false]
    by_cases hty : type = ALL_PROTOCOL
    · simp only [hty, ne_eq, not_true_eq_false, if_false]
      exact Or.inl rfl
    · simp only [hty, ne_eq, not_false_eq_true, if_true]
      rcases h2 with h2 | ⟨table, r, key, ip, hi, hr, hs, h2⟩ |
          ⟨table, r, e, hi, hr, he, h2⟩
      · simp only [h2, Bool.false_eq_true, if_false]
        exact Or.inl rfl
      · simp only [h2, if_true]
        exact Or.inr (Or.inl ⟨table, r, key, ip, hi, hr, hs, rfl⟩)
      · simp only [h2, if_true]
        exact Or.inr (Or.inr ⟨table, r, e, hi, hr, he, rfl⟩)
  · simp only [h1, if_true]
    exact Or.inr (Or.inl ⟨table, r, key, ip, hi, hr, hs, rfl⟩)
  · simp only [h1, if_true]
    exact Or.inr (Or.inr ⟨table, r, e, hi, hr, he, rfl⟩)

/-- C15: every call of `get_protocol_source` with a result structure leaves
it consistently tagged: the call returns true exactly when the source is set
and the tag is `SOURCE_IP` or `SOURCE_INTERFACE`, false exactly when the
source is NULL and the tag is `SOURCE_MAX`; a source tagged `SOURCE_IP` is a
value of the source-IP map of a record of the table, a source tagged
`SOURCE_INTERFACE` is the name of a port of the source-interface map of a
record; a NULL idl, a NULL VRF name and a VRF name the table does not hold
give false with the unset result. -/
theorem protocol_source_consistently_tagged (OVSDB_VRF_NAME_MAXLEN : Nat)
    (TFTP ALL : CStr) (idl : Option (List ovsrec_vrf)) (type : Nat)
    (vrf_name : Option CStr) (ps : protocol_source) :
    ∃ out : protocol_source,
      (get_protocol_source OVSDB_VRF_NAME_MAXLEN TFTP ALL idl type vrf_name
        (some ps)).2 = some out ∧
      ((get_protocol_source OVSDB_VRF_NAME_MAXLEN TFTP ALL idl type vrf_name
          (some ps)).1 = true ↔
        out.source ≠ none ∧
          (out.config_type = configuration_type.SOURCE_IP ∨
            out.config_type = configuration_type.SOURCE_INTERFACE)) ∧
      ((get_protocol_source OVSDB_VRF_NAME_MAXLEN TFTP ALL idl type vrf_name
          (some ps)).1 = false ↔
        out.source = none ∧
          out.config_type = configuration_type.SOURCE_MAX) ∧
      (out.config_type = configuration_type.SOURCE_IP →
        ∃ table r key, idl = some table ∧ r ∈ table ∧
          smap_get r.source_ip key = out.source) ∧
      (out.config_type = configuration_type.SOURCE_INTERFACE →
        ∃ table r e, idl = some table ∧ r ∈ table ∧
          e ∈ r.source_interface ∧ out.source = some e.2.name) ∧
      ((idl = none ∨ vrf_name = none ∨
          ∃ table name, idl = some table ∧ vrf_name = some name ∧
            vrf_lookup OVSDB_VRF_NAME_MAXLEN table name = none) →
        get_protocol_source OVSDB_VRF_NAME_MAXLEN TFTP ALL idl type vrf_name
          (some ps) = (false, some unset_source)) := by
  have hlast : (idl = none ∨ vrf_name = none ∨
      ∃ table name, idl = some table ∧ vrf_name = some name ∧
        vrf_lookup OVSDB_VRF_NAME_MAXLEN table name = none) →
      get_protocol_source OVSDB_VRF_NAME_MAXLEN TFTP ALL idl type vrf_name
        (some ps) = (false, some unset_source) := by
    intro h
    unfold get_protocol_source
    simp only [get_configured_unset OVSDB_VRF_NAME_MAXLEN TFTP ALL idl _
      vrf_name _ h, Bool.false_eq_true, if_false]
    by_cases hty : type = ALL_PROTOCOL
    · simp [hty]
    · simp [hty]
  rcases get_protocol_source_tagged OVSDB_VRF_NAME_MAXLEN TFTP ALL idl type
      vrf_name ps with h | ⟨table, r, key, ip, hi, hr, hs, h⟩ |
      ⟨table, r, e, hi, hr, he, h⟩
  · refine ⟨unset_source, ?_, ?_, ?_, ?_, ?_, hlast⟩
    · rw [h]
    · rw [h]; simp [unset_source]
    · rw [h]; simp [unset_source]
    · intro hc; simp [unset_source] at hc
    · intro hc; simp [unset_source] at hc
  · refine ⟨_, by rw [h], ?_, ?_, ?_, ?_, hlast⟩
    · rw [h]; simp
    · rw [h]; simp
    · intro _; exact ⟨table, r, key, hi, hr, hs⟩
    · intro hc; simp at hc
  · refine ⟨_, by rw [h], ?_, ?_, ?_, ?_, hlast⟩
    · rw [h]; simp
    · rw [h]; simp
    · intro hc; simp at hc
    · intro _; exact ⟨table, r, e, hi, hr, he, rfl⟩

/-! ## The operating system: descriptors -/

theorem lowest_free_not_mem (l : List Nat) : lowest_free l ∉ l := by
  unfold lowest_free
  cases h : (List.range (l.length + 1)).find? (fun n => decide (n ∉ l)) with
  | some n =>
    have := List.find?_some h
    simpa using this
  | none =>
    exfalso
    rw [List.find?_eq_none] at h
    have hsub : List.range (l.length + 1) ⊆ l := by
      intro x hx
      have := h x hx
      simpa using this
    have hle := ((List.nodup_range (l.length + 1)).subperm hsub).length_le
    simp at hle

theorem filter_fresh (F : List (Nat × file)) (n : Nat)
    (h : n ∉ F.map Prod.fst) :
    F.filter (fun e => decide (e.1 ≠ n)) = F := by
  rw [List.filter_eq_self]
  intro e he
  have : e.1 ≠ n := fun heq => h (heq ▸ List.mem_map_of_mem Prod.fst he)
  simpa using this

theorem fresh_forall (F : List (Nat × file)) (n : Nat)
    (h : n ∉ F.map Prod.fst) : ∀ (a : Nat) (b : file), (a, b) ∈ F → ¬ a = n :=
  fun _ _ hab heq => h (heq ▸ List.mem_map_of_mem Prod.fst hab)

theorem sys_close_head (n : Nat) (f : file) (F : List (Nat × file))
    (cn wn : CStr) (tr : List sys_event) (h : n ∉ F.map Prod.fst) :
    sys_close (n : Int)
        { caller_ns := cn, worker_ns := wn, files := (n, f) :: F, trace := tr }
      = (0, { caller_ns := cn, worker_ns := wn, files := F,
              trace := tr ++ [sys_event.closed n] }) := by
  simp [sys_close, machine.fds]
  exact fresh_forall F n h

theorem sys_close_second (n a : Nat) (f g : file) (F : List (Nat × file))
    (cn wn : CStr) (tr : List sys_event) (h : n ∉ F.map Prod.fst)
    (ha : a ≠ n) :
    sys_close (n : Int)
        { caller_ns := cn, worker_ns := wn, files := (a, g) :: (n, f) :: F,
          trace := tr }
      = (0, { caller_ns := cn, worker_ns := wn, files := (a, g) :: F,
              trace := tr ++ [sys_event.closed n] }) := by
  simp [sys_close, machine.fds, ha]
  exact fresh_forall F n h

theorem sys_close_third (n a b : Nat) (f g e : file) (F : List (Nat × file))
    (cn wn : CStr) (tr : List sys_event) (h : n ∉ F.map Prod.fst)
    (ha : a ≠ n) (hb : b ≠ n) :
    sys_close (n : Int)
        { caller_ns := cn, worker_ns := wn,
          files := (a, g) :: (b, e) :: (n, f) :: F, trace := tr }
      = (0, { caller_ns := cn, worker_ns := wn, files := (a, g) :: (b, e) :: F,
              trace := tr ++ [sys_event.closed n] }) := by
  simp [sys_close, machine.fds, ha, hb]
  exact fresh_forall F n h

theorem sys_setns_head (ok : Bool) (t : thread_id) (n : Nat) (p : CStr)
    (F : List (Nat × file)) (cn wn : CStr) (tr : List sys_event) :
    sys_setns ok t (n : Int)
        { caller_ns := cn, worker_ns := wn, files := (n, file.path p) :: F,
          trace := tr }
      = if ok = true then
          (0, { caller_ns := if t = thread_id.caller then p else cn,
                worker_ns := if t = thread_id.worker then p else wn,
                files := (n, file.path p) :: F,
                trace := tr ++ [sys_event.entered t p] })
        else
          (-1, { caller_ns := cn, worker_ns := wn,
                 files := (n, file.path p) :: F, trace := tr }) := by
  cases ok <;> cases t <;> simp [sys_setns, List.find?]

/-- What `nl_setns_with_name` does: the descriptor it opens is closed again,
and the thread is in the namespace of the path exactly when both system
calls succeed. -/
theorem nl_setns_with_name_eq (o : setns_outcome) (t : thread_id)
    (ns_name : CStr) (m : machine) :
    nl_setns_with_name o t ns_name m
      = if o.open_ok = false then (-1, m)
        else if o.setns_ok = false then
          (-1, { m with trace := m.trace ++
            [sys_event.opened (lowest_free m.fds)
                (file.path (nl_setns_path ns_name)),
              sys_event.closed (lowest_free m.fds)] })
        else
          (0, { caller_ns := if t = thread_id.caller then nl_setns_path ns_name
                  else m.caller_ns,
                worker_ns := if t = thread_id.worker then nl_setns_path ns_name
                  else m.worker_ns,
                files := m.files,
                trace := m.trace ++
                  [sys_event.opened (lowest_free m.fds)
                      (file.path (nl_setns_path ns_name)),
                    sys_event.entered t (nl_setns_path ns_name),
                    sys_event.closed (lowest_free m.fds)] }) := by
  obtain ⟨cn, wn, F, tr⟩ := m
  have hfresh : lowest_free (F.map Prod.fst) ∉ F.map Prod.fst :=
    lowest_free_not_mem _
  have hne : ((lowest_free (F.map Prod.fst) : Nat) : Int) ≠ -1 := by omega
  cases ho : o.open_ok
  · simp [nl_setns_with_name, sys_open, ho]
  · cases hs : o.setns_ok
    · simp [nl_setns_with_name, sys_open, sys_alloc, ho, hs, machine.fds,
        sys_setns_head, sys_close_head _ _ _ _ _ _ hfresh, hne]
    · simp [nl_setns_with_name, sys_open, sys_alloc, ho, hs, machine.fds,
        sys_setns_head, sys_close_head _ _ _ _ _ _ hfresh, hne]

/-! ## nl_move_intf_to_vrf: the descriptors -/

theorem holds_refl (m : machine) : holds m m [] :=
  ⟨[], [], by simp, rfl, List.nodup_nil, by simp, by simp, by simp, by simp⟩

theorem holds_nonneg (m0 m : machine) (owned : List Int)
    (h : holds m0 m owned) : ∀ x ∈ owned, 0 ≤ x := by
  obtain ⟨added, evs, _, hmap, _⟩ := h
  intro x hx
  rw [← hmap] at hx
  obtain ⟨e, _, he⟩ := List.mem_map.mp hx
  rw [← he]
  exact Int.natCast_nonneg _

theorem holds_alloc (m0 m : machine) (owned : List Int) (f : file)
    (h : holds m0 m owned) :
    holds m0 (sys_alloc f m).2 ((sys_alloc f m).1 :: owned) ∧
    (sys_alloc f m).1 ≠ -1 := by
  obtain ⟨added, evs, hf, hmap, hnd, hnew, htr, hcf, hcnt⟩ := h
  have hfresh := lowest_free_not_mem m.fds
  have hfds : m.fds = added.map Prod.fst ++ m0.fds := by
    simp [machine.fds, hf]
  refine ⟨⟨(lowest_free m.fds, f) :: added,
    evs ++ [sys_event.opened (lowest_free m.fds) f], ?_, ?_, ?_, ?_, ?_, ?_,
    ?_⟩, ?_⟩
  · simp [sys_alloc, hf]
  · simp [sys_alloc, hmap]
  · simp only [sys_alloc]
    refine List.nodup_cons.mpr ⟨?_, hnd⟩
    intro hx
    rw [← hmap] at hx
    obtain ⟨e, he, hee⟩ := List.mem_map.mp hx
    have : e.1 = lowest_free m.fds := by exact_mod_cast hee
    apply hfresh
    rw [← this, hfds]
    exact List.mem_append_left _ (List.mem_map_of_mem Prod.fst he)
  · intro e he
    rcases List.mem_cons.mp he with h1 | h1
    · rw [h1]
      intro hm
      have hm1 : lowest_free m.fds ∈ m0.fds := hm
      apply hfresh
      generalize lowest_free m.fds = n at hm1 ⊢
      rw [hfds]
      exact List.mem_append_right _ hm1
    · exact hnew e h1
  · simp [sys_alloc, htr]
  · intro e he
    rcases List.mem_append.mp he with h1 | h1
    · exact hcf e h1
    · simp at h1
      rw [h1]
      rfl
  · simp [List.countP_append, is_opened, is_closed, hcnt]
    omega
  · simp only [sys_alloc]
    omega

theorem holds_open (m0 m : machine) (owned : List Int) (ok : Bool)
    (path : CStr) (h : holds m0 m owned) :
    holds m0 (sys_open ok path m).2
      (if (sys_open ok path m).1 = -1 then owned
        else (sys_open ok path m).1 :: owned) := by
  cases ok with
  | false => simpa [sys_open] using h
  | true =>
    have h2 := holds_alloc m0 m owned (file.path path) h
    simp only [sys_open, if_true, h2.2, if_false]
    exact h2.1

theorem holds_socket (m0 m : machine) (owned : List Int) (ok : Bool)
    (t : thread_id) (params : nl_sock_params) (h : holds m0 m owned) :
    holds m0 (sys_socket ok t params m).2
      (if (sys_socket ok t params m).1 = -1 then owned
        else (sys_socket ok t params m).1 :: owned) := by
  cases ok with
  | false => simpa [sys_socket] using h
  | true =>
    have h2 := holds_alloc m0 m owned (file.socket (thread_ns t m) params) h
    simp only [sys_socket, if_true, h2.2, if_false]
    exact h2.1

theorem holds_events (m0 m m1 : machine) (owned : List Int)
    (evs : List sys_event) (h : holds m0 m owned)
    (hfiles : m1.files = m.files) (htrace : m1.trace = m.trace ++ evs)
    (hcf : ∀ e ∈ evs, is_close_failed e = false)
    (hcnt : evs.countP is_opened = evs.countP is_closed) :
    holds m0 m1 owned := by
  obtain ⟨added, evs0, hf, hmap, hnd, hnew, htr, hcf0, hcnt0⟩ := h
  refine ⟨added, evs0 ++ evs, by rw [hfiles, hf], hmap, hnd, hnew,
    by rw [htrace, htr, List.append_assoc], ?_, ?_⟩
  · intro e he
    rcases List.mem_append.mp he with h1 | h1
    · exact hcf0 e h1
    · exact hcf e h1
  · simp only [List.countP_append, hcnt0, hcnt]
    omega

theorem holds_setns (m0 m : machine) (owned : List Int) (o : setns_outcome)
    (t : thread_id) (ns_name : CStr) (h : holds m0 m owned) :
    holds m0 (nl_setns_with_name o t ns_name m).2 owned := by
  rw [nl_setns_with_name_eq]
  cases ho : o.open_ok
  · simpa using h
  · cases hs : o.setns_ok
    · simp only [Bool.true_eq_false, if_false, if_true]
      exact holds_events m0 m _ owned _ h rfl rfl (by simp [is_close_failed])
        (by simp [List.countP_cons, is_opened, is_closed])
    · simp only [Bool.true_eq_false, if_false]
      exact holds_events m0 m _ owned _ h rfl rfl (by simp [is_close_failed])
        (by simp [List.countP_cons, is_opened, is_closed])

theorem holds_send (m0 m : machine) (owned : List Int) (result sock : Int)
    (ifindex : Nat) (ns_fd : Int) (h : holds m0 m owned) :
    holds m0 (sys_send result sock ifindex ns_fd m).2 owned := by
  unfold sys_send
  by_cases hr : result = -1
  · simpa [hr] using h
  · simp only [hr, if_false]
    exact holds_events m0 m _ owned _ h rfl rfl (by simp [is_close_failed])
      (by simp [List.countP_cons, is_opened, is_closed])

theorem length_filter_ne (owned : List Int) (x : Int) (hnd : owned.Nodup)
    (hx : x ∈ owned) :
    (owned.filter (fun y => decide (y ≠ x))).length + 1 = owned.length := by
  induction owned with
  | nil => cases hx
  | cons y ys ih =>
    obtain ⟨hy, hys⟩ := List.nodup_cons.mp hnd
    by_cases hyx : y = x
    · subst hyx
      have hself : ys.filter (fun z => decide (z ≠ y)) = ys := by
        rw [List.filter_eq_self]
        intro z hz
        have : z ≠ y := fun e => hy (e ▸ hz)
        simpa using this
      rw [List.filter_cons_of_neg (by simp), hself]
      rfl
    · have hx2 : x ∈ ys := by
        rcases List.mem_cons.mp hx with h | h
        · exact absurd h.symm hyx
        · exact h
      have hlen := ih hys hx2
      rw [List.filter_cons_of_pos (by simpa using hyx)]
      simp only [List.length_cons]
      omega

/-- One statement after the label `cleanup`: a local that holds a descriptor
is closed, which succeeds. -/
theorem holds_close (m0 m : machine) (owned : List Int) (x : Int)
    (h : holds m0 m owned) (hx : x = -1 ∨ x ∈ owned) :
    holds m0 (if x ≠ -1 then (sys_close x m).2 else m)
      (owned.filter (fun y => decide (y ≠ x))) ∧
    (if x ≠ -1 then (sys_close x m).2 else m).trace
      = m.trace ++ (if x ≠ -1 then [sys_event.closed x.toNat] else []) := by
  have hpos := holds_nonneg m0 m owned h
  by_cases hx1 : x = -1
  · subst hx1
    have hself : owned.filter (fun y => decide (y ≠ -1)) = owned := by
      rw [List.filter_eq_self]
      intro z hz
      have := hpos z hz
      have : z ≠ -1 := by omega
      simpa using this
    refine ⟨?_, ?_⟩
    · rw [if_neg (fun hne => hne rfl), hself]
      exact h
    · rw [if_neg (fun hne => hne rfl), if_neg (fun hne => hne rfl),
        List.append_nil]
  · have hxo : x ∈ owned := by
      rcases hx with h1 | h1
      · exact absurd h1 hx1
      · exact h1
    obtain ⟨added, evs, hf, hmap, hnd, hnew, htr, hcf, hcnt⟩ := h
    have hx0 : 0 ≤ x := hpos x hxo
    obtain ⟨e, he, hee⟩ := List.mem_map.mp (hmap ▸ hxo)
    have hnat : x.toNat = e.1 := by omega
    have hmem : x.toNat ∈ m.fds := by
      rw [hnat]
      simp only [machine.fds, hf, List.map_append]
      exact List.mem_append_left _ (List.mem_map_of_mem Prod.fst he)
    have hclose : sys_close x m
        = (0, { m with
            files := m.files.filter (fun e => decide (e.1 ≠ x.toNat)),
            trace := m.trace ++ [sys_event.closed x.toNat] }) := by
      simp [sys_close, hx0, hmem]
    simp only [hx1, ne_eq, not_false_eq_true, if_true, hclose]
    refine ⟨⟨added.filter (fun e => decide (e.1 ≠ x.toNat)),
      evs ++ [sys_event.closed x.toNat], ?_, ?_, ?_, ?_, ?_, ?_, ?_⟩, trivial⟩
    · simp only [hf, List.filter_append]
      congr 1
      apply filter_fresh
      rw [hnat]
      exact hnew e he
    · rw [← hmap, List.filter_map]
      congr 1
      apply List.filter_congr
      intro a _
      simp only [Function.comp, ne_eq, decide_not]
      congr 1
      apply decide_eq_decide.mpr
      constructor
      · intro h1
        omega
      · intro h1
        omega
    · exact hnd.filter _
    · intro a ha
      exact hnew a (List.mem_of_mem_filter ha)
    · simp [htr]
    · intro a ha
      rcases List.mem_append.mp ha with h1 | h1
      · exact hcf a h1
      · simp at h1
        rw [h1]
        rfl
    · have hlen := length_filter_ne owned x hnd hxo
      simp only [ne_eq] at hlen
      have hc1 : List.countP is_opened [sys_event.closed x.toNat] = 0 := rfl
      have hc2 : List.countP is_closed [sys_event.closed x.toNat] = 1 := rfl
      rw [List.countP_append, List.countP_append, hc1, hc2, hcnt]
      omega

theorem holds_maybe_setns (m0 m : machine) (owned : List Int) (c : Bool)
    (o : setns_outcome) (t : thread_id) (ns_name : CStr)
    (h : holds m0 m owned) :
    holds m0 (if c = true then nl_setns_with_name o t ns_name m
      else (0, m)).2 owned := by
  cases c with
  | false => simpa using h
  | true => simpa using holds_setns m0 m owned o t ns_name h

/-- When control reaches the label `cleanup`, the locals that hold a
descriptor hold exactly the descriptors the call has opened and not yet
closed. -/
theorem steps_holds (k : kernel) (o : move_outcome)
    (setns_local_info : setns_info) (m : machine) :
    holds m (nl_move_intf_to_vrf_steps k o setns_local_info m).2
      (held (nl_move_intf_to_vrf_steps k o setns_local_info m).1) := by
  have hA := holds_open m m [] o.open_to
    (snprintf MAX_BUFFER_SIZE
      (cstr "/var/run/netns/" ++ setns_local_info.to_ns)) (holds_refl m)
  simp only [nl_move_intf_to_vrf_steps]
  obtain ⟨A, hAeq⟩ : ∃ A, A = sys_open o.open_to
    (snprintf MAX_BUFFER_SIZE
      (cstr "/var/run/netns/" ++ setns_local_info.to_ns)) m := ⟨_, rfl⟩
  rw [← hAeq] at hA ⊢
  by_cases c1 : A.1 = -1
  · simp only [c1, if_true] at hA ⊢
    simpa [held] using hA
  · simp only [c1, if_false] at hA ⊢
    have hB := holds_open m A.2 [A.1] o.open_from
      (snprintf MAX_BUFFER_SIZE
        (cstr "/var/run/netns/" ++ setns_local_info.from_ns)) hA
    obtain ⟨B, hBeq⟩ : ∃ B, B = sys_open o.open_from
      (snprintf MAX_BUFFER_SIZE
        (cstr "/var/run/netns/" ++ setns_local_info.from_ns)) A.2 := ⟨_, rfl⟩
    rw [← hBeq] at hB ⊢
    by_cases c2 : B.1 = -1
    · simp only [c2, if_true] at hB ⊢
      simpa [held, c1] using hB
    · simp only [c2, if_false] at hB ⊢
      have hE := holds_maybe_setns m B.2 [B.1, A.1]
        (nl_is_nondefault_ns (some setns_local_info.from_ns)) o.enter
        thread_id.caller setns_local_info.from_ns hB
      obtain ⟨E, hEeq⟩ : ∃ E, E =
        (if nl_is_nondefault_ns (some setns_local_info.from_ns) = true then
          nl_setns_with_name o.enter thread_id.caller
            setns_local_info.from_ns B.2
        else (0, B.2)) := ⟨_, rfl⟩
      rw [← hEeq] at hE ⊢
      by_cases c3 : E.1 ≠ 0
      · rw [if_pos c3]
        simpa [held, c1, c2] using hE
      · rw [if_neg c3]
        have hS := holds_socket m E.2 [B.1, A.1] o.socket_ok thread_id.caller
          { family := AF_NETLINK, type := SOCK_RAW, protocol := NETLINK_ROUTE }
          hE
        obtain ⟨S, hSeq⟩ : ∃ S, S = sys_socket o.socket_ok thread_id.caller
          { family := AF_NETLINK, type := SOCK_RAW, protocol := NETLINK_ROUTE }
          E.2 := ⟨_, rfl⟩
        rw [← hSeq] at hS ⊢
        have hL := holds_maybe_setns m S.2 _
          (nl_is_nondefault_ns (some setns_local_info.from_ns)) o.leave
          thread_id.caller SWITCH_NAMESPACE hS
        obtain ⟨L, hLeq⟩ : ∃ L, L =
          (if nl_is_nondefault_ns (some setns_local_info.from_ns) = true then
            nl_setns_with_name o.leave thread_id.caller SWITCH_NAMESPACE S.2
          else (0, S.2)) := ⟨_, rfl⟩
        rw [← hLeq] at hL ⊢
        have hheld : ∀ rc : Bool,
            held { fd := A.1, fd_from_ns := B.1, ns_sock := S.1, rc := rc }
              = if S.1 = -1 then [B.1, A.1] else [S.1, B.1, A.1] := by
          intro rc
          by_cases cS : S.1 = -1
          · simp [held, c1, c2, cS]
          · simp [held, c1, c2, cS]
        split_ifs
        all_goals first
          | (rw [hheld]; exact hL)
          | (rw [hheld]; exact holds_send m L.2 _ _ _ _ _ hL)

theorem held_distinct (l : move_locals) (hnd : (held l).Nodup) :
    (l.ns_sock ≠ -1 → l.fd ≠ -1 → l.ns_sock ≠ l.fd) ∧
    (l.ns_sock ≠ -1 → l.fd_from_ns ≠ -1 → l.fd_from_ns ≠ l.ns_sock) ∧
    (l.fd_from_ns ≠ -1 → l.fd ≠ -1 → l.fd_from_ns ≠ l.fd) := by
  obtain ⟨a, b, c, rc⟩ := l
  simp only [held] at hnd
  refine ⟨?_, ?_, ?_⟩
  · intro h1 h2 h3
    simp only at h1 h2 h3
    subst h3
    by_cases hb : b = -1
    · simp [List.filter_cons, h1, hb] at hnd
    · simp [List.filter_cons, h1, hb] at hnd
  · intro h1 h2 h3
    simp only at h1 h2 h3
    subst h3
    by_cases ha : a = -1
    · simp [List.filter_cons, h2, ha] at hnd
    · simp [List.filter_cons, h2, ha] at hnd
  · intro h1 h2 h3
    simp only at h1 h2 h3
    subst h3
    by_cases hc : c = -1
    · simp [List.filter_cons, h1, hc] at hnd
    · simp [List.filter_cons, h1, hc] at hnd

theorem holds_int_fds (m0 m : machine) (owned : List Int)
    (h : holds m0 m owned) :
    m.int_fds = owned ++ m0.int_fds ∧ owned.Nodup ∧
      ∀ x ∈ owned, x ∉ m0.int_fds := by
  obtain ⟨added, evs, hf, hmap, hnd, hnew, _, _, _⟩ := h
  refine ⟨by simp [machine.int_fds, hf, hmap], hnd, ?_⟩
  intro x hx hx0
  rw [← hmap] at hx
  obtain ⟨e, he, hee⟩ := List.mem_map.mp hx
  obtain ⟨e0, he0, hee0⟩ := List.mem_map.mp hx0
  apply hnew e he
  have : e0.1 = e.1 := by
    have h2 : (e0.1 : Int) = (e.1 : Int) := by rw [hee0, hee]
    exact_mod_cast h2
  rw [← this]
  exact List.mem_map_of_mem Prod.fst he0

theorem holds_nil (m0 m : machine) (h : holds m0 m []) :
    m.files = m0.files ∧
    ∃ evs, m.trace = m0.trace ++ evs ∧
      (∀ e ∈ evs, is_close_failed e = false) ∧
      evs.countP is_opened = evs.countP is_closed := by
  obtain ⟨added, evs, hf, hmap, _, _, htr, hcf, hcnt⟩ := h
  have hadd : added = [] := List.map_eq_nil_iff.mp hmap
  refine ⟨by simp [hf, hadd], evs, htr, hcf, by simpa using hcnt⟩

/-- C20: whatever the system calls of `nl_move_intf_to_vrf` return, the
descriptors open when it returns are those open on entry, with the files
they referred to; no `close` of the call fails and the call closes as many
descriptors as it opens.  When control reaches the label `cleanup`, the
locals `ns_sock`, `fd_from_ns` and `fd` that are not -1 are distinct, were
not open on entry, and are, with the descriptors open on entry, the open
descriptors; the statements after the label close each of them once. -/
theorem move_releases_descriptors (k : kernel) (o : move_outcome)
    (setns_local_info : setns_info) (m : machine) :
    (nl_move_intf_to_vrf k o setns_local_info m).2.files = m.files ∧
    (∃ evs, (nl_move_intf_to_vrf k o setns_local_info m).2.trace
        = m.trace ++ evs ∧
      (∀ e ∈ evs, is_close_failed e = false) ∧
      evs.countP is_opened = evs.countP is_closed) ∧
    ((nl_move_intf_to_vrf_steps k o setns_local_info m).2.int_fds
        = held (nl_move_intf_to_vrf_steps k o setns_local_info m).1
            ++ m.int_fds ∧
      (held (nl_move_intf_to_vrf_steps k o setns_local_info m).1).Nodup ∧
      ∀ x ∈ held (nl_move_intf_to_vrf_steps k o setns_local_info m).1,
        x ∉ m.int_fds) ∧
    (nl_move_intf_to_vrf k o setns_local_info m).2.trace
      = (nl_move_intf_to_vrf_steps k o setns_local_info m).2.trace ++
        ([(nl_move_intf_to_vrf_steps k o setns_local_info m).1.fd,
          (nl_move_intf_to_vrf_steps k o setns_local_info m).1.ns_sock,
          (nl_move_intf_to_vrf_steps k o setns_local_info m).1.fd_from_ns].filter
            (fun x => decide (x ≠ -1))).map
          (fun x => sys_event.closed x.toNat) := by
  have h0 := steps_holds k o setns_local_info m
  obtain ⟨s, hs⟩ : ∃ s, s = nl_move_intf_to_vrf_steps k o setns_local_info m :=
    ⟨_, rfl⟩
  simp only [nl_move_intf_to_vrf]
  rw [← hs] at h0 ⊢
  obtain ⟨l, ms⟩ := s
  obtain ⟨a, b, c, rc⟩ := l
  have hd := held_distinct _ (holds_int_fds _ _ _ h0).2.1
  simp only at hd
  have hin : ∀ x : Int, x ≠ -1 → (x = c ∨ x = b ∨ x = a) →
      x ∈ held { fd := a, fd_from_ns := b, ns_sock := c, rc := rc } := by
    intro x hx hxe
    simp only [held, List.mem_filter, List.mem_cons, List.mem_singleton,
      List.not_mem_nil, or_false]
    exact ⟨hxe, by simpa using hx⟩
  have h1 := holds_close m ms _ a h0 (by
    by_cases ha : a = -1
    · exact Or.inl ha
    · exact Or.inr (hin a ha (Or.inr (Or.inr rfl))))
  have h2 := holds_close m _ _ c h1.1 (by
    by_cases hc : c = -1
    · exact Or.inl hc
    · right
      refine List.mem_filter.mpr ⟨hin c hc (Or.inl rfl), ?_⟩
      by_cases ha : a = -1
      · have : c ≠ a := by rw [ha]; exact hc
        simpa using this
      · simpa using hd.1 hc ha)
  have h3 := holds_close m _ _ b h2.1 (by
    by_cases hb : b = -1
    · exact Or.inl hb
    · right
      refine List.mem_filter.mpr ⟨List.mem_filter.mpr
        ⟨hin b hb (Or.inr (Or.inl rfl)), ?_⟩, ?_⟩
      · by_cases ha : a = -1
        · have : b ≠ a := by rw [ha]; exact hb
          simpa using this
        · simpa using hd.2.2 hb ha
      · by_cases hc : c = -1
        · have : b ≠ c := by rw [hc]; exact hb
          simpa using this
        · simpa using hd.2.1 hc hb)
  have hempty : (((held { fd := a, fd_from_ns := b, ns_sock := c, rc := rc }).filter
      (fun y => decide (y ≠ a))).filter (fun y => decide (y ≠ c))).filter
      (fun y => decide (y ≠ b)) = [] := by
    rw [List.eq_nil_iff_forall_not_mem]
    intro y hy
    simp only [held, List.mem_filter, List.mem_cons, List.mem_singleton,
      List.not_mem_nil, or_false, decide_eq_true_eq] at hy
    obtain ⟨⟨⟨⟨hy1, _⟩, hy2⟩, hy3⟩, hy4⟩ := hy
    rcases hy1 with h | h | h
    · exact hy3 h
    · exact hy4 h
    · exact hy2 h
  have hfin := h3.1
  rw [hempty] at hfin
  have hn := holds_nil _ _ hfin
  refine ⟨hn.1, hn.2, holds_int_fds _ _ _ h0, ?_⟩
  rw [h3.2, h2.2, h1.2]
  by_cases ha : a = -1 <;> by_cases hb : b = -1 <;> by_cases hc : c = -1 <;>
    simp [ha, hb, hc, List.filter_cons]

/-! ## Operations in a namespace: the worker thread -/

theorem outcome_map_final {α β : Type} (f : α → β) (x : outcome α) :
    (outcome.map f x).final = x.final ∧
    (outcome.map f x).has_returned = x.has_returned := by
  cases x <;> exact ⟨rfl, rfl⟩

theorem nl_perform_socket_operation_frame (k : kernel) (socket_ok : Bool)
    (t : thread_id) (tdata : nlutils_op_data) (m : machine) :
    (nl_perform_socket_operation k socket_ok t tdata m).2.caller_ns
      = m.caller_ns ∧
    (nl_perform_socket_operation k socket_ok t tdata m).2.worker_ns
      = m.worker_ns ∧
    ∃ evs, (nl_perform_socket_operation k socket_ok t tdata m).2.trace
        = m.trace ++ evs ∧ ∀ e ∈ evs, is_opened e = true := by
  unfold nl_perform_socket_operation
  split_ifs with h1 h2 h3
  · cases socket_ok
    · exact ⟨rfl, rfl, [], by simp [sys_socket], by simp⟩
    · exact ⟨rfl, rfl, _, rfl, by simp [is_opened]⟩
  · cases k.ifname_of (thread_ns t m) tdata.in_ifindex with
    | none => exact ⟨rfl, rfl, [], by simp, by simp⟩
    | some name => exact ⟨rfl, rfl, [], by simp, by simp⟩
  · exact ⟨rfl, rfl, [], by simp, by simp⟩
  · exact ⟨rfl, rfl, [], by simp, by simp⟩

/-- What `vrf_perform_socket_operation` does: nothing when the thread cannot
be created; the end of the process when the worker cannot enter the
namespace; otherwise the operation on the worker, in the namespace, and the
join. -/
theorem vrf_perform_socket_operation_eq (k : kernel) (o : op_outcome)
    (tdata : nlutils_op_data) (m : machine) :
    vrf_perform_socket_operation k o tdata m
      = if o.pthread_create ≠ 0 then outcome.returned (false, tdata) m
        else if o.enter.open_ok = false then
          outcome.exited EXIT_SUCCESS
            { m with worker_ns := m.caller_ns,
                     trace := m.trace ++ [sys_event.thread_created] }
        else if o.enter.setns_ok = false then
          outcome.exited EXIT_SUCCESS
            { m with worker_ns := m.caller_ns,
                     trace := m.trace ++ [sys_event.thread_created,
                       sys_event.opened (lowest_free m.fds)
                         (file.path (nl_setns_path tdata.ns_name)),
                       sys_event.closed (lowest_free m.fds)] }
        else
          outcome.returned
            (true, (nl_perform_socket_operation k o.socket_ok thread_id.worker
              tdata
              { m with worker_ns := nl_setns_path tdata.ns_name,
                       trace := m.trace ++ [sys_event.thread_created,
                         sys_event.opened (lowest_free m.fds)
                           (file.path (nl_setns_path tdata.ns_name)),
                         sys_event.entered thread_id.worker
                           (nl_setns_path tdata.ns_name),
                         sys_event.closed (lowest_free m.fds)] }).1)
            { (nl_perform_socket_operation k o.socket_ok thread_id.worker
              tdata
              { m with worker_ns := nl_setns_path tdata.ns_name,
                       trace := m.trace ++ [sys_event.thread_created,
                         sys_event.opened (lowest_free m.fds)
                           (file.path (nl_setns_path tdata.ns_name)),
                         sys_event.entered thread_id.worker
                           (nl_setns_path tdata.ns_name),
                         sys_event.closed (lowest_free m.fds)] }).2 with
              trace := (nl_perform_socket_operation k o.socket_ok
                thread_id.worker tdata
                { m with worker_ns := nl_setns_path tdata.ns_name,
                         trace := m.trace ++ [sys_event.thread_created,
                           sys_event.opened (lowest_free m.fds)
                             (file.path (nl_setns_path tdata.ns_name)),
                           sys_event.entered thread_id.worker
                             (nl_setns_path tdata.ns_name),
                           sys_event.closed (lowest_free m.fds)] }).2.trace
                ++ [sys_event.thread_joined] } := by
  unfold vrf_perform_socket_operation vrfThread
  by_cases hc : o.pthread_create = 0
  · simp only [hc, if_true, ne_eq, not_true_eq_false, if_false,
      nl_setns_with_name_eq]
    cases ho : o.enter.open_ok
    · simp [EXIT_SUCCESS]
    · cases hs : o.enter.setns_ok
      · simp [EXIT_SUCCESS, machine.fds]
      · simp [machine.fds]
  · simp [hc]

theorem vrf_perform_socket_operation_frame (k : kernel) (o : op_outcome)
    (tdata : nlutils_op_data) (m : machine) :
    keeps_caller_namespace m (vrf_perform_socket_operation k o tdata m) ∧
    ((vrf_perform_socket_operation k o tdata m).has_returned = false ↔
      o.pthread_create = 0 ∧
        (o.enter.open_ok = false ∨ o.enter.setns_ok = false)) := by
  rw [vrf_perform_socket_operation_eq]
  by_cases hc : o.pthread_create = 0
  · cases ho : o.enter.open_ok
    · simp only [hc, ne_eq, not_true_eq_false, if_false, if_true]
      refine ⟨⟨rfl, [sys_event.thread_created], rfl, by simp, by simp, ?_⟩,
        by simp [outcome.has_returned]⟩
      intro _ h
      simp [outcome.has_returned] at h
    · cases hs : o.enter.setns_ok
      · simp only [hc, ne_eq, not_true_eq_false, if_false, if_true,
          Bool.true_eq_false]
        refine ⟨⟨rfl, _, rfl, by simp, by simp, ?_⟩,
          by simp [outcome.has_returned]⟩
        intro _ h
        simp [outcome.has_returned] at h
      · simp only [hc, ne_eq, not_true_eq_false, if_false,
          Bool.true_eq_false]
        obtain ⟨h1, _, evs, h3, h4⟩ := nl_perform_socket_operation_frame k
          o.socket_ok thread_id.worker tdata
          { m with worker_ns := nl_setns_path tdata.ns_name,
                   trace := m.trace ++ [sys_event.thread_created,
                     sys_event.opened (lowest_free m.fds)
                       (file.path (nl_setns_path tdata.ns_name)),
                     sys_event.entered thread_id.worker
                       (nl_setns_path tdata.ns_name),
                     sys_event.closed (lowest_free m.fds)] }
        refine ⟨⟨h1, [sys_event.thread_created,
            sys_event.opened (lowest_free m.fds)
              (file.path (nl_setns_path tdata.ns_name)),
            sys_event.entered thread_id.worker (nl_setns_path tdata.ns_name),
            sys_event.closed (lowest_free m.fds)] ++ evs
            ++ [sys_event.thread_joined], ?_, ?_, ?_, ?_⟩,
          by simp [outcome.has_returned]⟩
        · simp only [outcome.final, h3, List.append_assoc]
        · intro ns hmem
          have hm2 : sys_event.entered thread_id.caller ns ∈ evs := by
            simpa using hmem
          have := h4 _ hm2
          simp [is_opened] at this
        · intro _
          simp
        · intro _ _
          exact List.getLast?_concat _
  · simp only [hc, ne_eq, not_false_eq_true, if_true]
    refine ⟨⟨rfl, [], by simp [outcome.final], by simp, by simp, by simp⟩,
      by simp [outcome.has_returned, hc]⟩

theorem nl_perform_no_switch {α : Type} (k : kernel) (socket_ok : Bool)
    (tdata : nlutils_op_data) (m : machine) (v : α) :
    no_switch m (outcome.returned v
      (nl_perform_socket_operation k socket_ok thread_id.caller tdata m).2) := by
  obtain ⟨h1, _, evs, h3, h4⟩ := nl_perform_socket_operation_frame k
    socket_ok thread_id.caller tdata m
  refine ⟨rfl, h1, evs, h3, ?_, ?_⟩
  · intro t ns hmem
    have := h4 _ hmem
    simp [is_opened] at this
  · intro hmem
    have := h4 _ hmem
    simp [is_opened] at this

theorem no_switch_keeps {α : Type} (m : machine) (x : outcome α)
    (h : no_switch m x) : keeps_caller_namespace m x := by
  obtain ⟨_, h2, evs, h3, h4, h5⟩ := h
  exact ⟨h2, evs, h3, fun ns => h4 _ ns,
    fun ⟨ns, hns⟩ => absurd hns (h4 _ ns), fun hc => absurd hc h5⟩

theorem keeps_map {α β : Type} (f : α → β) (m : machine) (x : outcome α)
    (h : keeps_caller_namespace m x) :
    keeps_caller_namespace m (outcome.map f x) := by
  unfold keeps_caller_namespace at h ⊢
  rw [(outcome_map_final f x).1, (outcome_map_final f x).2]
  exact h

/-- The common part of `vrf_create_socket`, `vrf_if_nametoindex` and
`vrf_if_indextoname`: the operation on a worker thread when `c` holds, on
the calling thread otherwise. -/
theorem run_frame {α : Type} (c : Bool)
    (f : Bool × nlutils_op_data → α) (g : nlutils_op_data → α) (k : kernel)
    (o : op_outcome) (tdata : nlutils_op_data) (m : machine)
    (x : outcome α)
    (hx : x = if c = true then
        outcome.map f (vrf_perform_socket_operation k o tdata m)
      else
        outcome.returned
          (g (nl_perform_socket_operation k o.socket_ok thread_id.caller
            tdata m).1)
          (nl_perform_socket_operation k o.socket_ok thread_id.caller
            tdata m).2) :
    keeps_caller_namespace m x ∧
    (c = false → no_switch m x) ∧
    (x.has_returned = false ↔
      c = true ∧ o.pthread_create = 0 ∧
        (o.enter.open_ok = false ∨ o.enter.setns_ok = false)) := by
  subst hx
  cases c with
  | true =>
    have h := vrf_perform_socket_operation_frame k o tdata m
    simp only [if_true]
    refine ⟨keeps_map f m _ h.1, (fun hc => by cases hc), ?_⟩
    rw [(outcome_map_final f _).2, h.2]
    simp
  | false =>
    have h := nl_perform_no_switch k o.socket_ok tdata m
      (g (nl_perform_socket_operation k o.socket_ok thread_id.caller
        tdata m).1)
    simp only [Bool.false_eq_true, if_false]
    exact ⟨no_switch_keeps m _ h, fun _ => h, by simp [outcome.has_returned]⟩

theorem vrf_create_socket_eq (DEFAULT_VRF_NAME : CStr) (k : kernel)
    (o : op_outcome) (tdata0 : nlutils_op_data) (vrf_ns_name : CStr)
    (params : vrf_sock_params) (m : machine) :
    vrf_create_socket DEFAULT_VRF_NAME k o tdata0 vrf_ns_name params m
      = if is_nondefault_vrf DEFAULT_VRF_NAME (some vrf_ns_name) = true then
          outcome.map (fun r => r.2.result)
            (vrf_perform_socket_operation k o
              { tdata0 with
                ns_name := snprintf (MAX_BUFFER_SIZE - 1) vrf_ns_name,
                operation := NLUTILS_SOCKET_CREATE,
                s := params.nl_params } m)
        else
          outcome.returned
            ((fun t : nlutils_op_data => t.result)
              (nl_perform_socket_operation k o.socket_ok thread_id.caller
                { tdata0 with
                  ns_name := snprintf (MAX_BUFFER_SIZE - 1) vrf_ns_name,
                  operation := NLUTILS_SOCKET_CREATE,
                  s := params.nl_params } m).1)
            (nl_perform_socket_operation k o.socket_ok thread_id.caller
              { tdata0 with
                ns_name := snprintf (MAX_BUFFER_SIZE - 1) vrf_ns_name,
                operation := NLUTILS_SOCKET_CREATE,
                s := params.nl_params } m).2 := by
  unfold vrf_create_socket
  simp only
  split_ifs
  · cases vrf_perform_socket_operation k o _ m <;> rfl
  · rfl

theorem vrf_if_nametoindex_eq (DEFAULT_VRF_NAME : CStr)
    (OVSDB_VRF_NAME_MAXLEN : Nat) (k : kernel) (o : op_outcome)
    (tdata0 : nlutils_op_data) (idl : List ovsrec_vrf)
    (vrf_name : Option CStr) (if_name : CStr) (m : machine)
    (h : (get_vrf_ns_from_name DEFAULT_VRF_NAME OVSDB_VRF_NAME_MAXLEN idl
      vrf_name []).1 = 0) :
    vrf_if_nametoindex DEFAULT_VRF_NAME OVSDB_VRF_NAME_MAXLEN k o tdata0 idl
        vrf_name if_name m
      = if is_nondefault_vrf DEFAULT_VRF_NAME
            (some (get_vrf_ns_from_name DEFAULT_VRF_NAME OVSDB_VRF_NAME_MAXLEN
              idl vrf_name []).2) = true then
          outcome.map (fun r => to_uint r.2.ni_ifindex)
            (vrf_perform_socket_operation k o
              { tdata0 with
                ns_name := snprintf (MAX_BUFFER_SIZE - 1)
                  (get_vrf_ns_from_name DEFAULT_VRF_NAME OVSDB_VRF_NAME_MAXLEN
                    idl vrf_name []).2,
                ni_ifname := snprintf (IFNAMSIZ - 1) if_name,
                operation := NLUTILS_IFNAME_TO_INDEX } m)
        else
          outcome.returned
            ((fun t : nlutils_op_data => to_uint t.ni_ifindex)
              (nl_perform_socket_operation k o.socket_ok thread_id.caller
                { tdata0 with
                  ns_name := snprintf (MAX_BUFFER_SIZE - 1)
                    (get_vrf_ns_from_name DEFAULT_VRF_NAME
                      OVSDB_VRF_NAME_MAXLEN idl vrf_name []).2,
                  ni_ifname := snprintf (IFNAMSIZ - 1) if_name,
                  operation := NLUTILS_IFNAME_TO_INDEX } m).1)
            (nl_perform_socket_operation k o.socket_ok thread_id.caller
              { tdata0 with
                ns_name := snprintf (MAX_BUFFER_SIZE - 1)
                  (get_vrf_ns_from_name DEFAULT_VRF_NAME OVSDB_VRF_NAME_MAXLEN
                    idl vrf_name []).2,
                ni_ifname := snprintf (IFNAMSIZ - 1) if_name,
                operation := NLUTILS_IFNAME_TO_INDEX } m).2 := by
  unfold vrf_if_nametoindex
  simp only [h, ne_eq, not_true_eq_false, if_false]
  split_ifs
  · cases vrf_perform_socket_operation k o _ m <;> rfl
  · rfl

theorem vrf_if_indextoname_eq (DEFAULT_VRF_NAME : CStr)
    (OVSDB_VRF_NAME_MAXLEN : Nat) (k : kernel) (o : op_outcome)
    (tdata0 : nlutils_op_data) (idl : List ovsrec_vrf) (ifindex : Int)
    (buf : CStr) (vrf_name : Option CStr) (m : machine)
    (h : (get_vrf_ns_from_name DEFAULT_VRF_NAME OVSDB_VRF_NAME_MAXLEN idl
      vrf_name []).1 = 0) :
    vrf_if_indextoname DEFAULT_VRF_NAME OVSDB_VRF_NAME_MAXLEN k o tdata0 idl
        ifindex buf vrf_name m
      = if is_nondefault_vrf DEFAULT_VRF_NAME
            (some (get_vrf_ns_from_name DEFAULT_VRF_NAME OVSDB_VRF_NAME_MAXLEN
              idl vrf_name []).2) = true then
          outcome.map
            (fun r => ((0 : Nat), snprintf (IFNAMSIZ - 1) r.2.in_ifname))
            (vrf_perform_socket_operation k o
              { tdata0 with
                ns_name := snprintf (MAX_BUFFER_SIZE - 1)
                  (get_vrf_ns_from_name DEFAULT_VRF_NAME OVSDB_VRF_NAME_MAXLEN
                    idl vrf_name []).2,
                in_ifindex := ifindex,
                operation := NLUTILS_IFINDEX_TO_NAME } m)
        else
          outcome.returned
            ((fun t : nlutils_op_data =>
                ((0 : Nat), snprintf (IFNAMSIZ - 1) t.in_ifname))
              (nl_perform_socket_operation k o.socket_ok thread_id.caller
                { tdata0 with
                  ns_name := snprintf (MAX_BUFFER_SIZE - 1)
                    (get_vrf_ns_from_name DEFAULT_VRF_NAME
                      OVSDB_VRF_NAME_MAXLEN idl vrf_name []).2,
                  in_ifindex := ifindex,
                  operation := NLUTILS_IFINDEX_TO_NAME } m).1)
            (nl_perform_socket_operation k o.socket_ok thread_id.caller
              { tdata0 with
                ns_name := snprintf (MAX_BUFFER_SIZE - 1)
                  (get_vrf_ns_from_name DEFAULT_VRF_NAME OVSDB_VRF_NAME_MAXLEN
                    idl vrf_name []).2,
                in_ifindex := ifindex,
                operation := NLUTILS_IFINDEX_TO_NAME } m).2 := by
  unfold vrf_if_indextoname
  simp only [h, ne_eq, not_true_eq_false, if_false]
  split_ifs
  · cases vrf_perform_socket_operation k o _ m <;> rfl
  · rfl

theorem no_switch_refl {α : Type} (m : machine) (v : α) :
    no_switch m (outcome.returned v m) :=
  ⟨rfl, rfl, [], by simp [outcome.final], by simp, by simp⟩

/-- C16: in every execution of `vrf_create_socket`, `vrf_if_nametoindex` and
`vrf_if_indextoname`, the calling thread ends in the namespace it was in on
entry and none of its events is a switch of the calling thread; a switch
happens only on the worker thread after it was created, and when the call
returns after creating a worker, its last event is the join of the worker.
For a namespace name `is_nondefault_vrf` takes for the default (and when the
VRF resolves to no namespace) the call returns with no switch at all and no
worker.  The call returns in every execution but one: a worker that cannot
enter the namespace ends the process. -/
theorem caller_namespace_is_kept (DEFAULT_VRF_NAME : CStr)
    (OVSDB_VRF_NAME_MAXLEN : Nat) (k : kernel) (o : op_outcome)
    (tdata0 : nlutils_op_data) (vrf_ns_name : CStr) (params : vrf_sock_params)
    (idl : List ovsrec_vrf) (vrf_name : Option CStr) (if_name : CStr)
    (ifindex : Int) (buf : CStr) (m : machine) :
    (keeps_caller_namespace m
        (vrf_create_socket DEFAULT_VRF_NAME k o tdata0 vrf_ns_name params m) ∧
      (is_nondefault_vrf DEFAULT_VRF_NAME (some vrf_ns_name) = false →
        no_switch m
          (vrf_create_socket DEFAULT_VRF_NAME k o tdata0 vrf_ns_name params
            m)) ∧
      ((vrf_create_socket DEFAULT_VRF_NAME k o tdata0 vrf_ns_name params
          m).has_returned = false ↔
        is_nondefault_vrf DEFAULT_VRF_NAME (some vrf_ns_name) = true ∧
          o.pthread_create = 0 ∧
          (o.enter.open_ok = false ∨ o.enter.setns_ok = false))) ∧
    (keeps_caller_namespace m
        (vrf_if_nametoindex DEFAULT_VRF_NAME OVSDB_VRF_NAME_MAXLEN k o tdata0
          idl vrf_name if_name m) ∧
      (is_nondefault_vrf DEFAULT_VRF_NAME
          (some (get_vrf_ns_from_name DEFAULT_VRF_NAME OVSDB_VRF_NAME_MAXLEN
            idl vrf_name []).2) = false →
        no_switch m
          (vrf_if_nametoindex DEFAULT_VRF_NAME OVSDB_VRF_NAME_MAXLEN k o
            tdata0 idl vrf_name if_name m)) ∧
      ((vrf_if_nametoindex DEFAULT_VRF_NAME OVSDB_VRF_NAME_MAXLEN k o tdata0
          idl vrf_name if_name m).has_returned = false ↔
        (get_vrf_ns_from_name DEFAULT_VRF_NAME OVSDB_VRF_NAME_MAXLEN idl
          vrf_name []).1 = 0 ∧
        is_nondefault_vrf DEFAULT_VRF_NAME
          (some (get_vrf_ns_from_name DEFAULT_VRF_NAME OVSDB_VRF_NAME_MAXLEN
            idl vrf_name []).2) = true ∧
          o.pthread_create = 0 ∧
          (o.enter.open_ok = false ∨ o.enter.setns_ok = false))) ∧
    (keeps_caller_namespace m
        (vrf_if_indextoname DEFAULT_VRF_NAME OVSDB_VRF_NAME_MAXLEN k o tdata0
          idl ifindex buf vrf_name m) ∧
      (is_nondefault_vrf DEFAULT_VRF_NAME
          (some (get_vrf_ns_from_name DEFAULT_VRF_NAME OVSDB_VRF_NAME_MAXLEN
            idl vrf_name []).2) = false →
        no_switch m
          (vrf_if_indextoname DEFAULT_VRF_NAME OVSDB_VRF_NAME_MAXLEN k o
            tdata0 idl ifindex buf vrf_name m)) ∧
      ((vrf_if_indextoname DEFAULT_VRF_NAME OVSDB_VRF_NAME_MAXLEN k o tdata0
          idl ifindex buf vrf_name m).has_returned = false ↔
        (get_vrf_ns_from_name DEFAULT_VRF_NAME OVSDB_VRF_NAME_MAXLEN idl
          vrf_name []).1 = 0 ∧
        is_nondefault_vrf DEFAULT_VRF_NAME
          (some (get_vrf_ns_from_name DEFAULT_VRF_NAME OVSDB_VRF_NAME_MAXLEN
            idl vrf_name []).2) = true ∧
          o.pthread_create = 0 ∧
          (o.enter.open_ok = false ∨ o.enter.setns_ok = false))) := by
  refine ⟨?_, ?_, ?_⟩
  · exact run_frame _ _ _ k o _ m _
      (vrf_create_socket_eq DEFAULT_VRF_NAME k o tdata0 vrf_ns_name params m)
  · by_cases h : (get_vrf_ns_from_name DEFAULT_VRF_NAME OVSDB_VRF_NAME_MAXLEN
        idl vrf_name []).1 = 0
    · have hf := run_frame _ (fun r => to_uint r.2.ni_ifindex)
        (fun t : nlutils_op_data => to_uint t.ni_ifindex) k o _ m _
        (vrf_if_nametoindex_eq DEFAULT_VRF_NAME OVSDB_VRF_NAME_MAXLEN k o
          tdata0 idl vrf_name if_name m h)
      refine ⟨hf.1, hf.2.1, ?_⟩
      rw [hf.2.2]
      simp [h]
    · have he : vrf_if_nametoindex DEFAULT_VRF_NAME OVSDB_VRF_NAME_MAXLEN k o
          tdata0 idl vrf_name if_name m
          = outcome.returned (to_uint (-1)) m := by
        unfold vrf_if_nametoindex
        simp only [ne_eq, h, not_false_eq_true, if_true]
      rw [he]
      exact ⟨no_switch_keeps m _ (no_switch_refl m _),
        fun _ => no_switch_refl m _, by simp [outcome.has_returned, h]⟩
  · by_cases h : (get_vrf_ns_from_name DEFAULT_VRF_NAME OVSDB_VRF_NAME_MAXLEN
        idl vrf_name []).1 = 0
    · have hf := run_frame _
        (fun r => ((0 : Nat), snprintf (IFNAMSIZ - 1) r.2.in_ifname))
        (fun t : nlutils_op_data =>
          ((0 : Nat), snprintf (IFNAMSIZ - 1) t.in_ifname)) k o _ m _
        (vrf_if_indextoname_eq DEFAULT_VRF_NAME OVSDB_VRF_NAME_MAXLEN k o
          tdata0 idl ifindex buf vrf_name m h)
      refine ⟨hf.1, hf.2.1, ?_⟩
      rw [hf.2.2]
      simp [h]
    · have he : vrf_if_indextoname DEFAULT_VRF_NAME OVSDB_VRF_NAME_MAXLEN k o
          tdata0 idl ifindex buf vrf_name m
          = outcome.returned (to_uint (-1), buf) m := by
        unfold vrf_if_indextoname
        simp only [ne_eq, h, not_false_eq_true, if_true]
      rw [he]
      exact ⟨no_switch_keeps m _ (no_switch_refl m _),
        fun _ => no_switch_refl m _, by simp [outcome.has_returned, h]⟩

/-! ## Operations in a namespace: failures -/

theorem vrf_perform_socket_operation_exits (k : kernel) (o : op_outcome)
    (tdata : nlutils_op_data) (m : machine) (hcreate : o.pthread_create = 0)
    (hfail : o.enter.open_ok = false ∨ o.enter.setns_ok = false) :
    ∃ m1, vrf_perform_socket_operation k o tdata m
      = outcome.exited EXIT_SUCCESS m1 := by
  rw [vrf_perform_socket_operation_eq]
  cases ho : o.enter.open_ok
  · simp only [hcreate, ne_eq, not_true_eq_false, if_false, if_true]
    exact ⟨_, rfl⟩
  · rcases hfail with h | h
    · rw [ho] at h; cases h
    · simp only [hcreate, h, ne_eq, not_true_eq_false, if_false, if_true,
        Bool.true_eq_false]
      exact ⟨_, rfl⟩

theorem vrf_perform_socket_operation_runs (k : kernel) (o : op_outcome)
    (tdata : nlutils_op_data) (m : machine) (hcreate : o.pthread_create = 0)
    (ho : o.enter.open_ok = true) (hs : o.enter.setns_ok = true) :
    ∃ m1 m2, m1.worker_ns = nl_setns_path tdata.ns_name ∧
      vrf_perform_socket_operation k o tdata m
        = outcome.returned
          (true, (nl_perform_socket_operation k o.socket_ok thread_id.worker
            tdata m1).1) m2 := by
  rw [vrf_perform_socket_operation_eq]
  simp only [hcreate, ho, hs, ne_eq, not_true_eq_false, if_false,
    Bool.true_eq_false]
  exact ⟨_, _, rfl, rfl⟩

/-- C17 fails: when the worker thread is created and cannot enter the
namespace (the `open` or the `setns` of `nl_setns_with_name` fails),
`vrf_create_socket`, `vrf_if_nametoindex` and `vrf_if_indextoname` do not
return: the process exits with status `EXIT_SUCCESS`. -/
theorem unenterable_namespace_exits (DEFAULT_VRF_NAME : CStr)
    (OVSDB_VRF_NAME_MAXLEN : Nat) (k : kernel) (o : op_outcome)
    (tdata0 : nlutils_op_data) (vrf_ns_name : CStr) (params : vrf_sock_params)
    (idl : List ovsrec_vrf) (vrf_name : Option CStr) (if_name : CStr)
    (ifindex : Int) (buf : CStr) (m : machine)
    (hcreate : o.pthread_create = 0)
    (hfail : o.enter.open_ok = false ∨ o.enter.setns_ok = false) :
    (is_nondefault_vrf DEFAULT_VRF_NAME (some vrf_ns_name) = true →
      ∃ m1, vrf_create_socket DEFAULT_VRF_NAME k o tdata0 vrf_ns_name params m
        = outcome.exited EXIT_SUCCESS m1) ∧
    ((get_vrf_ns_from_name DEFAULT_VRF_NAME OVSDB_VRF_NAME_MAXLEN idl
        vrf_name []).1 = 0 →
      is_nondefault_vrf DEFAULT_VRF_NAME
        (some (get_vrf_ns_from_name DEFAULT_VRF_NAME OVSDB_VRF_NAME_MAXLEN
          idl vrf_name []).2) = true →
      (∃ m1, vrf_if_nametoindex DEFAULT_VRF_NAME OVSDB_VRF_NAME_MAXLEN k o
          tdata0 idl vrf_name if_name m = outcome.exited EXIT_SUCCESS m1) ∧
      (∃ m1, vrf_if_indextoname DEFAULT_VRF_NAME OVSDB_VRF_NAME_MAXLEN k o
          tdata0 idl ifindex buf vrf_name m
            = outcome.exited EXIT_SUCCESS m1)) := by
  refine ⟨?_, ?_⟩
  · intro hnd
    rw [vrf_create_socket_eq, if_pos hnd]
    obtain ⟨m1, h1⟩ := vrf_perform_socket_operation_exits k o
      { tdata0 with
        ns_name := snprintf (MAX_BUFFER_SIZE - 1) vrf_ns_name,
        operation := NLUTILS_SOCKET_CREATE,
        s := params.nl_params } m hcreate hfail
    exact ⟨m1, by rw [h1]; rfl⟩
  · intro h hnd
    refine ⟨?_, ?_⟩
    · rw [vrf_if_nametoindex_eq _ _ _ _ _ _ _ _ _ h, if_pos hnd]
      obtain ⟨m1, h1⟩ := vrf_perform_socket_operation_exits k o
        { tdata0 with
          ns_name := snprintf (MAX_BUFFER_SIZE - 1)
            (get_vrf_ns_from_name DEFAULT_VRF_NAME OVSDB_VRF_NAME_MAXLEN
              idl vrf_name []).2,
          ni_ifname := snprintf (IFNAMSIZ - 1) if_name,
          operation := NLUTILS_IFNAME_TO_INDEX } m hcreate hfail
      exact ⟨m1, by rw [h1]; rfl⟩
    · rw [vrf_if_indextoname_eq _ _ _ _ _ _ _ _ _ _ h, if_pos hnd]
      obtain ⟨m1, h1⟩ := vrf_perform_socket_operation_exits k o
        { tdata0 with
          ns_name := snprintf (MAX_BUFFER_SIZE - 1)
            (get_vrf_ns_from_name DEFAULT_VRF_NAME OVSDB_VRF_NAME_MAXLEN
              idl vrf_name []).2,
          in_ifindex := ifindex,
          operation := NLUTILS_IFINDEX_TO_NAME } m hcreate hfail
      exact ⟨m1, by rw [h1]; rfl⟩

/-- C17 fails at the namespace name "no-such-namespace", whose path cannot
be opened: `vrf_create_socket` ends the process with status 0, and so do
`vrf_if_nametoindex` and `vrf_if_indextoname` for the VRF "vrf_red" of the
table when the path of its namespace cannot be opened. -/
theorem unenterable_namespace_exits_witness :
    (∃ m1, vrf_create_socket (cstr "vrf_default") kernel_eth0
        { pthread_create := 0,
          enter := { open_ok := false, setns_ok := true },
          socket_ok := true }
        tdata_zero (cstr "no-such-namespace")
        { nl_params := { family := 2, type := 1, protocol := 0 } }
        machine_swns = outcome.exited 0 m1) ∧
    (∃ m1, vrf_if_nametoindex (cstr "vrf_default") 32 kernel_eth0
        { pthread_create := 0,
          enter := { open_ok := false, setns_ok := true },
          socket_ok := true }
        tdata_zero [vrf_blue, vrf_red] (some (cstr "vrf_red")) (cstr "eth0")
        machine_swns = outcome.exited 0 m1) ∧
    (∃ m1, vrf_if_indextoname (cstr "vrf_default") 32 kernel_eth0
        { pthread_create := 0,
          enter := { open_ok := false, setns_ok := true },
          socket_ok := true }
        tdata_zero [vrf_blue, vrf_red] 2 [] (some (cstr "vrf_red"))
        machine_swns = outcome.exited 0 m1) :=
  have h := unenterable_namespace_exits (cstr "vrf_default") 32 kernel_eth0
    { pthread_create := 0, enter := { open_ok := false, setns_ok := true },
      socket_ok := true }
    tdata_zero (cstr "no-such-namespace")
    { nl_params := { family := 2, type := 1, protocol := 0 } }
    [vrf_blue, vrf_red] (some (cstr "vrf_red")) (cstr "eth0") 2 []
    machine_swns rfl (Or.inl rfl)
  ⟨h.1 (by decide), (h.2 (by decide) (by decide)).1,
    (h.2 (by decide) (by decide)).2⟩

theorem nl_perform_nametoindex (k : kernel) (socket_ok : Bool)
    (t : thread_id) (tdata : nlutils_op_data) (m : machine)
    (hop : tdata.operation = NLUTILS_IFNAME_TO_INDEX) :
    (nl_perform_socket_operation k socket_ok t tdata m).1.ni_ifindex
      = (k.ifindex_of (thread_ns t m) tdata.ni_ifname : Int) := by
  unfold nl_perform_socket_operation
  have h0 : ¬ NLUTILS_IFNAME_TO_INDEX = NLUTILS_SOCKET_CREATE := by decide
  have h1 : ¬ NLUTILS_IFNAME_TO_INDEX = NLUTILS_IFINDEX_TO_NAME := by decide
  simp only [hop, h0, h1, if_false, if_true]

theorem nl_perform_indextoname_none (k : kernel) (socket_ok : Bool)
    (t : thread_id) (tdata : nlutils_op_data) (m : machine)
    (hop : tdata.operation = NLUTILS_IFINDEX_TO_NAME)
    (hnone : k.ifname_of (thread_ns t m) tdata.in_ifindex = none) :
    (nl_perform_socket_operation k socket_ok t tdata m).1.in_ifname
      = tdata.in_ifname := by
  unfold nl_perform_socket_operation
  have h0 : ¬ NLUTILS_IFINDEX_TO_NAME = NLUTILS_SOCKET_CREATE := by decide
  simp only [hop, h0, if_false, if_true, hnone]

theorem nl_enter_namespace (enter : setns_outcome) (ns_name : CStr)
    (m : machine) :
    thread_ns thread_id.caller
      (if nl_is_nondefault_ns (some ns_name) = true then
        (nl_setns_with_name enter thread_id.caller ns_name m).2 else m)
      = nl_lookup_namespace enter ns_name m := by
  unfold nl_lookup_namespace
  rw [nl_setns_with_name_eq]
  cases nl_is_nondefault_ns (some ns_name) <;> cases enter.open_ok <;>
    cases enter.setns_ok <;> simp [thread_ns]

/-- C18 fails in its first case: for a VRF name that resolves to no
namespace, `vrf_if_nametoindex` returns 4294967295, the value of -1 as an
`unsigned int`, not 0.  In the second case it holds: when the operation
runs, an interface name of at most 14 characters that has no index in the
namespace of the lookup gives 0. -/
theorem vrf_if_nametoindex_failure_values (DEFAULT_VRF_NAME : CStr)
    (OVSDB_VRF_NAME_MAXLEN : Nat) (k : kernel) (o : op_outcome)
    (tdata0 : nlutils_op_data) (idl : List ovsrec_vrf)
    (vrf_name : Option CStr) (if_name : CStr) (m : machine) :
    ((get_vrf_ns_from_name DEFAULT_VRF_NAME OVSDB_VRF_NAME_MAXLEN idl
        vrf_name []).1 ≠ 0 →
      vrf_if_nametoindex DEFAULT_VRF_NAME OVSDB_VRF_NAME_MAXLEN k o tdata0
        idl vrf_name if_name m = outcome.returned 4294967295 m) ∧
    ((get_vrf_ns_from_name DEFAULT_VRF_NAME OVSDB_VRF_NAME_MAXLEN idl
        vrf_name []).1 = 0 →
      worker_runs DEFAULT_VRF_NAME
        (get_vrf_ns_from_name DEFAULT_VRF_NAME OVSDB_VRF_NAME_MAXLEN idl
          vrf_name []).2 o →
      if_name.length < IFNAMSIZ - 1 →
      k.ifindex_of
        (vrf_lookup_namespace DEFAULT_VRF_NAME
          (get_vrf_ns_from_name DEFAULT_VRF_NAME OVSDB_VRF_NAME_MAXLEN idl
            vrf_name []).2 m) if_name = 0 →
      (vrf_if_nametoindex DEFAULT_VRF_NAME OVSDB_VRF_NAME_MAXLEN k o tdata0
        idl vrf_name if_name m).value = some 0) := by
  refine ⟨?_, ?_⟩
  · intro h
    unfold vrf_if_nametoindex
    simp only [ne_eq, h, not_false_eq_true, if_true]
    rfl
  · intro h hruns hlen hzero
    have hname : snprintf (IFNAMSIZ - 1) if_name = if_name := by
      unfold snprintf
      apply List.take_of_length_le
      omega
    rw [vrf_if_nametoindex_eq _ _ _ _ _ _ _ _ _ h]
    by_cases hnd : is_nondefault_vrf DEFAULT_VRF_NAME
        (some (get_vrf_ns_from_name DEFAULT_VRF_NAME OVSDB_VRF_NAME_MAXLEN
          idl vrf_name []).2) = true
    · obtain ⟨hc, ho, hs⟩ := hruns hnd
      obtain ⟨m1, m2, hw, hrun⟩ := vrf_perform_socket_operation_runs k o
        { tdata0 with
          ns_name := snprintf (MAX_BUFFER_SIZE - 1)
            (get_vrf_ns_from_name DEFAULT_VRF_NAME OVSDB_VRF_NAME_MAXLEN
              idl vrf_name []).2,
          ni_ifname := snprintf (IFNAMSIZ - 1) if_name,
          operation := NLUTILS_IFNAME_TO_INDEX } m hc ho hs
      rw [if_pos hnd, hrun]
      simp only [outcome.map, outcome.value]
      rw [nl_perform_nametoindex _ _ _ _ _ rfl]
      simp only [thread_ns, hw, hname]
      unfold vrf_lookup_namespace at hzero
      rw [if_pos hnd] at hzero
      rw [hzero]
      rfl
    · rw [if_neg hnd]
      simp only [outcome.value]
      rw [nl_perform_nametoindex _ _ _ _ _ rfl]
      simp only [thread_ns, hname]
      unfold vrf_lookup_namespace at hzero
      rw [if_neg hnd] at hzero
      rw [hzero]
      rfl

/-- C18 fails at the VRF name "vrf_green", which the table of "vrf_blue" and
"vrf_red" does not hold: `vrf_if_nametoindex` returns 4294967295. -/
theorem vrf_if_nametoindex_failure_values_witness :
    vrf_if_nametoindex (cstr "vrf_default") 32 kernel_eth0
        { pthread_create := 0, enter := { open_ok := true, setns_ok := true },
          socket_ok := true }
        tdata_zero [vrf_blue, vrf_red] (some (cstr "vrf_green"))
        (cstr "eth0") machine_swns
      = outcome.returned 4294967295 machine_swns :=
  (vrf_if_nametoindex_failure_values (cstr "vrf_default") 32 kernel_eth0
    { pthread_create := 0, enter := { open_ok := true, setns_ok := true },
      socket_ok := true }
    tdata_zero [vrf_blue, vrf_red] (some (cstr "vrf_green")) (cstr "eth0")
    machine_swns).1 (by decide)

/-- C19 fails: for an interface index that has no name in the namespace of
the lookup, `nl_if_indextoname` returns 0 and hands back the first 14
characters of the string the memory of its local request held on entry, and
so does `vrf_if_indextoname` when the operation runs; for a VRF name that
resolves to no namespace, `vrf_if_indextoname` returns 4294967295 and leaves
the buffer of the caller as it was. -/
theorem indextoname_failure_hands_back_memory (DEFAULT_VRF_NAME : CStr)
    (OVSDB_VRF_NAME_MAXLEN : Nat) (k : kernel) (enter leave : setns_outcome)
    (o : op_outcome) (tdata0 : nlutils_op_data) (idl : List ovsrec_vrf)
    (ifindex : Int) (buf ns_name : CStr) (vrf_name : Option CStr)
    (m : machine) :
    (k.ifname_of (nl_lookup_namespace enter ns_name m) ifindex = none →
      (nl_if_indextoname k enter leave tdata0 ifindex ns_name m).1 = 0 ∧
      (nl_if_indextoname k enter leave tdata0 ifindex ns_name m).2.1
        = snprintf (IFNAMSIZ - 1) tdata0.in_ifname) ∧
    ((get_vrf_ns_from_name DEFAULT_VRF_NAME OVSDB_VRF_NAME_MAXLEN idl
        vrf_name []).1 = 0 →
      worker_runs DEFAULT_VRF_NAME
        (get_vrf_ns_from_name DEFAULT_VRF_NAME OVSDB_VRF_NAME_MAXLEN idl
          vrf_name []).2 o →
      k.ifname_of
        (vrf_lookup_namespace DEFAULT_VRF_NAME
          (get_vrf_ns_from_name DEFAULT_VRF_NAME OVSDB_VRF_NAME_MAXLEN idl
            vrf_name []).2 m) ifindex = none →
      (vrf_if_indextoname DEFAULT_VRF_NAME OVSDB_VRF_NAME_MAXLEN k o tdata0
        idl ifindex buf vrf_name m).value
          = some (0, snprintf (IFNAMSIZ - 1) tdata0.in_ifname)) ∧
    ((get_vrf_ns_from_name DEFAULT_VRF_NAME OVSDB_VRF_NAME_MAXLEN idl
        vrf_name []).1 ≠ 0 →
      vrf_if_indextoname DEFAULT_VRF_NAME OVSDB_VRF_NAME_MAXLEN k o tdata0
        idl ifindex buf vrf_name m
          = outcome.returned (4294967295, buf) m) := by
  refine ⟨?_, ?_, ?_⟩
  · intro hnone
    refine ⟨rfl, ?_⟩
    simp only [nl_if_indextoname]
    rw [nl_perform_indextoname_none _ _ _ _ _ rfl
      (by rw [nl_enter_namespace]; exact hnone)]
  · intro h hruns hnone
    rw [vrf_if_indextoname_eq _ _ _ _ _ _ _ _ _ _ h]
    by_cases hnd : is_nondefault_vrf DEFAULT_VRF_NAME
        (some (get_vrf_ns_from_name DEFAULT_VRF_NAME OVSDB_VRF_NAME_MAXLEN
          idl vrf_name []).2) = true
    · obtain ⟨hc, ho, hs⟩ := hruns hnd
      obtain ⟨m1, m2, hw, hrun⟩ := vrf_perform_socket_operation_runs k o
        { tdata0 with
          ns_name := snprintf (MAX_BUFFER_SIZE - 1)
            (get_vrf_ns_from_name DEFAULT_VRF_NAME OVSDB_VRF_NAME_MAXLEN
              idl vrf_name []).2,
          in_ifindex := ifindex,
          operation := NLUTILS_IFINDEX_TO_NAME } m hc ho hs
      unfold vrf_lookup_namespace at hnone
      rw [if_pos hnd] at hnone
      rw [if_pos hnd, hrun]
      simp only [outcome.map, outcome.value]
      rw [nl_perform_indextoname_none _ _ _ _ _ rfl
        (by simpa [thread_ns, hw] using hnone)]
    · unfold vrf_lookup_namespace at hnone
      rw [if_neg hnd] at hnone
      rw [if_neg hnd]
      simp only [outcome.value]
      rw [nl_perform_indextoname_none _ _ _ _ _ rfl
        (by simpa [thread_ns] using hnone)]
  · intro h
    unfold vrf_if_indextoname
    simp only [ne_eq, h, not_false_eq_true, if_true]
    rfl

/-- C19 fails at the interface index 99, which has no name in the default
namespace, when the memory of the local request holds the name "eth0" of an
earlier call: `nl_if_indextoname` and `vrf_if_indextoname` hand back "eth0",
not the empty string. -/
theorem indextoname_failure_hands_back_memory_witness :
    (nl_if_indextoname kernel_eth0 { open_ok := true, setns_ok := true }
        { open_ok := true, setns_ok := true } tdata_stale 99 (cstr "swns")
        machine_swns).2.1 = cstr "eth0" ∧
    (vrf_if_indextoname (cstr "vrf_default") 32 kernel_eth0
        { pthread_create := 0, enter := { open_ok := true, setns_ok := true },
          socket_ok := true }
        tdata_stale [vrf_blue, vrf_red] 99 [] (some (cstr "vrf_default"))
        machine_swns).value = some (0, cstr "eth0") :=
  have h := indextoname_failure_hands_back_memory (cstr "vrf_default") 32
    kernel_eth0 { open_ok := true, setns_ok := true }
    { open_ok := true, setns_ok := true }
    { pthread_create := 0, enter := { open_ok := true, setns_ok := true },
      socket_ok := true }
    tdata_stale [vrf_blue, vrf_red] 99 [] (cstr "swns")
    (some (cstr "vrf_default")) machine_swns
  ⟨(h.1 (by decide)).2, h.2.1 (by decide) (by unfold worker_runs; decide)
    (by decide)⟩

/-! ## Operations in a namespace: runs of the model -/

/-- In the default namespace, `vrf_if_nametoindex` finds the index 2 of
"eth0" and 0 for "eth9", `vrf_if_indextoname` finds the name of the index 2,
and `vrf_create_socket` returns the descriptor 3, the lowest that is free. -/
theorem default_namespace_runs :
    (vrf_if_nametoindex (cstr "vrf_default") 32 kernel_eth0
        { pthread_create := 0, enter := { open_ok := true, setns_ok := true },
          socket_ok := true }
        tdata_stale [vrf_blue, vrf_red] (some (cstr "vrf_default"))
        (cstr "eth0") machine_swns).value = some 2 ∧
    (vrf_if_nametoindex (cstr "vrf_default") 32 kernel_eth0
        { pthread_create := 0, enter := { open_ok := true, setns_ok := true },
          socket_ok := true }
        tdata_stale [vrf_blue, vrf_red] (some (cstr "vrf_default"))
        (cstr "eth9") machine_swns).value = some 0 ∧
    (vrf_if_indextoname (cstr "vrf_default") 32 kernel_eth0
        { pthread_create := 0, enter := { open_ok := true, setns_ok := true },
          socket_ok := true }
        tdata_stale [vrf_blue, vrf_red] 2 [] (some (cstr "vrf_default"))
        machine_swns).value = some (0, cstr "eth0") ∧
    (vrf_create_socket (cstr "vrf_default") kernel_eth0
        { pthread_create := 0, enter := { open_ok := true, setns_ok := true },
          socket_ok := true }
        tdata_stale (cstr "swns")
        { nl_params := { family := 2, type := 1, protocol := 0 } }
        machine_swns).value = some 3 := by
  decide

/-- In the namespace of "vrf_red", which the worker enters,
`vrf_create_socket` returns the descriptor 3 after the worker has opened and
closed the descriptor 3 of the namespace, and the calling thread is still in
its namespace. -/
theorem worker_namespace_run :
    vrf_create_socket (cstr "vrf_default") kernel_eth0
        { pthread_create := 0, enter := { open_ok := true, setns_ok := true },
          socket_ok := true }
        tdata_stale (cstr "550e8400-e29b-41d4-a716-446655440000")
        { nl_params := { family := 2, type := 1, protocol := 0 } }
        machine_swns
      = outcome.returned 3
          { caller_ns := cstr "/var/run/netns/swns",
            worker_ns :=
              cstr "/var/run/netns/550e8400-e29b-41d4-a716-446655440000",
            files :=
              (3, file.socket
                (cstr "/var/run/netns/550e8400-e29b-41d4-a716-446655440000")
                { family := 2, type := 1, protocol := 0 })
              :: machine_swns.files,
            trace :=
              [sys_event.thread_created,
                sys_event.opened 3 (file.path
                  (cstr "/var/run/netns/550e8400-e29b-41d4-a716-446655440000")),
                sys_event.entered thread_id.worker
                  (cstr "/var/run/netns/550e8400-e29b-41d4-a716-446655440000"),
                sys_event.closed 3,
                sys_event.opened 3 (file.socket
                  (cstr "/var/run/netns/550e8400-e29b-41d4-a716-446655440000")
                  { family := 2, type := 1, protocol := 0 }),
                sys_event.thread_joined] } := by
  rfl

/-- A move of "eth0" from the default namespace to the namespace "red" in
which every system call succeeds: `nl_move_intf_to_vrf` returns true, sends
one message for the interface index 2 on the socket 5 with the descriptor 3
of the destination, and closes the three descriptors. -/
theorem move_run :
    nl_move_intf_to_vrf kernel_eth0
        { open_to := true, open_from := true,
          enter := { open_ok := true, setns_ok := true }, socket_ok := true,
          leave := { open_ok := true, setns_ok := true },
          bind_result := 0, bind_errno := 0, send_result := 32 }
        { from_ns := cstr "swns", to_ns := cstr "red",
          intf_name := cstr "eth0" } machine_swns
      = (true,
          { machine_swns with
            trace :=
              [sys_event.opened 3 (file.path (cstr "/var/run/netns/red")),
                sys_event.opened 4 (file.path (cstr "/var/run/netns/swns")),
                sys_event.opened 5 (file.socket (cstr "/var/run/netns/swns")
                  { family := AF_NETLINK, type := SOCK_RAW,
                    protocol := NETLINK_ROUTE }),
                sys_event.sent 5 2 3,
                sys_event.closed 3, sys_event.closed 5,
                sys_event.closed 4] }) := by
  decide

/-! ## nl_move_intf_to_vrf: the returned value -/

theorem natCast_ne_neg_one (n : Nat) : ((n : Int) = -1) ↔ False := by
  constructor
  · intro h; omega
  · intro h; exact h.elim

theorem natCast_not_neg (n : Nat) : ((n : Int) < 0) ↔ False := by
  constructor
  · intro h; omega
  · intro h; exact h.elim

set_option maxHeartbeats 1000000 in
/-- The locals and the trace when control reaches the label `cleanup`: `rc`
is true exactly when every step succeeds, and the events hold one message,
for the interface index resolved in the source namespace, on the socket,
with the descriptor of the destination, when `rc` is true and none
otherwise. -/
theorem steps_result (k : kernel) (o : move_outcome)
    (setns_local_info : setns_info) (m : machine) :
    ((nl_move_intf_to_vrf_steps k o setns_local_info m).1.rc = true
      ↔ move_all_succeed k o setns_local_info m) ∧
    (nl_move_intf_to_vrf_steps k o setns_local_info m).2.trace
      = m.trace ++
        new_events m (nl_move_intf_to_vrf_steps k o setns_local_info m).2 ∧
    (new_events m
        (nl_move_intf_to_vrf_steps k o setns_local_info m).2).filter
          (fun e => is_sent e)
      = if (nl_move_intf_to_vrf_steps k o setns_local_info m).1.rc = true
        then
          [sys_event.sent
            (nl_move_intf_to_vrf_steps k o setns_local_info m).1.ns_sock
            (k.ifindex_of (move_source_namespace setns_local_info m)
              setns_local_info.intf_name)
            (nl_move_intf_to_vrf_steps k o setns_local_info m).1.fd]
        else [] := by
  obtain ⟨ot, of, ⟨eo, es⟩, sk, ⟨lo, ls⟩, br, be, sr⟩ := o
  obtain ⟨cn, wn, F, tr⟩ := m
  cases ot
  · simp [nl_move_intf_to_vrf_steps, move_all_succeed,
      move_source_namespace, new_events, nl_setns_with_name_eq, sys_open,
      sys_alloc, sys_socket, sys_send, thread_ns, machine.fds, is_sent,
      natCast_ne_neg_one, natCast_not_neg]
  cases of
  · simp [nl_move_intf_to_vrf_steps, move_all_succeed,
      move_source_namespace, new_events, nl_setns_with_name_eq, sys_open,
      sys_alloc, sys_socket, sys_send, thread_ns, machine.fds, is_sent,
      natCast_ne_neg_one, natCast_not_neg]
  cases hnd : nl_is_nondefault_ns (some setns_local_info.from_ns)
  · cases sk
    · simp [nl_move_intf_to_vrf_steps, move_all_succeed,
        move_source_namespace, new_events, nl_setns_with_name_eq, sys_open,
        sys_alloc, sys_socket, sys_send, thread_ns, machine.fds, is_sent,
        natCast_ne_neg_one, natCast_not_neg, hnd]
    by_cases hb : br < 0 ∧ be ≠ EADDRINUSE
    · have hb1 := hb.1
      have hb2 : ¬ 0 ≤ br := by omega
      have hb3 := hb.2
      simp [nl_move_intf_to_vrf_steps, move_all_succeed,
        move_source_namespace, new_events, nl_setns_with_name_eq, sys_open,
        sys_alloc, sys_socket, sys_send, thread_ns, machine.fds, is_sent,
        natCast_ne_neg_one, natCast_not_neg, hnd, hb1, hb2, hb3]
    have hb4 : 0 ≤ br ∨ be = EADDRINUSE := by
      by_cases h0 : 0 ≤ br
      · exact Or.inl h0
      · right
        by_contra h1
        exact hb ⟨by omega, h1⟩
    by_cases hi : k.ifindex_of cn
        setns_local_info.intf_name = 0
    · simp [nl_move_intf_to_vrf_steps, move_all_succeed,
        move_source_namespace, new_events, nl_setns_with_name_eq, sys_open,
        sys_alloc, sys_socket, sys_send, thread_ns, machine.fds, is_sent,
        natCast_ne_neg_one, natCast_not_neg, hnd, hb, hb4, hi]
    by_cases hs : sr = -1
    · simp [nl_move_intf_to_vrf_steps, move_all_succeed,
        move_source_namespace, new_events, nl_setns_with_name_eq, sys_open,
        sys_alloc, sys_socket, sys_send, thread_ns, machine.fds, is_sent,
        natCast_ne_neg_one, natCast_not_neg, hnd, hb, hb4, hi, hs]
    · simp [nl_move_intf_to_vrf_steps, move_all_succeed,
        move_source_namespace, new_events, nl_setns_with_name_eq, sys_open,
        sys_alloc, sys_socket, sys_send, thread_ns, machine.fds, is_sent,
        natCast_ne_neg_one, natCast_not_neg, hnd, hb, hb4, hi, hs]
  · cases eo
    · simp [nl_move_intf_to_vrf_steps, move_all_succeed,
        move_source_namespace, new_events, nl_setns_with_name_eq, sys_open,
        sys_alloc, sys_socket, sys_send, thread_ns, machine.fds, is_sent,
        natCast_ne_neg_one, natCast_not_neg, hnd]
    cases es
    · simp [nl_move_intf_to_vrf_steps, move_all_succeed,
        move_source_namespace, new_events, nl_setns_with_name_eq, sys_open,
        sys_alloc, sys_socket, sys_send, thread_ns, machine.fds, is_sent,
        natCast_ne_neg_one, natCast_not_neg, hnd]
    cases lo
    · cases sk
      · simp [nl_move_intf_to_vrf_steps, move_all_succeed,
          move_source_namespace, new_events, nl_setns_with_name_eq,
          sys_open, sys_alloc, sys_socket, sys_send, thread_ns, machine.fds,
          is_sent, natCast_ne_neg_one, natCast_not_neg, hnd]
      · simp [nl_move_intf_to_vrf_steps, move_all_succeed,
          move_source_namespace, new_events, nl_setns_with_name_eq,
          sys_open, sys_alloc, sys_socket, sys_send, thread_ns, machine.fds,
          is_sent, natCast_ne_neg_one, natCast_not_neg, hnd]
    cases ls
    · cases sk
      · simp [nl_move_intf_to_vrf_steps, move_all_succeed,
          move_source_namespace, new_events, nl_setns_with_name_eq,
          sys_open, sys_alloc, sys_socket, sys_send, thread_ns, machine.fds,
          is_sent, natCast_ne_neg_one, natCast_not_neg, hnd]
      · simp [nl_move_intf_to_vrf_steps, move_all_succeed,
          move_source_namespace, new_events, nl_setns_with_name_eq,
          sys_open, sys_alloc, sys_socket, sys_send, thread_ns, machine.fds,
          is_sent, natCast_ne_neg_one, natCast_not_neg, hnd]
    cases sk
    · simp [nl_move_intf_to_vrf_steps, move_all_succeed,
        move_source_namespace, new_events, nl_setns_with_name_eq, sys_open,
        sys_alloc, sys_socket, sys_send, thread_ns, machine.fds, is_sent,
        natCast_ne_neg_one, natCast_not_neg, hnd]
    by_cases hb : br < 0 ∧ be ≠ EADDRINUSE
    · have hb1 := hb.1
      have hb2 : ¬ 0 ≤ br := by omega
      have hb3 := hb.2
      simp [nl_move_intf_to_vrf_steps, move_all_succeed,
        move_source_namespace, new_events, nl_setns_with_name_eq, sys_open,
        sys_alloc, sys_socket, sys_send, thread_ns, machine.fds, is_sent,
        natCast_ne_neg_one, natCast_not_neg, hnd, hb1, hb2, hb3]
    have hb4 : 0 ≤ br ∨ be = EADDRINUSE := by
      by_cases h0 : 0 ≤ br
      · exact Or.inl h0
      · right
        by_contra h1
        exact hb ⟨by omega, h1⟩
    by_cases hi : k.ifindex_of (nl_setns_path setns_local_info.from_ns)
        setns_local_info.intf_name = 0
    · simp [nl_move_intf_to_vrf_steps, move_all_succeed,
        move_source_namespace, new_events, nl_setns_with_name_eq, sys_open,
        sys_alloc, sys_socket, sys_send, thread_ns, machine.fds, is_sent,
        natCast_ne_neg_one, natCast_not_neg, hnd, hb, hb4, hi]
    by_cases hs : sr = -1
    · simp [nl_move_intf_to_vrf_steps, move_all_succeed,
        move_source_namespace, new_events, nl_setns_with_name_eq, sys_open,
        sys_alloc, sys_socket, sys_send, thread_ns, machine.fds, is_sent,
        natCast_ne_neg_one, natCast_not_neg, hnd, hb, hb4, hi, hs]
    · simp [nl_move_intf_to_vrf_steps, move_all_succeed,
        move_source_namespace, new_events, nl_setns_with_name_eq, sys_open,
        sys_alloc, sys_socket, sys_send, thread_ns, machine.fds, is_sent,
        natCast_ne_neg_one, natCast_not_neg, hnd, hb, hb4, hi, hs]

set_option maxHeartbeats 1000000 in
/-- The steps after the first step that fails are not executed: what they
would return has no effect on the locals and the state at the label
`cleanup`. -/
theorem steps_stop (k : kernel) (o o' : move_outcome)
    (setns_local_info : setns_info) (m : machine)
    (h : same_until_failure k o o' setns_local_info m) :
    nl_move_intf_to_vrf_steps k o' setns_local_info m
      = nl_move_intf_to_vrf_steps k o setns_local_info m := by
  obtain ⟨ot, of, ⟨eo, es⟩, sk, ⟨lo, ls⟩, br, be, sr⟩ := o
  obtain ⟨ot', of', ⟨eo', es'⟩, sk', ⟨lo', ls'⟩, br', be', sr'⟩ := o'
  obtain ⟨cn, wn, F, tr⟩ := m
  simp only [same_until_failure] at h
  obtain ⟨h1, h2⟩ := h
  subst h1
  cases ot'
  · simp [nl_move_intf_to_vrf_steps, nl_setns_with_name_eq, sys_open,
      sys_alloc, sys_socket, sys_send, thread_ns, machine.fds,
      natCast_ne_neg_one, natCast_not_neg]
  obtain ⟨h3, h4⟩ := h2 rfl
  subst h3
  cases of'
  · simp [nl_move_intf_to_vrf_steps, nl_setns_with_name_eq, sys_open,
      sys_alloc, sys_socket, sys_send, thread_ns, machine.fds,
      natCast_ne_neg_one, natCast_not_neg]
  obtain ⟨h5, h6⟩ := h4 rfl
  cases hnd : nl_is_nondefault_ns (some setns_local_info.from_ns)
  · rw [hnd] at h5 h6
    obtain ⟨h7, _, h8⟩ := h6 (fun hc => by cases hc)
    subst h7
    cases sk'
    · simp [nl_move_intf_to_vrf_steps, nl_setns_with_name_eq, sys_open,
        sys_alloc, sys_socket, sys_send, thread_ns, machine.fds,
        natCast_ne_neg_one, natCast_not_neg, hnd]
    have h8 := h8 rfl (fun hc => by cases hc)
    obtain ⟨h9, h10, h11⟩ := h8
    subst h9 h10
    by_cases hb : br' < 0 ∧ be' ≠ EADDRINUSE
    · have hb1 := hb.1
      have hb3 := hb.2
      simp [nl_move_intf_to_vrf_steps, nl_setns_with_name_eq, sys_open,
        sys_alloc, sys_socket, sys_send, thread_ns, machine.fds,
        natCast_ne_neg_one, natCast_not_neg, hnd, hb1, hb3]
    have hb4 : 0 ≤ br' ∨ be' = EADDRINUSE := by
      by_cases h0 : 0 ≤ br'
      · exact Or.inl h0
      · right
        by_contra h1
        exact hb ⟨by omega, h1⟩
    by_cases hi : k.ifindex_of cn
        setns_local_info.intf_name = 0
    · simp [nl_move_intf_to_vrf_steps, nl_setns_with_name_eq, sys_open,
        sys_alloc, sys_socket, sys_send, thread_ns, machine.fds,
        natCast_ne_neg_one, natCast_not_neg, hnd, hb, hi]
    have h12 := h11 hb4 (by simpa [move_source_namespace, hnd] using hi)
    subst h12
    simp [nl_move_intf_to_vrf_steps, nl_setns_with_name_eq, sys_open,
      sys_alloc, sys_socket, sys_send, thread_ns, machine.fds,
      natCast_ne_neg_one, natCast_not_neg, hnd, hb, hi]
  · rw [hnd] at h5 h6
    have h5 := h5 rfl
    simp only [setns_outcome.mk.injEq] at h5
    obtain ⟨h5a, h5b⟩ := h5
    subst h5a h5b
    cases eo'
    · simp [nl_move_intf_to_vrf_steps, nl_setns_with_name_eq, sys_open,
        sys_alloc, sys_socket, sys_send, thread_ns, machine.fds,
        natCast_ne_neg_one, natCast_not_neg, hnd]
    cases es'
    · simp [nl_move_intf_to_vrf_steps, nl_setns_with_name_eq, sys_open,
        sys_alloc, sys_socket, sys_send, thread_ns, machine.fds,
        natCast_ne_neg_one, natCast_not_neg, hnd]
    obtain ⟨h7, h7b, h8⟩ := h6 (fun _ => ⟨rfl, rfl⟩)
    have h7b := h7b rfl
    simp only [setns_outcome.mk.injEq] at h7b
    obtain ⟨h7c, h7d⟩ := h7b
    subst h7 h7c h7d
    cases lo'
    · cases sk'
      · simp [nl_move_intf_to_vrf_steps, nl_setns_with_name_eq, sys_open,
          sys_alloc, sys_socket, sys_send, thread_ns, machine.fds,
          natCast_ne_neg_one, natCast_not_neg, hnd]
      · simp [nl_move_intf_to_vrf_steps, nl_setns_with_name_eq, sys_open,
          sys_alloc, sys_socket, sys_send, thread_ns, machine.fds,
          natCast_ne_neg_one, natCast_not_neg, hnd]
    cases ls'
    · cases sk'
      · simp [nl_move_intf_to_vrf_steps, nl_setns_with_name_eq, sys_open,
          sys_alloc, sys_socket, sys_send, thread_ns, machine.fds,
          natCast_ne_neg_one, natCast_not_neg, hnd]
      · simp [nl_move_intf_to_vrf_steps, nl_setns_with_name_eq, sys_open,
          sys_alloc, sys_socket, sys_send, thread_ns, machine.fds,
          natCast_ne_neg_one, natCast_not_neg, hnd]
    cases sk'
    · simp [nl_move_intf_to_vrf_steps, nl_setns_with_name_eq, sys_open,
        sys_alloc, sys_socket, sys_send, thread_ns, machine.fds,
        natCast_ne_neg_one, natCast_not_neg, hnd]
    have h8 := h8 rfl (fun _ => ⟨rfl, rfl⟩)
    obtain ⟨h9, h10, h11⟩ := h8
    subst h9 h10
    by_cases hb : br' < 0 ∧ be' ≠ EADDRINUSE
    · have hb1 := hb.1
      have hb3 := hb.2
      simp [nl_move_intf_to_vrf_steps, nl_setns_with_name_eq, sys_open,
        sys_alloc, sys_socket, sys_send, thread_ns, machine.fds,
        natCast_ne_neg_one, natCast_not_neg, hnd, hb1, hb3]
    have hb4 : 0 ≤ br' ∨ be' = EADDRINUSE := by
      by_cases h0 : 0 ≤ br'
      · exact Or.inl h0
      · right
        by_contra h1
        exact hb ⟨by omega, h1⟩
    by_cases hi : k.ifindex_of (nl_setns_path setns_local_info.from_ns)
        setns_local_info.intf_name = 0
    · simp [nl_move_intf_to_vrf_steps, nl_setns_with_name_eq, sys_open,
        sys_alloc, sys_socket, sys_send, thread_ns, machine.fds,
        natCast_ne_neg_one, natCast_not_neg, hnd, hb, hi]
    have h12 := h11 hb4 (by simpa [move_source_namespace, hnd] using hi)
    subst h12
    simp [nl_move_intf_to_vrf_steps, nl_setns_with_name_eq, sys_open,
      sys_alloc, sys_socket, sys_send, thread_ns, machine.fds,
      natCast_ne_neg_one, natCast_not_neg, hnd, hb, hi]

theorem sys_close_trace (x : Int) (m : machine) :
    ∃ e, (sys_close x m).2.trace = m.trace ++ [e] ∧ is_sent e = false := by
  unfold sys_close
  split_ifs
  · exact ⟨_, rfl, rfl⟩
  · exact ⟨_, rfl, rfl⟩

theorem maybe_close_trace (c : Prop) [Decidable c] (x : Int) (m : machine) :
    ∃ evs, (if c then (sys_close x m).2 else m).trace = m.trace ++ evs ∧
      ∀ e ∈ evs, is_sent e = false := by
  by_cases h : c
  · obtain ⟨e, he, hs⟩ := sys_close_trace x m
    refine ⟨[e], by rw [if_pos h]; exact he, ?_⟩
    intro e1 h1
    rw [List.mem_singleton.mp h1]
    exact hs
  · exact ⟨[], by rw [if_neg h]; simp, by simp⟩

theorem move_cleanup_trace (k : kernel) (o : move_outcome)
    (setns_local_info : setns_info) (m : machine) :
    ∃ evs, (nl_move_intf_to_vrf k o setns_local_info m).2.trace
        = (nl_move_intf_to_vrf_steps k o setns_local_info m).2.trace ++ evs ∧
      ∀ e ∈ evs, is_sent e = false := by
  simp only [nl_move_intf_to_vrf]
  obtain ⟨e1, h1, s1⟩ := maybe_close_trace
    ((nl_move_intf_to_vrf_steps k o setns_local_info m).1.fd ≠ -1)
    (nl_move_intf_to_vrf_steps k o setns_local_info m).1.fd
    (nl_move_intf_to_vrf_steps k o setns_local_info m).2
  obtain ⟨e2, h2, s2⟩ := maybe_close_trace
    ((nl_move_intf_to_vrf_steps k o setns_local_info m).1.ns_sock ≠ -1)
    (nl_move_intf_to_vrf_steps k o setns_local_info m).1.ns_sock
    (if (nl_move_intf_to_vrf_steps k o setns_local_info m).1.fd ≠ -1 then
      (sys_close (nl_move_intf_to_vrf_steps k o setns_local_info m).1.fd
        (nl_move_intf_to_vrf_steps k o setns_local_info m).2).2
     else (nl_move_intf_to_vrf_steps k o setns_local_info m).2)
  obtain ⟨e3, h3, s3⟩ := maybe_close_trace
    ((nl_move_intf_to_vrf_steps k o setns_local_info m).1.fd_from_ns ≠ -1)
    (nl_move_intf_to_vrf_steps k o setns_local_info m).1.fd_from_ns
    (if (nl_move_intf_to_vrf_steps k o setns_local_info m).1.ns_sock ≠ -1 then
      (sys_close (nl_move_intf_to_vrf_steps k o setns_local_info m).1.ns_sock
        (if (nl_move_intf_to_vrf_steps k o setns_local_info m).1.fd ≠ -1 then
          (sys_close (nl_move_intf_to_vrf_steps k o setns_local_info m).1.fd
            (nl_move_intf_to_vrf_steps k o setns_local_info m).2).2
         else (nl_move_intf_to_vrf_steps k o setns_local_info m).2)).2
     else
      (if (nl_move_intf_to_vrf_steps k o setns_local_info m).1.fd ≠ -1 then
        (sys_close (nl_move_intf_to_vrf_steps k o setns_local_info m).1.fd
          (nl_move_intf_to_vrf_steps k o setns_local_info m).2).2
       else (nl_move_intf_to_vrf_steps k o setns_local_info m).2))
  refine ⟨e1 ++ e2 ++ e3, ?_, ?_⟩
  · rw [h3, h2, h1]
    simp only [List.append_assoc]
  · intro e he
    rcases List.mem_append.mp he with h | h
    · rcases List.mem_append.mp h with h | h
      · exact s1 e h
      · exact s2 e h
    · exact s3 e h

/-- A move of "eth9", which has no index in the default namespace: the call
returns false after the socket is created, without a message, and closes the
three descriptors. -/
theorem move_run_without_interface :
    nl_move_intf_to_vrf kernel_eth0
        { open_to := true, open_from := true,
          enter := { open_ok := true, setns_ok := true }, socket_ok := true,
          leave := { open_ok := true, setns_ok := true },
          bind_result := 0, bind_errno := 0, send_result := 32 }
        { from_ns := cstr "swns", to_ns := cstr "red",
          intf_name := cstr "eth9" } machine_swns
      = (false,
          { machine_swns with
            trace :=
              [sys_event.opened 3 (file.path (cstr "/var/run/netns/red")),
                sys_event.opened 4 (file.path (cstr "/var/run/netns/swns")),
                sys_event.opened 5 (file.socket (cstr "/var/run/netns/swns")
                  { family := AF_NETLINK, type := SOCK_RAW,
                    protocol := NETLINK_ROUTE }),
                sys_event.closed 3, sys_event.closed 5,
                sys_event.closed 4] }) := by
  decide

/-! ## ops-utils: bytes and numbers -/

theorem be_value_concat (l : List Nat) (b : Nat) :
    be_value (l ++ [b]) = 256 * be_value l + b := by
  simp only [be_value, List.reverse_append, List.reverse_cons, List.reverse_nil,
    List.nil_append, List.singleton_append, le_value]
  omega

theorem be_sum_succ (bytes : List Nat) (n : Nat) :
    be_sum bytes (n + 1) = 256 * be_sum bytes n + bytes.getD n 0 := by
  unfold be_sum
  rw [Finset.sum_range_succ, Finset.mul_sum]
  have h : ∀ i ∈ Finset.range n,
      bytes.getD i 0 * 256 ^ (n + 1 - 1 - i)
        = 256 * (bytes.getD i 0 * 256 ^ (n - 1 - i)) := by
    intro i hi
    have hi2 : i < n := Finset.mem_range.mp hi
    have he : n + 1 - 1 - i = (n - 1 - i) + 1 := by omega
    rw [he, pow_succ]
    ring
  rw [Finset.sum_congr rfl h]
  simp

theorem be_sum_eq_be_value (bytes : List Nat) (n : Nat)
    (hn : n ≤ bytes.length) : be_sum bytes n = be_value (bytes.take n) := by
  induction n with
  | zero => simp [be_sum, be_value, le_value]
  | succ n ih =>
    have hlt : n < bytes.length := by omega
    have htake : bytes.take (n + 1) = bytes.take n ++ [bytes.getD n 0] := by
      rw [List.take_succ]
      congr 1
      simp [List.getD, List.getElem?_eq_getElem hlt]
    rw [be_sum_succ, htake, be_value_concat, ih (by omega)]

theorem be_value_cons (b : Nat) (l : List Nat) :
    be_value (b :: l) = b * 256 ^ l.length + be_value l := by
  simp only [be_value, List.reverse_cons, le_value_append, List.length_reverse,
    le_value]
  ring

theorem mod_mul_add (a p r n : Nat) :
    (a % n * p + r) % n = (a * p + r) % n := by
  rw [Nat.add_mod, Nat.mul_mod, Nat.mod_mod, ← Nat.mul_mod, ← Nat.add_mod]

theorem char_array_loop_value (char_array : List Nat) :
    ∀ (n i value : Nat), i + n ≤ char_array.length →
      value < 18446744073709551616 →
      ops_char_array_to_ulong_long_loop char_array n i value
        = some ((value * 256 ^ n + be_value ((char_array.drop i).take n))
            % 18446744073709551616) := by
  intro n
  induction n with
  | zero =>
    intro i value _ hv
    simp [ops_char_array_to_ulong_long_loop, be_value, le_value,
      Nat.mod_eq_of_lt hv]
  | succ n ih =>
    intro i value h hv
    have hi : i < char_array.length := by omega
    have hdrop : char_array.drop i = char_array[i] :: char_array.drop (i + 1) :=
      List.drop_eq_getElem_cons hi
    have hlen : ((char_array.drop (i + 1)).take n).length = n := by
      simp
      omega
    simp only [ops_char_array_to_ulong_long_loop, List.getElem?_eq_getElem hi]
    rw [ih (i + 1) _ (by omega) (Nat.mod_lt _ (by norm_num))]
    rw [hdrop, List.take_succ_cons, be_value_cons, hlen, Nat.shiftLeft_eq,
      Nat.mod_add_mod, mod_mul_add]
    congr 2
    ring

/-- C22: for an array of bytes and a length n within it,
`ops_char_array_to_ulong_long` returns the big-endian value of the first n
bytes, the sum of `byte[i] * 256^(n-1-i)`, reduced modulo 2^64; for n of at
most 8 it returns the value itself, and for n = 0 it returns 0. -/
theorem char_array_to_ulong_long_value (char_array : List Nat) (n : Nat)
    (hb : bytes_wf char_array) (hn : n ≤ char_array.length) :
    ops_char_array_to_ulong_long char_array n
      = some (be_sum char_array n % 2 ^ 64) ∧
    be_sum char_array n = be_value (char_array.take n) ∧
    (n ≤ 8 → ops_char_array_to_ulong_long char_array n
      = some (be_sum char_array n)) ∧
    (n = 0 → ops_char_array_to_ulong_long char_array n = some 0) := by
  have hsum := be_sum_eq_be_value char_array n hn
  have hmain : ops_char_array_to_ulong_long char_array n
      = some (be_sum char_array n % 2 ^ 64) := by
    unfold ops_char_array_to_ulong_long
    rw [char_array_loop_value char_array n 0 0 (by omega) (by norm_num), hsum]
    simp
  refine ⟨hmain, hsum, ?_, ?_⟩
  · intro h8
    rw [hmain]
    congr 1
    apply Nat.mod_eq_of_lt
    rw [hsum]
    have hlt := be_value_lt (char_array.take n) (bytes_wf_take _ n hb)
    have hlen : (char_array.take n).length = n := by simp [hn]
    rw [hlen] at hlt
    calc be_value (char_array.take n) < 256 ^ n := hlt
      _ ≤ 256 ^ 8 := Nat.pow_le_pow_right (by norm_num) h8
      _ = 2 ^ 64 := by norm_num
  · intro h0
    subst h0
    rfl

/-- C22 at the three bytes 0x12, 0x34, 0x56: the value is 0x123456. -/
theorem char_array_to_ulong_long_value_witness :
    ops_char_array_to_ulong_long [0x12, 0x34, 0x56] 3 = some 0x123456 :=
  ((char_array_to_ulong_long_value [0x12, 0x34, 0x56] 3
    (by unfold bytes_wf; decide) (by decide)).2.2.1 (by decide)).trans
    (by decide)

/-- Nine bytes are reduced modulo 2^64: the first byte is lost. -/
theorem char_array_to_ulong_long_wraps :
    ops_char_array_to_ulong_long [1, 0, 0, 0, 0, 0, 0, 0, 0] 9 = some 0 ∧
    ops_char_array_to_ulong_long [1, 0, 0, 0, 0, 0, 0, 0, 5] 9 = some 5 := by
  decide

theorem be_bytes_succ (n v : Nat) :
    be_bytes (n + 1) v = be_bytes n (v / 256) ++ [v % 256] := by
  simp [be_bytes, le_bytes]

theorem be_bytes_length (n v : Nat) : (be_bytes n v).length = n := by
  simp [be_bytes, le_bytes_length]

theorem be_bytes_wf (n v : Nat) : bytes_wf (be_bytes n v) :=
  bytes_wf_reverse _ (le_bytes_wf n v)

theorem be_value_be_bytes (n v : Nat) (h : v < 256 ^ n) :
    be_value (be_bytes n v) = v := by
  simp [be_value, be_bytes, le_value_le_bytes n v h]

theorem be_bytes_be_value (l : List Nat) (h : bytes_wf l) :
    be_bytes l.length (be_value l) = l := by
  have h2 := le_bytes_le_value l.reverse (bytes_wf_reverse l h)
  simp only [List.length_reverse] at h2
  simp [be_bytes, be_value, h2]

theorem drop_set_self (l : List Nat) (i x : Nat) (h : i < l.length) :
    (l.set i x).drop i = x :: l.drop (i + 1) := by
  induction l generalizing i with
  | nil => simp at h
  | cons a as ih =>
    cases i with
    | zero => simp
    | succ j =>
      simp only [List.set_cons_succ, List.drop_succ_cons]
      exact ih j (by simpa using h)

theorem to_char_array_loop_value :
    ∀ (i temp : Nat) (char_array : List Nat), i ≤ char_array.length →
      ops_ulong_long_to_char_array_loop i temp char_array
        = be_bytes i temp ++ char_array.drop i := by
  intro i
  induction i with
  | zero =>
    intro temp char_array _
    simp [ops_ulong_long_to_char_array_loop, be_bytes, le_bytes]
  | succ i ih =>
    intro temp char_array h
    have hlt : i < char_array.length := by omega
    have hand : temp &&& 255 = temp % 256 := by
      have := Nat.and_pow_two_sub_one_eq_mod temp 8
      simpa using this
    have hshift : temp >>> 8 = temp / 256 := by
      rw [Nat.shiftRight_eq_div_pow]
    simp only [ops_ulong_long_to_char_array_loop]
    rw [ih _ _ (by simp; omega), be_bytes_succ, hand, hshift,
      drop_set_self _ _ _ hlt, List.append_assoc]
    rfl

theorem to_char_array_value (value length : Nat) (char_array : List Nat)
    (hlen : char_array.length = length) (hl : length < 2147483648) :
    ops_ulong_long_to_char_array value length char_array
      = be_bytes length value := by
  unfold ops_ulong_long_to_char_array
  by_cases h0 : length = 0
  · subst h0
    have : char_array = [] := List.length_eq_zero.mp hlen
    subst this
    simp [long_to_int, be_bytes, le_bytes]
  · have hi : long_to_int ((length : Int) - 1) = (length : Int) - 1 := by
      unfold long_to_int
      omega
    have hnn : (0 : Int) ≤ (length : Int) - 1 := by omega
    have hnat : ((length : Int) - 1).toNat + 1 = length := by omega
    simp only [hi, hnn, if_true, hnat]
    rw [to_char_array_loop_value _ _ _ (by omega), ← hlen, List.drop_length,
      List.append_nil]

/-- C23: `ops_ether_ulong_long_to_string` returns NULL exactly when mac is
above 0xffffffffffff, and then the output buffer holds what it held on
entry; for every other mac it returns the buffer, which holds the string
`ops_ether_array_to_string` produces for the six bytes of mac in big-endian
order. -/
theorem ether_ulong_long_to_string_value (mac_a : CStr) (mac : Nat) :
    ((ops_ether_ulong_long_to_string mac_a mac).1 = false
      ↔ mac > 0xffffffffffff) ∧
    (mac > 0xffffffffffff →
      ops_ether_ulong_long_to_string mac_a mac = (false, mac_a)) ∧
    (mac ≤ 0xffffffffffff →
      ops_ether_ulong_long_to_string mac_a mac
        = (true, ops_ether_array_to_string (be_bytes 6 mac)) ∧
      be_value (be_bytes 6 mac) = mac) := by
  have hconv : ops_ulong_long_to_char_array mac ETH_ALEN
      (List.replicate ETH_ALEN 0) = be_bytes 6 mac :=
    to_char_array_value mac 6 (List.replicate 6 0) (by simp) (by norm_num)
  refine ⟨?_, ?_, ?_⟩
  · unfold ops_ether_ulong_long_to_string
    by_cases h : mac > 0xffffffffffff
    · simp [h]
    · simp [h]
  · intro h
    unfold ops_ether_ulong_long_to_string
    simp [h]
  · intro h
    have hn : ¬ mac > 0xffffffffffff := by omega
    refine ⟨?_, ?_⟩
    · unfold ops_ether_ulong_long_to_string
      simp only [hn, if_false, hconv]
      rfl
    · apply be_value_be_bytes
      have : (256 : Nat) ^ 6 = 281474976710656 := by norm_num
      omega

/-- The MAC address 0x001b213cabff gives "00:1b:21:3c:ab:ff", and the value
2^48 gives NULL with the buffer as it was. -/
theorem ether_ulong_long_to_string_runs :
    ops_ether_ulong_long_to_string (cstr "old") 0x001b213cabff
      = (true, cstr "00:1b:21:3c:ab:ff") ∧
    ops_ether_ulong_long_to_string (cstr "old") 0x1000000000000
      = (false, cstr "old") := by
  decide

/-! ## ops-utils: the text of an address -/

theorem hex_fixed_two (b : Nat) :
    hex_fixed 2 b = [digit_char (b / 16 % 16), digit_char (b % 16)] := by
  simp [hex_fixed]

theorem hex_digit_value_digit_char (d : Nat) (hd : d < 16) :
    hex_digit_value (digit_char d) = some d ∧
    ((48 ≤ digit_char d ∧ digit_char d ≤ 57) ∨
      (97 ≤ digit_char d ∧ digit_char d ≤ 102)) := by
  unfold hex_digit_value digit_char
  by_cases h : d < 10
  · have h1 : 48 ≤ 48 + d ∧ 48 + d ≤ 57 := by omega
    simp [h, h1]
  · have h1 : ¬ (48 ≤ 87 + d ∧ 87 + d ≤ 57) := by omega
    have h2 : 97 ≤ 87 + d ∧ 87 + d ≤ 102 := by omega
    simp [h, h1, h2]

theorem sprintf_02x_colon_bytes (bytes : List Nat) (hb : bytes_wf bytes) :
    sprintf_02x_colon bytes = colon_hex_text bytes := by
  unfold sprintf_02x_colon colon_hex_text
  congr 1
  apply List.map_congr_left
  intro b hmem
  exact printf_0x_eq_hex_fixed 2 b (by norm_num) (by have := hb b hmem; omega)

theorem six_bytes (l : List Nat) (h : l.length = 6) :
    ∃ a0 a1 a2 a3 a4 a5, l = [a0, a1, a2, a3, a4, a5] := by
  match l, h with
  | [a0, a1, a2, a3, a4, a5], _ => exact ⟨a0, a1, a2, a3, a4, a5, rfl⟩

theorem colon_hex_text_six (a0 a1 a2 a3 a4 a5 : Nat) :
    colon_hex_text [a0, a1, a2, a3, a4, a5]
      = [digit_char (a0 / 16 % 16), digit_char (a0 % 16), 58,
         digit_char (a1 / 16 % 16), digit_char (a1 % 16), 58,
         digit_char (a2 / 16 % 16), digit_char (a2 % 16), 58,
         digit_char (a3 / 16 % 16), digit_char (a3 % 16), 58,
         digit_char (a4 / 16 % 16), digit_char (a4 % 16), 58,
         digit_char (a5 / 16 % 16), digit_char (a5 % 16)] := by
  simp [colon_hex_text, List.intercalate, hex_fixed_two]

theorem hex_pair_injective (a b : Nat) (ha : a < 256) (hb : b < 256)
    (h1 : digit_char (a / 16 % 16) = digit_char (b / 16 % 16))
    (h2 : digit_char (a % 16) = digit_char (b % 16)) : a = b := by
  have e1 := digit_char_injective _ _ (Nat.mod_lt _ (by norm_num))
    (Nat.mod_lt _ (by norm_num)) h1
  have e2 := digit_char_injective _ _ (Nat.mod_lt _ (by norm_num))
    (Nat.mod_lt _ (by norm_num)) h2
  omega

/-- C24: for six octets, `ops_ether_ntoa` and `ops_ether_array_to_string`
produce the same string of 17 characters, six groups of two lowercase
hexadecimal digits separated by ':', the digits of a group being the high
and the low half of its octet; different addresses give different
strings. -/
theorem ether_text (octets : List Nat) (h6 : octets.length = 6)
    (hb : bytes_wf octets) :
    ops_ether_ntoa { ether_addr_octet := octets } = colon_hex_text octets ∧
    ops_ether_array_to_string octets = colon_hex_text octets ∧
    (colon_hex_text octets).length = 17 ∧
    (∀ b ∈ octets, ∃ hi lo, hex_fixed 2 b = [hi, lo] ∧
      hex_digit_value hi = some (b / 16) ∧
      hex_digit_value lo = some (b % 16) ∧
      ((48 ≤ hi ∧ hi ≤ 57) ∨ (97 ≤ hi ∧ hi ≤ 102)) ∧
      ((48 ≤ lo ∧ lo ≤ 57) ∨ (97 ≤ lo ∧ lo ≤ 102))) ∧
    (∀ other : List Nat, other.length = 6 → bytes_wf other →
      colon_hex_text other = colon_hex_text octets → other = octets) := by
  have htext := sprintf_02x_colon_bytes octets hb
  obtain ⟨a0, a1, a2, a3, a4, a5, rfl⟩ := six_bytes octets h6
  have hlen : (colon_hex_text [a0, a1, a2, a3, a4, a5]).length = 17 := by
    rw [colon_hex_text_six]
    rfl
  have hsn : snprintf OPS_MAC_STR_SIZE (colon_hex_text [a0, a1, a2, a3, a4, a5])
      = colon_hex_text [a0, a1, a2, a3, a4, a5] := by
    unfold snprintf
    apply List.take_of_length_le
    rw [hlen]
    decide
  refine ⟨?_, ?_, hlen, ?_, ?_⟩
  · simp only [ops_ether_ntoa, List.getD_cons_zero, List.getD_cons_succ]
    rw [htext, hsn]
  · simp only [ops_ether_array_to_string, List.getD_cons_zero,
      List.getD_cons_succ]
    rw [htext, hsn]
  · intro b hmem
    have hlt : b < 256 := hb b hmem
    have h1 : b / 16 % 16 = b / 16 := Nat.mod_eq_of_lt (by omega)
    have hhi := hex_digit_value_digit_char (b / 16) (by omega)
    have hlo := hex_digit_value_digit_char (b % 16) (Nat.mod_lt _ (by norm_num))
    exact ⟨_, _, by rw [hex_fixed_two, h1], hhi.1, hlo.1, hhi.2, hlo.2⟩
  · intro other ho hbo htxt
    obtain ⟨b0, b1, b2, b3, b4, b5, rfl⟩ := six_bytes other ho
    rw [colon_hex_text_six, colon_hex_text_six] at htxt
    simp only [List.cons.injEq, and_true, true_and] at htxt
    obtain ⟨p0, q0, p1, q1, p2, q2, p3, q3, p4, q4, p5, q5⟩ := htxt
    have e0 := hex_pair_injective b0 a0 (hbo _ (by simp)) (hb _ (by simp)) p0 q0
    have e1 := hex_pair_injective b1 a1 (hbo _ (by simp)) (hb _ (by simp)) p1 q1
    have e2 := hex_pair_injective b2 a2 (hbo _ (by simp)) (hb _ (by simp)) p2 q2
    have e3 := hex_pair_injective b3 a3 (hbo _ (by simp)) (hb _ (by simp)) p3 q3
    have e4 := hex_pair_injective b4 a4 (hbo _ (by simp)) (hb _ (by simp)) p4 q4
    have e5 := hex_pair_injective b5 a5 (hbo _ (by simp)) (hb _ (by simp)) p5 q5
    rw [e0, e1, e2, e3, e4, e5]

/-- C24 at the address 00:1b:21:3c:ab:ff. -/
theorem ether_text_witness :
    ops_ether_ntoa { ether_addr_octet := [0x00, 0x1b, 0x21, 0x3c, 0xab, 0xff] }
      = cstr "00:1b:21:3c:ab:ff" ∧
    ops_ether_array_to_string [0x00, 0x1b, 0x21, 0x3c, 0xab, 0xff]
      = cstr "00:1b:21:3c:ab:ff" :=
  have h := ether_text [0x00, 0x1b, 0x21, 0x3c, 0xab, 0xff] rfl
    (by unfold bytes_wf; decide)
  ⟨h.1.trans (by decide), h.2.1.trans (by decide)⟩

theorem printf_x_wide (n : Nat) (h1 : 16 ^ 7 ≤ n) (h2 : n < 16 ^ 8) :
    printf_x n = hex_fixed 8 n := by
  obtain ⟨hlen, heq⟩ := to_digits_padded 7 n (n + 1) h2 (by omega)
  have hval := to_digits_value 16 (n + 1) n (by norm_num) (by omega)
  have hlt : Nat.ofDigits 16 (to_digits 16 (n + 1) n).reverse
      < 16 ^ (to_digits 16 (n + 1) n).reverse.length :=
    Nat.ofDigits_lt_base_pow_length (by norm_num) (by
      intro d hd
      exact to_digits_lt 16 (n + 1) n (by norm_num) d (List.mem_reverse.mp hd))
  rw [hval, List.length_reverse] at hlt
  have h8 : 8 ≤ (to_digits 16 (n + 1) n).length := by
    by_contra hc
    have h7 : (to_digits 16 (n + 1) n).length ≤ 7 := by omega
    have : 16 ^ (to_digits 16 (n + 1) n).length ≤ 16 ^ 7 :=
      Nat.pow_le_pow_right (by norm_num) h7
    omega
  have hz : 7 + 1 - (to_digits 16 (n + 1) n).length = 0 := by omega
  rw [hz] at heq
  simpa [printf_x] using heq

theorem printf_0x_two_wide (n : Nat) (h1 : 16 ^ 7 ≤ n) (h2 : n < 16 ^ 8) :
    printf_0x 2 n = hex_fixed 8 n := by
  have h := printf_x_wide n h1 h2
  have hl : (printf_x n).length = 8 := by rw [h, hex_fixed_length]
  unfold printf_0x
  rw [hl, h]
  rfl

theorem ffffff_text : cstr "ffffff" = [102, 102, 102, 102, 102, 102] := by decide

theorem printf_02x_char (b : Nat) (hb : b < 256) :
    printf_0x 2 (to_uint (char_value b)) = wwn_group b := by
  unfold wwn_group
  by_cases h : b < 128
  · have hv : to_uint (char_value b) = b := by
      unfold to_uint char_value
      rw [if_pos h]
      omega
    rw [hv, if_pos h]
    exact printf_0x_eq_hex_fixed 2 b (by norm_num) (by norm_num; omega)
  · have hv : to_uint (char_value b) = 4294967040 + b := by
      unfold to_uint char_value
      rw [if_neg h]
      omega
    rw [hv, if_neg h, printf_0x_two_wide _ (by norm_num; omega) (by norm_num; omega),
      ffffff_text]
    have d1 : (4294967040 + b) / 16 % 16 = b / 16 % 16 := by omega
    have d0 : (4294967040 + b) % 16 = b % 16 := by omega
    have d2 : (4294967040 + b) / 16 / 16 % 16 = 15 := by omega
    have d3 : (4294967040 + b) / 16 / 16 / 16 % 16 = 15 := by omega
    have d4 : (4294967040 + b) / 16 / 16 / 16 / 16 % 16 = 15 := by omega
    have d5 : (4294967040 + b) / 16 / 16 / 16 / 16 / 16 % 16 = 15 := by omega
    have d6 : (4294967040 + b) / 16 / 16 / 16 / 16 / 16 / 16 % 16 = 15 := by omega
    have d7 : (4294967040 + b) / 16 / 16 / 16 / 16 / 16 / 16 / 16 % 16 = 15 := by
      omega
    have hf : digit_char 15 = 102 := by decide
    simp only [hex_fixed, d0, d1, d2, d3, d4, d5, d6, d7, hf, List.nil_append,
      List.cons_append]

theorem eight_bytes (l : List Nat) (h : l.length = 8) :
    ∃ a0 a1 a2 a3 a4 a5 a6 a7, l = [a0, a1, a2, a3, a4, a5, a6, a7] := by
  match l, h with
  | [a0, a1, a2, a3, a4, a5, a6, a7], _ => exact ⟨a0, a1, a2, a3, a4, a5, a6, a7, rfl⟩

theorem wwn_group_small (b : Nat) (h : b < 128) : wwn_group b = hex_fixed 2 b := by
  unfold wwn_group
  rw [if_pos h]

/-- C25 fails: `ops_wwn_ntoa` passes each byte as plain `char`, which is
signed, so the text is the first 23 characters of the groups of `wwn_group`:
the claimed eight groups of two digits for bytes below 0x80, but a group of
eight digits "ffffffXX" for a byte from 0x80 on; with such a first byte the
result is not the claimed string. -/
theorem wwn_text (wwn : List Nat) (h8 : wwn.length = 8) (hb : bytes_wf wwn) :
    ops_wwn_ntoa wwn = ([58].intercalate (wwn.map wwn_group)).take 23 ∧
    ((∀ b ∈ wwn, b < 128) →
      ops_wwn_ntoa wwn = colon_hex_text wwn ∧ (ops_wwn_ntoa wwn).length = 23) ∧
    (128 ≤ wwn.getD 0 0 →
      (ops_wwn_ntoa wwn).take 8 = cstr "ffffff" ++ hex_fixed 2 (wwn.getD 0 0) ∧
      ops_wwn_ntoa wwn ≠ colon_hex_text wwn) := by
  obtain ⟨a0, a1, a2, a3, a4, a5, a6, a7, rfl⟩ := eight_bytes wwn h8
  have b0 : a0 < 256 := hb _ (by simp)
  have b1 : a1 < 256 := hb _ (by simp)
  have b2 : a2 < 256 := hb _ (by simp)
  have b3 : a3 < 256 := hb _ (by simp)
  have b4 : a4 < 256 := hb _ (by simp)
  have b5 : a5 < 256 := hb _ (by simp)
  have b6 : a6 < 256 := hb _ (by simp)
  have b7 : a7 < 256 := hb _ (by simp)
  have hcode : ops_wwn_ntoa [a0, a1, a2, a3, a4, a5, a6, a7]
      = ([58].intercalate
          ([a0, a1, a2, a3, a4, a5, a6, a7].map wwn_group)).take 23 := by
    simp only [ops_wwn_ntoa, sprintf_02x_colon, snprintf, OPS_WWN_STR_SIZE,
      List.getD_cons_zero, List.getD_cons_succ, List.map_cons, List.map_nil,
      printf_02x_char a0 b0, printf_02x_char a1 b1, printf_02x_char a2 b2,
      printf_02x_char a3 b3, printf_02x_char a4 b4, printf_02x_char a5 b5,
      printf_02x_char a6 b6, printf_02x_char a7 b7]
  refine ⟨hcode, ?_, ?_⟩
  · intro hs
    have e : ([58].intercalate
          ([a0, a1, a2, a3, a4, a5, a6, a7].map wwn_group)).take 23
        = colon_hex_text [a0, a1, a2, a3, a4, a5, a6, a7] := by
      simp only [List.map_cons, List.map_nil,
        wwn_group_small a0 (hs _ (by simp)), wwn_group_small a1 (hs _ (by simp)),
        wwn_group_small a2 (hs _ (by simp)), wwn_group_small a3 (hs _ (by simp)),
        wwn_group_small a4 (hs _ (by simp)), wwn_group_small a5 (hs _ (by simp)),
        wwn_group_small a6 (hs _ (by simp)), wwn_group_small a7 (hs _ (by simp))]
      simp [colon_hex_text, List.intercalate, hex_fixed_two]
    rw [hcode, e]
    refine ⟨rfl, ?_⟩
    simp [colon_hex_text, List.intercalate, hex_fixed_two]
  · intro hbig
    have hbig0 : ¬ a0 < 128 := by
      simp only [List.getD_cons_zero] at hbig
      omega
    have htake : (ops_wwn_ntoa [a0, a1, a2, a3, a4, a5, a6, a7]).take 8
        = cstr "ffffff" ++ hex_fixed 2 a0 := by
      rw [hcode]
      simp only [List.map_cons, List.map_nil, wwn_group, if_neg hbig0,
        ffffff_text, hex_fixed_two]
      simp [List.intercalate]
    refine ⟨by simpa using htake, ?_⟩
    intro heq
    rw [heq] at htake
    simp [colon_hex_text, List.intercalate, hex_fixed_two, ffffff_text] at htake

/-- C25 at the name ff:00:00:00:00:00:00:00: the result is the 23 characters
"ffffffff:00:00:00:00:00", not "ff:00:00:00:00:00:00:00". -/
theorem wwn_text_witness :
    ((ops_wwn_ntoa [0xff, 0, 0, 0, 0, 0, 0, 0]).take 8 = cstr "ffffffff" ∧
      ops_wwn_ntoa [0xff, 0, 0, 0, 0, 0, 0, 0]
        ≠ colon_hex_text [0xff, 0, 0, 0, 0, 0, 0, 0]) ∧
    ops_wwn_ntoa [0xff, 0, 0, 0, 0, 0, 0, 0] = cstr "ffffffff:00:00:00:00:00" ∧
    colon_hex_text [0xff, 0, 0, 0, 0, 0, 0, 0] = cstr "ff:00:00:00:00:00:00:00" :=
  ⟨(wwn_text [0xff, 0, 0, 0, 0, 0, 0, 0] rfl (by unfold bytes_wf; decide)).2.2
      (by decide),
    by decide, by decide⟩

/-! ## ops-utils: the VLAN setters of a port -/

theorem get_vlan_by_id_some (vlan_id : Int) (vlans : List ovsrec_vlan)
    (r : ovsrec_vlan) (h : ops_get_vlan_by_id vlan_id (some vlans) = some r) :
    r ∈ vlans ∧ r.id = vlan_id := by
  simp only [ops_get_vlan_by_id] at h
  have h1 := List.find?_some h
  have h2 := List.mem_of_find?_eq_some h
  exact ⟨h2, (of_decide_eq_true h1).symm⟩

theorem get_vlan_by_id_none (vlan_id : Int) (vlans : List ovsrec_vlan)
    (h : ops_get_vlan_by_id vlan_id (some vlans) = none) :
    ∀ r ∈ vlans, r.id ≠ vlan_id := by
  simp only [ops_get_vlan_by_id, List.find?_eq_none, decide_eq_true_eq] at h
  intro r hr heq
  exact h r hr heq.symm

theorem get_vlan_by_id_isSome (vlan_id : Int) (vlans : List ovsrec_vlan) :
    (ops_get_vlan_by_id vlan_id (some vlans)).isSome = true ↔
      ∃ r ∈ vlans, r.id = vlan_id := by
  cases h : ops_get_vlan_by_id vlan_id (some vlans) with
  | none =>
    have hn := get_vlan_by_id_none vlan_id vlans h
    simp only [Option.isSome_none, Bool.false_eq_true, false_iff, not_exists,
      not_and]
    exact hn
  | some r =>
    have hs := get_vlan_by_id_some vlan_id vlans r h
    simp only [Option.isSome_some, true_iff]
    exact ⟨r, hs.1, hs.2⟩

theorem find_vlan_eq (vlan_id : Int) (vlans : List ovsrec_vlan) :
    vlans.find? (fun r => decide (r.id = vlan_id))
      = ops_get_vlan_by_id vlan_id (some vlans) := by
  simp only [ops_get_vlan_by_id]
  congr 1
  funext r
  by_cases h : r.id = vlan_id
  · simp [h]
  · have h2 : ¬ vlan_id = r.id := fun e => h e.symm
    simp [h, h2]

theorem long_to_int_fits (l : Int) (h : -2147483648 ≤ l ∧ l ≤ 2147483647) :
    long_to_int l = l := by
  unfold long_to_int
  omega

theorem vlan_rows_some (vlans : List ovsrec_vlan) :
    ∀ (ids : List Int) (rows : List ovsrec_vlan), vlan_rows vlans ids = some rows →
      List.Forall₂ (fun r id => r ∈ vlans ∧ r.id = id) rows ids := by
  intro ids
  induction ids with
  | nil =>
    intro rows h
    simp only [vlan_rows, Option.some.injEq] at h
    rw [← h]
    exact List.Forall₂.nil
  | cons id rest ih =>
    intro rows h
    rw [vlan_rows, find_vlan_eq] at h
    cases hg : ops_get_vlan_by_id id (some vlans) with
    | none => simp [hg] at h
    | some r =>
      cases hr : vlan_rows vlans rest with
      | none => simp [hg, hr] at h
      | some rs =>
        simp only [hg, hr, Option.some.injEq] at h
        rw [← h]
        exact List.Forall₂.cons (get_vlan_by_id_some id vlans r hg) (ih rs hr)

theorem vlan_rows_isSome (vlans : List ovsrec_vlan) :
    ∀ ids : List Int, (vlan_rows vlans ids).isSome = true ↔
      ∀ id ∈ ids, ∃ r ∈ vlans, r.id = id := by
  intro ids
  induction ids with
  | nil => simp [vlan_rows]
  | cons id rest ih =>
    rw [vlan_rows, find_vlan_eq]
    cases hg : ops_get_vlan_by_id id (some vlans) with
    | none =>
      have hn := get_vlan_by_id_none id vlans hg
      simp only [Option.isSome_none, Bool.false_eq_true, false_iff]
      intro hall
      obtain ⟨r, hr, hid⟩ := hall id (List.mem_cons_self id rest)
      exact hn r hr hid
    | some r =>
      have hs := get_vlan_by_id_some id vlans r hg
      cases hr : vlan_rows vlans rest with
      | none =>
        rw [hr] at ih
        simp only [Option.isSome_none, Bool.false_eq_true, false_iff]
        intro hall
        have := ih.mpr (fun x hx => hall x (List.mem_cons_of_mem id hx))
        simp at this
      | some rs =>
        rw [hr] at ih
        simp only [Option.isSome_some, true_iff]
        intro x hx
        rcases List.mem_cons.mp hx with hx | hx
        · rw [hx]
          exact ⟨r, hs.1, hs.2⟩
        · exact (ih.mp rfl) x hx

theorem port_set_trunks_loop_value (vlans : List ovsrec_vlan) :
    ∀ (ids : List Int) (vlan_trunks : List ovsrec_vlan) (ret_val : Bool),
      (∀ id ∈ ids, -2147483648 ≤ id ∧ id ≤ 2147483647) →
      match vlan_rows vlans ids with
      | some rows =>
        ops_port_set_trunks_loop (some vlans) ids vlan_trunks ret_val
          = (if ids = [] then ret_val else true, vlan_trunks ++ rows)
      | none =>
        (ops_port_set_trunks_loop (some vlans) ids vlan_trunks ret_val).1 = false := by
  intro ids
  induction ids with
  | nil =>
    intro vlan_trunks ret_val _
    simp [vlan_rows, ops_port_set_trunks_loop]
  | cons id rest ih =>
    intro vlan_trunks ret_val hfit
    have hid := long_to_int_fits id (hfit id (List.mem_cons_self id rest))
    have hrest : ∀ x ∈ rest, -2147483648 ≤ x ∧ x ≤ 2147483647 :=
      fun x hx => hfit x (List.mem_cons_of_mem id hx)
    rw [vlan_rows, find_vlan_eq]
    cases hg : ops_get_vlan_by_id id (some vlans) with
    | none => simp [ops_port_set_trunks_loop, hid, hg]
    | some r =>
      have hi := ih (vlan_trunks ++ [r]) true hrest
      cases hr : vlan_rows vlans rest with
      | none =>
        rw [hr] at hi
        simp only [ops_port_set_trunks_loop, hid, hg]
        exact hi
      | some rs =>
        rw [hr] at hi
        simp only [ops_port_set_trunks_loop, hid, hg, hi]
        simp

/-- C26: `ops_port_set_tag` returns true exactly when the port record and
the database handle are given and either `vlan_id` is 0 or the VLAN table
has a record with that id; when it returns true it writes the tag column
once, to no record for the id 0 and to a record of the table with that id
otherwise, and when it returns false it writes nothing. -/
theorem port_set_tag_result (vlan_id : Int) (port_row : Option ovsrec_port)
    (idl : Option (List ovsrec_vlan)) :
    ((ops_port_set_tag vlan_id port_row idl).1 = true ↔
      port_row ≠ none ∧ ∃ vlans, idl = some vlans ∧
        (vlan_id = 0 ∨ ∃ r ∈ vlans, r.id = vlan_id)) ∧
    ((ops_port_set_tag vlan_id port_row idl).1 = true →
      (vlan_id = 0 ∧
        (ops_port_set_tag vlan_id port_row idl).2 = [port_write.vlan_tag none]) ∨
      (vlan_id ≠ 0 ∧ ∃ vlans r, idl = some vlans ∧ r ∈ vlans ∧ r.id = vlan_id ∧
        ops_get_vlan_by_id vlan_id idl = some r ∧
        (ops_port_set_tag vlan_id port_row idl).2
          = [port_write.vlan_tag (some r)])) ∧
    ((ops_port_set_tag vlan_id port_row idl).1 = false →
      (ops_port_set_tag vlan_id port_row idl).2 = []) := by
  cases port_row with
  | none => simp [ops_port_set_tag]
  | some port =>
    cases idl with
    | none => simp [ops_port_set_tag]
    | some vlans =>
      by_cases hz : vlan_id = 0
      · simp [ops_port_set_tag, hz]
      · cases hg : ops_get_vlan_by_id vlan_id (some vlans) with
        | none =>
          have hn := get_vlan_by_id_none vlan_id vlans hg
          have hno : ¬ ∃ r ∈ vlans, r.id = vlan_id := by
            rintro ⟨r, hr, hid⟩
            exact hn r hr hid
          simp [ops_port_set_tag, hz, hg, hno]
        | some r =>
          have hs := get_vlan_by_id_some vlan_id vlans r hg
          have hyes : ∃ r ∈ vlans, r.id = vlan_id := ⟨r, hs.1, hs.2⟩
          simp [ops_port_set_tag, hz, hg, hyes, hs.1, hs.2]

/-- C27: for a port record, a database handle and a list of VLAN ids that
fit an `int`, `ops_port_set_trunks` returns true exactly when every id of
the list has a record in the VLAN table; it then writes the trunk column
once, with one record per id in list order, each a record of the table
with that id; when it returns false it writes nothing; the empty list
gives true and an empty trunk column. -/
theorem port_set_trunks_result (trunk_vlan_ids : List Int) (port : ovsrec_port)
    (vlans : List ovsrec_vlan)
    (hfit : ∀ id ∈ trunk_vlan_ids, -2147483648 ≤ id ∧ id ≤ 2147483647) :
    ((ops_port_set_trunks trunk_vlan_ids (some port) (some vlans)).1 = true ↔
      ∀ id ∈ trunk_vlan_ids, ∃ r ∈ vlans, r.id = id) ∧
    ((ops_port_set_trunks trunk_vlan_ids (some port) (some vlans)).1 = true →
      ∃ rows, vlan_rows vlans trunk_vlan_ids = some rows ∧
        List.Forall₂ (fun r id => r ∈ vlans ∧ r.id = id) rows trunk_vlan_ids ∧
        (ops_port_set_trunks trunk_vlan_ids (some port) (some vlans)).2
          = [port_write.vlan_trunks rows]) ∧
    ((ops_port_set_trunks trunk_vlan_ids (some port) (some vlans)).1 = false →
      (ops_port_set_trunks trunk_vlan_ids (some port) (some vlans)).2 = []) ∧
    (trunk_vlan_ids = [] →
      ops_port_set_trunks trunk_vlan_ids (some port) (some vlans)
        = (true, [port_write.vlan_trunks []])) := by
  have hloop := port_set_trunks_loop_value vlans trunk_vlan_ids [] false hfit
  have hsome := vlan_rows_isSome vlans trunk_vlan_ids
  cases hr : vlan_rows vlans trunk_vlan_ids with
  | none =>
    rw [hr] at hloop hsome
    have hne : trunk_vlan_ids ≠ [] := by
      intro he
      rw [he] at hr
      simp [vlan_rows] at hr
    have hlen : ¬ trunk_vlan_ids.length = 0 := by
      intro he
      exact hne (List.length_eq_zero.mp he)
    have hno : ¬ ∀ id ∈ trunk_vlan_ids, ∃ r ∈ vlans, r.id = id := by
      intro hall
      have := hsome.mpr hall
      simp at this
    simp [ops_port_set_trunks, hloop, hlen, hno, hne]
  | some rows =>
    rw [hr] at hloop hsome
    have hall : ∀ id ∈ trunk_vlan_ids, ∃ r ∈ vlans, r.id = id := hsome.mp rfl
    have hrows := vlan_rows_some vlans trunk_vlan_ids rows hr
    by_cases hnil : trunk_vlan_ids = []
    · subst hnil
      simp only [vlan_rows, Option.some.injEq] at hr
      subst hr
      simp [ops_port_set_trunks, ops_port_set_trunks_loop, vlan_rows]
    · have hlen : ¬ trunk_vlan_ids.length = 0 := by
        intro he
        exact hnil (List.length_eq_zero.mp he)
      simp only [hnil, if_false, List.nil_append] at hloop
      refine ⟨?_, ?_, ?_, ?_⟩
      · simp only [ops_port_set_trunks, hloop, hlen, if_false, if_true]
        exact ⟨fun _ => hall, fun _ => trivial⟩
      · intro _
        refine ⟨rows, rfl, hrows, ?_⟩
        simp only [ops_port_set_trunks, hloop, hlen, if_false, if_true]
      · intro hf
        simp only [ops_port_set_trunks, hloop, hlen, if_false, if_true] at hf
        cases hf
      · intro he
        exact absurd he hnil

/-- C27 at the list 10, 20, 1 over the table of the VLANs 1, 10 and 20: the
trunk column receives the records of 10, 20 and 1 in that order. -/
theorem port_set_trunks_result_witness :
    (∀ id ∈ [(10 : Int), 20, 1], ∃ r ∈ vlans_1_10_20, r.id = id) ∧
    ops_port_set_trunks [10, 20, 1] (some port_eth0) (some vlans_1_10_20)
      = (true, [port_write.vlan_trunks
          [{ id := 10, name := cstr "VLAN10" }, { id := 20, name := cstr "VLAN20" },
           { id := 1, name := cstr "DEFAULT_VLAN_1" }]]) :=
  ⟨((port_set_trunks_result [10, 20, 1] port_eth0 vlans_1_10_20
      (by decide)).1).mp (by decide), by decide⟩

/-- A list with an id that has no record: nothing is written. -/
theorem port_set_trunks_missing :
    ops_port_set_trunks [10, 30, 1] (some port_eth0) (some vlans_1_10_20)
      = (false, []) := by decide

/-- An id beyond the range of `int` is cut to 32 bits on the way to
`ops_get_vlan_by_id`: 4294967297 finds the record of VLAN 1. -/
theorem port_set_trunks_wide_id :
    ops_port_set_trunks [4294967297] (some port_eth0) (some vlans_1_10_20)
      = (true, [port_write.vlan_trunks [{ id := 1, name := cstr "DEFAULT_VLAN_1" }]]) := by
  decide

/-- The tag setter on the table of the VLANs 1, 10 and 20. -/
theorem port_set_tag_runs :
    ops_port_set_tag 10 (some port_eth0) (some vlans_1_10_20)
      = (true, [port_write.vlan_tag (some { id := 10, name := cstr "VLAN10" })]) ∧
    ops_port_set_tag 0 (some port_eth0) (some vlans_1_10_20)
      = (true, [port_write.vlan_tag none]) ∧
    ops_port_set_tag 30 (some port_eth0) (some vlans_1_10_20) = (false, []) ∧
    ops_port_set_tag 10 none (some vlans_1_10_20) = (false, []) := by
  decide

/-! ## The IPv4 collision test -/

theorem ipv4_masked_equal_eq (input_ipv4_addr input_mask_bits : Nat)
    (port_address : CStr) :
    ipv4_masked_equal input_ipv4_addr input_mask_bits port_address
      = match l3_utils_ipv4_address port_address with
        | none => none
        | some port_ipv4_addr =>
          ipv4_collision_test input_ipv4_addr input_mask_bits port_ipv4_addr
            (l3_utils_mask_bits port_address AF_INET) := by
  unfold ipv4_masked_equal ipv4_collision_test
  rfl

/-- Masking a 32-bit value with the all-ones value shifted left by `k`
clears the low `k` bits. -/
theorem and_shifted_ones_32 (x k : Nat) (hx : x < 2 ^ 32) (hk : k < 32) :
    x &&& ((4294967295 <<< k) % 4294967296) = x / 2 ^ k * 2 ^ k := by
  have e1 : (4294967295 : Nat) = 2 ^ 32 - 1 := by norm_num
  have e2 : (4294967296 : Nat) = 2 ^ 32 := by norm_num
  rw [e1, e2]
  apply Nat.eq_of_testBit_eq
  intro i
  rw [← Nat.shiftRight_eq_div_pow, ← Nat.shiftLeft_eq]
  simp only [Nat.testBit_and, Nat.testBit_mod_two_pow, Nat.testBit_shiftLeft,
    Nat.testBit_two_pow_sub_one, Nat.testBit_shiftRight]
  by_cases hik : k ≤ i
  · by_cases hi : i < 32
    · have h1 : i - k < 32 := by omega
      have h2 : k + (i - k) = i := by omega
      simp [hik, hi, h1, h2]
    · have hxi : x.testBit i = false := by
        apply Nat.testBit_lt_two_pow
        calc x < 2 ^ 32 := hx
          _ ≤ 2 ^ i := Nat.pow_le_pow_right (by norm_num) (by omega)
      have h2 : k + (i - k) = i := by omega
      simp [hik, hi, hxi, h2]
  · simp [hik]

theorem div_pow_of_div_pow (x y j k : Nat) (hjk : j ≤ k)
    (h : x / 2 ^ j = y / 2 ^ j) : x / 2 ^ k = y / 2 ^ k := by
  obtain ⟨d, rfl⟩ : ∃ d, k = j + d := ⟨k - j, by omega⟩
  rw [pow_add, ← Nat.div_div_eq_div_mul, ← Nat.div_div_eq_div_mul, h]

theorem ipv4_collision_test_value (a p b q : Nat) (ha : a < 2 ^ 32)
    (hb : b < 2 ^ 32) (hp1 : 1 ≤ p) (hp : p ≤ 32) (hq1 : 1 ≤ q) (hq : q ≤ 32) :
    ipv4_collision_test a p b q
      = some (decide (a / 2 ^ (32 - min p q) = b / 2 ^ (32 - min p q))) := by
  have hmin : (if p < q then p else q) = min p q := by
    by_cases h : p < q
    · rw [if_pos h, Nat.min_eq_left (by omega)]
    · rw [if_neg h, Nat.min_eq_right (by omega)]
  have hm1 : 1 ≤ min p q := by omega
  have hm : min p q ≤ 32 := by omega
  have hsub : sub_uint IPV4_ADDR_BIT_LENGTH (min p q) = 32 - min p q := by
    simp only [sub_uint, IPV4_ADDR_BIT_LENGTH]
    omega
  have hk : 32 - min p q < 32 := by omega
  simp only [ipv4_collision_test, hmin, hsub, shl32, if_pos hk,
    IPV4_SUBNET_MASK_FULL, and_shifted_ones_32 a _ ha hk,
    and_shifted_ones_32 b _ hb hk, cut_eq_iff]

/-- C28: for 32-bit addresses `a` and `b` and prefix lengths `p` and `q`
from 1 to 32, the collision test of the detector is defined, and it holds
exactly when some address lies in both ranges `a/p` and `b/q`; the
detector's comparison of the candidate with an address string is this test
on the parsed address and prefix length. -/
theorem ipv4_collision_is_range_overlap (a p b q : Nat) (ha : a < 2 ^ 32)
    (hb : b < 2 ^ 32) (hp1 : 1 ≤ p) (hp : p ≤ 32) (hq1 : 1 ≤ q) (hq : q ≤ 32) :
    (∃ t, ipv4_collision_test a p b q = some t ∧
      (t = true ↔ ∃ x, ipv4_in_range a p x ∧ ipv4_in_range b q x)) ∧
    (ipv4_collision_test a p b q
      = some (decide (a &&& ((4294967295 <<< (32 - min p q)) % 4294967296)
          = b &&& ((4294967295 <<< (32 - min p q)) % 4294967296)))) ∧
    (∀ port_address : CStr, l3_utils_ipv4_address port_address = some b →
      l3_utils_mask_bits port_address AF_INET = q →
      ipv4_masked_equal a p port_address = ipv4_collision_test a p b q) := by
  have hval : ipv4_collision_test a p b q
      = some (decide (a / 2 ^ (32 - min p q) = b / 2 ^ (32 - min p q))) :=
    ipv4_collision_test_value a p b q ha hb hp1 hp hq1 hq
  have hk : 32 - min p q < 32 := by omega
  refine ⟨⟨_, hval, ?_⟩, ?_, ?_⟩
  · rw [decide_eq_true_eq]
    constructor
    · intro h
      by_cases hpq : p ≤ q
      · rw [Nat.min_eq_left hpq] at h
        exact ⟨b, ⟨hb, h.symm⟩, ⟨hb, rfl⟩⟩
      · rw [Nat.min_eq_right (by omega)] at h
        exact ⟨a, ⟨ha, rfl⟩, ⟨ha, h⟩⟩
    · rintro ⟨x, ⟨_, hxa⟩, ⟨_, hxb⟩⟩
      have h1 := div_pow_of_div_pow x a (32 - p) (32 - min p q) (by omega) hxa
      have h2 := div_pow_of_div_pow x b (32 - q) (32 - min p q) (by omega) hxb
      rw [← h1, ← h2]
  · rw [hval, and_shifted_ones_32 a _ ha hk, and_shifted_ones_32 b _ hb hk]
    congr 1
    rw [decide_eq_decide, cut_eq_iff]
  · intro port_address haddr hbits
    rw [ipv4_masked_equal_eq, haddr, hbits]

/-- C28 at 10.0.0.1/24 against 10.0.0.200/16 (a collision: 10.0.0.200 lies in
both ranges). -/
theorem ipv4_collision_is_range_overlap_witness :
    ipv4_collision_test 167772161 24 167772360 16 = some true ∧
    (∃ x, ipv4_in_range 167772161 24 x ∧ ipv4_in_range 167772360 16 x) ∧
    ipv4_masked_equal 167772161 24 (cstr "10.0.0.200/16") = some true :=
  have h := ipv4_collision_is_range_overlap 167772161 24 167772360 16
    (by norm_num) (by norm_num) (by norm_num) (by norm_num) (by norm_num)
    (by norm_num)
  have ht : ipv4_collision_test 167772161 24 167772360 16 = some true := by decide
  ⟨ht,
    (by
      obtain ⟨t, h1, h2⟩ := h.1
      rw [ht] at h1
      exact h2.mp (Option.some.inj h1).symm),
    (h.2.2 (cstr "10.0.0.200/16") (by decide) (by decide)).trans ht⟩

/-- Two disjoint ranges: 10.0.0.1/24 and 10.0.1.1/24 do not collide. -/
theorem ipv4_collision_disjoint :
    ipv4_collision_test 167772161 24 167772417 24 = some false := by decide

/-! ## `l3_utils_mask_ipv6_addr` against the 128-bit reference -/

theorem be_value_append (l r : List Nat) :
    be_value (l ++ r) = be_value l * 256 ^ r.length + be_value r := by
  simp only [be_value, List.reverse_append, le_value_append, List.length_reverse]
  ring

theorem be_value_zeros : be_value (List.replicate 8 0) = 0 := by decide

theorem cut_high (H L m : Nat) (hL : L < 2 ^ 64) (hm : m ≤ 64) :
    (H * 2 ^ 64 + L) / 2 ^ (128 - m) * 2 ^ (128 - m)
      = H / 2 ^ (64 - m) * 2 ^ (64 - m) * 2 ^ 64 := by
  have e : 128 - m = 64 + (64 - m) := by omega
  have hdiv : (H * 2 ^ 64 + L) / 2 ^ 64 = H := by
    rw [Nat.add_comm, Nat.add_mul_div_right _ _ (Nat.two_pow_pos 64),
      Nat.div_eq_of_lt hL, Nat.zero_add]
  rw [e, pow_add, ← Nat.div_div_eq_div_mul, hdiv]
  ring

theorem cut_low (H L k : Nat) (hk : k ≤ 64) :
    (H * 2 ^ 64 + L) / 2 ^ k * 2 ^ k = H * 2 ^ 64 + L / 2 ^ k * 2 ^ k := by
  have e : 2 ^ 64 = 2 ^ (64 - k) * 2 ^ k := by
    rw [← pow_add]
    congr 1
    omega
  have hdiv : (H * 2 ^ 64 + L) / 2 ^ k = H * 2 ^ (64 - k) + L / 2 ^ k := by
    rw [e, ← Nat.mul_assoc, Nat.add_comm,
      Nat.add_mul_div_right _ _ (Nat.two_pow_pos k), Nat.add_comm]
  rw [hdiv, e]
  ring

theorem testBit_cut (x k j : Nat) :
    (x / 2 ^ k * 2 ^ k).testBit j = (decide (k ≤ j) && x.testBit j) := by
  rw [← Nat.shiftRight_eq_div_pow, ← Nat.shiftLeft_eq]
  simp only [Nat.testBit_shiftLeft, Nat.testBit_shiftRight]
  by_cases h : k ≤ j
  · have h2 : k + (j - k) = j := by omega
    simp [h, h2]
  · simp [h]

/-- C29: for a 16-byte address and a prefix length from 1 to 128,
`l3_utils_mask_ipv6_addr` returns the result of the 128-bit reference: each
of the first `mask_bits` bits of the address in network order is kept and
every later bit is zero; up to 64 the low eight bytes are zero; above 64 the
high eight bytes are those of the address and the low eight bytes are the
low half without its last `128 - mask_bits` bits. -/
theorem mask_ipv6_addr_refines (a : List Nat) (m : Nat) (ha : bytes_wf a)
    (hl : a.length = 16) (h1 : 1 ≤ m) (h128 : m ≤ 128) :
    l3_utils_mask_ipv6_addr a m = some (mask_ipv6_addr_128 a m) ∧
    (mask_ipv6_addr_128 a m).length = 16 ∧
    (∀ i, i < 128 →
      (be_value (mask_ipv6_addr_128 a m)).testBit (127 - i)
        = (decide (i < m) && (be_value a).testBit (127 - i))) ∧
    (m ≤ 64 → (mask_ipv6_addr_128 a m).drop 8 = List.replicate 8 0) ∧
    (64 < m → (mask_ipv6_addr_128 a m).take 8 = a.take 8 ∧
      (mask_ipv6_addr_128 a m).drop 8
        = be_bytes 8 (be_value (a.drop 8) / 2 ^ (128 - m) * 2 ^ (128 - m))) := by
  have hV := be_value_halves a
  have hda : (a.drop 8).length = 8 := by simp [hl]
  have hta : (a.take 8).length = 8 := by simp [hl]
  have hwt : bytes_wf (a.take 8) := bytes_wf_take a 8 ha
  have hwd : bytes_wf (a.drop 8) := bytes_wf_drop a 8 ha
  have hH : be_value (a.take 8) < 2 ^ 64 := by
    have := be_value_lt (a.take 8) hwt
    rw [hta] at this
    calc be_value (a.take 8) < 256 ^ 8 := this
      _ = 2 ^ 64 := by norm_num
  have hL : be_value (a.drop 8) < 2 ^ 64 := by
    have := be_value_lt (a.drop 8) hwd
    rw [hda] at this
    calc be_value (a.drop 8) < 256 ^ 8 := this
      _ = 2 ^ 64 := by norm_num
  have h256 : (256 : Nat) ^ 8 = 2 ^ 64 := by norm_num
  rw [hda, h256] at hV
  have hVlt : be_value a < 256 ^ 16 := by
    have := be_value_lt a ha
    rw [hl] at this
    exact this
  have hcut : be_value a / 2 ^ (128 - m) * 2 ^ (128 - m) < 256 ^ 16 :=
    Nat.lt_of_le_of_lt (Nat.div_mul_le_self _ _) hVlt
  have hlen : (mask_ipv6_addr_128 a m).length = 16 := be_bytes_length 16 _
  have hval : be_value (mask_ipv6_addr_128 a m)
      = be_value a / 2 ^ (128 - m) * 2 ^ (128 - m) :=
    be_value_be_bytes 16 _ hcut
  -- the result of the routine, with its value
  have hcode : ∃ out, l3_utils_mask_ipv6_addr a m = some out ∧ bytes_wf out ∧
      out.length = 16 ∧
      be_value out = be_value a / 2 ^ (128 - m) * 2 ^ (128 - m) ∧
      (m ≤ 64 → out.drop 8 = List.replicate 8 0) ∧
      (64 < m → out.take 8 = a.take 8 ∧
        out.drop 8
          = be_bytes 8 (be_value (a.drop 8) / 2 ^ (128 - m) * 2 ^ (128 - m))) := by
    by_cases h64 : m ≤ 64
    · have hX : be_value (a.take 8) / 2 ^ (64 - m) * 2 ^ (64 - m) < 256 ^ 8 :=
        cut_lt _ _ hH
      refine ⟨_, mask_ipv6_addr_high a m ha hl h1 h64, ?_, ?_, ?_, ?_, ?_⟩
      · intro b hb
        rcases List.mem_append.mp hb with hb | hb
        · exact bytes_wf_reverse _ (le_bytes_wf 8 _) b hb
        · rw [List.eq_of_mem_replicate hb]
          norm_num
      · simp [le_bytes_length]
      · rw [be_value_append, be_value_zeros, List.length_replicate, h256, hV,
          cut_high _ _ m hL h64]
        have := be_value_be_bytes 8 _ hX
        unfold be_bytes at this
        rw [this]
        ring
      · intro _
        have hl8 : ((le_bytes 8
            (be_value (a.take 8) / 2 ^ (64 - m) * 2 ^ (64 - m))).reverse).length
            = 8 := by simp [le_bytes_length]
        exact List.drop_left' hl8
      · intro hc
        omega
    · have hm : 64 < m := by omega
      have hY : be_value (a.drop 8) / 2 ^ (128 - m) * 2 ^ (128 - m) < 256 ^ 8 :=
        cut_lt _ _ hL
      have hl8 : (a.take 8).length = 8 := hta
      refine ⟨_, mask_ipv6_addr_low a m ha hl hm h128, ?_, ?_, ?_, ?_, ?_⟩
      · intro b hb
        rcases List.mem_append.mp hb with hb | hb
        · exact hwt b hb
        · exact bytes_wf_reverse _ (le_bytes_wf 8 _) b hb
      · simp [le_bytes_length, hl]
      · rw [be_value_append, List.length_reverse, le_bytes_length, h256]
        conv_rhs => rw [hV, cut_low _ _ (128 - m) (by omega)]
        have := be_value_be_bytes 8 _ hY
        unfold be_bytes at this
        rw [this]
      · intro hc
        omega
      · intro _
        constructor
        · exact List.take_left' hl8
        · unfold be_bytes
          exact List.drop_left' hl8
  obtain ⟨out, hout, hwf, holen, hoval, hohigh, holow⟩ := hcode
  have heq : out = mask_ipv6_addr_128 a m := by
    have := be_bytes_be_value out hwf
    rw [holen, hoval] at this
    exact this.symm
  subst heq
  refine ⟨hout, hlen, ?_, hohigh, holow⟩
  intro i hi
  have hd : decide (128 - m ≤ 127 - i) = decide (i < m) := by
    rw [decide_eq_decide]
    omega
  rw [hval, testBit_cut, hd]

/-- C29 at 2001:db8:1234:5678:9abc:def0:1234:5678 with the prefix length 72:
the result is 2001:db8:1234:5678:9a00::. -/
theorem mask_ipv6_addr_refines_witness :
    l3_utils_mask_ipv6_addr
        [0x20, 0x01, 0x0d, 0xb8, 0x12, 0x34, 0x56, 0x78,
         0x9a, 0xbc, 0xde, 0xf0, 0x12, 0x34, 0x56, 0x78] 72
      = some [0x20, 0x01, 0x0d, 0xb8, 0x12, 0x34, 0x56, 0x78,
              0x9a, 0, 0, 0, 0, 0, 0, 0] :=
  (mask_ipv6_addr_refines
      [0x20, 0x01, 0x0d, 0xb8, 0x12, 0x34, 0x56, 0x78,
       0x9a, 0xbc, 0xde, 0xf0, 0x12, 0x34, 0x56, 0x78] 72
      (by unfold bytes_wf; decide) rfl (by decide) (by decide)).1.trans
    (by decide)

/-! ## A candidate with the prefix length 0 -/

theorem ipv4_masked_equal_zero (input_ipv4_addr : Nat) (port_address : CStr) :
    ipv4_masked_equal input_ipv4_addr 0 port_address = none := by
  unfold ipv4_masked_equal
  cases l3_utils_ipv4_address port_address with
  | none => rfl
  | some b =>
    have hmin : (if 0 < l3_utils_mask_bits port_address AF_INET then 0
        else l3_utils_mask_bits port_address AF_INET) = 0 := by
      split <;> omega
    simp only [hmin]
    rfl

theorem secondary_loop_undefined (equal : CStr → Option Bool)
    (h : ∀ a, equal a = none) (l : List CStr) :
    secondary_loop equal l = scan_step.next ∨
    secondary_loop equal l = scan_step.undefined := by
  cases l with
  | nil => exact Or.inl rfl
  | cons a rest => exact Or.inr (by simp [secondary_loop, h a])

theorem port_step4_zero (ip_address if_name : CStr) (secondary : Bool)
    (port_row : ovsrec_port) :
    (port_step4 ip_address if_name secondary 0 port_row = scan_step.next ∨
      port_step4 ip_address if_name secondary 0 port_row = scan_step.undefined) ∧
    (port_row.ip4_address ≠ none →
      port_step4 ip_address if_name secondary 0 port_row = scan_step.undefined) := by
  unfold port_step4
  cases l3_utils_ipv4_address ip_address with
  | none => exact ⟨Or.inr rfl, fun _ => rfl⟩
  | some a =>
    cases hp : port_row.ip4_address with
    | none =>
      refine ⟨?_, fun hc => absurd rfl hc⟩
      exact secondary_loop_undefined _ (ipv4_masked_equal_zero a) _
    | some addr =>
      simp [ipv4_masked_equal_zero, primary_step]

theorem ports_loop_undefined (step : ovsrec_port → scan_step)
    (ports : List ovsrec_port)
    (h : ∀ p ∈ ports, step p = scan_step.next ∨ step p = scan_step.undefined)
    (hex : ∃ p ∈ ports, step p = scan_step.undefined) :
    ports_loop step ports = none := by
  induction ports with
  | nil =>
    obtain ⟨p, hp, _⟩ := hex
    cases hp
  | cons p rest ih =>
    rcases h p (List.mem_cons_self p rest) with hp | hp
    · have hr : ∀ q ∈ rest, step q = scan_step.next ∨
          step q = scan_step.undefined :=
        fun q hq => h q (List.mem_cons_of_mem p hq)
      have hex2 : ∃ q ∈ rest, step q = scan_step.undefined := by
        obtain ⟨q, hq, hu⟩ := hex
        rcases List.mem_cons.mp hq with hq | hq
        · rw [hq, hp] at hu
          cases hu
        · exact ⟨q, hq, hu⟩
      simp [ports_loop, hp, ih hr hex2]
    · simp [ports_loop, hp]

/-- C30 fails: for an IPv4 candidate whose prefix length is read as 0 and a
VRF with a port that has a primary IPv4 address, the effective prefix
length is 0 and the mask is the all-ones value shifted left by 32, a shift
by the full width of the type, which has no defined result; the detector
has no defined return value, and no port gives the verdict true before the
shift. -/
theorem zero_prefix_is_undefined (ip_address if_name : CStr) (secondary : Bool)
    (vrf_row : ovsrec_vrf)
    (hbits : l3_utils_mask_bits ip_address AF_INET = 0)
    (hport : ∃ p ∈ vrf_row.ports, p.ip4_address ≠ none) :
    l3_utils_is_ipaddr_overlapping ip_address if_name AF_INET secondary vrf_row
      = none ∧
    shl32 IPV4_SUBNET_MASK_FULL (sub_uint IPV4_ADDR_BIT_LENGTH 0) = none := by
  refine ⟨?_, rfl⟩
  unfold l3_utils_is_ipaddr_overlapping
  rw [hbits]
  have hstep : ∀ p, port_step ip_address if_name AF_INET secondary 0 p
      = port_step4 ip_address if_name secondary 0 p := by
    intro p
    have h6 : ¬ AF_INET = AF_INET6 := by decide
    simp only [port_step, h6, if_false, if_true]
  apply ports_loop_undefined
  · intro p _
    rw [hstep]
    exact (port_step4_zero ip_address if_name secondary p).1
  · obtain ⟨p, hp, ha⟩ := hport
    exact ⟨p, hp, by rw [hstep]; exact (port_step4_zero ip_address if_name secondary p).2 ha⟩

/-- C30 at the candidate 10.0.0.1/0 for eth0 on a VRF with the port eth1 at
192.168.1.1/24: the detector has no defined result. -/
theorem zero_prefix_is_undefined_witness :
    l3_utils_mask_bits (cstr "10.0.0.1/0") AF_INET = 0 ∧
    l3_utils_is_ipaddr_overlapping (cstr "10.0.0.1/0") (cstr "eth0") AF_INET false
      (vrf_with_ports [port_eth1]) = none :=
  ⟨by decide,
    (zero_prefix_is_undefined (cstr "10.0.0.1/0") (cstr "eth0") false
      (vrf_with_ports [port_eth1]) (by decide)
      ⟨port_eth1, by simp [vrf_with_ports], by simp [port_eth1]⟩).1⟩

/-! ## The first collision of the scan -/

theorem overlapping_eq_scan_of_collision (ip_address if_name a : CStr)
    (addr_family : Nat) (secondary : Bool) (vrf_row : ovsrec_vrf)
    (hfam : addr_family = AF_INET ∨ addr_family = AF_INET6)
    (hc : collides addr_family ip_address a = some true) :
    l3_utils_is_ipaddr_overlapping ip_address if_name addr_family secondary
        vrf_row
      = ports_loop (port_scan addr_family ip_address if_name secondary)
          vrf_row.ports := by
  apply overlapping_eq_scan
  rcases hfam with h | h
  · right
    subst h
    obtain ⟨v, hv⟩ := collides_inet_defined ip_address a true hc
    exact ⟨rfl, by simp [hv]⟩
  · exact Or.inl h

/-- The scan stops at a port whose primary address is the first collision. -/
theorem overlapping_first_primary (addr_family : Nat)
    (ip_address if_name : CStr) (secondary : Bool) (vrf_row : ovsrec_vrf)
    (before after : List ovsrec_port) (p : ovsrec_port) (a : CStr)
    (hfam : addr_family = AF_INET ∨ addr_family = AF_INET6)
    (hports : vrf_row.ports = before ++ p :: after)
    (hbefore : ∀ q ∈ before, port_clear addr_family ip_address q)
    (ha : primary_address addr_family p = some a)
    (hc : collides addr_family ip_address a = some true) :
    l3_utils_is_ipaddr_overlapping ip_address if_name addr_family secondary
        vrf_row
      = some (primary_verdict p.name if_name secondary) := by
  rw [overlapping_eq_scan_of_collision ip_address if_name a addr_family
    secondary vrf_row hfam hc, hports]
  exact ports_loop_hit _ before after p _
    (fun q hq => port_scan_clear _ _ _ _ q (hbefore q hq))
    (port_scan_primary _ _ _ _ p a ha hc)

/-- The scan stops at a port one of whose secondary addresses is the first
collision. -/
theorem overlapping_first_secondary (addr_family : Nat)
    (ip_address if_name : CStr) (secondary : Bool) (vrf_row : ovsrec_vrf)
    (before after : List ovsrec_port) (p : ovsrec_port)
    (sb sa : List CStr) (s : CStr)
    (hfam : addr_family = AF_INET ∨ addr_family = AF_INET6)
    (hports : vrf_row.ports = before ++ p :: after)
    (hbefore : ∀ q ∈ before, port_clear addr_family ip_address q)
    (hp : ∀ a, primary_address addr_family p = some a →
      collides addr_family ip_address a = some false)
    (hl : secondary_addresses addr_family p = sb ++ s :: sa)
    (hsb : ∀ a ∈ sb, collides addr_family ip_address a = some false)
    (hs : collides addr_family ip_address s = some true) :
    l3_utils_is_ipaddr_overlapping ip_address if_name addr_family secondary
        vrf_row
      = some true := by
  rw [overlapping_eq_scan_of_collision ip_address if_name s addr_family
    secondary vrf_row hfam hs, hports]
  exact ports_loop_hit _ before after p _
    (fun q hq => port_scan_clear _ _ _ _ q (hbefore q hq))
    (port_scan_secondary _ _ _ _ p sb sa s hp hl hsb hs)

/-- C31: the verdict of `l3_utils_is_ipaddr_overlapping` is that of the first
colliding address in scan order, whatever the addresses after it are.  When
no address of the ports before `p` collides and the primary address of `p`
does, the result is the verdict on that primary address, for every list of
secondary addresses of `p` and every list of later ports; for a primary
candidate on the interface of `p` it is false.  When the first collision is
a secondary address of `p`, the result is true for every list of later
addresses and ports. -/
theorem first_collision_decides (addr_family : Nat)
    (ip_address if_name : CStr) (secondary : Bool) (vrf_row : ovsrec_vrf)
    (before after : List ovsrec_port) (p : ovsrec_port)
    (hfam : addr_family = AF_INET ∨ addr_family = AF_INET6)
    (hports : vrf_row.ports = before ++ p :: after)
    (hbefore : ∀ q ∈ before, port_clear addr_family ip_address q) :
    (∀ a, primary_address addr_family p = some a →
      collides addr_family ip_address a = some true →
      l3_utils_is_ipaddr_overlapping ip_address if_name addr_family secondary
          vrf_row
        = some (primary_verdict p.name if_name secondary) ∧
      (secondary = false → p.name = if_name →
        l3_utils_is_ipaddr_overlapping ip_address if_name addr_family
          secondary vrf_row = some false)) ∧
    (∀ sb s sa,
      (∀ a, primary_address addr_family p = some a →
        collides addr_family ip_address a = some false) →
      secondary_addresses addr_family p = sb ++ s :: sa →
      (∀ a ∈ sb, collides addr_family ip_address a = some false) →
      collides addr_family ip_address s = some true →
      l3_utils_is_ipaddr_overlapping ip_address if_name addr_family secondary
          vrf_row
        = some true) := by
  refine ⟨?_, ?_⟩
  · intro a ha hc
    have h := overlapping_first_primary addr_family ip_address if_name
      secondary vrf_row before after p a hfam hports hbefore ha hc
    refine ⟨h, ?_⟩
    intro hsec hname
    rw [h, hsec, hname, primary_verdict_own]
  · intro sb s sa hp hl hsb hs
    exact overlapping_first_secondary addr_family ip_address if_name secondary
      vrf_row before after p sb sa s hfam hports hbefore hp hl hsb hs

/-- C31 at the primary candidate 10.0.0.5/24 for eth0 on a VRF whose first
port is eth0 with the primary address 10.0.0.1/24 and the secondary address
10.0.0.7/24, followed by eth1 with 10.0.0.9/24: all three addresses collide
with the candidate, and the result is false. -/
theorem first_collision_decides_witness :
    collides AF_INET (cstr "10.0.0.5/24") (cstr "10.0.0.7/24") = some true ∧
    collides AF_INET (cstr "10.0.0.5/24") (cstr "10.0.0.9/24") = some true ∧
    l3_utils_is_ipaddr_overlapping (cstr "10.0.0.5/24") (cstr "eth0") AF_INET
      false (vrf_with_ports [port_eth0_both, port_eth1_9]) = some false :=
  ⟨by decide, by decide,
    ((first_collision_decides AF_INET (cstr "10.0.0.5/24") (cstr "eth0") false
      (vrf_with_ports [port_eth0_both, port_eth1_9]) [] [port_eth1_9]
      port_eth0_both (Or.inl rfl) rfl (by intro q hq; cases hq)).1
      (cstr "10.0.0.1/24") rfl (by decide)).2 rfl rfl⟩

/-- C32: the same-interface test compares the name of the port with the
candidate's interface name over the length of the latter.  For a primary
candidate whose first collision is the primary address of port `p`, the
result is false when the name of `p` begins with the interface name: when
the two are equal, when the name of `p` is longer, and for every port when
the interface name is empty; it is true when the name of `p` does not begin
with the interface name. -/
theorem same_interface_is_name_begin (addr_family : Nat)
    (ip_address if_name : CStr) (vrf_row : ovsrec_vrf)
    (before after : List ovsrec_port) (p : ovsrec_port) (a : CStr)
    (hfam : addr_family = AF_INET ∨ addr_family = AF_INET6)
    (hports : vrf_row.ports = before ++ p :: after)
    (hbefore : ∀ q ∈ before, port_clear addr_family ip_address q)
    (ha : primary_address addr_family p = some a)
    (hc : collides addr_family ip_address a = some true) :
    (∀ t, p.name = if_name ++ t →
      l3_utils_is_ipaddr_overlapping ip_address if_name addr_family false
        vrf_row = some false) ∧
    (p.name = if_name →
      l3_utils_is_ipaddr_overlapping ip_address if_name addr_family false
        vrf_row = some false) ∧
    (if_name = [] →
      l3_utils_is_ipaddr_overlapping ip_address if_name addr_family false
        vrf_row = some false) ∧
    (0 ∉ if_name → ¬ if_name <+: p.name →
      l3_utils_is_ipaddr_overlapping ip_address if_name addr_family false
        vrf_row = some true) := by
  have h := overlapping_first_primary addr_family ip_address if_name false
    vrf_row before after p a hfam hports hbefore ha hc
  have hbegin : ∀ t, p.name = if_name ++ t →
      primary_verdict p.name if_name false = false := by
    intro t ht
    simp [primary_verdict, ht, strncmp_append_self]
  refine ⟨?_, ?_, ?_, ?_⟩
  · intro t ht
    rw [h, hbegin t ht]
  · intro hname
    rw [h, hbegin [] (by simp [hname])]
  · intro hempty
    rw [h, hbegin p.name (by simp [hempty])]
  · intro h0 hnot
    rw [h, primary_verdict_other p.name if_name false h0 hnot]

/-- C32 at the primary candidate 10.0.0.5/24 for eth1 on a VRF whose port
eth10 has the primary address 10.0.0.1/24: the result is false. -/
theorem same_interface_is_name_begin_witness :
    l3_utils_is_ipaddr_overlapping (cstr "10.0.0.5/24") (cstr "eth1") AF_INET
      false (vrf_with_ports [port_eth10]) = some false :=
  (same_interface_is_name_begin AF_INET (cstr "10.0.0.5/24") (cstr "eth1")
    (vrf_with_ports [port_eth10]) [] [] port_eth10 (cstr "10.0.0.1/24")
    (Or.inl rfl) rfl (by intro q hq; cases hq) rfl (by decide)).1 (cstr "0")
    (by decide)

/-- The same port against the interface name "eth2", with which its name
does not begin: the result is true. -/
theorem same_interface_other_name :
    l3_utils_is_ipaddr_overlapping (cstr "10.0.0.5/24") (cstr "eth2") AF_INET
      false (vrf_with_ports [port_eth10]) = some true := by decide

/-! ## The key comparison of the source-interface loop -/

/-- The loop returns the port of the first entry whose key begins with the
protocol's key. -/
theorem source_interface_loop_first (key : CStr) (hk : 0 ∉ key)
    (before after : List (CStr × ovsrec_port)) (e : CStr × ovsrec_port)
    (hbefore : ∀ b ∈ before, ¬ key <+: b.1) (he : key <+: e.1) :
    source_interface_loop key (before ++ e :: after) = some e.2 := by
  induction before with
  | nil =>
    obtain ⟨key_i, value_i⟩ := e
    have hz : strncmp key key_i (strlen key) = 0 :=
      (strncmp_begins_left key key_i hk).mpr he
    simp [source_interface_loop, hz]
  | cons b rest ih =>
    obtain ⟨key_b, value_b⟩ := b
    have hnz : ¬ strncmp key key_b (strlen key) = 0 := fun hz =>
      hbefore (key_b, value_b) (List.mem_cons_self _ _)
        ((strncmp_begins_left key key_b hk).mp hz)
    have hrest : ∀ x ∈ rest, ¬ key <+: x.1 :=
      fun x hx => hbefore x (List.mem_cons_of_mem _ hx)
    simp only [List.cons_append, source_interface_loop, if_neg hnz]
    exact ih hrest

theorem source_interface_loop_none (key : CStr) (hk : 0 ∉ key)
    (m : List (CStr × ovsrec_port)) (h : ∀ b ∈ m, ¬ key <+: b.1) :
    source_interface_loop key m = none := by
  induction m with
  | nil => rfl
  | cons b rest ih =>
    obtain ⟨key_b, value_b⟩ := b
    have hnz : ¬ strncmp key key_b (strlen key) = 0 := fun hz =>
      h (key_b, value_b) (List.mem_cons_self _ _)
        ((strncmp_begins_left key key_b hk).mp hz)
    simp only [source_interface_loop, if_neg hnz]
    exact ih (fun x hx => h x (List.mem_cons_of_mem _ hx))

/-- C33 fails: `get_configured_protocol_source` compares the key of an entry
of the source-interface map with the protocol's key over the length of the
protocol's key only.  For a valid protocol with no source-IP entry, the call
returns true with the port of the first entry whose key begins with the
protocol's key, also when that key is longer than the protocol's key; it
returns false exactly when no key of the map begins with the protocol's
key. -/
theorem longer_key_is_taken (OVSDB_VRF_NAME_MAXLEN : Nat) (TFTP ALL : CStr)
    (idl : List ovsrec_vrf) (type : Nat) (name : CStr) (ps : protocol_source)
    (r : ovsrec_vrf) (ht : type < PROTOCOL_MAX)
    (hfind : vrf_lookup OVSDB_VRF_NAME_MAXLEN idl name = some r)
    (hip : smap_get r.source_ip (protocol_keys TFTP ALL type) = none)
    (hk : 0 ∉ protocol_keys TFTP ALL type) :
    (∀ before e after, r.source_interface = before ++ e :: after →
      (∀ b ∈ before, ¬ protocol_keys TFTP ALL type <+: b.1) →
      protocol_keys TFTP ALL type <+: e.1 →
      get_configured_protocol_source OVSDB_VRF_NAME_MAXLEN TFTP ALL (some idl)
          type (some name) (some ps)
        = (true, some { source := some e.2.name,
                        config_type := configuration_type.SOURCE_INTERFACE })) ∧
    ((∀ b ∈ r.source_interface, ¬ protocol_keys TFTP ALL type <+: b.1) →
      get_configured_protocol_source OVSDB_VRF_NAME_MAXLEN TFTP ALL (some idl)
          type (some name) (some ps)
        = (false, some unset_source)) := by
  have hlt : ¬ type ≥ PROTOCOL_MAX := by omega
  refine ⟨?_, ?_⟩
  · intro before e after hmap hbefore he
    have hloop := source_interface_loop_first _ hk before after e hbefore he
    rw [← hmap] at hloop
    simp only [get_configured_protocol_source, hlt, if_false, hfind, hip, hloop]
  · intro hnone
    have hloop := source_interface_loop_none _ hk r.source_interface hnone
    simp only [get_configured_protocol_source, hlt, if_false, hfind, hip, hloop,
      unset_source]

/-- C33 fails at a record whose source-interface map holds only the key
"tftp2" (the key of TFTP being "tftp"): the call for TFTP returns true with
the port of "tftp2". -/
theorem longer_key_is_taken_witness :
    get_configured_protocol_source 32 (cstr "tftp") (cstr "all")
        (some [vrf_blue, vrf_red_tftp2]) TFTP_PROTOCOL (some (cstr "vrf_red"))
        (some unset_source)
      = (true, some { source := some (cstr "eth0"),
                      config_type := configuration_type.SOURCE_INTERFACE }) ∧
    cstr "tftp2" ≠ protocol_keys (cstr "tftp") (cstr "all") TFTP_PROTOCOL :=
  ⟨(longer_key_is_taken 32 (cstr "tftp") (cstr "all")
      [vrf_blue, vrf_red_tftp2] TFTP_PROTOCOL (cstr "vrf_red") unset_source
      vrf_red_tftp2 (by decide) (by decide) (by decide) (by decide)).1
      [] (cstr "tftp2", port_eth0) [] rfl (by intro b hb; cases hb)
      (by decide),
    by decide⟩

/-! ## The path of `vrf_setns_with_table_id` -/

theorem netns_dir_length : strlen (cstr "/var/run/netns/") = 15 := by decide

theorem nl_setns_path_short (ns_name : CStr) (h : ns_name.length ≤ 111) :
    nl_setns_path ns_name = cstr "/var/run/netns/" ++ ns_name := by
  unfold nl_setns_path snprintf
  rw [netns_dir_length, List.take_of_length_le]
  unfold MAX_BUFFER_SIZE
  omega

theorem vrf_setns_path_eq (vrf_ns_name : CStr) :
    vrf_setns_path vrf_ns_name
      = cstr "/var/run/netns/" ++ vrf_ns_name.take (vrf_ns_name.length - 1) := by
  rfl

/-- The path `vrf_setns_with_table_id` opens is the path `nl_setns_with_name`
opens for the name without its last character. -/
theorem vrf_setns_path_eq_nl (vrf_ns_name : CStr)
    (h : vrf_ns_name.length ≤ 112) :
    vrf_setns_path vrf_ns_name
      = nl_setns_path (vrf_ns_name.take (vrf_ns_name.length - 1)) := by
  rw [nl_setns_path_short _ (by rw [List.length_take]; omega), vrf_setns_path_eq]

theorem take_length_pred_ne (l : List Nat) (h : l ≠ []) :
    l.take (l.length - 1) ≠ l := by
  intro he
  have hl := congrArg List.length he
  rw [List.length_take] at hl
  have : 0 < l.length := List.length_pos.mpr h
  omega

/-- C34 fails: for a non-zero table_id that resolves to a record with UUID U,
`vrf_setns_with_table_id` does what `nl_setns_with_name` does for the first
35 characters of the string form of U: the path it opens is
"/var/run/netns/" followed by those 35 characters, not the path of the
namespace name `get_vrf_ns_from_table_id` returns; when every system call
succeeds it leaves the calling thread in another namespace than
`vrf_setns_with_name` does for a name that resolves to the same record. -/
theorem table_id_path_drops_last_character (DEFAULT_VRF_NAME : CStr)
    (OVSDB_VRF_NAME_MAXLEN : Nat) (o : setns_outcome) (idl : List ovsrec_vrf)
    (table_id : Int) (r : ovsrec_vrf) (m : machine) (h0 : table_id ≠ 0)
    (hfind : vrf_lookup_on_table_id idl table_id = some r)
    (hwf : uuid_wf r.uuid) :
    get_vrf_ns_from_table_id idl table_id [] = (0, uuid_canonical r.uuid) ∧
    vrf_setns_with_table_id o idl table_id m
      = nl_setns_with_name o thread_id.caller
          ((uuid_canonical r.uuid).take 35) m ∧
    vrf_setns_path (uuid_canonical r.uuid)
      = cstr "/var/run/netns/" ++ (uuid_canonical r.uuid).take 35 ∧
    nl_setns_path (uuid_canonical r.uuid)
      = cstr "/var/run/netns/" ++ uuid_canonical r.uuid ∧
    vrf_setns_path (uuid_canonical r.uuid)
      ≠ nl_setns_path (uuid_canonical r.uuid) ∧
    (∀ vrf_name,
      get_vrf_ns_from_name DEFAULT_VRF_NAME OVSDB_VRF_NAME_MAXLEN idl vrf_name []
        = (0, uuid_canonical r.uuid) →
      o.open_ok = true → o.setns_ok = true →
      (vrf_setns_with_name DEFAULT_VRF_NAME OVSDB_VRF_NAME_MAXLEN o idl
          vrf_name m).2.caller_ns = nl_setns_path (uuid_canonical r.uuid) ∧
      (vrf_setns_with_table_id o idl table_id m).2.caller_ns
        = vrf_setns_path (uuid_canonical r.uuid) ∧
      (vrf_setns_with_table_id o idl table_id m).2.caller_ns
        ≠ (vrf_setns_with_name DEFAULT_VRF_NAME OVSDB_VRF_NAME_MAXLEN o idl
            vrf_name m).2.caller_ns) := by
  have hlen := uuid_canonical_length r.uuid
  have hns : get_vrf_ns_from_table_id idl table_id []
      = (0, uuid_canonical r.uuid) := by
    simp [get_vrf_ns_from_table_id, h0, hfind, snprintf_uuid r.uuid hwf]
  have hpath : vrf_setns_path (uuid_canonical r.uuid)
      = nl_setns_path ((uuid_canonical r.uuid).take 35) := by
    have := vrf_setns_path_eq_nl (uuid_canonical r.uuid) (by omega)
    rw [hlen] at this
    exact this
  have hpath35 : vrf_setns_path (uuid_canonical r.uuid)
      = cstr "/var/run/netns/" ++ (uuid_canonical r.uuid).take 35 := by
    have := vrf_setns_path_eq (uuid_canonical r.uuid)
    rw [hlen] at this
    exact this
  have hpath36 : nl_setns_path (uuid_canonical r.uuid)
      = cstr "/var/run/netns/" ++ uuid_canonical r.uuid :=
    nl_setns_path_short _ (by omega)
  have hne : vrf_setns_path (uuid_canonical r.uuid)
      ≠ nl_setns_path (uuid_canonical r.uuid) := by
    rw [hpath35, hpath36]
    intro he
    have h35 := List.append_cancel_left he
    have hnil : uuid_canonical r.uuid ≠ [] := by
      intro hn
      rw [hn] at hlen
      cases hlen
    have := take_length_pred_ne (uuid_canonical r.uuid) hnil
    rw [hlen] at this
    exact this h35
  have hcode : vrf_setns_with_table_id o idl table_id m
      = nl_setns_with_name o thread_id.caller
          ((uuid_canonical r.uuid).take 35) m := by
    simp only [vrf_setns_with_table_id, h0, if_false, hns, ne_eq,
      not_true_eq_false, nl_setns_with_name, hpath]
  refine ⟨hns, hcode, hpath35, hpath36, hne, ?_⟩
  intro vrf_name hname ho hs
  have hname_code : vrf_setns_with_name DEFAULT_VRF_NAME OVSDB_VRF_NAME_MAXLEN
      o idl vrf_name m
      = nl_setns_with_name o thread_id.caller (uuid_canonical r.uuid) m := by
    simp only [vrf_setns_with_name, hname, if_true]
  have e1 : (vrf_setns_with_name DEFAULT_VRF_NAME OVSDB_VRF_NAME_MAXLEN o idl
      vrf_name m).2.caller_ns = nl_setns_path (uuid_canonical r.uuid) := by
    rw [hname_code, nl_setns_with_name_eq]
    simp [ho, hs]
  have e2 : (vrf_setns_with_table_id o idl table_id m).2.caller_ns
      = vrf_setns_path (uuid_canonical r.uuid) := by
    rw [hcode, nl_setns_with_name_eq, hpath]
    simp [ho, hs]
  refine ⟨e1, e2, ?_⟩
  rw [e1, e2]
  exact hne

/-- C34 fails at table_id 5 of the record "vrf_red": the path opened ends in
"...44665544000", one character short of the UUID. -/
theorem table_id_path_drops_last_character_witness :
    vrf_setns_path (uuid_canonical vrf_red.uuid)
      = cstr "/var/run/netns/550e8400-e29b-41d4-a716-44665544000" ∧
    nl_setns_path (uuid_canonical vrf_red.uuid)
      = cstr "/var/run/netns/550e8400-e29b-41d4-a716-446655440000" ∧
    vrf_setns_path (uuid_canonical vrf_red.uuid)
      ≠ nl_setns_path (uuid_canonical vrf_red.uuid) :=
  ⟨by decide, by decide,
    (table_id_path_drops_last_character (cstr "vrf_default") 32
      { open_ok := true, setns_ok := true } [vrf_blue, vrf_red] 5 vrf_red
      machine_swns (by decide) (by decide)
      (by unfold uuid_wf; decide)).2.2.2.2.1⟩

/-- The two calls for the record "vrf_red" when every system call succeeds:
the calling thread ends in the namespace of two different paths. -/
theorem setns_runs :
    (vrf_setns_with_table_id { open_ok := true, setns_ok := true }
        [vrf_blue, vrf_red] 5 machine_swns).2.caller_ns
      = cstr "/var/run/netns/550e8400-e29b-41d4-a716-44665544000" ∧
    (vrf_setns_with_name (cstr "vrf_default") 32
        { open_ok := true, setns_ok := true } [vrf_blue, vrf_red]
        (some (cstr "vrf_red")) machine_swns).2.caller_ns
      = cstr "/var/run/netns/550e8400-e29b-41d4-a716-446655440000" := by
  decide

/-! ## The checksum of `ping4` -/

theorem checksum_loop_value :
    ∀ (b : List Nat) (sum : Nat), sum < 4294967296 →
      checksum_loop b (b.length : Int) sum
        = some ((sum + word_sum b) % 4294967296)
  | [], sum, hs => by
    simp [checksum_loop, word_sum, Nat.mod_eq_of_lt hs]
  | [c], sum, hs => by
    simp [checksum_loop, word_sum]
  | lo :: hi :: rest, sum, hs => by
    have ih := checksum_loop_value rest ((sum + (lo + 256 * hi)) % 4294967296)
      (Nat.mod_lt _ (by norm_num))
    have h1 : (((lo :: hi :: rest).length : Nat) : Int) > 1 := by
      simp only [List.length_cons]
      omega
    have h2 : (((lo :: hi :: rest).length : Nat) : Int) - 2
        = (rest.length : Int) := by
      simp only [List.length_cons]
      omega
    rw [checksum_loop, if_pos h1, h2, ih, word_sum, Nat.mod_add_mod]
    congr 2
    omega

theorem word_sum_append (pre l : List Nat) (h : pre.length % 2 = 0) :
    word_sum (pre ++ l) = word_sum pre + word_sum l := by
  match pre, h with
  | [], _ => simp [word_sum]
  | [c], h => simp at h
  | lo :: hi :: rest, h =>
    have hr : rest.length % 2 = 0 := by
      simp only [List.length_cons] at h
      omega
    have ih := word_sum_append rest l hr
    show word_sum (lo :: hi :: (rest ++ l)) = _
    simp only [word_sum, ih]
    omega

theorem word_sum_le : ∀ (b : List Nat), bytes_wf b →
    word_sum b ≤ 65535 * ((b.length + 1) / 2)
  | [], _ => by simp [word_sum]
  | [c], h => by
    have hc : c < 256 := h c (by simp)
    simp only [word_sum, List.length_singleton]
    omega
  | lo :: hi :: rest, h => by
    have hlo : lo < 256 := h lo (by simp)
    have hhi : hi < 256 := h hi (by simp)
    have ih := word_sum_le rest (fun x hx => h x (by simp [hx]))
    simp only [word_sum, List.length_cons]
    omega

theorem and_low_16 (s : Nat) : s &&& 65535 = s % 65536 :=
  Nat.and_pow_two_sub_one_eq_mod s 16

theorem shift_right_16 (s : Nat) : s >>> 16 = s / 65536 :=
  Nat.shiftRight_eq_div_pow s 16

theorem ones_complement_fold_halves (hi lo : Nat) (hhi : hi < 65536)
    (hlo : lo < 65536) :
    ones_complement_fold (65536 * hi + lo)
      = if hi + lo < 65536 then hi + lo else hi + lo - 65535 := by
  unfold ones_complement_fold
  by_cases h0 : 65536 * hi + lo = 0
  · rw [if_pos h0]
    have : hi + lo < 65536 := by omega
    rw [if_pos this]
    omega
  · rw [if_neg h0]
    have e : 65536 * hi + lo - 1 = (hi + lo - 1) + 65535 * hi := by omega
    rw [e, Nat.add_mul_mod_self_left]
    by_cases hc : hi + lo < 65536
    · rw [if_pos hc, Nat.mod_eq_of_lt (by omega)]
      omega
    · rw [if_neg hc]
      have e2 : hi + lo - 1 = (hi + lo - 65536) + 65535 * 1 := by omega
      rw [e2, Nat.add_mul_mod_self_left, Nat.mod_eq_of_lt (by omega)]
      omega

/-- The two folding steps and the complement give the complement of the
one's-complement sum. -/
theorem checksum_fold (s : Nat) (hs : s < 4294967296) :
    (4294967295 -
        ((((s >>> 16) + (s &&& 0xFFFF)) % 4294967296)
          + ((((s >>> 16) + (s &&& 0xFFFF)) % 4294967296) >>> 16))
          % 4294967296) % 65536
      = 65535 - ones_complement_fold s := by
  simp only [and_low_16, shift_right_16]
  obtain ⟨hi, hhi⟩ : ∃ hi, hi = s / 65536 := ⟨_, rfl⟩
  obtain ⟨lo, hlo⟩ : ∃ lo, lo = s % 65536 := ⟨_, rfl⟩
  have hs_eq : s = 65536 * hi + lo := by omega
  have hhi_lt : hi < 65536 := by omega
  have hlo_lt : lo < 65536 := by omega
  rw [← hhi, ← hlo, Nat.mod_eq_of_lt (by omega : hi + lo < 4294967296), hs_eq,
    ones_complement_fold_halves hi lo hhi_lt hlo_lt]
  by_cases hc : hi + lo < 65536
  · have hq : (hi + lo) / 65536 = 0 := by omega
    rw [hq, if_pos hc, Nat.add_zero, Nat.mod_eq_of_lt (by omega : hi + lo < 4294967296)]
    have e : 4294967295 - (hi + lo) = (65535 - (hi + lo)) + 65536 * 65535 := by
      omega
    rw [e, Nat.add_mul_mod_self_left, Nat.mod_eq_of_lt (by omega)]
  · have hq : (hi + lo) / 65536 = 1 := by omega
    rw [hq, if_neg hc, Nat.mod_eq_of_lt (by omega : hi + lo + 1 < 4294967296)]
    have e : 4294967295 - (hi + lo + 1)
        = (65535 - (hi + lo - 65535)) + 65536 * 65534 := by omega
    rw [e, Nat.add_mul_mod_self_left, Nat.mod_eq_of_lt (by omega)]

theorem checksum_value (b : List Nat)
    (hs : word_sum b < 4294967296) :
    checksum b (b.length : Int)
      = some (65535 - ones_complement_fold (word_sum b)) := by
  unfold checksum
  rw [checksum_loop_value b 0 (by norm_num), Nat.zero_add,
    Nat.mod_eq_of_lt hs]
  simp only
  rw [checksum_fold _ hs]

theorem ones_complement_fold_le (s : Nat) : ones_complement_fold s ≤ 65535 := by
  unfold ones_complement_fold
  split <;> omega

/-- Adding the complement of the folded sum gives a sum that folds to
65535. -/
theorem ones_complement_fold_closed (s : Nat) :
    ones_complement_fold (s + (65535 - ones_complement_fold s)) = 65535 := by
  unfold ones_complement_fold
  by_cases h0 : s = 0
  · subst h0
    decide
  · rw [if_neg h0]
    have hr : (s - 1) % 65535 < 65535 := Nat.mod_lt _ (by norm_num)
    have hdm := Nat.div_add_mod (s - 1) 65535
    have hne : ¬ s + (65535 - ((s - 1) % 65535 + 1)) = 0 := by omega
    rw [if_neg hne]
    have e : s + (65535 - ((s - 1) % 65535 + 1)) - 1
        = 65534 + 65535 * ((s - 1) / 65535) := by omega
    rw [e, Nat.add_mul_mod_self_left]

theorem u16_bytes_word (v : Nat) (hv : v < 65536) :
    word_sum (u16_bytes v) = v := by
  simp only [u16_bytes, word_sum]
  omega

/-- C35: `checksum` returns the complement of the one's-complement sum of
the 16-bit words of the buffer, and it verifies itself: for a buffer with a
zero checksum field at an even offset, of even length (an odd last byte is
allowed too) and small enough for the 32-bit sum not to overflow, the
checksum of the buffer with its checksum stored in the field is 0. -/
theorem checksum_verifies_itself (pre post : List Nat)
    (hpre : pre.length % 2 = 0)
    (hsum : word_sum pre + word_sum post + 65535 < 4294967296) :
    ∃ c, checksum (pre ++ [0, 0] ++ post)
          ((pre ++ [0, 0] ++ post).length : Int) = some c ∧
      c = 65535 - ones_complement_fold (word_sum (pre ++ [0, 0] ++ post)) ∧
      c < 65536 ∧
      (pre ++ u16_bytes c ++ post).length = (pre ++ [0, 0] ++ post).length ∧
      checksum (pre ++ u16_bytes c ++ post)
          ((pre ++ u16_bytes c ++ post).length : Int) = some 0 := by
  have hpre2 : (pre ++ [0, 0]).length % 2 = 0 := by
    simp only [List.length_append, List.length_cons, List.length_nil]
    omega
  have hw : word_sum (pre ++ [0, 0] ++ post) = word_sum pre + word_sum post := by
    rw [word_sum_append _ _ hpre2, word_sum_append _ _ hpre]
    simp [word_sum]
  have hle := ones_complement_fold_le (word_sum pre + word_sum post)
  obtain ⟨c, hc⟩ : ∃ c, c = 65535 - ones_complement_fold
      (word_sum pre + word_sum post) := ⟨_, rfl⟩
  have hc16 : c < 65536 := by omega
  have hpre3 : (pre ++ u16_bytes c).length % 2 = 0 := by
    simp only [u16_bytes, List.length_append, List.length_cons,
      List.length_nil]
    omega
  have hw2 : word_sum (pre ++ u16_bytes c ++ post)
      = word_sum pre + word_sum post + c := by
    rw [word_sum_append _ _ hpre3, word_sum_append _ _ hpre,
      u16_bytes_word c hc16]
    omega
  refine ⟨c, ?_, ?_, hc16, ?_, ?_⟩
  · rw [checksum_value _ (by rw [hw]; omega), hw, hc]
  · rw [hw, hc]
  · simp [u16_bytes]
  · rw [checksum_value _ (by rw [hw2]; omega), hw2, hc,
      ones_complement_fold_closed]

/-- C35 at the 64-byte packet of `ping4`: its checksum is 0xfb24, and the
checksum of the packet with 0xfb24 stored in the field is 0. -/
theorem checksum_verifies_itself_witness :
    checksum ping4_packet 64 = some 0xfb24 ∧
    checksum ([8, 0] ++ u16_bytes 0xfb24 ++
        ([0xd2, 0x04, 1, 0] ++ List.replicate 56 0)) 64 = some 0 :=
  have h := checksum_verifies_itself [8, 0]
    ([0xd2, 0x04, 1, 0] ++ List.replicate 56 0) (by decide) (by decide)
  ⟨by decide, by
    obtain ⟨c, h1, _, _, _, h5⟩ := h
    have hc : c = 0xfb24 := by
      have h0 : checksum ([8, 0] ++ [0, 0] ++
          ([0xd2, 0x04, 1, 0] ++ List.replicate 56 0))
          (([8, 0] ++ [0, 0] ++
            ([0xd2, 0x04, 1, 0] ++ List.replicate 56 0)).length : Int)
          = some 0xfb24 := by decide
      rw [h0] at h1
      exact (Option.some.inj h1).symm
    subst hc
    exact h5⟩

/-- A buffer of at most 131070 bytes is small enough. -/
theorem checksum_small_buffer (pre post : List Nat) (hpre : bytes_wf pre)
    (hpost : bytes_wf post)
    (hlen : (pre ++ [0, 0] ++ post).length ≤ 131070) :
    word_sum pre + word_sum post + 65535 < 4294967296 := by
  have h1 := word_sum_le pre hpre
  have h2 := word_sum_le post hpost
  simp only [List.length_append, List.length_cons, List.length_nil] at hlen
  omega

/-- An odd length adds the last byte, and a length that is not positive
gives the complement of 0. -/
theorem checksum_runs :
    checksum [0x01, 0x02, 0x03] 3 = some 0xfdfb ∧
    checksum [0x01, 0x02, 0x03] 0 = some 0xffff ∧
    checksum [0x01, 0x02, 0x03] 4 = none := by decide

/-! ## Widening the candidate's prefix -/

/-- C36: for 32-bit addresses `a` and `b`, an existing prefix length `q` and
candidate prefix lengths `p'` and `p` with 1 ≤ p' ≤ p ≤ 32, when the collision
test holds for the candidate a/p against b/q it holds for the candidate a/p'
against b/q; the same for the detector's comparison of the candidate with
an address string. -/
theorem widening_keeps_collision (a b p p' q : Nat) (ha : a < 2 ^ 32)
    (hb : b < 2 ^ 32) (hp1 : 1 ≤ p') (hpp : p' ≤ p) (hp : p ≤ 32)
    (hq1 : 1 ≤ q) (hq : q ≤ 32) :
    (ipv4_collision_test a p b q = some true →
      ipv4_collision_test a p' b q = some true) ∧
    (∀ port_address : CStr, l3_utils_ipv4_address port_address = some b →
      l3_utils_mask_bits port_address AF_INET = q →
      ipv4_masked_equal a p port_address = some true →
      ipv4_masked_equal a p' port_address = some true) := by
  have hmain : ipv4_collision_test a p b q = some true →
      ipv4_collision_test a p' b q = some true := by
    intro hc
    rw [ipv4_collision_test_value a p b q ha hb (by omega) hp hq1 hq] at hc
    rw [ipv4_collision_test_value a p' b q ha hb hp1 (by omega) hq1 hq]
    have hc2 : a / 2 ^ (32 - min p q) = b / 2 ^ (32 - min p q) := by
      simpa using hc
    have := div_pow_of_div_pow a b (32 - min p q) (32 - min p' q)
      (by omega) hc2
    simp [this]
  refine ⟨hmain, ?_⟩
  intro port_address haddr hbits
  rw [ipv4_masked_equal_eq, ipv4_masked_equal_eq, haddr, hbits]
  exact hmain

/-- C36 at 10.0.0.1/24 against 10.0.0.200/24, widened to 10.0.0.1/16. -/
theorem widening_keeps_collision_witness :
    ipv4_collision_test 167772161 24 167772360 24 = some true ∧
    ipv4_collision_test 167772161 16 167772360 24 = some true :=
  ⟨by decide,
    (widening_keeps_collision 167772161 167772360 24 16 24 (by norm_num)
      (by norm_num) (by norm_num) (by norm_num) (by norm_num) (by norm_num)
      (by norm_num)).1 (by decide)⟩

/-- Narrowing can remove a collision: 10.0.0.1/16 collides with 10.0.1.1/24,
10.0.0.1/24 does not. -/
theorem narrowing_removes_collision :
    ipv4_collision_test 167772161 16 167772417 24 = some true ∧
    ipv4_collision_test 167772161 24 167772417 24 = some false := by decide

/-! ## The two conversions of ops-utils are inverse to each other -/

theorem le_value_le_bytes_mod (n v : Nat) :
    le_value (le_bytes n v) = v % 256 ^ n := by
  induction n generalizing v with
  | zero => simp [le_bytes, le_value, Nat.mod_one]
  | succ n ih =>
    rw [le_bytes, le_value, ih, pow_succ', Nat.mod_mul]

theorem be_value_be_bytes_mod (n v : Nat) :
    be_value (be_bytes n v) = v % 256 ^ n := by
  simp [be_value, be_bytes, le_value_le_bytes_mod]

theorem char_array_to_ulong_long_exact (char_array : List Nat)
    (hb : bytes_wf char_array) (hn : char_array.length ≤ 8) :
    ops_char_array_to_ulong_long char_array char_array.length
      = some (be_value char_array) := by
  unfold ops_char_array_to_ulong_long
  rw [char_array_loop_value char_array char_array.length 0 0 (by omega)
    (by norm_num)]
  have hlt := be_value_lt char_array hb
  have hpow : 256 ^ char_array.length ≤ 256 ^ 8 :=
    Nat.pow_le_pow_right (by norm_num) hn
  have h8 : (256 : Nat) ^ 8 = 18446744073709551616 := by norm_num
  simp only [List.drop_zero, List.take_length, Nat.zero_mul, Nat.zero_add]
  rw [Nat.mod_eq_of_lt (by omega)]

/-- C37: for every length n from 0 to 8, an array of n bytes converted to a
number by `ops_char_array_to_ulong_long` and back by
`ops_ulong_long_to_char_array` is the array again, and a value v converted
to n bytes and back is v modulo 2^(8n), which is v itself when v is below
2^(8n). -/
theorem char_array_conversions_inverse (n : Nat) (hn : n ≤ 8) :
    (∀ char_array buf : List Nat, bytes_wf char_array →
      char_array.length = n → buf.length = n →
      ∃ v, ops_char_array_to_ulong_long char_array n = some v ∧
        ops_ulong_long_to_char_array v n buf = char_array) ∧
    (∀ (v : Nat) (buf : List Nat), v < 2 ^ 64 → buf.length = n →
      ops_char_array_to_ulong_long (ops_ulong_long_to_char_array v n buf) n
        = some (v % 2 ^ (8 * n)) ∧
      (v < 2 ^ (8 * n) →
        ops_char_array_to_ulong_long (ops_ulong_long_to_char_array v n buf) n
          = some v)) := by
  have hpow : (256 : Nat) ^ n = 2 ^ (8 * n) := by
    rw [pow_mul]
    norm_num
  refine ⟨?_, ?_⟩
  · intro char_array buf hb hlen hbuf
    refine ⟨be_value char_array, ?_, ?_⟩
    · have := char_array_to_ulong_long_exact char_array hb (by omega)
      rw [hlen] at this
      exact this
    · rw [to_char_array_value _ n buf hbuf (by omega), ← hlen]
      exact be_bytes_be_value char_array hb
  · intro v buf _ hbuf
    have hback : ops_char_array_to_ulong_long
        (ops_ulong_long_to_char_array v n buf) n = some (v % 2 ^ (8 * n)) := by
      rw [to_char_array_value _ n buf hbuf (by omega)]
      have := char_array_to_ulong_long_exact (be_bytes n v) (be_bytes_wf n v)
        (by rw [be_bytes_length]; exact hn)
      rw [be_bytes_length] at this
      rw [this, be_value_be_bytes_mod, hpow]
    refine ⟨hback, ?_⟩
    intro hv
    rw [hback, Nat.mod_eq_of_lt hv]

/-- C37 at n = 3: the array 12 34 56 and the value 0x123456, and the value
0x1234567 cut to its three low bytes. -/
theorem char_array_conversions_inverse_witness :
    (∃ v, ops_char_array_to_ulong_long [0x12, 0x34, 0x56] 3 = some v ∧
      ops_ulong_long_to_char_array v 3 [0, 0, 0] = [0x12, 0x34, 0x56]) ∧
    ops_char_array_to_ulong_long
      (ops_ulong_long_to_char_array 0x1234567 3 [0, 0, 0]) 3 = some 0x234567 :=
  have h := char_array_conversions_inverse 3 (by decide)
  ⟨h.1 [0x12, 0x34, 0x56] [0, 0, 0] (by unfold bytes_wf; decide) rfl rfl,
    ((h.2 0x1234567 [0, 0, 0] (by norm_num) rfl).1).trans (by decide)⟩

/-! ## The interface name of the lookup -/

theorem snprintf_ifname (if_name : CStr) :
    snprintf (IFNAMSIZ - 1) if_name = if_name.take 14 := rfl

theorem nl_if_nametoindex_value (k : kernel) (enter leave : setns_outcome)
    (tdata0 : nlutils_op_data) (ns_name if_name : CStr) (m : machine) :
    (nl_if_nametoindex k enter leave tdata0 ns_name if_name m).1
      = to_uint (k.ifindex_of (nl_lookup_namespace enter ns_name m)
          (if_name.take 14) : Int) := by
  unfold nl_if_nametoindex
  simp only
  rw [nl_perform_nametoindex _ _ _ _ _ rfl]
  have h := nl_enter_namespace enter ns_name m
  simp only [snprintf_ifname]
  cases hnd : nl_is_nondefault_ns (some ns_name)
  · rw [hnd] at h
    simp only [Bool.false_eq_true, if_false] at h ⊢
    rw [h]
  · rw [hnd] at h
    simp only [if_true] at h ⊢
    rw [h]

theorem vrf_if_nametoindex_value (DEFAULT_VRF_NAME : CStr)
    (OVSDB_VRF_NAME_MAXLEN : Nat) (k : kernel) (o : op_outcome)
    (tdata0 : nlutils_op_data) (idl : List ovsrec_vrf)
    (vrf_name : Option CStr) (if_name : CStr) (m : machine)
    (h : (get_vrf_ns_from_name DEFAULT_VRF_NAME OVSDB_VRF_NAME_MAXLEN idl
      vrf_name []).1 = 0)
    (hruns : worker_runs DEFAULT_VRF_NAME
      (get_vrf_ns_from_name DEFAULT_VRF_NAME OVSDB_VRF_NAME_MAXLEN idl
        vrf_name []).2 o) :
    (vrf_if_nametoindex DEFAULT_VRF_NAME OVSDB_VRF_NAME_MAXLEN k o tdata0 idl
        vrf_name if_name m).value
      = some (to_uint (k.ifindex_of
          (vrf_lookup_namespace DEFAULT_VRF_NAME
            (get_vrf_ns_from_name DEFAULT_VRF_NAME OVSDB_VRF_NAME_MAXLEN idl
              vrf_name []).2 m) (if_name.take 14) : Int)) := by
  rw [vrf_if_nametoindex_eq _ _ _ _ _ _ _ _ _ h]
  unfold vrf_lookup_namespace
  by_cases hnd : is_nondefault_vrf DEFAULT_VRF_NAME
      (some (get_vrf_ns_from_name DEFAULT_VRF_NAME OVSDB_VRF_NAME_MAXLEN
        idl vrf_name []).2) = true
  · obtain ⟨hc, ho, hs⟩ := hruns hnd
    obtain ⟨m1, m2, hw, hrun⟩ := vrf_perform_socket_operation_runs k o
      { tdata0 with
        ns_name := snprintf (MAX_BUFFER_SIZE - 1)
          (get_vrf_ns_from_name DEFAULT_VRF_NAME OVSDB_VRF_NAME_MAXLEN
            idl vrf_name []).2,
        ni_ifname := snprintf (IFNAMSIZ - 1) if_name,
        operation := NLUTILS_IFNAME_TO_INDEX } m hc ho hs
    rw [if_pos hnd, if_pos hnd, hrun]
    simp only [outcome.map, outcome.value]
    rw [nl_perform_nametoindex _ _ _ _ _ rfl]
    simp only [thread_ns, hw, snprintf_ifname]
  · rw [if_neg hnd, if_neg hnd]
    simp only [outcome.value]
    rw [nl_perform_nametoindex _ _ _ _ _ rfl]
    simp only [thread_ns, snprintf_ifname]

theorem take_14_ne (if_name : CStr) (h : 14 < if_name.length) :
    if_name.take 14 ≠ if_name := by
  intro he
  have hl := congrArg List.length he
  rw [List.length_take] at hl
  omega

/-- C38 fails: `nl_if_nametoindex` and `vrf_if_nametoindex` copy the
interface name with `snprintf` of size `IFNAMSIZ - 1`, which keeps 14
characters: the index returned is that of the first 14 characters of the
name in the namespace of the lookup.  The name of the request is the input
name when that has at most 14 characters, and not for a name of 15
characters. -/
theorem interface_name_is_cut (DEFAULT_VRF_NAME : CStr)
    (OVSDB_VRF_NAME_MAXLEN : Nat) (k : kernel) (enter leave : setns_outcome)
    (o : op_outcome) (tdata0 : nlutils_op_data) (idl : List ovsrec_vrf)
    (vrf_name : Option CStr) (ns_name if_name : CStr) (m : machine) :
    (nl_if_nametoindex k enter leave tdata0 ns_name if_name m).1
      = to_uint (k.ifindex_of (nl_lookup_namespace enter ns_name m)
          (snprintf (IFNAMSIZ - 1) if_name) : Int) ∧
    ((get_vrf_ns_from_name DEFAULT_VRF_NAME OVSDB_VRF_NAME_MAXLEN idl
        vrf_name []).1 = 0 →
      worker_runs DEFAULT_VRF_NAME
        (get_vrf_ns_from_name DEFAULT_VRF_NAME OVSDB_VRF_NAME_MAXLEN idl
          vrf_name []).2 o →
      (vrf_if_nametoindex DEFAULT_VRF_NAME OVSDB_VRF_NAME_MAXLEN k o tdata0
          idl vrf_name if_name m).value
        = some (to_uint (k.ifindex_of
            (vrf_lookup_namespace DEFAULT_VRF_NAME
              (get_vrf_ns_from_name DEFAULT_VRF_NAME OVSDB_VRF_NAME_MAXLEN
                idl vrf_name []).2 m)
            (snprintf (IFNAMSIZ - 1) if_name) : Int))) ∧
    snprintf (IFNAMSIZ - 1) if_name = if_name.take 14 ∧
    (if_name.length ≤ 14 → snprintf (IFNAMSIZ - 1) if_name = if_name) ∧
    (if_name.length = 15 →
      snprintf (IFNAMSIZ - 1) if_name ≠ if_name ∧
      (snprintf (IFNAMSIZ - 1) if_name).length = 14) := by
  refine ⟨?_, ?_, rfl, ?_, ?_⟩
  · rw [snprintf_ifname]
    exact nl_if_nametoindex_value k enter leave tdata0 ns_name if_name m
  · intro h hruns
    rw [snprintf_ifname]
    exact vrf_if_nametoindex_value DEFAULT_VRF_NAME OVSDB_VRF_NAME_MAXLEN k o
      tdata0 idl vrf_name if_name m h hruns
  · intro hlen
    rw [snprintf_ifname]
    exact List.take_of_length_le hlen
  · intro hlen
    rw [snprintf_ifname]
    refine ⟨take_14_ne if_name (by omega), ?_⟩
    rw [List.length_take]
    omega

/-- C38 fails at the interface "verylongname015" of index 7, beside the
interface "verylongname01" of index 3 in the same namespace: both functions
return 3, the index of the other interface. -/
theorem interface_name_is_cut_witness :
    kernel_long_names.ifindex_of (cstr "/var/run/netns/swns")
      (cstr "verylongname015") = 7 ∧
    (nl_if_nametoindex kernel_long_names
        { open_ok := true, setns_ok := true }
        { open_ok := true, setns_ok := true } tdata_zero (cstr "swns")
        (cstr "verylongname015") machine_swns).1 = 3 ∧
    (vrf_if_nametoindex (cstr "vrf_default") 32 kernel_long_names
        { pthread_create := 0, enter := { open_ok := true, setns_ok := true },
          socket_ok := true }
        tdata_zero [vrf_blue, vrf_red] (some (cstr "vrf_default"))
        (cstr "verylongname015") machine_swns).value = some 3 :=
  have h := interface_name_is_cut (cstr "vrf_default") 32 kernel_long_names
    { open_ok := true, setns_ok := true } { open_ok := true, setns_ok := true }
    { pthread_create := 0, enter := { open_ok := true, setns_ok := true },
      socket_ok := true }
    tdata_zero [vrf_blue, vrf_red] (some (cstr "vrf_default")) (cstr "swns")
    (cstr "verylongname015") machine_swns
  ⟨by decide, h.1.trans (by decide),
    (h.2.1 (by decide) (by intro hnd; exact absurd hnd (by decide))).trans
      (by decide)⟩

/-! ## Creating and closing a socket by table_id -/

/-- C39 fails: `vrf_close_socket_using_table_id` closes the descriptor and
returns 0 exactly when the VRF table has a record with the table_id, while
`vrf_create_socket_using_table_id` resolves table_id 0 to the default
namespace without a record.  For a non-zero table_id the two agree; for
table_id 0 and a table without such a record, the namespace is resolved and
the socket is created, but the close returns -1 and leaves every descriptor
as it is. -/
theorem close_needs_a_record (idl : List ovsrec_vrf) (table_id : Int)
    (socket_fd : Int) (m : machine) :
    (∀ r, vrf_lookup_on_table_id idl table_id = some r →
      vrf_close_socket_using_table_id idl table_id socket_fd m
        = (0, (sys_close socket_fd m).2)) ∧
    (vrf_lookup_on_table_id idl table_id = none →
      vrf_close_socket_using_table_id idl table_id socket_fd m = (-1, m)) ∧
    (table_id ≠ 0 →
      ((get_vrf_ns_from_table_id idl table_id []).1 = 0 ↔
        vrf_lookup_on_table_id idl table_id ≠ none)) ∧
    (table_id = 0 →
      get_vrf_ns_from_table_id idl table_id [] = (0, cstr "swns") ∧
      ∀ DEFAULT_VRF_NAME k o tdata0 params,
        vrf_create_socket_using_table_id DEFAULT_VRF_NAME k o tdata0 idl
            table_id params m
          = vrf_create_socket DEFAULT_VRF_NAME k o tdata0 (cstr "swns") params
              m) := by
  refine ⟨?_, ?_, ?_, ?_⟩
  · intro r hr
    simp [vrf_close_socket_using_table_id, hr, nl_close_ns_socket]
  · intro hnone
    simp [vrf_close_socket_using_table_id, hnone]
  · intro h0
    cases hl : vrf_lookup_on_table_id idl table_id with
    | none => simp [get_vrf_ns_from_table_id, h0, hl]
    | some r => simp [get_vrf_ns_from_table_id, h0, hl]
  · intro h0
    have hns : get_vrf_ns_from_table_id idl table_id [] = (0, cstr "swns") := by
      simp [get_vrf_ns_from_table_id, h0, snprintf_switch_namespace]
    refine ⟨hns, ?_⟩
    intro D k o tdata0 params
    simp only [vrf_create_socket_using_table_id, hns, if_true]

/-- C39 fails at table_id 0 on the table of "vrf_blue" and "vrf_red", which
has no record with table_id 0: the socket is created as descriptor 3, and
the close with table_id 0 and descriptor 3 returns -1 and leaves descriptor
3 open. -/
theorem close_needs_a_record_witness :
    vrf_create_socket_using_table_id (cstr "vrf_default") kernel_eth0
        { pthread_create := 0, enter := { open_ok := true, setns_ok := true },
          socket_ok := true }
        tdata_zero [vrf_blue, vrf_red] 0
        { nl_params := { family := 2, type := 1, protocol := 0 } } machine_swns
      = outcome.returned 3
          { machine_swns with
            files := (3, file.socket (cstr "/var/run/netns/swns")
              { family := 2, type := 1, protocol := 0 }) :: machine_swns.files,
            trace := [sys_event.opened 3
              (file.socket (cstr "/var/run/netns/swns")
                { family := 2, type := 1, protocol := 0 })] } ∧
    (∀ m : machine,
      vrf_close_socket_using_table_id [vrf_blue, vrf_red] 0 3 m = (-1, m)) ∧
    vrf_close_socket_using_table_id [vrf_blue, vrf_red] 5 3
        { machine_swns with
          files := (3, file.socket (cstr "/var/run/netns/swns")
            { family := 2, type := 1, protocol := 0 }) :: machine_swns.files }
      = (0, { machine_swns with trace := [sys_event.closed 3] }) :=
  ⟨rfl,
    fun m => (close_needs_a_record [vrf_blue, vrf_red] 0 3 m).2.1 (by decide),
    by decide⟩

/-! ## Names of the VRF table, compared over `OVSDB_VRF_NAME_MAXLEN` characters -/

/-- For C strings, `strncmp` over `n` bytes is 0 exactly when the first `n`
characters of the two strings are the same. -/
theorem strncmp_eq_zero_iff_take (a b : CStr) (n : Nat) (ha : 0 ∉ a)
    (hb : 0 ∉ b) : strncmp a b n = 0 ↔ a.take n = b.take n := by
  induction n generalizing a b with
  | zero => simp [strncmp]
  | succ n ih =>
    cases a with
    | nil =>
      cases b with
      | nil => simp [strncmp]
      | cons y ys =>
        have hy : y ≠ 0 := fun hy => hb (by simp [hy])
        simp only [strncmp, List.take_nil, List.take_succ_cons]
        constructor
        · intro h; omega
        · intro h; cases h
    | cons x xs =>
      have hx : x ≠ 0 := fun hx => ha (by simp [hx])
      have hxs : 0 ∉ xs := fun hm => ha (List.mem_cons_of_mem x hm)
      cases b with
      | nil =>
        simp only [strncmp, List.take_nil, List.take_succ_cons]
        constructor
        · intro h; omega
        · intro h; cases h
      | cons y ys =>
        have hys : 0 ∉ ys := fun hm => hb (List.mem_cons_of_mem y hm)
        simp only [strncmp, List.take_succ_cons]
        by_cases hxy : x = y
        · subst hxy
          simp only [if_true, List.cons.injEq, true_and]
          exact ih xs ys hxs hys
        · simp only [hxy, if_false, List.cons.injEq, false_and, iff_false]
          omega

/-- A record matches a queried name when its name is the first
`OVSDB_VRF_NAME_MAXLEN` characters of the queried name. -/
theorem vrf_lookup_match_iff (OVSDB_VRF_NAME_MAXLEN : Nat)
    (idl : List ovsrec_vrf) (name : CStr) (q : ovsrec_vrf)
    (hwf : vrf_table_wf OVSDB_VRF_NAME_MAXLEN idl) (hn : 0 ∉ name)
    (hq : q ∈ idl) :
    strncmp q.name name OVSDB_VRF_NAME_MAXLEN = 0
      ↔ q.name = name.take OVSDB_VRF_NAME_MAXLEN := by
  rw [strncmp_eq_zero_iff_take q.name name _ (hwf q hq).1 hn,
    List.take_of_length_le (hwf q hq).2.1]

theorem vrf_lookup_take_eq_none_iff (OVSDB_VRF_NAME_MAXLEN : Nat)
    (idl : List ovsrec_vrf) (name : CStr)
    (hwf : vrf_table_wf OVSDB_VRF_NAME_MAXLEN idl) (hn : 0 ∉ name) :
    vrf_lookup OVSDB_VRF_NAME_MAXLEN idl name = none
      ↔ ∀ q ∈ idl, q.name ≠ name.take OVSDB_VRF_NAME_MAXLEN := by
  unfold vrf_lookup
  rw [List.find?_eq_none]
  constructor
  · intro h q hq he
    have := h q hq
    rw [decide_eq_true_eq] at this
    exact this ((vrf_lookup_match_iff _ idl name q hwf hn hq).mpr he)
  · intro h q hq
    rw [decide_eq_true_eq]
    intro hz
    exact h q hq ((vrf_lookup_match_iff _ idl name q hwf hn hq).mp hz)

theorem vrf_lookup_take_some (OVSDB_VRF_NAME_MAXLEN : Nat)
    (idl : List ovsrec_vrf) (name : CStr) (r : ovsrec_vrf)
    (hwf : vrf_table_wf OVSDB_VRF_NAME_MAXLEN idl) (hn : 0 ∉ name)
    (h : vrf_lookup OVSDB_VRF_NAME_MAXLEN idl name = some r) :
    r ∈ idl ∧ r.name = name.take OVSDB_VRF_NAME_MAXLEN := by
  unfold vrf_lookup at h
  have hm : r ∈ idl := List.mem_of_find?_eq_some h
  have hp := List.find?_some h
  rw [decide_eq_true_eq] at hp
  exact ⟨hm, (vrf_lookup_match_iff _ idl name r hwf hn hm).mp hp⟩

theorem vrf_lookup_take_unique (OVSDB_VRF_NAME_MAXLEN : Nat)
    (idl : List ovsrec_vrf) (name : CStr) (r : ovsrec_vrf)
    (hwf : vrf_table_wf OVSDB_VRF_NAME_MAXLEN idl) (hn : 0 ∉ name)
    (huniq : vrf_names_unique idl) (hr : r ∈ idl)
    (hrn : r.name = name.take OVSDB_VRF_NAME_MAXLEN) :
    vrf_lookup OVSDB_VRF_NAME_MAXLEN idl name = some r := by
  unfold vrf_lookup
  apply find_unique idl r _ hr
  · intro q hq hp
    rw [decide_eq_true_eq] at hp
    have := (vrf_lookup_match_iff _ idl name q hwf hn hq).mp hp
    exact huniq q hq r hr (by rw [this, hrn])
  · rw [decide_eq_true_eq]
    exact (vrf_lookup_match_iff _ idl name r hwf hn hr).mpr hrn

theorem get_vrf_ns_from_name_default (DEFAULT_VRF_NAME : CStr)
    (OVSDB_VRF_NAME_MAXLEN : Nat) (idl : List ovsrec_vrf) (buf : CStr) :
    get_vrf_ns_from_name DEFAULT_VRF_NAME OVSDB_VRF_NAME_MAXLEN idl
        (some DEFAULT_VRF_NAME) buf = (0, cstr "swns") ∧
    get_vrf_ns_from_name DEFAULT_VRF_NAME OVSDB_VRF_NAME_MAXLEN idl
        (some SWITCH_NAMESPACE) buf = (0, cstr "swns") ∧
    get_vrf_ns_from_name DEFAULT_VRF_NAME OVSDB_VRF_NAME_MAXLEN idl
        none buf = (0, cstr "swns") := by
  refine ⟨?_, ?_, ?_⟩
  · simp [get_vrf_ns_from_name, is_nondefault_vrf_default,
      snprintf_switch_namespace]
  · simp [get_vrf_ns_from_name, is_nondefault_vrf_switch_namespace,
      snprintf_switch_namespace]
  · simp [get_vrf_ns_from_name, is_nondefault_vrf, snprintf_switch_namespace]

/-- C11 (amended): for a VRF name that begins neither with the reserved
default VRF name nor with the default namespace name "swns",
`get_vrf_ns_from_name` returns -1 and leaves the output buffer as it was
exactly when no record of the VRF table has the first
`OVSDB_VRF_NAME_MAXLEN` characters of the name as its name, and returns 0
when a record has; the reserved name, the name "swns" and a NULL name give
0 with the default namespace name.  `get_vrf_ns_from_table_id` returns -1
and leaves the output buffer as it was for a non-zero table_id that no
record carries as a set table_id, and returns 0 in every other case. -/
theorem resolver_failure_keeps_buffer (DEFAULT_VRF_NAME : CStr)
    (OVSDB_VRF_NAME_MAXLEN : Nat) (idl : List ovsrec_vrf)
    (name : CStr) (table_id : Int) (buf : CStr)
    (hD : 0 ∉ DEFAULT_VRF_NAME)
    (hwf : vrf_table_wf OVSDB_VRF_NAME_MAXLEN idl)
    (hn : 0 ∉ name) :
    (¬ SWITCH_NAMESPACE <+: name → ¬ DEFAULT_VRF_NAME <+: name →
      ((∀ q ∈ idl, q.name ≠ name.take OVSDB_VRF_NAME_MAXLEN) →
        get_vrf_ns_from_name DEFAULT_VRF_NAME OVSDB_VRF_NAME_MAXLEN idl
          (some name) buf = (-1, buf)) ∧
      ((∃ q ∈ idl, q.name = name.take OVSDB_VRF_NAME_MAXLEN) →
        (get_vrf_ns_from_name DEFAULT_VRF_NAME OVSDB_VRF_NAME_MAXLEN idl
          (some name) buf).1 = 0)) ∧
    (get_vrf_ns_from_name DEFAULT_VRF_NAME OVSDB_VRF_NAME_MAXLEN idl
        (some DEFAULT_VRF_NAME) buf = (0, cstr "swns") ∧
      get_vrf_ns_from_name DEFAULT_VRF_NAME OVSDB_VRF_NAME_MAXLEN idl
        (some SWITCH_NAMESPACE) buf = (0, cstr "swns") ∧
      get_vrf_ns_from_name DEFAULT_VRF_NAME OVSDB_VRF_NAME_MAXLEN idl
        none buf = (0, cstr "swns")) ∧
    (table_id ≠ 0 → (∀ q ∈ idl, q.table_id ≠ some table_id) →
      get_vrf_ns_from_table_id idl table_id buf = (-1, buf)) ∧
    (¬ (table_id ≠ 0 ∧ ∀ q ∈ idl, q.table_id ≠ some table_id) →
      (get_vrf_ns_from_table_id idl table_id buf).1 = 0) := by
  refine ⟨?_, get_vrf_ns_from_name_default _ _ idl buf, ?_, ?_⟩
  · intro hswns hdef
    have h1 := is_nondefault_vrf_other DEFAULT_VRF_NAME name hD hswns hdef
    refine ⟨?_, ?_⟩
    · intro hno
      have h2 := (vrf_lookup_take_eq_none_iff _ idl name hwf hn).mpr hno
      simp [get_vrf_ns_from_name, h1, h2]
    · rintro ⟨q, hq, hqn⟩
      cases h2 : vrf_lookup OVSDB_VRF_NAME_MAXLEN idl name with
      | none =>
        exact absurd hqn
          ((vrf_lookup_take_eq_none_iff _ idl name hwf hn).mp h2 q hq)
      | some r => simp [get_vrf_ns_from_name, h1, h2]
  · intro ht hno
    have h2 := (vrf_lookup_on_table_id_eq_none_iff idl table_id).mpr hno
    simp [get_vrf_ns_from_table_id, ht, h2]
  · intro hnot
    by_cases ht : table_id = 0
    · simp [get_vrf_ns_from_table_id, ht]
    · cases h2 : vrf_lookup_on_table_id idl table_id with
      | none =>
        exact absurd ⟨ht, (vrf_lookup_on_table_id_eq_none_iff idl
          table_id).mp h2⟩ hnot
      | some r => simp [get_vrf_ns_from_table_id, ht, h2]

/-- C11 (amended) at the table of "vrf_blue" and "vrf_red" (table_id 5), for
the name "vrf_green" and the table_id 9, with the reserved name
"vrf_default" and names of at most 32 characters: both calls return -1 and
leave "old" in the buffer. -/
theorem resolver_failure_keeps_buffer_witness :
    get_vrf_ns_from_name (cstr "vrf_default") 32 [vrf_blue, vrf_red]
      (some (cstr "vrf_green")) (cstr "old") = (-1, cstr "old") ∧
    get_vrf_ns_from_table_id [vrf_blue, vrf_red] 9 (cstr "old")
      = (-1, cstr "old") :=
  have h := resolver_failure_keeps_buffer (cstr "vrf_default") 32
    [vrf_blue, vrf_red] (cstr "vrf_green") 9 (cstr "old") (by decide)
    (by unfold vrf_table_wf; decide) (by decide)
  ⟨(h.1 (by decide) (by decide)).1 (by decide),
    h.2.2.1 (by decide) (by decide)⟩

/-- C11 as stated fails: with the reserved name "vrf_default", the name
"swns" is not the reserved name and no record of the table of "vrf_blue" and
"vrf_red" has it, and `get_vrf_ns_from_name` called with it returns 0 and
replaces the content of the buffer by the default namespace name. -/
theorem resolver_failure_counterexample :
    cstr "swns" ≠ cstr "vrf_default" ∧
    (∀ q ∈ [vrf_blue, vrf_red], q.name ≠ cstr "swns") ∧
    get_vrf_ns_from_name (cstr "vrf_default") 32 [vrf_blue, vrf_red]
        (some (cstr "swns")) (cstr "old") = (0, cstr "swns") ∧
    get_vrf_ns_from_name (cstr "vrf_default") 32 [vrf_blue, vrf_red]
        (some (cstr "swns")) (cstr "old") ≠ (-1, cstr "old") := by
  decide

/-- C12 (amended): `vrf_is_ready` returns true for the reserved default VRF
name, for the default namespace name "swns" and for a NULL name, whatever
the table holds; for a name that begins with neither of the two it returns
true exactly when a record of the table has the first
`OVSDB_VRF_NAME_MAXLEN` characters of the name as its name and its status
map holds the value "true" under the key "namespace_ready" (names in the
table being unique). -/
theorem vrf_is_ready_iff (DEFAULT_VRF_NAME : CStr)
    (OVSDB_VRF_NAME_MAXLEN : Nat) (idl : List ovsrec_vrf) (name : CStr)
    (hD : 0 ∉ DEFAULT_VRF_NAME)
    (hwf : vrf_table_wf OVSDB_VRF_NAME_MAXLEN idl)
    (huniq : vrf_names_unique idl) (hn : 0 ∉ name) :
    (vrf_is_ready DEFAULT_VRF_NAME OVSDB_VRF_NAME_MAXLEN idl
        (some DEFAULT_VRF_NAME) = true ∧
      vrf_is_ready DEFAULT_VRF_NAME OVSDB_VRF_NAME_MAXLEN idl
        (some SWITCH_NAMESPACE) = true ∧
      vrf_is_ready DEFAULT_VRF_NAME OVSDB_VRF_NAME_MAXLEN idl none = true) ∧
    (¬ SWITCH_NAMESPACE <+: name → ¬ DEFAULT_VRF_NAME <+: name →
      (vrf_is_ready DEFAULT_VRF_NAME OVSDB_VRF_NAME_MAXLEN idl (some name)
          = true
        ↔ ∃ r ∈ idl, r.name = name.take OVSDB_VRF_NAME_MAXLEN ∧
            smap_get r.status (cstr "namespace_ready")
              = some (cstr "true"))) := by
  refine ⟨⟨?_, ?_, ?_⟩, ?_⟩
  · simp [vrf_is_ready, is_nondefault_vrf_default]
  · simp [vrf_is_ready, is_nondefault_vrf_switch_namespace]
  · simp [vrf_is_ready, is_nondefault_vrf]
  · intro hswns hdef
    have h1 := is_nondefault_vrf_other DEFAULT_VRF_NAME name hD hswns hdef
    have hkey : VRF_STATUS_KEY = cstr "namespace_ready" := rfl
    constructor
    · intro h
      simp only [vrf_is_ready, h1, Bool.true_eq_false, if_false,
        Option.getD_some] at h
      cases h2 : vrf_lookup OVSDB_VRF_NAME_MAXLEN idl name with
      | none => rw [h2] at h; cases h
      | some r =>
        rw [h2] at h
        simp only at h
        obtain ⟨hr, hrn⟩ := vrf_lookup_take_some _ idl name r hwf hn h2
        refine ⟨r, hr, hrn, ?_⟩
        rw [← hkey]
        cases h3 : smap_get r.status VRF_STATUS_KEY with
        | none => rw [h3] at h; cases h
        | some value =>
          rw [h3] at h
          simp only [decide_eq_true_eq] at h
          obtain ⟨kv, hkv, hv⟩ := smap_get_mem _ _ _ h3
          have hv0 : 0 ∉ value := hv ▸ (hwf r hr).2.2 kv hkv
          rw [(strncmp_short_eq_zero_iff value VRF_STATUS_VALUE _ hv0
            (by decide) (by decide)).mp h]
          rfl
    · rintro ⟨r, hr, hrn, hs⟩
      have h2 := vrf_lookup_take_unique _ idl name r hwf hn huniq hr hrn
      rw [← hkey] at hs
      simp only [vrf_is_ready, h1, Bool.true_eq_false, if_false,
        Option.getD_some, h2, hs]
      decide

/-- C12 (amended) at the table of "vrf_blue" and a ready "vrf_red", with the
reserved name "vrf_default" and names of at most 32 characters: "vrf_red"
is ready, and so is the reserved name. -/
theorem vrf_is_ready_iff_witness :
    vrf_is_ready (cstr "vrf_default") 32 [vrf_blue, vrf_red_tacacs]
      (some (cstr "vrf_red")) = true ∧
    vrf_is_ready (cstr "vrf_default") 32 [vrf_blue, vrf_red_tacacs]
      (some (cstr "vrf_default")) = true :=
  have hu : vrf_names_unique [vrf_blue, vrf_red_tacacs] := by
    intro q hq r hr
    simp only [List.mem_cons, List.mem_singleton, List.not_mem_nil,
      or_false] at hq hr
    rcases hq with h | h <;> rcases hr with h2 | h2 <;> subst h <;>
      subst h2 <;> decide
  have h := vrf_is_ready_iff (cstr "vrf_default") 32
    [vrf_blue, vrf_red_tacacs] (cstr "vrf_red") (by decide)
    (by unfold vrf_table_wf; decide) hu (by decide)
  ⟨(h.2 (by decide) (by decide)).mpr ⟨vrf_red_tacacs, by simp, rfl, by decide⟩,
    h.1.1⟩

/-- C12 as stated fails: with the reserved name "vrf_default", the name
"swns" is not the reserved name and the empty table has no record of that
name, and `vrf_is_ready` returns true for it. -/
theorem vrf_is_ready_counterexample :
    cstr "swns" ≠ cstr "vrf_default" ∧
    vrf_is_ready (cstr "vrf_default") 32 [] (some (cstr "swns")) = true := by
  decide

/-- Names that only begin with the reserved name or with "swns" are taken
for the default VRF too: the comparison of `is_nondefault_vrf` is over the
length of the constant. -/
theorem longer_default_names :
    get_vrf_ns_from_name (cstr "vrf_default") 32 [vrf_blue, vrf_red]
        (some (cstr "vrf_default2")) (cstr "old") = (0, cstr "swns") ∧
    vrf_is_ready (cstr "vrf_default") 32 [] (some (cstr "swns1")) = true ∧
    vrf_is_ready (cstr "vrf_default") 32
      [{ vrf_red with name := cstr "vrf_default2",
                      status := [(cstr "namespace_ready", cstr "false")] }]
      (some (cstr "vrf_default2")) = true := by
  decide

/-! ## The source resolver and keys that begin with a protocol's key -/

theorem get_configured_first_begin (OVSDB_VRF_NAME_MAXLEN : Nat)
    (TFTP ALL : CStr) (idl : List ovsrec_vrf) (type : Nat) (name : CStr)
    (ps : protocol_source) (r : ovsrec_vrf)
    (before after : List (CStr × ovsrec_port)) (e : CStr × ovsrec_port)
    (ht : type < PROTOCOL_MAX)
    (hfind : vrf_lookup OVSDB_VRF_NAME_MAXLEN idl name = some r)
    (hk : 0 ∉ protocol_keys TFTP ALL type)
    (hip : smap_get r.source_ip (protocol_keys TFTP ALL type) = none)
    (hmap : r.source_interface = before ++ e :: after)
    (hbefore : ∀ b ∈ before, ¬ protocol_keys TFTP ALL type <+: b.1)
    (he : protocol_keys TFTP ALL type <+: e.1) :
    get_configured_protocol_source OVSDB_VRF_NAME_MAXLEN TFTP ALL (some idl)
        type (some name) (some ps)
      = (true, some { source := some e.2.name,
                      config_type := configuration_type.SOURCE_INTERFACE }) := by
  have hlt : ¬ type ≥ PROTOCOL_MAX := by omega
  have hloop := source_interface_loop_first _ hk before after e hbefore he
  rw [← hmap] at hloop
  simp only [get_configured_protocol_source, hlt, if_false, hfind, hip, hloop]

/-- C13 fails: `get_protocol_source` takes an entry of the source-interface
map for the protocol's entry as soon as its key begins with the protocol's key.
For a valid protocol P without a source IP, the call returns true with the
port of the first such entry, also when none of the four entries of the
claim is configured.  On a record whose source-interface keys are keys of
protocols the claim holds: the first configured entry in the order source
IP of P, source interface of P, source IP of all protocols, source
interface of all protocols, and false with the unset result exactly when
none of the four is configured. -/
theorem get_protocol_source_priority (OVSDB_VRF_NAME_MAXLEN : Nat)
    (TFTP ALL : CStr) (idl : List ovsrec_vrf) (type : Nat) (name : CStr)
    (ps : protocol_source) (r : ovsrec_vrf) (ht : type < PROTOCOL_MAX)
    (hfind : vrf_lookup OVSDB_VRF_NAME_MAXLEN idl name = some r)
    (hT : 0 ∉ TFTP) (hA : 0 ∉ ALL) :
    (∀ before e after,
      smap_get r.source_ip (protocol_keys TFTP ALL type) = none →
      r.source_interface = before ++ e :: after →
      (∀ b ∈ before, ¬ protocol_keys TFTP ALL type <+: b.1) →
      protocol_keys TFTP ALL type <+: e.1 →
      get_protocol_source OVSDB_VRF_NAME_MAXLEN TFTP ALL (some idl) type
          (some name) (some ps)
        = (true, some { source := some e.2.name,
                        config_type := configuration_type.SOURCE_INTERFACE })) ∧
    ((∀ e ∈ r.source_interface, ∀ t, t < PROTOCOL_MAX →
        protocol_keys TFTP ALL t <+: e.1 → e.1 = protocol_keys TFTP ALL t) →
      get_protocol_source OVSDB_VRF_NAME_MAXLEN TFTP ALL (some idl) type
          (some name) (some ps)
        = (match resolved_source r (protocol_keys TFTP ALL type) ALL with
          | some s => (true, some s)
          | none => (false, some unset_source)) ∧
      ((get_protocol_source OVSDB_VRF_NAME_MAXLEN TFTP ALL (some idl) type
          (some name) (some ps)).1 = false ↔
        smap_get r.source_ip (protocol_keys TFTP ALL type) = none ∧
        interface_entry r.source_interface (protocol_keys TFTP ALL type)
          = none ∧
        smap_get r.source_ip ALL = none ∧
        interface_entry r.source_interface ALL = none)) := by
  have hk : 0 ∉ protocol_keys TFTP ALL type := by
    have h4 : type = 0 ∨ type = 1 ∨ type = 2 ∨ type = 3 := by
      unfold PROTOCOL_MAX at ht
      omega
    rcases h4 with h | h | h | h <;> subst h
    · exact hT
    · show 0 ∉ VRF_SOURCE_INTERFACE_MAP_TACACS
      decide
    · show 0 ∉ VRF_SOURCE_INTERFACE_MAP_RADIUS
      decide
    · exact hA
  refine ⟨?_, ?_⟩
  · intro before e after hip hmap hbefore he
    have h := get_configured_first_begin OVSDB_VRF_NAME_MAXLEN TFTP ALL idl
      type name ps r before after e ht hfind hk hip hmap hbefore he
    simp only [get_protocol_source, h, if_true]
  · intro hkeys
    exact get_protocol_source_exact_keys OVSDB_VRF_NAME_MAXLEN TFTP ALL idl
      type name ps r ht hfind hT hA hkeys

/-- C13 fails at a record whose only source configuration is the port eth0
under the key "tftp2" (the keys of TFTP and of all protocols being "tftp"
and "all"): none of the four entries is configured for TFTP, and
`get_protocol_source` for TFTP returns true with the source "eth0". -/
theorem get_protocol_source_priority_witness :
    get_protocol_source 32 (cstr "tftp") (cstr "all")
        (some [vrf_blue, vrf_red_tftp2]) TFTP_PROTOCOL
        (some (cstr "vrf_red")) (some unset_source)
      = (true, some { source := some (cstr "eth0"),
                      config_type := configuration_type.SOURCE_INTERFACE }) ∧
    smap_get vrf_red_tftp2.source_ip (cstr "tftp") = none ∧
    interface_entry vrf_red_tftp2.source_interface (cstr "tftp") = none ∧
    smap_get vrf_red_tftp2.source_ip (cstr "all") = none ∧
    interface_entry vrf_red_tftp2.source_interface (cstr "all") = none :=
  ⟨(get_protocol_source_priority 32 (cstr "tftp") (cstr "all")
      [vrf_blue, vrf_red_tftp2] TFTP_PROTOCOL (cstr "vrf_red") unset_source
      vrf_red_tftp2 (by decide) (by decide) (by decide) (by decide)).1
      [] (cstr "tftp2", port_eth0) [] (by decide) rfl
      (by intro b hb; cases hb) (by decide),
    by decide, by decide, by decide, by decide⟩

/-! ## The order of the steps of `nl_move_intf_to_vrf` -/

theorem sys_close_keeps_caller_ns (fd : Int) (m : machine) :
    (sys_close fd m).2.caller_ns = m.caller_ns := by
  unfold sys_close
  split_ifs <;> rfl

theorem maybe_close_keeps_caller_ns (c : Prop) [Decidable c] (fd : Int)
    (m : machine) :
    (if c then (sys_close fd m).2 else m).caller_ns = m.caller_ns := by
  by_cases h : c
  · rw [if_pos h]
    exact sys_close_keeps_caller_ns fd m
  · rw [if_neg h]

/-- The statements after the label `cleanup` leave the calling thread in the
namespace it is in. -/
theorem move_caller_ns (k : kernel) (o : move_outcome)
    (setns_local_info : setns_info) (m : machine) :
    (nl_move_intf_to_vrf k o setns_local_info m).2.caller_ns
      = (nl_move_intf_to_vrf_steps k o setns_local_info m).2.caller_ns := by
  simp only [nl_move_intf_to_vrf]
  rw [maybe_close_keeps_caller_ns, maybe_close_keeps_caller_ns,
    maybe_close_keeps_caller_ns]

/-- After a socket that could not be created the switch back is still made:
the calling thread ends where the switch back leaves it. -/
theorem steps_after_failed_socket (k : kernel) (o : move_outcome)
    (setns_local_info : setns_info) (m : machine)
    (hnd : nl_is_nondefault_ns (some setns_local_info.from_ns) = true)
    (hot : o.open_to = true) (hof : o.open_from = true)
    (heo : o.enter.open_ok = true) (hes : o.enter.setns_ok = true)
    (hsk : o.socket_ok = false) :
    (nl_move_intf_to_vrf_steps k o setns_local_info m).1.rc = false ∧
    (nl_move_intf_to_vrf_steps k o setns_local_info m).2.caller_ns
      = if o.leave.open_ok = true ∧ o.leave.setns_ok = true then
          nl_setns_path SWITCH_NAMESPACE
        else nl_setns_path setns_local_info.from_ns := by
  obtain ⟨ot, of, ⟨eo, es⟩, sk, ⟨lo, ls⟩, br, be, sr⟩ := o
  simp only at hot hof heo hes hsk
  subst hot hof heo hes hsk
  cases lo <;> cases ls <;>
    simp [nl_move_intf_to_vrf_steps, nl_setns_with_name_eq, sys_open,
      sys_alloc, sys_socket, thread_ns, machine.fds, natCast_ne_neg_one,
      natCast_not_neg, hnd]

theorem move_nothing_opened (k : kernel) (o : move_outcome)
    (setns_local_info : setns_info) (m : machine) (hot : o.open_to = false) :
    nl_move_intf_to_vrf k o setns_local_info m = (false, m) := by
  simp [nl_move_intf_to_vrf, nl_move_intf_to_vrf_steps, sys_open, hot]

/-- C21 (amended): `nl_move_intf_to_vrf` returns true exactly when every
step succeeds: both paths open, the switch into a non-default source
namespace and the switch back succeed, the socket is created, `bind`
succeeds or fails with `EADDRINUSE`, the interface index resolved in the
source namespace is not 0, and `send` succeeds.  The call sends one netlink
message, for that interface index with the descriptor of the destination,
when it returns true, and none when it returns false.  Once a step has
failed, what the later steps would return changes neither the returned
value nor the state, the steps being taken in the order in which the code
tests them, in which the creation of the socket and the switch back form
one step; a failed open of the destination ends the call with nothing
done.  The call does not stop at a socket that could not be created: for a
non-default source namespace the switch back is still made, and the calling
thread ends in the default namespace when it succeeds and in the source
namespace when it fails. -/
theorem move_returns_true_iff (k : kernel) (o : move_outcome)
    (setns_local_info : setns_info) (m : machine) :
    ((nl_move_intf_to_vrf k o setns_local_info m).1 = true
      ↔ move_all_succeed k o setns_local_info m) ∧
    ((new_events m (nl_move_intf_to_vrf k o setns_local_info m).2).filter
          (fun e => is_sent e)
      = if (nl_move_intf_to_vrf k o setns_local_info m).1 = true then
          [sys_event.sent
            (nl_move_intf_to_vrf_steps k o setns_local_info m).1.ns_sock
            (k.ifindex_of (move_source_namespace setns_local_info m)
              setns_local_info.intf_name)
            (nl_move_intf_to_vrf_steps k o setns_local_info m).1.fd]
        else []) ∧
    (∀ o', same_until_failure k o o' setns_local_info m →
      nl_move_intf_to_vrf k o' setns_local_info m
        = nl_move_intf_to_vrf k o setns_local_info m) ∧
    (o.open_to = false →
      nl_move_intf_to_vrf k o setns_local_info m = (false, m)) ∧
    (nl_is_nondefault_ns (some setns_local_info.from_ns) = true →
      o.open_to = true → o.open_from = true →
      o.enter.open_ok = true → o.enter.setns_ok = true →
      o.socket_ok = false →
      (nl_move_intf_to_vrf k o setns_local_info m).1 = false ∧
      (nl_move_intf_to_vrf k o setns_local_info m).2.caller_ns
        = if o.leave.open_ok = true ∧ o.leave.setns_ok = true then
            nl_setns_path SWITCH_NAMESPACE
          else nl_setns_path setns_local_info.from_ns) := by
  obtain ⟨h1, h2, h3⟩ := steps_result k o setns_local_info m
  obtain ⟨evs, h4, h5⟩ := move_cleanup_trace k o setns_local_info m
  have hrc : (nl_move_intf_to_vrf k o setns_local_info m).1
      = (nl_move_intf_to_vrf_steps k o setns_local_info m).1.rc := rfl
  refine ⟨by rw [hrc]; exact h1, ?_, ?_, ?_, ?_⟩
  · have hnew : new_events m (nl_move_intf_to_vrf k o setns_local_info m).2
        = new_events m (nl_move_intf_to_vrf_steps k o setns_local_info m).2
          ++ evs := by
      unfold new_events at h2 ⊢
      rw [h4]
      conv_lhs => rw [h2]
      rw [List.append_assoc, List.drop_left]
    have hnone : evs.filter (fun e => is_sent e) = [] := by
      rw [List.filter_eq_nil_iff]
      intro e he
      simp [h5 e he]
    rw [hnew, List.filter_append, hnone, List.append_nil, hrc]
    exact h3
  · intro o' h
    simp only [nl_move_intf_to_vrf]
    rw [steps_stop k o o' setns_local_info m h]
  · exact move_nothing_opened k o setns_local_info m
  · intro hnd hot hof heo hes hsk
    obtain ⟨a, b⟩ := steps_after_failed_socket k o setns_local_info m hnd hot
      hof heo hes hsk
    exact ⟨by rw [hrc]; exact a, by rw [move_caller_ns]; exact b⟩

/-- C21 as stated fails: the call does not stop at the first failing step.
In a move from the namespace "blue" in which `socket` fails, the calling
thread, which has entered "blue", still switches back to the default
namespace before the call returns false; and when that later switch fails
too, the call leaves the thread in "blue": what the step after the failed
one returns changes the state in which the call ends. -/
theorem move_stops_counterexample :
    nl_move_intf_to_vrf kernel_eth0
        { open_to := true, open_from := true,
          enter := { open_ok := true, setns_ok := true }, socket_ok := false,
          leave := { open_ok := true, setns_ok := true },
          bind_result := 0, bind_errno := 0, send_result := 32 }
        { from_ns := cstr "blue", to_ns := cstr "red",
          intf_name := cstr "eth0" } machine_swns
      = (false,
          { machine_swns with
            caller_ns := cstr "/var/run/netns/swns",
            trace :=
              [sys_event.opened 3 (file.path (cstr "/var/run/netns/red")),
                sys_event.opened 4 (file.path (cstr "/var/run/netns/blue")),
                sys_event.opened 5 (file.path (cstr "/var/run/netns/blue")),
                sys_event.entered thread_id.caller
                  (cstr "/var/run/netns/blue"),
                sys_event.closed 5,
                sys_event.opened 5 (file.path (cstr "/var/run/netns/swns")),
                sys_event.entered thread_id.caller
                  (cstr "/var/run/netns/swns"),
                sys_event.closed 5,
                sys_event.closed 3, sys_event.closed 4] }) ∧
    nl_move_intf_to_vrf kernel_eth0
        { open_to := true, open_from := true,
          enter := { open_ok := true, setns_ok := true }, socket_ok := false,
          leave := { open_ok := false, setns_ok := true },
          bind_result := 0, bind_errno := 0, send_result := 32 }
        { from_ns := cstr "blue", to_ns := cstr "red",
          intf_name := cstr "eth0" } machine_swns
      = (false,
          { machine_swns with
            caller_ns := cstr "/var/run/netns/blue",
            trace :=
              [sys_event.opened 3 (file.path (cstr "/var/run/netns/red")),
                sys_event.opened 4 (file.path (cstr "/var/run/netns/blue")),
                sys_event.opened 5 (file.path (cstr "/var/run/netns/blue")),
                sys_event.entered thread_id.caller
                  (cstr "/var/run/netns/blue"),
                sys_event.closed 5,
                sys_event.closed 3, sys_event.closed 4] }) := by
  decide

end OpsUtils
